import Mathlib

/-! CZBot navigation mesh loader: embedding and verified properties

Shallow embedding of `src/CZNavmesh-Lib/navigation_map.{h,cpp}`.

Conventions of the embedding
* A `float` value is a rational number (no NaN, no infinities). The functions that
  compute with `float` are embedded twice. The first translation reads the arithmetic
  as exact: no rounding, a float-to-`int` conversion is truncation toward zero into
  `ℤ`, `int` arithmetic is arithmetic of `ℤ`, and leaving the range of `int` is a fault
  where the source stores the result in an `int` that decides what happens next
  (`NavAreaGrid::Initialize`). It carries the statements that do not depend on
  rounding: those about pointers, lists, ids and the file, those that the claims state
  over exact arithmetic, and those whose values are computed without rounding error.
  The second translation, with the suffix `_f32`, rounds every operation to IEEE-754
  binary32 (round to nearest, ties to even), makes an overflow to an infinity, a
  division by zero, a root of a negative number and a conversion outside the range of
  `int` a fault, and carries the statements about the numbers that the code computes.
* `std::uint32_t` / `std::uint16_t` values are natural numbers; where the source narrows
  a value the reduction modulo `2^w` is written out.
* A function that can leave defined behaviour returns `Run α = Except Fault α`; the
  `Fault` says why there is no result (failed `assert`, out-of-bounds index, ...).
* A `NavArea*` is an index into the list of areas owned by the map (`AreaRef`), a null
  pointer is `none`.
-/

namespace navmesh

/-- Reasons for which an execution of the source has no result. -/
inductive Fault where
  /-- An `assert(...)` of the source did not hold. -/
  | assertion
  /-- A container or array was indexed outside its bounds. -/
  | outOfBounds
  /-- A null or dangling pointer was dereferenced. -/
  | badPointer
  /-- A division by zero was attempted. -/
  | divByZero
  /-- An array of negative length was requested from `new[]`. -/
  | badAlloc
  /-- A loop did not terminate within the fuel it was given. -/
  | noFuel
  /-- An object was read before anything was written to it. -/
  | indeterminate
  /-- An `int` computation, or the conversion of a `float` to `int`, left the range of
  `int`. -/
  | overflow
  /-- A `float` that is infinite or not a number was read from the file or came out of
  a `float` operation. -/
  | notFinite
  deriving DecidableEq, Repr

/-- Result of running a piece of the source: a value, or the fault that stopped it. -/
abbrev Run (α : Type) := Except Fault α

deriving instance DecidableEq for Except

/-- Division as the source performs it, made explicit about a zero divisor. -/
def fdiv (a b : ℚ) : Run ℚ :=
  if b = 0 then .error .divByZero else .ok (a / b)

/-- The values of the 32-bit `int` of the target. -/
def isInt (n : Int) : Prop := -(2 ^ 31) ≤ n ∧ n < 2 ^ 31

instance (n : Int) : Decidable (isInt n) := by unfold isInt; infer_instance

/-- World-space vector, `Vector` of the SDK. -/
structure Vector where
  x : ℚ
  y : ℚ
  z : ℚ
  deriving DecidableEq, Repr

/-- Axis-aligned extent, `struct Extent { Vector lo, hi; }`. -/
structure Extent where
  lo : Vector
  hi : Vector
  deriving DecidableEq, Repr

/-- A place id, `using Place = std::uint32_t`. -/
abbrev Place := Nat

/-- The constant `Undefined_Place = 0u`. -/
def Undefined_Place : Place := 0

/-! ## PlaceDirectory -/

/-- The class `PlaceDirectory`: its only member is `std::vector<Place> m_directory`. -/
structure PlaceDirectory where
  m_directory : List Place
  deriving DecidableEq, Repr

namespace PlaceDirectory

/-- Width of `PlaceDirectory::EntryType = std::uint16_t`. -/
def EntryType_size : Nat := 65536

/-- `PlaceDirectory::Reset`: `m_directory.clear()`. -/
def Reset (_d : PlaceDirectory) : PlaceDirectory := ⟨[]⟩

/-- `PlaceDirectory::IsKnown`: `std::find(begin, end, place) != end`. -/
def IsKnown (d : PlaceDirectory) (place : Place) : Bool :=
  decide (place ∈ d.m_directory)

/-- `PlaceDirectory::GetEntry`: 0 for `Undefined_Place`; an unknown place trips
`assert(false)`; otherwise `1 + (it - begin)` narrowed to `EntryType`. -/
def GetEntry (d : PlaceDirectory) (place : Place) : Run Nat :=
  if place = Undefined_Place then .ok 0
  else if place ∈ d.m_directory then
    .ok ((1 + d.m_directory.indexOf place) % EntryType_size)
  else .error .assertion

/-- `PlaceDirectory::AddPlace`: nothing for `Undefined_Place`; `assert(place < 1000)`;
nothing for a known place; otherwise `push_back`. -/
def AddPlace (d : PlaceDirectory) (place : Place) : Run PlaceDirectory :=
  if place = Undefined_Place then .ok d
  else if ¬ place < 1000 then .error .assertion
  else if d.IsKnown place then .ok d
  else .ok ⟨d.m_directory ++ [place]⟩

/-- `PlaceDirectory::EntryToPlace`. The source computes `int i = entry - 1` and tests
`i > m_directory.size()`; `i` is non-negative there, so the comparison (performed in
`size_t`) is the one on naturals. When the test holds `assert(false)` fires; otherwise
`m_directory[i]` is read, which is out of bounds for `i = size`. -/
def EntryToPlace (d : PlaceDirectory) (entry : Nat) : Run Place :=
  if entry = 0 then .ok Undefined_Place
  else
    let i := entry - 1
    if i > d.m_directory.length then .error .assertion
    else match d.m_directory[i]? with
      | some p => .ok p
      | none => .error .outOfBounds

/-- A sequence of `AddPlace` calls, left to right, starting from `d`. -/
def AddPlaces (d : PlaceDirectory) (places : List Place) : Run PlaceDirectory :=
  places.foldlM AddPlace d

end PlaceDirectory

/-! ## Pointers, enumerations and small records -/

/-- A `NavArea*`: position of the area in the list of areas owned by the map. -/
abbrev AreaRef := Nat

/-- A `HidingSpot*`: position of the spot in the map's list of hiding spots. -/
abbrev SpotRef := Nat

/-- A `NavLadder*`: position of the ladder in the map's list of ladders. -/
abbrev LadderRef := Nat

/-- The enum `NavDirType`, by its underlying value: the loader casts arbitrary bytes
of the file to it. -/
abbrev NavDirType := Nat

/-- Enumerator `NORTH = 0`. -/
def NORTH : NavDirType := 0
/-- Enumerator `EAST = 1`. -/
def EAST : NavDirType := 1
/-- Enumerator `SOUTH = 2`. -/
def SOUTH : NavDirType := 2
/-- Enumerator `WEST = 3`. -/
def WEST : NavDirType := 3
/-- Enumerator `NUM_DIRECTIONS`. -/
def NUM_DIRECTIONS : Nat := 4

/-- The enum `NavTraverseType`, by its underlying value (`GO_NORTH = 0`, ...). -/
abbrev NavTraverseType := Nat

/-- The struct `Ray { Vector from, to; }`. -/
structure Ray where
  from_ : Vector
  to_ : Vector
  deriving DecidableEq, Repr

/-- The union `NavConnect { unsigned int id; NavArea* area; }`, as the member written
last. -/
inductive NavConnect where
  | id (id : Nat)
  | area (area : Option AreaRef)
  deriving DecidableEq, Repr

/-- The struct `SpotOrder`: `t` and the union of `HidingSpot* spot` and
`unsigned int id`, as the member written last. -/
inductive SpotOrder where
  | id (t : ℚ) (id : Nat)
  | spot (t : ℚ) (spot : Option SpotRef)
  deriving DecidableEq, Repr

/-- The struct `SpotEncounter`. -/
structure SpotEncounter where
  from_ : NavConnect
  fromDir : NavDirType
  to_ : NavConnect
  toDir : NavDirType
  path : Ray
  spotList : List SpotOrder
  deriving DecidableEq, Repr

/-- The struct `NavArea::ApproachInfo`. -/
structure ApproachInfo where
  here : NavConnect
  prev : NavConnect
  prevToHereHow : NavTraverseType
  next : NavConnect
  hereToNextHow : NavTraverseType
  deriving DecidableEq, Repr

/-- The class `HidingSpot` (`m_marker` is never written by the modelled code). -/
structure HidingSpot where
  m_pos : Vector
  m_id : Nat
  m_flags : Nat
  deriving DecidableEq, Repr

/-- Enumerator `HidingSpot::IN_COVER`. -/
def HidingSpot.IN_COVER : Nat := 1

/-! ## NavArea -/

/-- The struct `NavArea`. The A* bookkeeping members (`m_marker`, `m_parent`,
`m_parentHow`, costs, open list links) and `m_node` are left out: no modelled function
reads them. `m_connect` holds one list per direction, `m_ladder` one per
`LadderDirectionType`, `m_approach` the 16 slots of the table. -/
structure NavArea where
  m_id : Nat
  m_extent : Extent
  m_center : Vector
  m_attributeFlags : Nat
  m_place : Place
  m_neZ : ℚ
  m_swZ : ℚ
  m_clearedTimestamp : List ℚ
  m_danger : List ℚ
  m_dangerTimestamp : List ℚ
  hiding_spots : List SpotRef
  encounter_spots : List SpotEncounter
  m_approach : List ApproachInfo
  m_approachCount : Nat
  m_connect : List (List NavConnect)
  m_ladder : List (List LadderRef)
  m_overlapList : List AreaRef
  m_prevHash : Option AreaRef
  m_nextHash : Option AreaRef
  deriving DecidableEq, Repr

namespace NavArea

/-- Constant `NavArea::MAX_AREA_TEAMS`. -/
def MAX_AREA_TEAMS : Nat := 2

/-- Enumerator `NavArea::MAX_APPROACH_AREAS`. -/
def MAX_APPROACH_AREAS : Nat := 16

/-- A value-initialised `ApproachInfo` (all members carry `{}`). -/
def ApproachInfo_zero : ApproachInfo := ⟨.id 0, .id 0, 0, .id 0, 0⟩

/-- The constructor `NavArea::NavArea()`: the default member initialisers followed by
`Initialize()`, which takes the id from the counter `m_nextID` (passed as `nextID`;
the caller stores `nextID + 1` back). -/
def Initialize (nextID : Nat) : NavArea where
  m_id := nextID
  m_extent := ⟨⟨0, 0, 0⟩, ⟨0, 0, 0⟩⟩
  m_center := ⟨0, 0, 0⟩
  m_attributeFlags := 0
  m_place := 0
  m_neZ := 0
  m_swZ := 0
  m_clearedTimestamp := List.replicate MAX_AREA_TEAMS 0
  m_danger := List.replicate MAX_AREA_TEAMS 0
  m_dangerTimestamp := List.replicate MAX_AREA_TEAMS 0
  hiding_spots := []
  encounter_spots := []
  m_approach := List.replicate MAX_APPROACH_AREAS ApproachInfo_zero
  m_approachCount := 0
  m_connect := List.replicate NUM_DIRECTIONS []
  m_ladder := List.replicate 2 []
  m_overlapList := []
  m_prevHash := none
  m_nextHash := none

/-- The clamp of `GetZ`: `if (u < 0) u = 0; else if (u > 1) u = 1;`. -/
def clamp01 (u : ℚ) : ℚ :=
  if u < 0 then 0 else if u > 1 then 1 else u

/-- `NavArea::GetZ(const Vector* pos)` over exact arithmetic: the bilinear
interpolation without rounding; `GetZ_f32` is the function in binary32 arithmetic. -/
def GetZ (a : NavArea) (pos : Vector) : Run ℚ :=
  let dx := a.m_extent.hi.x - a.m_extent.lo.x
  let dy := a.m_extent.hi.y - a.m_extent.lo.y
  if dx = 0 ∨ dy = 0 then .ok a.m_neZ
  else do
    let u ← fdiv (pos.x - a.m_extent.lo.x) dx
    let v ← fdiv (pos.y - a.m_extent.lo.y) dy
    let u := clamp01 u
    let v := clamp01 v
    let northZ := a.m_extent.lo.z + u * (a.m_neZ - a.m_extent.lo.z)
    let southZ := a.m_swZ + u * (a.m_extent.hi.z - a.m_swZ)
    pure (northZ + v * (southZ - northZ))

/-- `NavArea::GetZ(float x, float y)`: `Vector pos(x, y, 0.0f); return GetZ(&pos);`. -/
def GetZ_xy (a : NavArea) (x y : ℚ) : Run ℚ :=
  a.GetZ ⟨x, y, 0⟩

/-- `NavArea::IsOverlapping(const Vector* pos)`. -/
def IsOverlapping (a : NavArea) (pos : Vector) : Bool :=
  decide (pos.x ≥ a.m_extent.lo.x ∧ pos.x ≤ a.m_extent.hi.x ∧
          pos.y ≥ a.m_extent.lo.y ∧ pos.y ≤ a.m_extent.hi.y)

/-- `NavArea::IsOverlapping(const NavArea* area)`. -/
def IsOverlapping_area (a : NavArea) (area : NavArea) : Bool :=
  decide (area.m_extent.lo.x < a.m_extent.hi.x ∧ area.m_extent.hi.x > a.m_extent.lo.x ∧
          area.m_extent.lo.y < a.m_extent.hi.y ∧ area.m_extent.hi.y > a.m_extent.lo.y)

end NavArea

/-! ## The area store -/

/-- Dereference of a `NavArea*` in the store `areas`. -/
def deref (areas : List NavArea) (r : AreaRef) : Run NavArea :=
  match areas[r]? with
  | some a => .ok a
  | none => .error .badPointer

/-- Write through a `NavArea*`: the area at `r` is replaced by `f` of it. -/
def update (areas : List NavArea) (r : AreaRef) (f : NavArea → NavArea) : Run (List NavArea) :=
  match areas[r]? with
  | some a => .ok (areas.set r (f a))
  | none => .error .badPointer

/-- Conversion of a `float` to `int`: truncation toward zero. -/
def truncToInt (q : ℚ) : Int :=
  if 0 ≤ q then ⌊q⌋ else ⌈q⌉

/-- The integers `lo, lo + 1, ..., hi` visited by `for (int i = lo; i <= hi; ++i)`. -/
def intRange (lo hi : Int) : List Int :=
  (List.range (hi + 1 - lo).toNat).map (fun (k : Nat) => lo + (k : Int))

/-! ## NavAreaGrid -/

/-- The class `NavAreaGrid`. `m_grid` is `none` for a null pointer and otherwise the
array of buckets; `m_hashTable` is indexed by the hash key (`0 .. HASH_TABLE_SIZE - 1`).
The constant member `m_cellSize` is `NavAreaGrid.m_cellSize`. -/
structure NavAreaGrid where
  m_grid : Option (List (List AreaRef))
  m_gridSizeX : Int
  m_gridSizeY : Int
  m_minX : ℚ
  m_minY : ℚ
  m_areaCount : Nat
  m_hashTable : Nat → Option AreaRef

namespace NavAreaGrid

/-- The member `m_cellSize`, set to `300.0f` by the constructor. -/
def m_cellSize : ℚ := 300

/-- The constant `HASH_TABLE_SIZE`. -/
def HASH_TABLE_SIZE : Nat := 256

/-- `NavAreaGrid::ComputeHashKey`: `id & 0xFF`. -/
def ComputeHashKey (id : Nat) : Nat := id &&& 0xFF

/-- `NavAreaGrid::WorldToGridX` over exact arithmetic: the quotient is not rounded and
the conversion to `int` has no range; `WorldToGridX_f32` is the function in binary32
arithmetic. -/
def WorldToGridX (g : NavAreaGrid) (wx : ℚ) : Int :=
  let x := truncToInt ((wx - g.m_minX) / m_cellSize)
  if x < 0 then 0
  else if x ≥ g.m_gridSizeX then g.m_gridSizeX - 1
  else x

/-- `NavAreaGrid::WorldToGridY` over exact arithmetic; `WorldToGridY_f32` is the
function in binary32 arithmetic. -/
def WorldToGridY (g : NavAreaGrid) (wy : ℚ) : Int :=
  let y := truncToInt ((wy - g.m_minY) / m_cellSize)
  if y < 0 then 0
  else if y ≥ g.m_gridSizeY then g.m_gridSizeY - 1
  else y

/-- `NavAreaGrid::Reset`: frees the buckets, zeroes the sizes, clears the hash table
and the area count; `m_minX`, `m_minY` are not touched. -/
def Reset (g : NavAreaGrid) : NavAreaGrid :=
  { g with m_grid := none, m_gridSizeX := 0, m_gridSizeY := 0,
           m_hashTable := fun _ => none, m_areaCount := 0 }

/-- `NavAreaGrid::Initialize`. The sizes are the `float` value `(max - min) / cellSize + 1`
converted to `int`, and the array length is their product computed in `int`: a size or a
product outside the range of `int` is undefined; `new[]` of a negative length throws. -/
def Initialize (g : NavAreaGrid) (minX maxX minY maxY : ℚ) : Run NavAreaGrid :=
  let g := if g.m_grid.isSome then g.Reset else g
  let sizeX := truncToInt ((maxX - minX) / m_cellSize + 1)
  let sizeY := truncToInt ((maxY - minY) / m_cellSize + 1)
  if ¬ (isInt sizeX ∧ isInt sizeY ∧ isInt (sizeX * sizeY)) then .error .overflow
  else if sizeX * sizeY < 0 then .error .badAlloc
  else .ok { g with m_minX := minX, m_minY := minY, m_gridSizeX := sizeX, m_gridSizeY := sizeY,
                    m_grid := some (List.replicate (sizeX * sizeY).toNat []) }

/-- The bucket `m_grid[i]`. -/
def bucket (g : NavAreaGrid) (i : Int) : Run (List AreaRef) :=
  match g.m_grid with
  | none => .error .badPointer
  | some cells =>
    if i < 0 then .error .outOfBounds
    else match cells[i.toNat]? with
      | some l => .ok l
      | none => .error .outOfBounds

/-- Replace the bucket `m_grid[i]` by `f` of it. -/
def modifyBucket (cells : Option (List (List AreaRef))) (i : Int)
    (f : List AreaRef → List AreaRef) : Run (Option (List (List AreaRef))) :=
  match cells with
  | none => .error .badPointer
  | some cells =>
    if i < 0 then .error .outOfBounds
    else match cells[i.toNat]? with
      | some l => .ok (some (cells.set i.toNat (f l)))
      | none => .error .outOfBounds

/-- The two nested loops of `AddNavArea` and `RemoveNavArea` over the cells
`loX..hiX` by `loY..hiY`, applying `f` to each bucket. -/
def forCells (cells : Option (List (List AreaRef))) (sizeX loX hiX loY hiY : Int)
    (f : List AreaRef → List AreaRef) : Run (Option (List (List AreaRef))) :=
  (intRange loY hiY).foldlM
    (fun cells y => (intRange loX hiX).foldlM
      (fun cells x => modifyBucket cells (x + y * sizeX) f) cells) cells

/-- The part `add to hash table` of `AddNavArea` on the store: with a chain head the
area is linked in front of it, without one it becomes a chain of its own. -/
def AddNavArea_link (areas : List NavArea) (head : Option AreaRef) (area : AreaRef) :
    Run (List NavArea) :=
  match head with
  | some head => do
    let areas ← update areas area (fun a => { a with m_prevHash := none, m_nextHash := some head })
    update areas head (fun h => { h with m_prevHash := some area })
  | none => update areas area (fun a => { a with m_nextHash := none, m_prevHash := none })

/-- `NavAreaGrid::AddNavArea`: the area is appended to every bucket its extent touches
and put at the head of its hash chain. -/
def AddNavArea (areas : List NavArea) (g : NavAreaGrid) (area : AreaRef) :
    Run (List NavArea × NavAreaGrid) := do
  let a ← deref areas area
  let cells ← forCells g.m_grid g.m_gridSizeX
    (g.WorldToGridX a.m_extent.lo.x) (g.WorldToGridX a.m_extent.hi.x)
    (g.WorldToGridY a.m_extent.lo.y) (g.WorldToGridY a.m_extent.hi.y) (fun l => l ++ [area])
  let areas ← AddNavArea_link areas (g.m_hashTable (ComputeHashKey a.m_id)) area
  pure (areas, { g with
    m_grid := cells,
    m_hashTable := fun k => if k = ComputeHashKey a.m_id then some area else g.m_hashTable k,
    m_areaCount := (g.m_areaCount + 1) % 2 ^ 32 })

/-- The part `remove from hash table` of `RemoveNavArea` on the store and the table,
for the area `a` found behind the pointer `area`. -/
def RemoveNavArea_unlink (areas : List NavArea) (table : Nat → Option AreaRef) (a : NavArea)
    (area : AreaRef) : Run (List NavArea × (Nat → Option AreaRef)) := do
  let st ← match a.m_prevHash with
    | some prev => do
      let areas ← update areas prev (fun p => { p with m_nextHash := a.m_nextHash })
      pure (areas, table)
    | none =>
      match a.m_nextHash with
      | some head => do
        let areas ← update areas head (fun h => { h with m_prevHash := none })
        pure (areas, fun k => if k = ComputeHashKey a.m_id then a.m_nextHash else table k)
      | none => pure (areas, fun k => if k = ComputeHashKey a.m_id then a.m_nextHash else table k)
  let a ← deref st.1 area
  match a.m_nextHash with
  | some next => do
    let areas ← update st.1 next (fun n => { n with m_prevHash := a.m_prevHash })
    pure (areas, st.2)
  | none => pure st

/-- `NavAreaGrid::RemoveNavArea`. -/
def RemoveNavArea (areas : List NavArea) (g : NavAreaGrid) (area : AreaRef) :
    Run (List NavArea × NavAreaGrid) := do
  let a ← deref areas area
  let cells ← forCells g.m_grid g.m_gridSizeX
    (g.WorldToGridX a.m_extent.lo.x) (g.WorldToGridX a.m_extent.hi.x)
    (g.WorldToGridY a.m_extent.lo.y) (g.WorldToGridY a.m_extent.hi.y)
    (fun l => l.filter (fun r => r ≠ area))
  let st ← RemoveNavArea_unlink areas g.m_hashTable a area
  pure (st.1, { g with m_grid := cells, m_hashTable := st.2,
                       m_areaCount := (g.m_areaCount + 2 ^ 32 - 1) % 2 ^ 32 })

/-- The start value of `useZ` in `GetNavArea`, the decimal of the literal
`-99999999.9f`; the `float` it denotes is `GetNavArea_useZ0_f32`. -/
def GetNavArea_useZ0 : ℚ := -99999999.9

/-- Body of the loop of `GetNavArea` for the bucket element `r`, on the loop state
`(use, useZ)`, over exact arithmetic: the bounds `pos.z + 5` (in `testPos`) and
`pos.z - beneathLimit` are exact; `GetNavArea_step_f32` compares with the rounded
sums. -/
def GetNavArea_step (areas : List NavArea) (pos testPos : Vector) (beneathLimit : ℚ)
    (st : Option AreaRef × ℚ) (r : AreaRef) : Run (Option AreaRef × ℚ) := do
  let area ← deref areas r
  if area.IsOverlapping testPos then do
    let z ← area.GetZ testPos
    if z > testPos.z then pure st
    else if z < pos.z - beneathLimit then pure st
    else if z > st.2 then pure (some r, z)
    else pure st
  else pure st

/-- `NavAreaGrid::GetNavArea(pos, beneathLimit)` over exact arithmetic; `GetNavArea_f32`
is the function in binary32 arithmetic. -/
def GetNavArea (areas : List NavArea) (g : NavAreaGrid) (pos : Vector) (beneathLimit : ℚ) :
    Run (Option AreaRef) :=
  if g.m_grid.isNone then .ok none
  else do
    let x := g.WorldToGridX pos.x
    let y := g.WorldToGridY pos.y
    let list ← g.bucket (x + y * g.m_gridSizeX)
    let testPos : Vector := ⟨pos.x + 0, pos.y + 0, pos.z + 5⟩
    let st ← list.foldlM (GetNavArea_step areas pos testPos beneathLimit) (none, GetNavArea_useZ0)
    pure st.1

/-- The loop of `GetNavAreaByID` along a hash chain, from the pointer `cur`; `fuel`
bounds the number of areas visited. -/
def GetNavAreaByID_loop (areas : List NavArea) (id : Nat) :
    Nat → Option AreaRef → Run (Option AreaRef)
  | _, none => .ok none
  | 0, some _ => .error .noFuel
  | fuel + 1, some r =>
    match areas[r]? with
    | none => .error .badPointer
    | some a => if a.m_id = id then .ok (some r) else GetNavAreaByID_loop areas id fuel a.m_nextHash

/-- `NavAreaGrid::GetNavAreaByID`. A chain without a cycle visits each area of the store
at most once, so `areas.length + 1` steps are exhausted only by a cyclic chain. -/
def GetNavAreaByID (areas : List NavArea) (g : NavAreaGrid) (id : Nat) : Run (Option AreaRef) :=
  if id = 0 then .ok none
  else GetNavAreaByID_loop areas id (areas.length + 1) (g.m_hashTable (ComputeHashKey id))

end NavAreaGrid

/-- A grid as the constructor `NavAreaGrid::NavAreaGrid()` leaves it; `m_minX` and
`m_minY` are not initialised by it and are given as `minX`, `minY`. -/
def NavAreaGrid.ctor (minX minY : ℚ) : NavAreaGrid :=
  NavAreaGrid.Reset ⟨none, 0, 0, minX, minY, 0, fun _ => none⟩

/-! ## Geometry of an area: portals and closest points -/

namespace NavArea

/-- The clamp of `ComputePortal`:
`if (v < lo) v = lo; else if (v > hi) v = hi;`. -/
def clampTo (v lo hi : ℚ) : ℚ :=
  if v < lo then lo else if v > hi then hi else v

/-- `NavArea::ComputePortal(to, dir, center, halfWidth)`: `center` comes in with the
caller's content and goes out with `x` and `y` set (`z` untouched), together with
`halfWidth`. The macros `max(a,b)` and `min(a,b)` are `(a > b) ? a : b` and
`(a < b) ? a : b`. -/
def ComputePortal (a : NavArea) (to_ : NavArea) (dir : NavDirType) (center : Vector) :
    Vector × ℚ :=
  if dir = NORTH ∨ dir = SOUTH then
    let cy := if dir = NORTH then a.m_extent.lo.y else a.m_extent.hi.y
    let left := if a.m_extent.lo.x > to_.m_extent.lo.x then a.m_extent.lo.x else to_.m_extent.lo.x
    let right := if a.m_extent.hi.x < to_.m_extent.hi.x then a.m_extent.hi.x else to_.m_extent.hi.x
    let left := clampTo left a.m_extent.lo.x a.m_extent.hi.x
    let right := clampTo right a.m_extent.lo.x a.m_extent.hi.x
    (⟨(left + right) / 2, cy, center.z⟩, (right - left) / 2)
  else
    let cx := if dir = WEST then a.m_extent.lo.x else a.m_extent.hi.x
    let top := if a.m_extent.lo.y > to_.m_extent.lo.y then a.m_extent.lo.y else to_.m_extent.lo.y
    let bottom := if a.m_extent.hi.y < to_.m_extent.hi.y then a.m_extent.hi.y else to_.m_extent.hi.y
    let top := clampTo top a.m_extent.lo.y a.m_extent.hi.y
    let bottom := clampTo bottom a.m_extent.lo.y a.m_extent.hi.y
    (⟨cx, (top + bottom) / 2, center.z⟩, (bottom - top) / 2)

/-- `NavArea::GetClosestPointOnArea(pos, close)`: the nine-way case split sets `x` and
`y` of `close`, then `close->z = GetZ(close)`. -/
def GetClosestPointOnArea (a : NavArea) (pos : Vector) : Run Vector :=
  let extent := a.m_extent
  let xy : ℚ × ℚ :=
    if pos.x < extent.lo.x then
      if pos.y < extent.lo.y then (extent.lo.x, extent.lo.y)
      else if pos.y > extent.hi.y then (extent.lo.x, extent.hi.y)
      else (extent.lo.x, pos.y)
    else if pos.x > extent.hi.x then
      if pos.y < extent.lo.y then (extent.hi.x, extent.lo.y)
      else if pos.y > extent.hi.y then (extent.hi.x, extent.hi.y)
      else (extent.hi.x, pos.y)
    else if pos.y < extent.lo.y then (pos.x, extent.lo.y)
    else if pos.y > extent.hi.y then (pos.x, extent.hi.y)
    else (pos.x, pos.y)
  do
    let z ← a.GetZ ⟨xy.1, xy.2, 0⟩
    pure ⟨xy.1, xy.2, z⟩

end NavArea

/-! ## Directions -/

/-- `AddDirectionVector(v, dir, amount)` over exact arithmetic; `AddDirectionVector_f32`
rounds the sum. -/
def AddDirectionVector (v : Vector) (dir : NavDirType) (amount : ℚ) : Vector :=
  match dir with
  | 0 => { v with y := v.y - amount }
  | 2 => { v with y := v.y + amount }
  | 1 => { v with x := v.x + amount }
  | 3 => { v with x := v.x - amount }
  | _ => v

/-- `OppositeDirection(dir)`. -/
def OppositeDirection (dir : NavDirType) : NavDirType :=
  match dir with
  | 0 => SOUTH
  | 2 => NORTH
  | 1 => WEST
  | 3 => EAST
  | _ => NORTH

/-- `DirectionLeft(dir)`. -/
def DirectionLeft (dir : NavDirType) : NavDirType :=
  match dir with
  | 0 => WEST
  | 2 => EAST
  | 1 => NORTH
  | 3 => SOUTH
  | _ => NORTH

/-- `DirectionRight(dir)`. -/
def DirectionRight (dir : NavDirType) : NavDirType :=
  match dir with
  | 0 => EAST
  | 2 => WEST
  | 1 => SOUTH
  | 3 => NORTH
  | _ => NORTH

/-- The SDK struct `Vector2D`. -/
structure Vector2D where
  x : ℚ
  y : ℚ
  deriving DecidableEq, Repr

/-- `DirectionToVector2D(dir, v)`: `v` is left alone for a value outside the enum. -/
def DirectionToVector2D (dir : NavDirType) (v : Vector2D) : Vector2D :=
  match dir with
  | 0 => ⟨0, -1⟩
  | 2 => ⟨0, 1⟩
  | 1 => ⟨1, 0⟩
  | 3 => ⟨-1, 0⟩
  | _ => v

/-- `DirectionToAngle(dir)`. -/
def DirectionToAngle (dir : NavDirType) : ℚ :=
  match dir with
  | 0 => 270
  | 2 => 90
  | 1 => 0
  | 3 => 180
  | _ => 0

/-! ## Constants of the generator -/

/-- Constant `GenerationStepSize`. -/
def GenerationStepSize : ℚ := 25
/-- Constant `HalfHumanWidth`. -/
def HalfHumanWidth : ℚ := 16
/-- Constant `HalfHumanHeight`. -/
def HalfHumanHeight : ℚ := 36
/-- Constant `HumanHeight`. -/
def HumanHeight : ℚ := 72

/-! ## The host engine -/

/-- An `edict_t*`: position of the entity in the host's entity table. -/
abbrev EdictRef := Nat

/-- The members of an entity (`entvars_t`) that the source reads. -/
structure Edict where
  classname : String
  absmin : Vector
  absmax : Vector
  takedamage : ℚ
  deriving DecidableEq, Repr

/-- The members of the SDK struct `TraceResult` that the source reads. -/
structure TraceResult where
  fStartSolid : Bool
  flFraction : ℚ
  vecEndPos : Vector
  vecPlaneNormal : Vector
  pHit : Option EdictRef

/-- The host engine as far as the source calls it: the entity table and the ray cast
`TRACE_LINE(start, end, flags, ignore)`. -/
structure Host where
  edicts : List Edict
  TRACE_LINE : Vector → Vector → Nat → Option EdictRef → TraceResult

/-- SDK enumerator `ignore_monsters`. -/
def ignore_monsters : Nat := 1
/-- SDK enumerator `dont_ignore_glass`. -/
def dont_ignore_glass : Nat := 0
/-- SDK enumerator `ignore_glass`. -/
def ignore_glass : Nat := 1
/-- SDK constant `DAMAGE_YES`. -/
def DAMAGE_YES : ℚ := 1

/-- `UTIL_TraceLine(start, end, igmon, pentIgnore, ptr)`. -/
def UTIL_TraceLine (host : Host) (vecStart vecEnd : Vector) (igmon : Nat)
    (pentIgnore : Option EdictRef) : TraceResult :=
  host.TRACE_LINE vecStart vecEnd igmon pentIgnore

/-- `UTIL_TraceLine(start, end, igmon, iglass, pentIgnore, ptr)`: flags `igmon | iglass`. -/
def UTIL_TraceLine_glass (host : Host) (vecStart vecEnd : Vector) (igmon iglass : Nat)
    (pentIgnore : Option EdictRef) : TraceResult :=
  host.TRACE_LINE vecStart vecEnd (igmon ||| iglass) pentIgnore

/-- `FClassnameIs(VARS(ent), name)` through an entity pointer. -/
def FClassnameIs (host : Host) (ent : EdictRef) (name : String) : Run Bool :=
  match host.edicts[ent]? with
  | some e => .ok (e.classname == name)
  | none => .error .badPointer

/-- The entities that the loop
`for (e = FindEntityByClassname(nullptr, name); e; e = FindEntityByClassname(e, name))`
visits: those of the table whose classname is `name`, in table order. -/
def entitiesByClassname (host : Host) (name : String) : List EdictRef :=
  (List.range host.edicts.length).filter (fun i =>
    match host.edicts[i]? with
    | some e => e.classname == name
    | none => false)

/-! ## GetGroundHeight -/

/-- The local struct `GroundLayerInfo`. -/
structure GroundLayerInfo where
  ground : ℚ
  normal : Vector
  deriving DecidableEq, Repr

/-- Local constant `MAX_GROUND_LAYERS`. -/
def MAX_GROUND_LAYERS : Nat := 16

/-- The offsets `1, 11, ..., 91` of `for (offset = 1; offset < 100; offset += 10)`. -/
def GetGroundHeight_offsets : List ℚ :=
  (List.range 10).map (fun (k : Nat) => 1 + 10 * (k : ℚ))

/-- The scanning loop of `GetGroundHeight` over the remaining offsets, with the entity
to ignore and the layers recorded so far. -/
def GetGroundHeight_scan (host : Host) (pos to_ : Vector) :
    List ℚ → Option EdictRef → List GroundLayerInfo → Run (List GroundLayerInfo)
  | [], _, layer => .ok layer
  | offset :: rest, ignore, layer => do
    let from_ : Vector := ⟨pos.x + 0, pos.y + 0, pos.z + offset⟩
    let result := UTIL_TraceLine_glass host from_ to_ ignore_monsters dont_ignore_glass ignore
    let skip ← match result.pHit with
      | some hit => do
        let door ← FClassnameIs host hit "func_door"
        let rotating ← FClassnameIs host hit "func_door_rotating"
        let breakable ← FClassnameIs host hit "func_breakable"
        match host.edicts[hit]? with
        | some e => pure (door || rotating || (breakable && decide (e.takedamage = DAMAGE_YES)))
        | none => .error .badPointer
      | none => pure false
    if skip then GetGroundHeight_scan host pos to_ rest result.pHit layer
    else if result.fStartSolid = false then
      if layer.length = 0 ∨
          (match layer.getLast? with
           | some l => decide (result.vecEndPos.z > l.ground)
           | none => false) = true then
        let layer := layer ++ [⟨result.vecEndPos.z, result.vecPlaneNormal⟩]
        if layer.length = MAX_GROUND_LAYERS then .ok layer
        else GetGroundHeight_scan host pos to_ rest ignore layer
      else GetGroundHeight_scan host pos to_ rest ignore layer
    else GetGroundHeight_scan host pos to_ rest ignore layer

/-- The selection loop of `GetGroundHeight`: the index `i` at which
`for (i = 0; i < layerCount - 1; ++i) if (layer[i+1].ground - layer[i].ground >= 36) break;`
stops, counted from `i`, with the exact difference; `GetGroundHeight_pick_f32` tests
the `float` difference. -/
def GetGroundHeight_pick : List GroundLayerInfo → Nat → Nat
  | l0 :: l1 :: rest, i =>
    if l1.ground - l0.ground ≥ HalfHumanHeight then i
    else GetGroundHeight_pick (l1 :: rest) (i + 1)
  | _, i => i

/-- `GetGroundHeight(pos, height, normal)` over exact arithmetic: `none` for the return
value `false`, otherwise the height and the normal written through the out parameters;
`GetGroundHeight_f32` is the function in binary32 arithmetic. -/
def GetGroundHeight (host : Host) (pos : Vector) : Run (Option (ℚ × Vector)) := do
  let to_ : Vector := ⟨pos.x, pos.y, pos.z - 9999.9⟩
  let layer ← GetGroundHeight_scan host pos to_ GetGroundHeight_offsets none []
  if layer.length = 0 then pure none
  else match layer[GetGroundHeight_pick layer 0]? with
    | some l => pure (some (l.ground, l.normal))
    | none => .error .outOfBounds

/-! ## NavLadder, HidingSpot store and NavigationMap -/

/-- The struct `NavLadder`. -/
structure NavLadder where
  m_top : Vector
  m_bottom : Vector
  m_length : ℚ
  m_dir : NavDirType
  m_dirVector : Vector2D
  m_entity : Option EdictRef
  m_topForwardArea : Option AreaRef
  m_topLeftArea : Option AreaRef
  m_topRightArea : Option AreaRef
  m_topBehindArea : Option AreaRef
  m_bottomArea : Option AreaRef
  m_isDangling : Bool
  deriving DecidableEq, Repr

/-- The class `NavigationMap`. The list `m_areas` is the store of the areas: its `k`-th
element is the object behind the `AreaRef` `k`; likewise `m_navLadders` and
`m_hidingSpots`. -/
structure NavigationMap where
  m_areas : List NavArea
  m_placeDirectory : PlaceDirectory
  m_navAreaGrid : NavAreaGrid
  m_navLadders : List NavLadder
  m_hidingSpots : List HidingSpot

/-- The static counters `NavArea::m_nextID` and `HidingSpot::m_nextID`. -/
structure Statics where
  NavArea_m_nextID : Nat
  HidingSpot_m_nextID : Nat
  deriving DecidableEq, Repr

/-- The counters at program start: `NavArea::m_nextID = 1`, `HidingSpot::m_nextID`
zero-initialised. -/
def Statics.initial : Statics := ⟨1, 0⟩

/-- The program state the loader works on: the static counters and the map. -/
structure State where
  statics : Statics
  mesh : NavigationMap

/-- A default-constructed `NavigationMap` at program start (`minX`, `minY`: the members
of the grid that its constructor leaves uninitialised). -/
def State.initial (minX minY : ℚ) : State :=
  ⟨Statics.initial, ⟨[], ⟨[]⟩, NavAreaGrid.ctor minX minY, [], []⟩⟩

namespace NavigationMap

/-- `NavigationMap::GetHidingSpotByID`: linear scan of `m_hidingSpots`. -/
def GetHidingSpotByID (m : NavigationMap) (id : Nat) : Option SpotRef :=
  (List.range m.m_hidingSpots.length).find? (fun i =>
    match m.m_hidingSpots[i]? with
    | some spot => spot.m_id == id
    | none => false)

/-- `NavigationMap::GetNavArea(pos)`: the grid query with the default `beneathLimit`
of `120.0f`. -/
def GetNavArea (m : NavigationMap) (pos : Vector) : Run (Option AreaRef) :=
  m.m_navAreaGrid.GetNavArea m.m_areas pos 120

/-- `NavigationMap::DestroyLadders`. -/
def DestroyLadders (m : NavigationMap) : NavigationMap :=
  { m with m_navLadders := [] }

end NavigationMap

/-- `NavigationMap::DestroyHidingSpots`: clears the spot lists of the areas, resets
`HidingSpot::m_nextID` to 0 and frees the spots. -/
def DestroyHidingSpots (s : State) : State :=
  { statics := { s.statics with HidingSpot_m_nextID := 0 },
    mesh := { s.mesh with
      m_areas := s.mesh.m_areas.map (fun a => { a with hiding_spots := [] }),
      m_hidingSpots := [] } }

/-- `NavigationMap::Destroy`: frees the areas, the ladders and the hiding spots and
resets the grid. -/
def Destroy (s : State) : State :=
  let s : State := { s with mesh := { s.mesh with m_areas := [] } }
  let s : State := { s with mesh := s.mesh.DestroyLadders }
  let s := DestroyHidingSpots s
  { s with mesh := { s.mesh with m_navAreaGrid := s.mesh.m_navAreaGrid.Reset } }

/-! ## Nearest area and directional search -/

/-- Body of the visitor of `GetNearestNavArea` for the area `r`, on the state
`(close, closeDistSq)`, over exact arithmetic: `pow(Length(areaPos - source), 2)` is the
exact squared length; `GetNearestNavArea_visit_f32` computes it in `float`. -/
def GetNearestNavArea_visit (host : Host) (areas : List NavArea) (source : Vector) (anyZ : Bool)
    (st : Option AreaRef × ℚ) (r : AreaRef) : Run (Option AreaRef × ℚ) := do
  let area ← deref areas r
  let areaPos ← area.GetClosestPointOnArea source
  let distSq := (areaPos.x - source.x) ^ 2 + (areaPos.y - source.y) ^ 2 + (areaPos.z - source.z) ^ 2
  if distSq < st.2 then
    if anyZ = false ∧
        (UTIL_TraceLine_glass host source ⟨areaPos.x + 0, areaPos.y + 0, areaPos.z + HalfHumanHeight⟩
          ignore_monsters ignore_glass none).flFraction ≠ 1 then
      pure st
    else pure (some r, distSq)
  else pure st

/-- `NavAreaGrid::GetNearestNavArea(mesh, pos, anyZ)` over exact arithmetic, as
`BuildLadders` calls it; `GetNearestNavArea_f32` is the function in binary32
arithmetic. -/
def GetNearestNavArea (host : Host) (m : NavigationMap) (pos : Vector) (anyZ : Bool) :
    Run (Option AreaRef) :=
  if m.m_navAreaGrid.m_grid.isNone then .ok none
  else do
    let close ← m.m_navAreaGrid.GetNavArea m.m_areas pos 120
    if close.isSome then pure close
    else
      match ← GetGroundHeight host pos with
      | none => pure none
      | some (height, _) =>
        let source : Vector := ⟨pos.x, pos.y, height + HalfHumanHeight⟩
        let st ← (List.range m.m_areas.length).foldlM
          (GetNearestNavArea_visit host m.m_areas source anyZ) (close, 99999999.9)
        pure st.1

/-- `NavAreaGrid::GetPlace(mesh, pos)`. -/
def GetPlace (host : Host) (m : NavigationMap) (pos : Vector) : Run Place := do
  match ← GetNearestNavArea host m pos true with
  | some area => do
    let a ← deref m.m_areas area
    pure a.m_place
  | none => pure Undefined_Place

/-- The loop of `FindFirstAreaInDirection` for the remaining `steps` iterations from
the position `pos` reached so far. -/
def FindFirstAreaInDirection_loop (host : Host) (m : NavigationMap) (start : Vector)
    (dir : NavDirType) (beneathLimit : ℚ) (traceIgnore : Option EdictRef) :
    Nat → Vector → Run (Option AreaRef)
  | 0, _ => .ok none
  | steps + 1, pos => do
    let pos := AddDirectionVector pos dir GenerationStepSize
    let result := UTIL_TraceLine host start pos ignore_monsters traceIgnore
    if result.flFraction ≠ 1 then pure none
    else
      match ← m.m_navAreaGrid.GetNavArea m.m_areas pos beneathLimit with
      | some area => pure (some area)
      | none => FindFirstAreaInDirection_loop host m start dir beneathLimit traceIgnore steps pos

/-- `NavigationMap::FindFirstAreaInDirection(start, dir, range, beneathLimit,
traceIgnore)` over exact arithmetic, as `BuildLadders` calls it; the out parameter
`closePos` is null at every call site and left out. `FindFirstAreaInDirection_f32` is
the function in binary32 arithmetic. -/
def FindFirstAreaInDirection (host : Host) (m : NavigationMap) (start : Vector)
    (dir : NavDirType) (range beneathLimit : ℚ) (traceIgnore : Option EdictRef) :
    Run (Option AreaRef) :=
  let end_ := truncToInt (range / GenerationStepSize + 1 / 2)
  FindFirstAreaInDirection_loop host m start dir beneathLimit traceIgnore end_.toNat start

/-! ## Validate -/

/-- Read of the member `id` of a `NavConnect`: after a write of `area` the bytes read are
those of the pointer, zero for a null pointer and not modelled for any other. -/
def NavConnect.getId : NavConnect → Run Nat
  | .id n => .ok n
  | .area none => .ok 0
  | .area (some _) => .error .indeterminate

/-- Read of the member `id` of a `SpotOrder`, as for `NavConnect.getId`. -/
def SpotOrder.getId : SpotOrder → Run Nat
  | .id _ n => .ok n
  | .spot _ none => .ok 0
  | .spot _ (some _) => .error .indeterminate

/-- The member `t` of a `SpotOrder`. -/
def SpotOrder.t : SpotOrder → ℚ
  | .id t _ => t
  | .spot t _ => t

/-- The statement `c->area = m_navAreaGrid.GetNavAreaByID(c->id)` on a `NavConnect`. -/
def Validate_resolve (m : NavigationMap) (c : NavConnect) : Run NavConnect := do
  let id ← c.getId
  let area ← m.m_navAreaGrid.GetNavAreaByID m.m_areas id
  pure (.area area)

/-- The area pointer held by a resolved `NavConnect`. -/
def NavConnect.getArea : NavConnect → Option AreaRef
  | .area p => p
  | .id _ => none

/-- Body of the approach loop of `Validate` for the slot `a`. -/
def Validate_approach (m : NavigationMap) (table : List ApproachInfo) (a : Nat) :
    Run (List ApproachInfo) :=
  match table[a]? with
  | none => .error .outOfBounds
  | some info => do
    let here ← Validate_resolve m info.here
    let prev ← Validate_resolve m info.prev
    let next ← Validate_resolve m info.next
    pure (table.set a { info with here := here, prev := prev, next := next })

/-- Body of the encounter loop of `Validate` for the encounter `e` of the area `area`. -/
def Validate_encounter (m : NavigationMap) (area : NavArea) (e : SpotEncounter) :
    Run SpotEncounter := do
  let from_ ← Validate_resolve m e.from_
  let to_ ← Validate_resolve m e.to_
  let path ← match from_.getArea, to_.getArea with
    | some f, some t => do
      let toArea ← deref m.m_areas t
      let fromArea ← deref m.m_areas f
      let pathTo := (area.ComputePortal toArea e.toDir e.path.to_).1
      let pathFrom := (area.ComputePortal fromArea e.fromDir e.path.from_).1
      let zFrom ← fromArea.GetZ pathFrom
      let zTo ← toArea.GetZ pathTo
      pure (⟨{ pathFrom with z := zFrom + HalfHumanHeight },
              { pathTo with z := zTo + HalfHumanHeight }⟩ : Ray)
    | _, _ => pure e.path
  let spotList ← e.spotList.mapM (fun order => do
    let id ← order.getId
    pure (SpotOrder.spot order.t (m.GetHidingSpotByID id)))
  pure { e with from_ := from_, to_ := to_, path := path, spotList := spotList }

/-- `NavigationMap::Validate(area)`: resolves the ids of the connections, approach
records and encounters of the area into pointers, computes the encounter paths and
builds the overlap list. Console output is not modelled. -/
def Validate (m : NavigationMap) (area : AreaRef) : Run NavigationMap := do
  let a ← deref m.m_areas area
  let connect ← a.m_connect.mapM (fun l => l.mapM (Validate_resolve m))
  let approach ← (List.range a.m_approachCount).foldlM (Validate_approach m) a.m_approach
  let encounters ← a.encounter_spots.mapM (Validate_encounter m a)
  let overlap := (List.range m.m_areas.length).filter (fun j =>
    decide (j ≠ area) &&
      (match m.m_areas[j]? with
       | some area2 => a.IsOverlapping_area area2
       | none => false))
  let areas ← update m.m_areas area (fun a => { a with
    m_connect := connect, m_approach := approach, encounter_spots := encounters,
    m_overlapList := a.m_overlapList ++ overlap })
  pure { m with m_areas := areas }

/-! ## BuildLadders -/

/-- Sum of two vectors. -/
def Vector.add (a b : Vector) : Vector := ⟨a.x + b.x, a.y + b.y, a.z + b.z⟩

/-- Difference of two vectors. -/
def Vector.sub (a b : Vector) : Vector := ⟨a.x - b.x, a.y - b.y, a.z - b.z⟩

/-- Product of a scalar and a vector. -/
def Vector.scale (t : ℚ) (a : Vector) : Vector := ⟨t * a.x, t * a.y, t * a.z⟩

/-- The SDK method `Vector::Length` on a vector along the Z axis, where the square root
of `z * z` is `|z|`. -/
def Vector.Length_z (v : Vector) : ℚ := |v.z|

/-- The SDK method `Vector::Normalize` on a vector along the Z axis: `(0,0,1)` for a
zero length, otherwise the components times `1 / length`. -/
def Vector.Normalize_z (v : Vector) : Vector :=
  if v.Length_z = 0 then ⟨0, 0, 1⟩
  else Vector.scale (1 / v.Length_z) v

/-- The values `0, 10, 20, ...` taken by `t` in `for (t = 0; t <= length; t += 10)`. -/
def BuildLadders_steps (length : ℚ) : List ℚ :=
  if length < 0 then []
  else (List.range (⌊length / 10⌋.toNat + 1)).map (fun (k : Nat) => 10 * (k : ℚ))

/-- The clearance loops of `BuildLadders`: the first `on = base + sign * t * along`
whose outward cast of length 32 is unobstructed, or `base` when there is none. -/
def BuildLadders_fit (host : Host) (entity : EdictRef) (dir : NavDirType)
    (base along : Vector) (sign : ℚ) : List ℚ → Vector
  | [] => base
  | t :: rest =>
    let onPos := base.add (Vector.scale (sign * t) along)
    let outPos := AddDirectionVector onPos dir 32
    let result := UTIL_TraceLine host onPos outPos ignore_monsters (some entity)
    if result.flFraction = 1 ∧ result.fStartSolid = false then onPos
    else BuildLadders_fit host entity dir base along sign rest

/-- The statement `area->AddLadderUp(ladder)` or `area->AddLadderDown(ladder)` through
a pointer that may be null (`which` is `LADDER_UP = 0` or `LADDER_DOWN = 1`). -/
def BuildLadders_addLadder (areas : List NavArea) (area : Option AreaRef) (which : Nat)
    (ladder : LadderRef) : Run (List NavArea) :=
  match area with
  | none => .ok areas
  | some r => update areas r (fun a =>
      { a with m_ladder := a.m_ladder.modify (fun l => l ++ [ladder]) which })

/-- Body of the loop `adjust top of ladder to highest connected area` for one of the
four top areas, on the state `(topZ, topAdjusted)`. -/
def BuildLadders_topZ (areas : List NavArea) (top : Vector) (st : ℚ × Bool)
    (topArea : Option AreaRef) : Run (ℚ × Bool) :=
  match topArea with
  | none => .ok st
  | some r => do
    let a ← deref areas r
    let close ← a.GetClosestPointOnArea top
    if st.1 < close.z then pure (close.z, true) else pure st

/-- Dereference of an `edict_t*` in the entity table of the host. -/
def derefEdict (host : Host) (entity : EdictRef) : Run Edict :=
  match host.edicts[entity]? with
  | some e => .ok e
  | none => .error .badPointer

/-- The part `determine facing` of the body of `BuildLadders`, from the top and bottom
computed from the bounding box of the entity `ent`. -/
def BuildLadders_facing (host : Host) (entity : EdictRef) (ent : Edict) (top bottom : Vector) :
    NavDirType :=
  let xSize := ent.absmax.x - ent.absmin.x
  let ySize := ent.absmax.y - ent.absmin.y
  if xSize > ySize then
    let result := UTIL_TraceLine host (bottom.add ⟨0, GenerationStepSize, GenerationStepSize⟩)
      (top.add ⟨0, GenerationStepSize, -GenerationStepSize⟩) ignore_monsters (some entity)
    if result.flFraction ≠ 1 ∨ result.fStartSolid = true then NORTH else SOUTH
  else
    let result := UTIL_TraceLine host (bottom.add ⟨GenerationStepSize, 0, GenerationStepSize⟩)
      (top.add ⟨GenerationStepSize, 0, -GenerationStepSize⟩) ignore_monsters (some entity)
    if result.flFraction ≠ 1 ∨ result.fStartSolid = true then WEST else EAST

/-- The local constant `nearLadderRange` of `BuildLadders`. -/
def nearLadderRange : ℚ := 75

/-- The statement `ladder->m_topXArea = FindFirstAreaInDirection(&center, dir, range,
120.0f, entity); if (ladder->m_topXArea == ladder->m_bottomArea) ladder->m_topXArea =
nullptr;` of `BuildLadders`. -/
def BuildLadders_topArea (host : Host) (m : NavigationMap) (entity : EdictRef) (center : Vector)
    (dir : NavDirType) (range : ℚ) (bottomArea : Option AreaRef) : Run (Option AreaRef) := do
  let found ← FindFirstAreaInDirection host m center dir range 120 (some entity)
  pure (if found = bottomArea then none else found)

/-- The part `Determine whether this ladder is "dangling" or not` of `BuildLadders`. -/
def BuildLadders_dangling (areas : List NavArea) (bottom : Vector) (bottomArea : Option AreaRef) :
    Run Bool :=
  match bottomArea with
  | none => .ok false
  | some r => do
    let a ← deref areas r
    let bottomSpot ← a.GetClosestPointOnArea bottom
    pure (decide (bottom.z - bottomSpot.z > HumanHeight))

/-- The second half of the body of `BuildLadders`, from the fitted `top` and `bottom`
and the facing `dir` on: the areas at the bottom and at the top are looked up, the
ladder is entered into their ladder lists, the top is raised to the highest connected
area, the dangling flag is set and the ladder is appended to `m_navLadders`. -/
def BuildLadders_connect (host : Host) (m : NavigationMap) (entity : EdictRef)
    (top bottom : Vector) (dir : NavDirType) : Run NavigationMap := do
  let bottomArea ← GetNearestNavArea host m
    (AddDirectionVector (bottom.add ⟨0, 0, GenerationStepSize⟩) dir HalfHumanWidth) true
  let areas ← BuildLadders_addLadder m.m_areas bottomArea 0 m.m_navLadders.length
  let topForwardArea ← BuildLadders_topArea host { m with m_areas := areas } entity
    (AddDirectionVector (top.add ⟨0, 0, GenerationStepSize⟩) dir HalfHumanWidth)
    (OppositeDirection dir) nearLadderRange bottomArea
  let topLeftArea ← BuildLadders_topArea host { m with m_areas := areas } entity
    (AddDirectionVector (top.add ⟨0, 0, GenerationStepSize⟩) dir HalfHumanWidth)
    (DirectionLeft dir) nearLadderRange bottomArea
  let topRightArea ← BuildLadders_topArea host { m with m_areas := areas } entity
    (AddDirectionVector (top.add ⟨0, 0, GenerationStepSize⟩) dir HalfHumanWidth)
    (DirectionRight dir) nearLadderRange bottomArea
  let topBehindArea ← BuildLadders_topArea host { m with m_areas := areas } entity
    (AddDirectionVector (top.add ⟨0, 0, GenerationStepSize⟩) dir HalfHumanWidth)
    dir (2 * nearLadderRange) bottomArea
  let areas ← BuildLadders_addLadder areas topForwardArea 1 m.m_navLadders.length
  let areas ← BuildLadders_addLadder areas topLeftArea 1 m.m_navLadders.length
  let areas ← BuildLadders_addLadder areas topRightArea 1 m.m_navLadders.length
  let areas ← BuildLadders_addLadder areas topBehindArea 1 m.m_navLadders.length
  let adj ← [topForwardArea, topLeftArea, topRightArea, topBehindArea].foldlM
    (BuildLadders_topZ areas top) (-99999.9, false)
  let isDangling ← BuildLadders_dangling areas bottom bottomArea
  pure { m with
    m_areas := areas,
    m_navLadders := m.m_navLadders ++ [{
      m_top := if adj.2 then { top with z := adj.1 } else top,
      m_bottom := bottom, m_length := (top.sub bottom).Length_z, m_dir := dir,
      m_dirVector := DirectionToVector2D dir ⟨0, 0⟩, m_entity := some entity,
      m_topForwardArea := topForwardArea, m_topLeftArea := topLeftArea,
      m_topRightArea := topRightArea, m_topBehindArea := topBehindArea,
      m_bottomArea := bottomArea, m_isDangling := isDangling }] }

/-- Body of the loop of `BuildLadders` for the `func_ladder` entity `entity`: top and
bottom from the bounding box, facing, clearance fit of bottom and top (`length` is the
length of the normalised vector `along`), then `BuildLadders_connect`. -/
def BuildLadders_one (host : Host) (m : NavigationMap) (entity : EdictRef) :
    Run NavigationMap := do
  let ent ← derefEdict host entity
  let top : Vector := ⟨(ent.absmin.x + ent.absmax.x) / 2, (ent.absmin.y + ent.absmax.y) / 2,
    ent.absmax.z⟩
  let bottom : Vector := ⟨top.x, top.y, ent.absmin.z⟩
  let dir := BuildLadders_facing host entity ent top bottom
  let along := (top.sub bottom).Normalize_z
  let length := along.Length_z
  let bottom := BuildLadders_fit host entity dir bottom along 1 (BuildLadders_steps length)
  let top := BuildLadders_fit host entity dir top along (-1) (BuildLadders_steps length)
  BuildLadders_connect host m entity top bottom dir

/-- `NavigationMap::BuildLadders`: drops the ladders left over, then builds one ladder
per `func_ladder` entity. Console output is not modelled. -/
def BuildLadders (host : Host) (m : NavigationMap) : Run NavigationMap :=
  (entitiesByClassname host "func_ladder").foldlM (BuildLadders_one host) m.DestroyLadders

/-! ## The nav file and `NavigationMap::Load` -/

/-- A hiding spot record of the file: `id`, `pos`, `flags` (version 1 stores `pos`
only, `id` and `flags` are then not part of the file). -/
structure SpotRecord where
  id : Nat
  pos : Vector
  flags : Nat
  deriving DecidableEq, Repr

/-- An approach record of the file. -/
structure ApproachRecord where
  hereId : Nat
  prevId : Nat
  prevHow : Nat
  nextId : Nat
  nextHow : Nat
  deriving DecidableEq, Repr

/-- An encounter record of the file; each spot is `(spotId, tByte)`. -/
structure EncounterRecord where
  fromId : Nat
  fromDir : Nat
  toId : Nat
  toDir : Nat
  spots : List (Nat × Nat)
  deriving DecidableEq, Repr

/-- An area record of the file, in stream order. `connect` holds the neighbour ids of
the directions `NORTH, EAST, SOUTH, WEST`; the counts of the stream are the lengths of
the lists. -/
structure AreaRecord where
  id : Nat
  attributeFlags : Nat
  extent : Extent
  neZ : ℚ
  swZ : ℚ
  connect : List (List Nat)
  hidingSpots : List SpotRecord
  approach : List ApproachRecord
  encounters : List EncounterRecord
  placeEntry : Nat
  deriving DecidableEq, Repr

/-- The content of a nav file as `Load` reads it: header, saved BSP size (version 4 and
up), place names as the `nameLen` bytes stored for each (version 5 and up), areas. -/
structure NavFile where
  magic : Nat
  version : Nat
  saveBspSize : Nat
  places : List (List Nat)
  areas : List AreaRecord
  deriving DecidableEq, Repr

/-- The table `place_id` of `Load`. -/
def place_id : List (String × Place) :=
  [("BombsiteA", 1), ("BombsiteB", 2), ("BombsiteC", 3), ("Hostages", 4),
   ("HostageRescueZone", 5), ("VipRescueZone", 6), ("CTSpawn", 7), ("TSpawn", 8),
   ("Bridge", 9), ("Middle", 10), ("House", 11), ("Apartment", 12), ("Apartments", 13),
   ("Market", 14), ("Sewers", 15), ("Tunnel", 16), ("Ducts", 17), ("Village", 18),
   ("Roof", 19), ("Upstairs", 20), ("Downstairs", 21), ("Basement", 22), ("Crawlspace", 23),
   ("Kitchen", 24), ("Inside", 25), ("Outside", 26), ("Tower", 27), ("WineCellar", 28),
   ("Garage", 29), ("Courtyard", 30), ("Water", 31), ("FrontDoor", 32), ("BackDoor", 33),
   ("SideDoor", 34), ("BackWay", 35), ("FrontYard", 36), ("BackYard", 37), ("SideYard", 38),
   ("Lobby", 39), ("Vault", 40), ("Elevator", 41), ("DoubleDoors", 42),
   ("SecurityDoors", 43), ("LongHall", 44), ("SideHall", 45), ("FrontHall", 46),
   ("BackHall", 47), ("MainHall", 48), ("FarSide", 49), ("Windows", 50), ("Window", 51),
   ("Attic", 52), ("StorageRoom", 53), ("ProjectorRoom", 54), ("MeetingRoom", 55),
   ("ConferenceRoom", 56), ("ComputerRoom", 57), ("BigOffice", 58), ("LittleOffice", 59),
   ("Dumpster", 60), ("Airplane", 61), ("Underground", 62), ("Bunker", 63), ("Mines", 64),
   ("Front", 65), ("Back", 66), ("Rear", 67), ("Side", 68), ("Ramp", 69), ("Underpass", 70),
   ("Overpass", 71), ("Stairs", 72), ("Ladder", 73), ("Gate", 74), ("GateHouse", 75),
   ("LoadingDock", 76), ("GuardHouse", 77), ("Entrance", 78), ("VendingMachines", 79),
   ("Loft", 80), ("Balcony", 81), ("Alley", 82), ("BackAlley", 83), ("SideAlley", 84),
   ("FrontRoom", 85), ("BackRoom", 86), ("SideRoom", 87), ("Crates", 88), ("Truck", 89),
   ("Bedroom", 90), ("FamilyRoom", 91), ("Bathroom", 92), ("LivingRoom", 93), ("Den", 94),
   ("Office", 95), ("Atrium", 96), ("Entryway", 97), ("Foyer", 98), ("Stairwell", 99),
   ("Fence", 100), ("Deck", 101), ("Porch", 102), ("Patio", 103), ("Wall", 104)]

/-- The key that `place_id.find(placeName)` looks up after
`fread(placeName, 1, len, fp)` into `char placeName[256]`: the bytes up to the first
zero byte. More than 256 bytes overrun the buffer; without a zero byte among the bytes
read the string runs into bytes never written (or off the buffer). -/
def Load_placeName (name : List Nat) : Run String :=
  if name.length > 256 then .error .outOfBounds
  else if 0 ∈ name then .ok (String.mk ((name.takeWhile (fun b => b ≠ 0)).map Char.ofNat))
  else if name.length = 256 then .error .outOfBounds
  else .error .indeterminate

/-- Body of the place loop of `Load` for one name of the file. -/
def Load_place (d : PlaceDirectory) (name : List Nat) : Run PlaceDirectory := do
  let key ← Load_placeName name
  match place_id.lookup key with
  | some place => d.AddPlace place
  | none => pure d

/-- Body of the hiding spot loop of `Load` for one record, on the counter
`HidingSpot::m_nextID`, the map's spot list and the area's spot list. Version 1 uses
the generating constructor (id from the counter, flags `IN_COVER`), later versions the
plain constructor followed by the reads and the update of the counter. -/
def Load_spot (version : Nat) (st : Nat × List HidingSpot × List SpotRef) (r : SpotRecord) :
    Nat × List HidingSpot × List SpotRef :=
  let (nextID, spots, mine) := st
  if version = 1 then
    (((nextID + 1) % 2 ^ 32), spots ++ [⟨r.pos, nextID, HidingSpot.IN_COVER⟩],
      mine ++ [spots.length])
  else
    ((if r.id ≥ nextID then (r.id + 1) % 2 ^ 32 else nextID),
      spots ++ [⟨r.pos, r.id, r.flags⟩], mine ++ [spots.length])

/-- Body of the approach loop of `Load`: the record with index `a` is stored into
`m_approach[a]`. -/
def Load_approach (st : List ApproachInfo × Nat) (r : ApproachRecord) :
    Run (List ApproachInfo × Nat) :=
  let (table, a) := st
  if a < table.length then
    .ok (table.set a ⟨.id r.hereId, .id r.prevId, r.prevHow, .id r.nextId, r.nextHow⟩, a + 1)
  else .error .outOfBounds

/-- The encounter built by `Load` from one record: ids and directions as read, the
path value-initialised, `t = tByte / 255.0f` for each spot. -/
def Load_encounter (r : EncounterRecord) : SpotEncounter :=
  { from_ := .id r.fromId, fromDir := r.fromDir, to_ := .id r.toId, toDir := r.toDir,
    path := ⟨⟨0, 0, 0⟩, ⟨0, 0, 0⟩⟩,
    spotList := r.spots.map (fun sp => SpotOrder.id ((sp.2 : ℚ) / 255) sp.1) }

/-- Body of the area loop of `Load` for one record, on the program state and the
running total extent. -/
def Load_area (version : Nat) (st : State × Extent) (r : AreaRecord) : Run (State × Extent) := do
  let (s, extent) := st
  let area := NavArea.Initialize s.statics.NavArea_m_nextID
  let nextID := (s.statics.NavArea_m_nextID + 1) % 2 ^ 32
  let nextID := if r.id ≥ nextID then (r.id + 1) % 2 ^ 32 else nextID
  let center : Vector := ⟨(r.extent.lo.x + r.extent.hi.x) / 2, (r.extent.lo.y + r.extent.hi.y) / 2,
    (r.extent.lo.z + r.extent.hi.z) / 2⟩
  let connect := (List.range NUM_DIRECTIONS).map (fun d =>
    (area.m_connect.getD d []) ++ (r.connect.getD d []).map NavConnect.id)
  let (spotNextID, spots, mine) :=
    r.hidingSpots.foldl (Load_spot version)
      (s.statics.HidingSpot_m_nextID, s.mesh.m_hidingSpots, area.hiding_spots)
  let (approach, _) ← r.approach.foldlM Load_approach (area.m_approach, 0)
  let encounters := area.encounter_spots ++ r.encounters.map Load_encounter
  let place ← s.mesh.m_placeDirectory.EntryToPlace r.placeEntry
  let area : NavArea := { area with
    m_id := r.id, m_attributeFlags := r.attributeFlags, m_extent := r.extent,
    m_center := center, m_neZ := r.neZ, m_swZ := r.swZ, m_connect := connect,
    hiding_spots := mine, m_approachCount := r.approach.length,
    m_approach := approach, encounter_spots := encounters, m_place := place }
  let extent : Extent := {
    lo := { extent.lo with
      x := if r.extent.lo.x < extent.lo.x then r.extent.lo.x else extent.lo.x,
      y := if r.extent.lo.y < extent.lo.y then r.extent.lo.y else extent.lo.y },
    hi := { extent.hi with
      x := if r.extent.hi.x > extent.hi.x then r.extent.hi.x else extent.hi.x,
      y := if r.extent.hi.y > extent.hi.y then r.extent.hi.y else extent.hi.y } }
  pure ({ statics := ⟨nextID, spotNextID⟩,
          mesh := { s.mesh with m_areas := s.mesh.m_areas ++ [area], m_hidingSpots := spots } },
        extent)

/-- The start value of the total extent in `Load` (`z` members are never set nor
read). -/
def Load_extent0 : Extent :=
  ⟨⟨9999999999.9, 9999999999.9, 0⟩, ⟨-9999999999.9, -9999999999.9, 0⟩⟩

/-- Body of the loop `for (auto& area : m_areas) m_navAreaGrid.AddNavArea(area)`. -/
def Load_addToGrid (m : NavigationMap) (area : AreaRef) : Run NavigationMap := do
  let (areas, grid) ← m.m_navAreaGrid.AddNavArea m.m_areas area
  pure { m with m_areas := areas, m_navAreaGrid := grid }

/-- The place directory part of `Load`, read only from files of version 5 and up. -/
def Load_places (version : Nat) (d : PlaceDirectory) (places : List (List Nat)) :
    Run PlaceDirectory :=
  if version ≥ 5 then places.foldlM Load_place d else .ok d

/-- The part `add the areas to the grid` of `Load`: `Initialize` with the total extent,
then `AddNavArea` for every area of `m_areas` in list order. -/
def Load_grid (m : NavigationMap) (extent : Extent) : Run NavigationMap := do
  let grid ← m.m_navAreaGrid.Initialize extent.lo.x extent.hi.x extent.lo.y extent.hi.y
  (List.range m.m_areas.length).foldlM Load_addToGrid { m with m_navAreaGrid := grid }

/-- `NavigationMap::Load(path)`. `file` is `none` when `fopen` fails and otherwise the
content of the file (a file that ends early is not represented). The result is the
returned `bool` and the state left behind. The comparison of the BSP size only prints
a warning and is not modelled. -/
def Load (host : Host) (file : Option NavFile) (s : State) : Run (Bool × State) :=
  match file with
  | none => .ok (false, s)
  | some f => do
    let s := Destroy s
    let s : State := { s with statics := { s.statics with NavArea_m_nextID := 1 } }
    let directory ← Load_places f.version s.mesh.m_placeDirectory f.places
    let s : State := { s with mesh := { s.mesh with m_placeDirectory := directory } }
    let st ← f.areas.foldlM (Load_area f.version) (s, Load_extent0)
    let m ← Load_grid st.1.mesh st.2
    let m ← (List.range m.m_areas.length).foldlM Validate m
    let m ← BuildLadders host m
    pure (true, { st.1 with mesh := m })

/-! ## The byte stream of the file -/

/-- A reader of the part of the file that has not been read yet: the value read and the
stream left, or the fault that stops the run. -/
abbrev Reader (α : Type) := StateT (List Nat) Run α

/-- The unsigned value that bytes stand for in the byte order of the target, least
significant byte first. -/
def leValue : List Nat → Nat
  | [] => 0
  | b :: bs => b % 256 + 256 * leValue bs

/-- `fread(&x, size, 1, fp)` into an integer object `x` of `size` bytes that is read
afterwards and was not initialised before: the value read. When the stream ends within
the `size` bytes, `x` or a part of it is left unwritten. -/
def fread (size : Nat) : Reader Nat := fun stream =>
  if stream.length < size then .error .indeterminate
  else .ok (leValue (stream.take size), stream.drop size)

/-- `fread(&x, size, 1, fp)` into an object `x` that was initialised with `{}`: at the
end of the stream nothing is read and `x` stays 0. -/
def fread_zeroed (size : Nat) : Reader Nat := fun stream =>
  if stream = [] then .ok (0, []) else fread size stream

/-- The value of the `float` with the bit pattern `w`, in the format of the target
(IEEE-754 binary32: sign, 8 bits of exponent, 23 bits of fraction). The infinities and
the NaNs have no counterpart in `ℚ`; a run that reads one is not represented. -/
def floatOfBits (w : Nat) : Run ℚ :=
  let negative : Bool := decide (w / 2 ^ 31 % 2 = 1)
  let e : Nat := w / 2 ^ 23 % 256
  let m : Nat := w % 2 ^ 23
  let sign : ℚ := if negative then -1 else 1
  if e = 255 then .error .notFinite
  else if e = 0 then .ok (sign * (m : ℚ) / 2 ^ 149)
  else .ok (sign * ((2 ^ 23 + m : Nat) : ℚ) * 2 ^ e / 2 ^ 150)

/-- `fread(&x, sizeof(float), 1, fp)`. -/
def fread_float : Reader ℚ := do
  let w ← fread 4
  floatOfBits w

/-- `fread(&v, sizeof(Vector), 1, fp)`, also `fread(&v, sizeof(float), 3, fp)`: the
members `x`, `y`, `z` in this order. -/
def fread_Vector : Reader Vector := do
  let x ← fread_float
  let y ← fread_float
  let z ← fread_float
  pure ⟨x, y, z⟩

/-- `fread(&e, sizeof(Extent), 1, fp)`: the members `lo`, `hi` in this order. -/
def fread_Extent : Reader Extent := do
  let lo ← fread_Vector
  let hi ← fread_Vector
  pure ⟨lo, hi⟩

/-- A loop `for (i = 0; i < n; ++i)` whose body reads one item from the stream. -/
def readN {α : Type} (rd : Reader α) : Nat → Reader (List α)
  | 0 => pure []
  | n + 1 => do
    let a ← rd
    let rest ← readN rd n
    pure (a :: rest)

/-- The connections of one direction: the count and that many ids. -/
def Load_readConnect : Reader (List Nat) := do
  let count ← fread 4
  readN (fread 4) count

/-- One hiding spot of an area: the position alone in a file of version 1 (the id and
the flags of the record are not used then), else id, position and flags. -/
def Load_readSpot (version : Nat) : Reader SpotRecord :=
  if version = 1 then do
    let pos ← fread_Vector
    pure ⟨0, pos, 0⟩
  else do
    let id ← fread 4
    let pos ← fread_Vector
    let flags ← fread 1
    pure ⟨id, pos, flags⟩

/-- One approach record. -/
def Load_readApproach : Reader ApproachRecord := do
  let here ← fread 4
  let prev ← fread 4
  let prevHow ← fread 1
  let next ← fread 4
  let nextHow ← fread 1
  pure ⟨here, prev, prevHow, next, nextHow⟩

/-- One spot of an encounter: the id and the byte `t`. -/
def Load_readOrder : Reader (Nat × Nat) := do
  let id ← fread 4
  let t ← fread 1
  pure (id, t)

/-- One encounter. -/
def Load_readEncounter : Reader EncounterRecord := do
  let fromId ← fread 4
  let fromDir ← fread 1
  let toId ← fread 4
  let toDir ← fread 1
  let spotCount ← fread 1
  let spots ← readN Load_readOrder spotCount
  pure ⟨fromId, fromDir, toId, toDir, spots⟩

/-- The reads of one pass of the area loop of `Load`, in the order of the source. The
count of the encounters is read into a local that is not initialised, after every other
read of the pass but those of the encounters and of the place entry: a pass in which
the stream ends before that count has no result, whatever the objects read before
held, so all these reads are `fread`. The place entry is read into `entry{}`. -/
def Load_readArea (version : Nat) : Reader AreaRecord := do
  let id ← fread 4
  let attributeFlags ← fread 1
  let extent ← fread_Extent
  let neZ ← fread_float
  let swZ ← fread_float
  let connect ← readN Load_readConnect NUM_DIRECTIONS
  let hidingSpotCount ← fread 1
  let hidingSpots ← readN (Load_readSpot version) hidingSpotCount
  let approachCount ← fread 1
  let approach ← readN Load_readApproach approachCount
  let count ← fread 4
  let encounters ← readN Load_readEncounter count
  let placeEntry ← fread_zeroed 2
  pure ⟨id, attributeFlags, extent, neZ, swZ, connect, hidingSpots, approach, encounters,
    placeEntry⟩

/-- One name of the place directory: `len` is read into `len{}`, then
`fread(placeName, 1, len, fp)` takes the bytes that are there, at most `len`. -/
def Load_readName : Reader (List Nat) := do
  let len ← fread_zeroed 2
  fun stream => .ok (stream.take len, stream.drop len)

/-- The saved BSP size, read into `saveBspSize{}` from files of version 4 and up. -/
def Load_readBspSize (version : Nat) : Reader Nat :=
  if version ≥ 4 then fread_zeroed 4 else pure 0

/-- The names of the place directory, in files of version 5 and up: the count, read
into a local that is not initialised, and that many names. -/
def Load_readPlaces (version : Nat) : Reader (List (List Nat)) :=
  if version ≥ 5 then do
    let count ← fread 2
    readN Load_readName count
  else pure []

/-- The reads of `Load` that follow the header: the saved BSP size, the place names,
the count of the areas (read into `count{}`) and the areas. -/
def Load_readBody (magic version : Nat) : Reader NavFile := do
  let saveBspSize ← Load_readBspSize version
  let places ← Load_readPlaces version
  let count ← fread_zeroed 4
  let areas ← readN (Load_readArea version) count
  pure ⟨magic, version, saveBspSize, places, areas⟩

/-- All reads of `Load`, in the order of the source: the header, one object of eight
bytes with `magic` in the first four, and what follows it. -/
def Load_read : Reader NavFile := do
  let header ← fread 8
  Load_readBody (header % 2 ^ 32) (header / 2 ^ 32)

/-- `NavigationMap::Load(path)` on the bytes of the file, `none` when `fopen` fails.
The source reads and builds in turns; here all reads come first. A run has a result
here exactly when it has one there, and the result is the same; of a run without
result the fault reported may be another one. -/
def Load_stream (host : Host) (stream : Option (List Nat)) (s : State) : Run (Bool × State) :=
  match stream with
  | none => .ok (false, s)
  | some bytes => do
    let (file, _) ← Load_read bytes
    Load host (some file) s

/-! ## Binary32 arithmetic -/

namespace F32

/-- Rounding of a rational to the nearest integer, a tie going to the even integer. -/
def roundHalfEven (x : ℚ) : Int :=
  if x - ⌊x⌋ < 1 / 2 then ⌊x⌋
  else if 1 / 2 < x - ⌊x⌋ then ⌊x⌋ + 1
  else if ⌊x⌋ % 2 = 0 then ⌊x⌋ else ⌊x⌋ + 1

/-- Rounding of `s ≥ 0` to the nearest binary32 number, in units of `2^-149`, the
smallest positive binary32 number. In these units the binary32 numbers below `2^24` are
the integers (the subnormal numbers and the first binade of normal ones, with a
significand of 24 bits), and the binary32 numbers from `2^24` on are the doubles of the
binary32 numbers from `2^23` on: below `2^24` the value is rounded to an integer, from
`2^24` on its half is rounded and doubled. A tie goes to the even significand. The fuel
bounds the number of halvings; 254 halvings cover every value below `2^278`, that is
`2^129` in units of 1. -/
def roundScaled : Nat → ℚ → ℚ
  | 0, s => roundHalfEven s
  | fuel + 1, s => if s < 2 ^ 24 then roundHalfEven s else 2 * roundScaled fuel (s / 2)

/-- The rounding of `roundScaled` with the scale found by binary search: for each `k`
of the list, a value from `2^(23+k)` on is divided by `2^k` and the rounded result is
scaled back. -/
def roundBin : List Nat → ℚ → ℚ
  | [], s => roundHalfEven s
  | k :: ks, s => if s < 2 ^ (23 + k) then roundBin ks s else 2 ^ k * roundBin ks (s / 2 ^ k)

/-- The value of `roundScaled 254 s` (theorem `roundFast_eq`), computed with eight
comparisons on the values below `2^278`. -/
def roundFast (s : ℚ) : ℚ :=
  if s < 2 ^ 278 then roundBin [128, 64, 32, 16, 8, 4, 2, 1] s else roundScaled 254 s

/-- Rounding to the nearest binary32 number with an unbounded exponent, ties to even
(IEEE 754 `roundTiesToEven`), symmetric in the sign. -/
def round (q : ℚ) : ℚ :=
  if q < 0 then -(roundFast (-q * 2 ^ 149) / 2 ^ 149)
  else roundFast (q * 2 ^ 149) / 2 ^ 149

/-- The `float` that an arithmetic operation with the exact result `q` delivers: `q`
rounded to binary32. A result that rounds to `2^128` or beyond is an infinity, which has
no counterpart in `ℚ`: the run is not represented. -/
def ofReal (q : ℚ) : Run ℚ :=
  if |round q| < 2 ^ 128 then .ok (round q) else .error .notFinite

/-- The rational `q` is a binary32 number: rounding leaves it as it is. -/
def IsFloat (q : ℚ) : Prop := ofReal q = .ok q

instance (q : ℚ) : Decidable (IsFloat q) := by unfold IsFloat; infer_instance

/-- The `float` sum `a + b`. -/
def add (a b : ℚ) : Run ℚ := ofReal (a + b)

/-- The `float` difference `a - b`. -/
def sub (a b : ℚ) : Run ℚ := ofReal (a - b)

/-- The `float` product `a * b`. -/
def mul (a b : ℚ) : Run ℚ := ofReal (a * b)

/-- The `float` quotient `a / b`; a division by zero gives an infinity or a NaN. -/
def div (a b : ℚ) : Run ℚ :=
  if b = 0 then .error .divByZero else ofReal (a / b)

/-- Conversion of a `float` to `int`: truncation toward zero; undefined when the
truncated value is not a value of `int`. -/
def toInt (q : ℚ) : Run Int :=
  if isInt (truncToInt q) then .ok (truncToInt q) else .error .overflow

/-- The largest natural number `n < 2^bits` with `n^2 ≤ S`, found bit by bit from the
top; `n` holds the bits decided so far. -/
def sqrtBits (S : Nat) : Nat → Nat → Nat
  | 0, n => n
  | b + 1, n => sqrtBits S b (if (n + 2 ^ b) ^ 2 ≤ S then n + 2 ^ b else n)

/-- The square root of `s`, for `2^46 ≤ s < 2^48`, rounded to the nearest integer (an
integer of 24 bits, or `2^24`): with `n` the largest integer whose square is at most
`s`, the root lies below `n + 1/2` exactly when `s < (n + 1/2)^2 = n^2 + n + 1/4`. -/
def sqrtRound (s : ℚ) : ℚ :=
  let n : Nat := sqrtBits ⌊s⌋.toNat 24 0
  if s < (n : ℚ) ^ 2 + n + 1 / 4 then n
  else if (n : ℚ) ^ 2 + n + 1 / 4 < s then n + 1
  else if n % 2 = 0 then n else n + 1

/-- The square root of `s` rounded to 24 significant bits, for `s ≥ 2^46` or `s = 0`:
for each `k` of the list, a value from `2^(46+2k)` on is divided by `4^k` and the
rounded root is multiplied by `2^k`; what is left lies below `2^48`. -/
def sqrtBin : List Nat → ℚ → ℚ
  | [], s => sqrtRound s
  | k :: ks, s => if s < 2 ^ (46 + 2 * k) then sqrtBin ks s else 2 ^ k * sqrtBin ks (s / 4 ^ k)

/-- The `float` square root, correctly rounded (IEEE 754): the argument is taken in
units of `2^-196`, in which every positive binary32 number is at least `2^47`, and the
root comes out in units of `2^-98`. The root of a binary32 number is never subnormal and
never overflows. The root of a negative number is a NaN. -/
def sqrt (q : ℚ) : Run ℚ :=
  if q < 0 then .error .notFinite
  else .ok (sqrtBin [128, 64, 32, 16, 8, 4, 2, 1] (q * 2 ^ 196) / 2 ^ 98)

end F32

/-! ## The numeric functions in binary32 arithmetic

The definitions of this part translate the functions of the source that compute with
`float` once more, with every operation on `float` rounded to binary32 (`F32.add`,
`F32.sub`, `F32.mul`, `F32.div`, `F32.sqrt`) and every conversion to `int` checked
(`F32.toInt`). They carry the name of the source function with the suffix `_f32`. A
`float` literal is the binary32 number nearest to its decimal (`F32.round`). Comparisons
are exact. Adding `0.0f`, as `*pos + Vector(0, 0, 5)` does to `x` and `y`, leaves a
binary32 number as it is and is not written out. The arguments are meant to be binary32
numbers (`F32.IsFloat`); the statements say so where they depend on it. -/

namespace NavArea

/-- The fraction `u = (pos->x - m_extent.lo.x) / dx` of `GetZ` after the clamp to
`[0, 1]`; likewise `v`. -/
def GetZ_frac_f32 (p lo d : ℚ) : Run ℚ := do
  let n ← F32.sub p lo
  let u ← F32.div n d
  pure (clamp01 u)

/-- The interpolation `a + t * (b - a)` of `GetZ`, as in
`northZ = m_extent.lo.z + u * (m_neZ - m_extent.lo.z)`: three operations on `float`. -/
def GetZ_lerp_f32 (a b t : ℚ) : Run ℚ := do
  let d ← F32.sub b a
  let p ← F32.mul t d
  F32.add a p

/-- `NavArea::GetZ(const Vector* pos)` in binary32 arithmetic. -/
def GetZ_f32 (a : NavArea) (pos : Vector) : Run ℚ := do
  let dx ← F32.sub a.m_extent.hi.x a.m_extent.lo.x
  let dy ← F32.sub a.m_extent.hi.y a.m_extent.lo.y
  if dx = 0 ∨ dy = 0 then pure a.m_neZ
  else do
    let u ← GetZ_frac_f32 pos.x a.m_extent.lo.x dx
    let v ← GetZ_frac_f32 pos.y a.m_extent.lo.y dy
    let northZ ← GetZ_lerp_f32 a.m_extent.lo.z a.m_neZ u
    let southZ ← GetZ_lerp_f32 a.m_swZ a.m_extent.hi.z u
    GetZ_lerp_f32 northZ southZ v

/-- `NavArea::GetZ(float x, float y)` in binary32 arithmetic. -/
def GetZ_xy_f32 (a : NavArea) (x y : ℚ) : Run ℚ :=
  a.GetZ_f32 ⟨x, y, 0⟩

/-- `NavArea::GetClosestPointOnArea(pos, close)` in binary32 arithmetic: the case split
compares and copies, `close->z = GetZ(close)` computes. -/
def GetClosestPointOnArea_f32 (a : NavArea) (pos : Vector) : Run Vector :=
  let extent := a.m_extent
  let xy : ℚ × ℚ :=
    if pos.x < extent.lo.x then
      if pos.y < extent.lo.y then (extent.lo.x, extent.lo.y)
      else if pos.y > extent.hi.y then (extent.lo.x, extent.hi.y)
      else (extent.lo.x, pos.y)
    else if pos.x > extent.hi.x then
      if pos.y < extent.lo.y then (extent.hi.x, extent.lo.y)
      else if pos.y > extent.hi.y then (extent.hi.x, extent.hi.y)
      else (extent.hi.x, pos.y)
    else if pos.y < extent.lo.y then (pos.x, extent.lo.y)
    else if pos.y > extent.hi.y then (pos.x, extent.hi.y)
    else (pos.x, pos.y)
  do
    let z ← a.GetZ_f32 ⟨xy.1, xy.2, 0⟩
    pure ⟨xy.1, xy.2, z⟩

end NavArea

namespace NavAreaGrid

/-- The `float` value `(w - m_min) / m_cellSize` that `WorldToGridX` and `WorldToGridY`
convert to `int`. -/
def WorldToGrid_quotient_f32 (minW w : ℚ) : Run ℚ := do
  let d ← F32.sub w minW
  F32.div d m_cellSize

/-- `NavAreaGrid::WorldToGridX` in binary32 arithmetic. -/
def WorldToGridX_f32 (g : NavAreaGrid) (wx : ℚ) : Run Int := do
  let q ← WorldToGrid_quotient_f32 g.m_minX wx
  let x ← F32.toInt q
  pure (if x < 0 then 0 else if x ≥ g.m_gridSizeX then g.m_gridSizeX - 1 else x)

/-- `NavAreaGrid::WorldToGridY` in binary32 arithmetic. -/
def WorldToGridY_f32 (g : NavAreaGrid) (wy : ℚ) : Run Int := do
  let q ← WorldToGrid_quotient_f32 g.m_minY wy
  let y ← F32.toInt q
  pure (if y < 0 then 0 else if y ≥ g.m_gridSizeY then g.m_gridSizeY - 1 else y)

/-- The size `((max - min) / m_cellSize) + 1` of `Initialize`, computed in `float` and
converted to `int`. -/
def Initialize_size_f32 (minW maxW : ℚ) : Run Int := do
  let d ← F32.sub maxW minW
  let q ← F32.div d m_cellSize
  let s ← F32.add q 1
  F32.toInt s

/-- `NavAreaGrid::Initialize` in binary32 arithmetic. The array length is the product of
the sizes computed in `int`: a product outside the range of `int` is undefined; `new[]`
of a negative length throws. -/
def Initialize_f32 (g : NavAreaGrid) (minX maxX minY maxY : ℚ) : Run NavAreaGrid := do
  let sizeX ← Initialize_size_f32 minX maxX
  let sizeY ← Initialize_size_f32 minY maxY
  if ¬ isInt (sizeX * sizeY) then .error .overflow
  else if sizeX * sizeY < 0 then .error .badAlloc
  else
    let g := if g.m_grid.isSome then g.Reset else g
    pure { g with m_minX := minX, m_minY := minY, m_gridSizeX := sizeX, m_gridSizeY := sizeY,
                  m_grid := some (List.replicate (sizeX * sizeY).toNat []) }

/-- `NavAreaGrid::AddNavArea` in binary32 arithmetic: the four cells of the extent come
from `WorldToGridX_f32` and `WorldToGridY_f32`. -/
def AddNavArea_f32 (areas : List NavArea) (g : NavAreaGrid) (area : AreaRef) :
    Run (List NavArea × NavAreaGrid) := do
  let a ← deref areas area
  let loX ← g.WorldToGridX_f32 a.m_extent.lo.x
  let loY ← g.WorldToGridY_f32 a.m_extent.lo.y
  let hiX ← g.WorldToGridX_f32 a.m_extent.hi.x
  let hiY ← g.WorldToGridY_f32 a.m_extent.hi.y
  let cells ← forCells g.m_grid g.m_gridSizeX loX hiX loY hiY (fun l => l ++ [area])
  let areas ← AddNavArea_link areas (g.m_hashTable (ComputeHashKey a.m_id)) area
  pure (areas, { g with
    m_grid := cells,
    m_hashTable := fun k => if k = ComputeHashKey a.m_id then some area else g.m_hashTable k,
    m_areaCount := (g.m_areaCount + 1) % 2 ^ 32 })

/-- `NavAreaGrid::RemoveNavArea` in binary32 arithmetic. -/
def RemoveNavArea_f32 (areas : List NavArea) (g : NavAreaGrid) (area : AreaRef) :
    Run (List NavArea × NavAreaGrid) := do
  let a ← deref areas area
  let loX ← g.WorldToGridX_f32 a.m_extent.lo.x
  let loY ← g.WorldToGridY_f32 a.m_extent.lo.y
  let hiX ← g.WorldToGridX_f32 a.m_extent.hi.x
  let hiY ← g.WorldToGridY_f32 a.m_extent.hi.y
  let cells ← forCells g.m_grid g.m_gridSizeX loX hiX loY hiY
    (fun l => l.filter (fun r => r ≠ area))
  let st ← RemoveNavArea_unlink areas g.m_hashTable a area
  pure (st.1, { g with m_grid := cells, m_hashTable := st.2,
                       m_areaCount := (g.m_areaCount + 2 ^ 32 - 1) % 2 ^ 32 })

/-- The start value of `useZ` in `GetNavArea`: the binary32 number of the literal
`-99999999.9f`, which is `-100000000`. -/
def GetNavArea_useZ0_f32 : ℚ := F32.round (-99999999.9)

/-- Body of the loop of `GetNavArea` in binary32 arithmetic, for the bucket element `r`,
on the loop state `(use, useZ)`; `pos->z - beneathLimit` is computed when the test is
reached. -/
def GetNavArea_step_f32 (areas : List NavArea) (pos testPos : Vector) (beneathLimit : ℚ)
    (st : Option AreaRef × ℚ) (r : AreaRef) : Run (Option AreaRef × ℚ) := do
  let area ← deref areas r
  if area.IsOverlapping testPos then do
    let z ← area.GetZ_f32 testPos
    if z > testPos.z then pure st
    else do
      let low ← F32.sub pos.z beneathLimit
      if z < low then pure st
      else if z > st.2 then pure (some r, z)
      else pure st
  else pure st

/-- `NavAreaGrid::GetNavArea(pos, beneathLimit)` in binary32 arithmetic. -/
def GetNavArea_f32 (areas : List NavArea) (g : NavAreaGrid) (pos : Vector) (beneathLimit : ℚ) :
    Run (Option AreaRef) :=
  if g.m_grid.isNone then .ok none
  else do
    let x ← g.WorldToGridX_f32 pos.x
    let y ← g.WorldToGridY_f32 pos.y
    let list ← g.bucket (x + y * g.m_gridSizeX)
    let top ← F32.add pos.z 5
    let st ← list.foldlM (GetNavArea_step_f32 areas pos ⟨pos.x, pos.y, top⟩ beneathLimit)
      (none, GetNavArea_useZ0_f32)
    pure st.1

end NavAreaGrid

/-- `NavigationMap::GetNavArea(pos)` in binary32 arithmetic: the query of the grid with
the default `beneathLimit` of `120.0f`. -/
def NavigationMap.GetNavArea_f32 (m : NavigationMap) (pos : Vector) : Run (Option AreaRef) :=
  m.m_navAreaGrid.GetNavArea_f32 m.m_areas pos 120

/-- Body of the loop `for (auto& area : m_areas) m_navAreaGrid.AddNavArea(area)` of
`Load` in binary32 arithmetic. -/
def Load_addToGrid_f32 (m : NavigationMap) (area : AreaRef) : Run NavigationMap := do
  let (areas, grid) ← m.m_navAreaGrid.AddNavArea_f32 m.m_areas area
  pure { m with m_areas := areas, m_navAreaGrid := grid }

/-- The part `add the areas to the grid` of `Load` in binary32 arithmetic: `Initialize`
with the total extent, then `AddNavArea` for every area of `m_areas` in list order. -/
def Load_grid_f32 (m : NavigationMap) (extent : Extent) : Run NavigationMap := do
  let grid ← m.m_navAreaGrid.Initialize_f32 extent.lo.x extent.hi.x extent.lo.y extent.hi.y
  (List.range m.m_areas.length).foldlM Load_addToGrid_f32 { m with m_navAreaGrid := grid }

/-- The depth `9999.9f` of the downward cast of `GetGroundHeight`: the binary32 number
`9999.900390625`. -/
def GetGroundHeight_depth_f32 : ℚ := F32.round 9999.9

/-- The scanning loop of `GetGroundHeight` in binary32 arithmetic: the start of each
cast is `*pos + Vector(0, 0, offset)`. -/
def GetGroundHeight_scan_f32 (host : Host) (pos to_ : Vector) :
    List ℚ → Option EdictRef → List GroundLayerInfo → Run (List GroundLayerInfo)
  | [], _, layer => .ok layer
  | offset :: rest, ignore, layer => do
    let z ← F32.add pos.z offset
    let from_ : Vector := ⟨pos.x, pos.y, z⟩
    let result := UTIL_TraceLine_glass host from_ to_ ignore_monsters dont_ignore_glass ignore
    let skip ← match result.pHit with
      | some hit => do
        let door ← FClassnameIs host hit "func_door"
        let rotating ← FClassnameIs host hit "func_door_rotating"
        let breakable ← FClassnameIs host hit "func_breakable"
        match host.edicts[hit]? with
        | some e => pure (door || rotating || (breakable && decide (e.takedamage = DAMAGE_YES)))
        | none => .error .badPointer
      | none => pure false
    if skip then GetGroundHeight_scan_f32 host pos to_ rest result.pHit layer
    else if result.fStartSolid = false then
      if layer.length = 0 ∨
          (match layer.getLast? with
           | some l => decide (result.vecEndPos.z > l.ground)
           | none => false) = true then
        let layer := layer ++ [⟨result.vecEndPos.z, result.vecPlaneNormal⟩]
        if layer.length = MAX_GROUND_LAYERS then .ok layer
        else GetGroundHeight_scan_f32 host pos to_ rest ignore layer
      else GetGroundHeight_scan_f32 host pos to_ rest ignore layer
    else GetGroundHeight_scan_f32 host pos to_ rest ignore layer

/-- The selection loop of `GetGroundHeight` in binary32 arithmetic: the index `i` at
which
`for (i = 0; i < layerCount - 1; ++i) if (layer[i+1].ground - layer[i].ground >= 36) break;`
stops, counted from `i`; the difference is a `float`. -/
def GetGroundHeight_pick_f32 : List GroundLayerInfo → Nat → Run Nat
  | l0 :: l1 :: rest, i => do
    let gap ← F32.sub l1.ground l0.ground
    if gap ≥ HalfHumanHeight then pure i
    else GetGroundHeight_pick_f32 (l1 :: rest) (i + 1)
  | _, i => pure i

/-- `GetGroundHeight(pos, height, normal)` in binary32 arithmetic. -/
def GetGroundHeight_f32 (host : Host) (pos : Vector) : Run (Option (ℚ × Vector)) := do
  let z ← F32.sub pos.z GetGroundHeight_depth_f32
  let layer ← GetGroundHeight_scan_f32 host pos ⟨pos.x, pos.y, z⟩ GetGroundHeight_offsets none []
  if layer.length = 0 then pure none
  else do
    let i ← GetGroundHeight_pick_f32 layer 0
    match layer[i]? with
    | some l => pure (some (l.ground, l.normal))
    | none => .error .outOfBounds

/-- The SDK's `Vector::Length()`, `sqrt(x*x + y*y + z*z)`, in binary32 arithmetic: the
products and the sums are rounded, and so is the root (taken in `double` and converted
back, it is the correctly rounded root of the `float` sum). -/
def Vector.Length_f32 (v : Vector) : Run ℚ := do
  let xx ← F32.mul v.x v.x
  let yy ← F32.mul v.y v.y
  let zz ← F32.mul v.z v.z
  let s ← F32.add xx yy
  let s ← F32.add s zz
  F32.sqrt s

/-- The value `distSq = std::pow((areaPos - source).Length(), 2)` of
`GetNearestNavArea` in binary32 arithmetic: the difference is taken by component, and
the square of the length, which `pow` computes in `double` without error, is rounded
when it is stored in the `float`. -/
def GetNearestNavArea_distSq_f32 (areaPos source : Vector) : Run ℚ := do
  let dx ← F32.sub areaPos.x source.x
  let dy ← F32.sub areaPos.y source.y
  let dz ← F32.sub areaPos.z source.z
  let len ← Vector.Length_f32 ⟨dx, dy, dz⟩
  F32.mul len len

/-- The start value of `closeDistSq` in `GetNearestNavArea`: the binary32 number of the
literal `99999999.9f`, which is `100000000`. -/
def GetNearestNavArea_closeDistSq0_f32 : ℚ := F32.round 99999999.9

/-- The line-of-sight test of `GetNearestNavArea` in binary32 arithmetic: the ray from
`source` to `areaPos + Vector(0, 0, HalfHumanHeight)` ends with the fraction 1. -/
def GetNearestNavArea_los_f32 (host : Host) (source areaPos : Vector) : Run Bool := do
  let z ← F32.add areaPos.z HalfHumanHeight
  pure (decide ((UTIL_TraceLine_glass host source ⟨areaPos.x, areaPos.y, z⟩ ignore_monsters
    ignore_glass none).flFraction = 1))

/-- Body of the visitor of `GetNearestNavArea` in binary32 arithmetic for the area `r`,
on the state `(close, closeDistSq)`. -/
def GetNearestNavArea_visit_f32 (host : Host) (areas : List NavArea) (source : Vector)
    (anyZ : Bool) (st : Option AreaRef × ℚ) (r : AreaRef) : Run (Option AreaRef × ℚ) := do
  let area ← deref areas r
  let areaPos ← area.GetClosestPointOnArea_f32 source
  let distSq ← GetNearestNavArea_distSq_f32 areaPos source
  if distSq < st.2 then
    if anyZ = false then do
      let seen ← GetNearestNavArea_los_f32 host source areaPos
      if seen = false then pure st else pure (some r, distSq)
    else pure (some r, distSq)
  else pure st

/-- `NavAreaGrid::GetNearestNavArea(mesh, pos, anyZ)` in binary32 arithmetic. -/
def GetNearestNavArea_f32 (host : Host) (m : NavigationMap) (pos : Vector) (anyZ : Bool) :
    Run (Option AreaRef) :=
  if m.m_navAreaGrid.m_grid.isNone then .ok none
  else do
    let close ← m.m_navAreaGrid.GetNavArea_f32 m.m_areas pos 120
    if close.isSome then pure close
    else
      match ← GetGroundHeight_f32 host pos with
      | none => pure none
      | some (height, _) => do
        let z ← F32.add height HalfHumanHeight
        let st ← (List.range m.m_areas.length).foldlM
          (GetNearestNavArea_visit_f32 host m.m_areas ⟨pos.x, pos.y, z⟩ anyZ)
          (close, GetNearestNavArea_closeDistSq0_f32)
        pure st.1

/-- `AddDirectionVector(v, dir, amount)` in binary32 arithmetic. -/
def AddDirectionVector_f32 (v : Vector) (dir : NavDirType) (amount : ℚ) : Run Vector :=
  match dir with
  | 0 => do
    let y ← F32.sub v.y amount
    pure { v with y := y }
  | 2 => do
    let y ← F32.add v.y amount
    pure { v with y := y }
  | 1 => do
    let x ← F32.add v.x amount
    pure { v with x := x }
  | 3 => do
    let x ← F32.sub v.x amount
    pure { v with x := x }
  | _ => pure v

/-- The loop of `FindFirstAreaInDirection` in binary32 arithmetic for the remaining
`steps` iterations from the position `pos` reached so far. -/
def FindFirstAreaInDirection_loop_f32 (host : Host) (m : NavigationMap) (start : Vector)
    (dir : NavDirType) (beneathLimit : ℚ) (traceIgnore : Option EdictRef) :
    Nat → Vector → Run (Option AreaRef)
  | 0, _ => .ok none
  | steps + 1, pos => do
    let pos ← AddDirectionVector_f32 pos dir GenerationStepSize
    let result := UTIL_TraceLine host start pos ignore_monsters traceIgnore
    if result.flFraction ≠ 1 then pure none
    else
      match ← m.m_navAreaGrid.GetNavArea_f32 m.m_areas pos beneathLimit with
      | some area => pure (some area)
      | none =>
        FindFirstAreaInDirection_loop_f32 host m start dir beneathLimit traceIgnore steps pos

/-- The bound `int end = (int)((range / GenerationStepSize) + 0.5f)` of the loop of
`FindFirstAreaInDirection`, computed in `float` and converted to `int`. -/
def FindFirstAreaInDirection_end_f32 (range : ℚ) : Run Int := do
  let q ← F32.div range GenerationStepSize
  let s ← F32.add q (1 / 2)
  F32.toInt s

/-- `NavigationMap::FindFirstAreaInDirection(start, dir, range, beneathLimit,
traceIgnore)` in binary32 arithmetic; the out parameter `closePos` is null at every call
site and left out. -/
def FindFirstAreaInDirection_f32 (host : Host) (m : NavigationMap) (start : Vector)
    (dir : NavDirType) (range beneathLimit : ℚ) (traceIgnore : Option EdictRef) :
    Run (Option AreaRef) := do
  let end_ ← FindFirstAreaInDirection_end_f32 range
  FindFirstAreaInDirection_loop_f32 host m start dir beneathLimit traceIgnore end_.toNat start

/-- The start value of the total extent in `Load` as `float`: the literals
`9999999999.9f` and `-9999999999.9f` are the binary32 numbers `10000000000` and
`-10000000000`. -/
def Load_extent0_f32 : Extent :=
  ⟨⟨F32.round 9999999999.9, F32.round 9999999999.9, 0⟩,
   ⟨F32.round (-9999999999.9), F32.round (-9999999999.9), 0⟩⟩

/-- `NavigationMap::Load(path)` with the grid in binary32 arithmetic: the total extent
starts from the `float` literals and the grid part is `Load_grid_f32`. The area loop
compares and copies the `float` members of the records; `Validate` and `BuildLadders`
are those of `Load`, and what they compute is not read by the grid queries. -/
def Load_f32 (host : Host) (file : Option NavFile) (s : State) : Run (Bool × State) :=
  match file with
  | none => .ok (false, s)
  | some f => do
    let s := Destroy s
    let s : State := { s with statics := { s.statics with NavArea_m_nextID := 1 } }
    let directory ← Load_places f.version s.mesh.m_placeDirectory f.places
    let s : State := { s with mesh := { s.mesh with m_placeDirectory := directory } }
    let st ← f.areas.foldlM (Load_area f.version) (s, Load_extent0_f32)
    let m ← Load_grid_f32 st.1.mesh st.2
    let m ← (List.range m.m_areas.length).foldlM Validate m
    let m ← BuildLadders host m
    pure (true, { st.1 with mesh := m })

/-! ## Vocabulary of the statements

The definitions of this part are not taken from the source: they name the notions that
the statements below are about. -/

/-- Spec side of claim C10: the members of `ps` in order of first occurrence. -/
def firstOccurrences : List Place → List Place
  | [] => []
  | p :: ps => p :: (firstOccurrences ps).filter (fun q => q ≠ p)

/-- The area at `r` passes the filters of `GetNavArea` for the probe `pos`: its XY
rectangle contains the probe and its height `z` there satisfies
`pos.z - beneathLimit ≤ z ≤ pos.z + 5`. -/
def Admissible (areas : List NavArea) (pos : Vector) (beneathLimit : ℚ) (r : AreaRef) (z : ℚ) :
    Prop :=
  ∃ area, areas[r]? = some area ∧ area.IsOverlapping pos = true ∧ area.GetZ pos = .ok z ∧
    pos.z - beneathLimit ≤ z ∧ z ≤ pos.z + 5

/-- The bucket of the cell that `GetNavArea` probes for `pos`. -/
def NavAreaGrid.probedCell (g : NavAreaGrid) (pos : Vector) : Run (List AreaRef) :=
  g.bucket (g.WorldToGridX pos.x + g.WorldToGridY pos.y * g.m_gridSizeX)

/-- The members of an area that the grid queries read: id, extent, implicit corner
heights and the forward link of the hash chain. -/
def NavArea.core (a : NavArea) : Nat × Extent × ℚ × ℚ × Option AreaRef :=
  (a.m_id, a.m_extent, a.m_neZ, a.m_swZ, a.m_nextHash)

/-- The map `m2` has the grid of `m` and areas that agree with those of `m` on the
members the grid queries read. -/
def SameIndex (m m2 : NavigationMap) : Prop :=
  m2.m_navAreaGrid = m.m_navAreaGrid ∧ m2.m_areas.map NavArea.core = m.m_areas.map NavArea.core

/-- The geometry members of an area: id, extent and implicit corner heights. -/
def NavArea.geometry (a : NavArea) : Nat × Extent × ℚ × ℚ :=
  (a.m_id, a.m_extent, a.m_neZ, a.m_swZ)

/-- The geometry fields of an area record of the file. -/
def AreaRecord.geometry (r : AreaRecord) : Nat × Extent × ℚ × ℚ :=
  (r.id, r.extent, r.neZ, r.swZ)

/-- The area pointer `r` is in the bucket `cells[j]`. -/
def inBucket (cells : List (List AreaRef)) (j : Nat) (r : AreaRef) : Prop :=
  ∃ l, cells[j]? = some l ∧ r ∈ l

/-- The bucket `j` is one of those that `AddNavArea` visits for an area of extent `e`:
`j = x + y * m_gridSizeX` for a cell `(x, y)` between the cells of `e.lo` and `e.hi`. -/
def NavAreaGrid.covers (g : NavAreaGrid) (e : Extent) (j : Nat) : Prop :=
  ∃ x y : Int, (g.WorldToGridX e.lo.x ≤ x ∧ x ≤ g.WorldToGridX e.hi.x) ∧
    (g.WorldToGridY e.lo.y ≤ y ∧ y ≤ g.WorldToGridY e.hi.y) ∧
    0 ≤ x + y * g.m_gridSizeX ∧ j = (x + y * g.m_gridSizeX).toNat

/-- The bucket indices that the nested loops of `forCells` visit, in order. -/
def cellIndices (sizeX loX hiX loY hiY : Int) : List Int :=
  (intRange loY hiY).flatMap (fun y => (intRange loX hiX).map (fun x => x + y * sizeX))

/-- The head of the hash chain of `key` after the first `k` areas of a list with the ids
`ids` were added: the last of them whose id hashes to `key`. -/
def lastBelow (ids : List Nat) : Nat → Nat → Option AreaRef
  | 0, _ => none
  | k + 1, key =>
    if ids[k]?.map NavAreaGrid.ComputeHashKey = some key then some k else lastBelow ids k key

/-- The last of the first `k` areas of a list with the ids `ids` whose id is `id`. -/
def lastWithId (ids : List Nat) : Nat → Nat → Option AreaRef
  | 0, _ => none
  | k + 1, id => if ids[k]? = some id then some k else lastWithId ids k id

/-- The members of an area that are written only by the area loop of `Load` and by
`Validate`: the area with its hash links and its ladder lists blanked. -/
def NavArea.content (a : NavArea) : NavArea :=
  { a with m_prevHash := none, m_nextHash := none, m_ladder := [] }

/-- The map `m2` has the place directory and the hiding spots of `m`, and areas that
agree with those of `m` up to hash links and ladder lists. -/
def Kept (m m2 : NavigationMap) : Prop :=
  m2.m_areas.map NavArea.content = m.m_areas.map NavArea.content ∧
  m2.m_placeDirectory = m.m_placeDirectory ∧ m2.m_hidingSpots = m.m_hidingSpots

/-- The hash table and the forward links are those `Load` builds: each chain starts with
the last area of its key, each area links to the last earlier area of its key. -/
def Indexed (m : NavigationMap) : Prop :=
  (∀ key, m.m_navAreaGrid.m_hashTable key
    = lastBelow (m.m_areas.map NavArea.m_id) m.m_areas.length key) ∧
  (∀ j a, m.m_areas[j]? = some a →
    a.m_nextHash = lastBelow (m.m_areas.map NavArea.m_id) j
      (NavAreaGrid.ComputeHashKey a.m_id))

/-- The area that the id `n` stands for in a list of areas with the ids `ids`: none for
the id 0, else the last area with the id `n`. -/
def resolveId (ids : List Nat) (n : Nat) : Option AreaRef :=
  if n = 0 then none else lastWithId ids ids.length n

/-- The neighbour ids of a record as the area loop of `Load` reads them: one list per
direction `NORTH`, `EAST`, `SOUTH`, `WEST`, each in file order. -/
def AreaRecord.connectIds (r : AreaRecord) : List (List Nat) :=
  (List.range NUM_DIRECTIONS).map (fun d => r.connect.getD d [])

/-- The area `a` carries what the area loop of `Load` stores for the record `r` when
the place directory is `d`: the members read from the record, with every connection
still an id. The hiding spots, which go to the store of the map, are not covered. -/
def FromRecord (d : PlaceDirectory) (r : AreaRecord) (a : NavArea) : Prop :=
  a.m_id = r.id ∧ a.m_attributeFlags = r.attributeFlags ∧ a.m_extent = r.extent ∧
  a.m_neZ = r.neZ ∧ a.m_swZ = r.swZ ∧
  a.m_connect = r.connectIds.map (fun l => l.map NavConnect.id) ∧
  a.encounter_spots = r.encounters.map Load_encounter ∧
  a.m_approachCount = r.approach.length ∧
  (∃ n, r.approach.foldlM Load_approach
    (List.replicate NavArea.MAX_APPROACH_AREAS NavArea.ApproachInfo_zero, 0)
      = .ok (a.m_approach, n)) ∧
  d.EntryToPlace r.placeEntry = .ok a.m_place

/-- The members of an area that `Load` does not write after its area loop: the area
with the members blanked that the grid, `Validate` and `BuildLadders` write. -/
def NavArea.unvalidated (a : NavArea) : NavArea :=
  { a.content with m_connect := [], m_approach := [], encounter_spots := [],
                   m_overlapList := [] }

/-- The string that a `char` buffer holding `bytes` stands for: the bytes before the
first zero byte. -/
def cString (bytes : List Nat) : String :=
  String.mk ((bytes.takeWhile (fun b => b ≠ 0)).map Char.ofNat)

/-- The id that the fixed table of `Load` gives to a place name of the file, read as a
zero-terminated string; none for a name that the table does not have. -/
def placeOfName (name : List Nat) : Option Place :=
  place_id.lookup (cString name)

/-- The hiding spots that a version-1 file stands for, `start` spots having been made
before: position from the file, the flag `IN_COVER`, ids counting up from `start` in
32 bits. -/
def spotsOfV1 (start : Nat) : List SpotRecord → List HidingSpot
  | [] => []
  | r :: rs => ⟨r.pos, start % 2 ^ 32, HidingSpot.IN_COVER⟩ :: spotsOfV1 (start + 1) rs

/-- The pointers into the spot store that the areas of the records hold when the store
had `start` spots before: each area the pointers to its own spots, in file order. -/
def spotRefs (start : Nat) : List AreaRecord → List (List SpotRef)
  | [] => []
  | r :: rs => List.range' start r.hidingSpots.length ::
      spotRefs (start + r.hidingSpots.length) rs

/-- The hiding spots that the spot records of a file of the given version stand for,
`start` spots having been made before: for version 1 those of `spotsOfV1`, for every
other version the id, position and flags of each record. -/
def spotsOf (version : Nat) (start : Nat) (recs : List SpotRecord) : List HidingSpot :=
  if version = 1 then spotsOfV1 start recs
  else recs.map (fun r => (⟨r.pos, r.id, r.flags⟩ : HidingSpot))

/-- The reader `rd`, on every stream that starts with the bytes `enc`, returns `v` and
leaves what follows `enc`. -/
def Reads {α : Type} (rd : Reader α) (enc : List Nat) (v : α) : Prop :=
  ∀ rest, rd (enc ++ rest) = .ok (v, rest)

/-- Layout of the format: the `size` bytes of the unsigned integer `n`, least
significant byte first. -/
def encLE : Nat → Nat → List Nat
  | 0, _ => []
  | size + 1, n => n % 256 :: encLE size (n / 256)

/-- The function `bits` gives a bit pattern of the `float` of the value `q`. -/
def Encodable (bits : ℚ → Nat) (q : ℚ) : Prop :=
  bits q < 2 ^ 32 ∧ floatOfBits (bits q) = .ok q

/-- Layout of the format: a `Vector` is three `f32`. -/
def encVector (bits : ℚ → Nat) (v : Vector) : List Nat :=
  encLE 4 (bits v.x) ++ encLE 4 (bits v.y) ++ encLE 4 (bits v.z)

/-- Layout of the format: an `Extent` is six `f32`, `lo` first. -/
def encExtent (bits : ℚ → Nat) (e : Extent) : List Nat :=
  encVector bits e.lo ++ encVector bits e.hi

/-- Layout of the format: `u32 connCount; u32[connCount] neighbourIds`. -/
def encConnect (l : List Nat) : List Nat :=
  encLE 4 l.length ++ l.flatMap (encLE 4)

/-- Layout of the format, version 2 and up: `u32 id; Vector pos; u8 flags`. -/
def encSpot (bits : ℚ → Nat) (r : SpotRecord) : List Nat :=
  encLE 4 r.id ++ encVector bits r.pos ++ encLE 1 r.flags

/-- Layout of the format:
`u32 hereId; u32 prevId; u8 prevHow; u32 nextId; u8 nextHow`. -/
def encApproach (r : ApproachRecord) : List Nat :=
  encLE 4 r.hereId ++ encLE 4 r.prevId ++ encLE 1 r.prevHow ++ encLE 4 r.nextId ++
    encLE 1 r.nextHow

/-- Layout of the format: `u32 spotId; u8 tByte`. -/
def encOrder (sp : Nat × Nat) : List Nat :=
  encLE 4 sp.1 ++ encLE 1 sp.2

/-- Layout of the format: `u32 fromId; u8 fromDir; u32 toId; u8 toDir; u8 spotCount`
and the spots. -/
def encEncounter (r : EncounterRecord) : List Nat :=
  encLE 4 r.fromId ++ encLE 1 r.fromDir ++ encLE 4 r.toId ++ encLE 1 r.toDir ++
    encLE 1 r.spots.length ++ r.spots.flatMap encOrder

/-- Layout of the format, version 2 and up: one area record. -/
def encArea (bits : ℚ → Nat) (r : AreaRecord) : List Nat :=
  encLE 4 r.id ++ encLE 1 r.attributeFlags ++ encExtent bits r.extent ++
    encLE 4 (bits r.neZ) ++ encLE 4 (bits r.swZ) ++ r.connect.flatMap encConnect ++
    encLE 1 r.hidingSpots.length ++ r.hidingSpots.flatMap (encSpot bits) ++
    encLE 1 r.approach.length ++ r.approach.flatMap encApproach ++
    encLE 4 r.encounters.length ++ r.encounters.flatMap encEncounter ++
    encLE 2 r.placeEntry

/-- Layout of the format: `u16 nameLen; char[nameLen] name`. -/
def encName (name : List Nat) : List Nat :=
  encLE 2 name.length ++ name

/-- Layout of the format, version 5 and up: the whole stream. -/
def encFile (bits : ℚ → Nat) (f : NavFile) : List Nat :=
  encLE 4 f.magic ++ encLE 4 f.version ++ encLE 4 f.saveBspSize ++
    encLE 2 f.places.length ++ f.places.flatMap encName ++
    encLE 4 f.areas.length ++ f.areas.flatMap (encArea bits)

/-- The vector has an encoding: its three values have bit patterns. -/
def Vector.Fits (bits : ℚ → Nat) (v : Vector) : Prop :=
  Encodable bits v.x ∧ Encodable bits v.y ∧ Encodable bits v.z

/-- The spot record has an encoding: every field fits the width that the format gives
it. -/
def SpotRecord.Fits (bits : ℚ → Nat) (r : SpotRecord) : Prop :=
  r.id < 2 ^ 32 ∧ r.pos.Fits bits ∧ r.flags < 256

/-- The approach record has an encoding. -/
def ApproachRecord.Fits (r : ApproachRecord) : Prop :=
  r.hereId < 2 ^ 32 ∧ r.prevId < 2 ^ 32 ∧ r.prevHow < 256 ∧ r.nextId < 2 ^ 32 ∧
  r.nextHow < 256

/-- The encounter record has an encoding. -/
def EncounterRecord.Fits (r : EncounterRecord) : Prop :=
  r.fromId < 2 ^ 32 ∧ r.fromDir < 256 ∧ r.toId < 2 ^ 32 ∧ r.toDir < 256 ∧
  r.spots.length < 256 ∧ ∀ sp ∈ r.spots, sp.1 < 2 ^ 32 ∧ sp.2 < 256

/-- The area record has an encoding: four lists of connections, and every field and
every count fits the width that the format gives it. -/
def AreaRecord.Fits (bits : ℚ → Nat) (r : AreaRecord) : Prop :=
  r.id < 2 ^ 32 ∧ r.attributeFlags < 256 ∧
  (r.extent.lo.Fits bits ∧ r.extent.hi.Fits bits) ∧
  Encodable bits r.neZ ∧ Encodable bits r.swZ ∧
  (r.connect.length = NUM_DIRECTIONS ∧
    ∀ l ∈ r.connect, l.length < 2 ^ 32 ∧ ∀ n ∈ l, n < 2 ^ 32) ∧
  (r.hidingSpots.length < 256 ∧ ∀ sp ∈ r.hidingSpots, sp.Fits bits) ∧
  (r.approach.length < 256 ∧ ∀ ap ∈ r.approach, ap.Fits) ∧
  (r.encounters.length < 2 ^ 32 ∧ ∀ en ∈ r.encounters, en.Fits) ∧
  r.placeEntry < 2 ^ 16

/-- The file has an encoding as a stream of version 5. -/
def NavFile.Fits (bits : ℚ → Nat) (f : NavFile) : Prop :=
  f.magic < 2 ^ 32 ∧ f.version = 5 ∧ f.saveBspSize < 2 ^ 32 ∧
  (f.places.length < 2 ^ 16 ∧ ∀ name ∈ f.places, name.length < 2 ^ 16) ∧
  (f.areas.length < 2 ^ 32 ∧ ∀ r ∈ f.areas, r.Fits bits)

/-- The slot of the approach table that the area loop of `Load` fills from an approach
record: the three areas as ids. -/
def ApproachRecord.toInfo (r : ApproachRecord) : ApproachInfo :=
  ⟨.id r.hereId, .id r.prevId, r.prevHow, .id r.nextId, r.nextHow⟩

instance (bits : ℚ → Nat) (q : ℚ) : Decidable (Encodable bits q) := by
  unfold Encodable; infer_instance

instance (bits : ℚ → Nat) (v : Vector) : Decidable (v.Fits bits) := by
  unfold Vector.Fits; infer_instance

instance (bits : ℚ → Nat) (r : SpotRecord) : Decidable (r.Fits bits) := by
  unfold SpotRecord.Fits; infer_instance

instance (r : ApproachRecord) : Decidable r.Fits := by
  unfold ApproachRecord.Fits; infer_instance

instance (r : EncounterRecord) : Decidable r.Fits := by
  unfold EncounterRecord.Fits; infer_instance

instance (bits : ℚ → Nat) (r : AreaRecord) : Decidable (r.Fits bits) := by
  unfold AreaRecord.Fits; infer_instance

instance (bits : ℚ → Nat) (f : NavFile) : Decidable (f.Fits bits) := by
  unfold NavFile.Fits; infer_instance

/-- Spec side of claim C28: `clamp(floor((w - min) / 300), 0, size - 1)`, the cell of the
world coordinate `w` on an axis that starts at `minW` and has `size` cells. -/
def WorldToGrid_spec (minW : ℚ) (size : Int) (w : ℚ) : Int :=
  max 0 (min ⌊(w - minW) / 300⌋ (size - 1))

/-- The grid has positive sizes and a bucket array of `m_gridSizeX * m_gridSizeY`
buckets. -/
def NavAreaGrid.Allocated (g : NavAreaGrid) : Prop :=
  1 ≤ g.m_gridSizeX ∧ 1 ≤ g.m_gridSizeY ∧
  ∃ cs, g.m_grid = some cs ∧ (cs.length : Int) = g.m_gridSizeX * g.m_gridSizeY

/-- Spec side of claim C35: the `k`-th position that `FindFirstAreaInDirection` probes,
`start + k * 25 * unit(dir)`, with the unit vector of `DirectionToVector2D`. -/
def FindFirstAreaInDirection_probe (start : Vector) (dir : NavDirType) (k : Nat) : Vector :=
  ⟨start.x + (k : ℚ) * GenerationStepSize * (DirectionToVector2D dir ⟨0, 0⟩).x,
   start.y + (k : ℚ) * GenerationStepSize * (DirectionToVector2D dir ⟨0, 0⟩).y, start.z⟩

/-- The overlap list that claim C37 describes for the area `a` behind the pointer `i`:
the pointers to the other areas of the store that `a.IsOverlapping` accepts, in the
order of the store. -/
def overlapsOf (areas : List NavArea) (i : AreaRef) (a : NavArea) : List AreaRef :=
  (List.range areas.length).filter (fun j =>
    decide (j ≠ i) &&
      (match areas[j]? with
       | some area2 => a.IsOverlapping_area area2
       | none => false))

/-- The list `l` is the hash chain that starts at the pointer `cur` and whose first area
has the back link `prev`: every pointer of `l` is an area of the store, each area links
back to the one before it and forward to the one after it, and the last one has no
`m_nextHash`. -/
def IsChain (areas : List NavArea) : Option AreaRef → Option AreaRef → List AreaRef → Prop
  | _, cur, [] => cur = none
  | prev, cur, x :: rest =>
    cur = some x ∧ ∃ a, areas[x]? = some a ∧ a.m_prevHash = prev ∧
      IsChain areas (some x) a.m_nextHash rest

/-- The id-hash invariant of claim C32 on a store and a grid, with the list `ms` of the
areas that are in the grid: every slot of the hash table heads a chain whose head has no
`m_prevHash`; every area of the chain of the slot `k` has the hash key `k`; no chain
holds an area twice; the areas of the chains are the areas in the grid; and
`m_areaCount`, a counter of 32 bits, is the number of the areas in the 256 chains. -/
def HashInvariant (areas : List NavArea) (g : NavAreaGrid) (ms : List AreaRef) : Prop :=
  ∃ chains : Nat → List AreaRef,
    (∀ k, IsChain areas none (g.m_hashTable k) (chains k)) ∧
    (∀ k x, x ∈ chains k → ∃ a, areas[x]? = some a ∧ NavAreaGrid.ComputeHashKey a.m_id = k) ∧
    (∀ k, (chains k).Nodup) ∧
    (∀ x, x ∈ ms ↔ ∃ k, x ∈ chains k) ∧
    g.m_areaCount
      = ((List.range NavAreaGrid.HASH_TABLE_SIZE).map (fun k => (chains k).length)).sum
          % 2 ^ 32

/-- A call of one of the three methods of `NavAreaGrid` that claim C32 speaks of. -/
inductive GridOp where
  | reset : GridOp
  | add (area : AreaRef) : GridOp
  | remove (area : AreaRef) : GridOp
  deriving DecidableEq, Repr

/-- The call `op` on the store and the grid. -/
def GridOp.run (st : List NavArea × NavAreaGrid) : GridOp → Run (List NavArea × NavAreaGrid)
  | .reset => .ok (st.1, st.2.Reset)
  | .add area => st.2.AddNavArea st.1 area
  | .remove area => st.2.RemoveNavArea st.1 area

/-- The areas in the grid after the call `op`, when `ms` were in it before: `Reset`
empties the grid, `AddNavArea` enters its area, `RemoveNavArea` takes its area out. -/
def GridOp.members (ms : List AreaRef) : GridOp → List AreaRef
  | .reset => []
  | .add area => ms ++ [area]
  | .remove area => ms.filter (fun r => r ≠ area)

/-- The call `op` adds only an area that is not in the grid and removes only an area
that is in the grid. -/
def GridOp.Valid (ms : List AreaRef) : GridOp → Prop
  | .reset => True
  | .add area => area ∉ ms
  | .remove area => area ∈ ms

/-- The calls `ops` in sequence on the store and the grid. -/
def GridOps_run (ops : List GridOp) (st : List NavArea × NavAreaGrid) :
    Run (List NavArea × NavAreaGrid) :=
  ops.foldlM GridOp.run st

/-- The areas in the grid after the calls `ops`. -/
def GridOps_members (ms : List AreaRef) (ops : List GridOp) : List AreaRef :=
  ops.foldl GridOp.members ms

/-- Every call of the sequence `ops` is valid on the grid it meets. -/
def GridOps_Valid : List AreaRef → List GridOp → Prop
  | _, [] => True
  | ms, op :: rest => op.Valid ms ∧ GridOps_Valid (op.members ms) rest

/-- The statements of `RemoveNavArea_unlink` that come before the second read of the
area, as a computation of its own: the branch on `area->m_prevHash`. -/
def RemoveNavArea_unlink_first (areas : List NavArea) (table : Nat → Option AreaRef)
    (a : NavArea) : Run (List NavArea × (Nat → Option AreaRef)) :=
  match a.m_prevHash with
  | some prev =>
    update areas prev (fun p => { p with m_nextHash := a.m_nextHash }) >>= fun areas1 =>
      pure (areas1, table)
  | none =>
    match a.m_nextHash with
    | some head =>
      update areas head (fun h => { h with m_prevHash := none }) >>= fun areas1 =>
        pure (areas1, fun k =>
          if k = NavAreaGrid.ComputeHashKey a.m_id then a.m_nextHash else table k)
    | none =>
      pure (areas, fun k =>
        if k = NavAreaGrid.ComputeHashKey a.m_id then a.m_nextHash else table k)

/-- The statements of `RemoveNavArea_unlink` from the second read of the area on: the
branch on `area->m_nextHash`. -/
def RemoveNavArea_unlink_second (area : AreaRef)
    (st : List NavArea × (Nat → Option AreaRef)) :
    Run (List NavArea × (Nat → Option AreaRef)) :=
  deref st.1 area >>= fun a1 =>
    match a1.m_nextHash with
    | some next =>
      update st.1 next (fun n => { n with m_prevHash := a1.m_prevHash }) >>= fun areas3 =>
        pure (areas3, st.2)
    | none => pure st

/-- The area at `r` passes the filters of `GetNavArea` in binary32 arithmetic for the
probe `pos`: its XY rectangle contains the probe and its height `z` there lies between
the `float` values `pos.z - beneathLimit` and `pos.z + 5`. -/
def Admissible_f32 (areas : List NavArea) (pos : Vector) (beneathLimit : ℚ) (r : AreaRef)
    (z : ℚ) : Prop :=
  ∃ area low top, areas[r]? = some area ∧ area.IsOverlapping pos = true ∧
    area.GetZ_f32 pos = .ok z ∧ F32.sub pos.z beneathLimit = .ok low ∧
    F32.add pos.z 5 = .ok top ∧ low ≤ z ∧ z ≤ top

/-- The bucket of the cell that `GetNavArea` probes for `pos` in binary32 arithmetic. -/
def NavAreaGrid.probedCell_f32 (g : NavAreaGrid) (pos : Vector) : Run (List AreaRef) := do
  let x ← g.WorldToGridX_f32 pos.x
  let y ← g.WorldToGridY_f32 pos.y
  g.bucket (x + y * g.m_gridSizeX)

/-- The store and the grid after `AddNavArea` was called for the pointers `rs`, in
this order, in binary32 arithmetic. -/
def AddNavAreas_f32 (areas : List NavArea) (g : NavAreaGrid) (rs : List AreaRef) :
    Run (List NavArea × NavAreaGrid) :=
  rs.foldlM (fun st r => st.2.AddNavArea_f32 st.1 r) (areas, g)

/-- Spec side of claim C30 in binary32 arithmetic: the selection of `GetNavArea` (the
loop body `GetNavArea_step_f32`, started with no choice and the start value of `useZ`)
run over the list `rs` of all added areas. -/
def GetNavArea_overAll_f32 (areas : List NavArea) (rs : List AreaRef) (pos : Vector)
    (beneathLimit : ℚ) : Run (Option AreaRef) := do
  let top ← F32.add pos.z 5
  let st ← rs.foldlM
    (NavAreaGrid.GetNavArea_step_f32 areas pos ⟨pos.x, pos.y, top⟩ beneathLimit)
    (none, NavAreaGrid.GetNavArea_useZ0_f32)
  pure st.1

/-- The value `distSq` that `GetNearestNavArea` computes for the area in binary32
arithmetic: the rounded square of the rounded distance from `source` to the closest
point of the area. -/
def NavArea.distSqTo_f32 (a : NavArea) (source : Vector) : Run ℚ := do
  let close ← a.GetClosestPointOnArea_f32 source
  GetNearestNavArea_distSq_f32 close source

/-- The line-of-sight test of `GetNearestNavArea` for the area in binary32
arithmetic. -/
def NavArea.seenFrom_f32 (host : Host) (a : NavArea) (source : Vector) : Run Bool := do
  let close ← a.GetClosestPointOnArea_f32 source
  GetNearestNavArea_los_f32 host source close

/-- The area behind `r` is one that `GetNearestNavArea` may choose in binary32
arithmetic, at the computed squared distance `d` from `source`: with `anyZ = false` it
has to pass the line-of-sight test. -/
def NearCandidate_f32 (host : Host) (areas : List NavArea) (source : Vector) (anyZ : Bool)
    (r : AreaRef) (d : ℚ) : Prop :=
  ∃ a, areas[r]? = some a ∧ a.distSqTo_f32 source = .ok d ∧
    (anyZ = false → a.seenFrom_f32 host source = .ok true)

/-- The `k`-th position that `FindFirstAreaInDirection` probes in binary32 arithmetic:
`start` after `k` calls of `AddDirectionVector(&pos, dir, GenerationStepSize)`. -/
def FindFirstAreaInDirection_probe_f32 (start : Vector) (dir : NavDirType) :
    Nat → Run Vector
  | 0 => .ok start
  | k + 1 => FindFirstAreaInDirection_probe_f32 start dir k >>= fun p =>
      AddDirectionVector_f32 p dir GenerationStepSize

/-! ## Concrete data of the witnesses and counterexamples -/

/-- The sloped area of the specification: extent `(0,0,0)-(100,100,100)`,
`neZ = swZ = 50`. -/
def slopedArea : NavArea :=
  { NavArea.Initialize 1 with
    m_extent := ⟨⟨0, 0, 0⟩, ⟨100, 100, 100⟩⟩, m_neZ := 50, m_swZ := 50 }

/-- An area of zero width: extent `(10,0,3)-(10,100,8)`, `neZ = 7`. -/
def thinArea : NavArea :=
  { NavArea.Initialize 1 with
    m_extent := ⟨⟨10, 0, 3⟩, ⟨10, 100, 8⟩⟩, m_neZ := 7, m_swZ := 5 }

/-- An area lying flat at `z = -100000000`, extent `(0,0)-(100,100)`. -/
def deepArea : NavArea :=
  { NavArea.Initialize 1 with
    m_extent := ⟨⟨0, 0, -100000000⟩, ⟨100, 100, -100000000⟩⟩,
    m_neZ := -100000000, m_swZ := -100000000 }

/-- Two flat areas over the extent `(0,0)-(100,100)`, at `z = 0` and at `z = 3`. -/
def stackedAreas : List NavArea :=
  [{ NavArea.Initialize 1 with m_extent := ⟨⟨0, 0, 0⟩, ⟨100, 100, 0⟩⟩ },
   { NavArea.Initialize 2 with m_extent := ⟨⟨0, 0, 3⟩, ⟨100, 100, 3⟩⟩, m_neZ := 3, m_swZ := 3 }]

/-- A grid of one cell over the extent `(0,0)-(100,100)` whose bucket holds the two
`stackedAreas`. -/
def stackedGrid : NavAreaGrid :=
  ⟨some [[0, 1]], 1, 1, 0, 0, 2, fun _ => none⟩

/-- A host without entities in which no ray hits anything. -/
def emptyHost : Host :=
  ⟨[], fun _ to_ _ _ => ⟨false, 1, to_, ⟨0, 0, 0⟩, none⟩⟩

/-- An area record with the given id, extent and implicit corner heights and nothing
else (no connections, spots, approach records or encounters, place entry 0). -/
def plainRecord (id : Nat) (extent : Extent) (neZ swZ : ℚ) : AreaRecord :=
  ⟨id, 0, extent, neZ, swZ, [[], [], [], []], [], [], [], 0⟩

/-- The file of scenario S2: version 5, no places, the single flat area 1 over
`(0,0,0)-(100,100,0)`. -/
def flatFile : NavFile :=
  ⟨0, 5, 0, [], [plainRecord 1 ⟨⟨0, 0, 0⟩, ⟨100, 100, 0⟩⟩ 0 0]⟩

/-- A version 5 file whose single area carries the id 0. -/
def zeroIdFile : NavFile :=
  ⟨0, 5, 0, [], [plainRecord 0 ⟨⟨0, 0, 0⟩, ⟨100, 100, 0⟩⟩ 0 0]⟩

/-- A version 5 file with two areas side by side that both carry the id 7. -/
def twinFile : NavFile :=
  ⟨0, 5, 0, [], [plainRecord 7 ⟨⟨0, 0, 0⟩, ⟨100, 100, 0⟩⟩ 0 0,
                 plainRecord 7 ⟨⟨100, 0, 0⟩, ⟨200, 100, 0⟩⟩ 0 0]⟩

/-- A version 5 file with two flat areas over the extent `(0,0)-(100,100)`: area 1 at
`z = 0` and area 2 at `z = 3`. -/
def stackedFile : NavFile :=
  ⟨0, 5, 0, [], [plainRecord 1 ⟨⟨0, 0, 0⟩, ⟨100, 100, 0⟩⟩ 0 0,
                 plainRecord 2 ⟨⟨0, 0, 3⟩, ⟨100, 100, 3⟩⟩ 3 3]⟩

/-- A version-5 file without places and without areas. -/
def emptyFile : NavFile := ⟨0, 5, 0, [], []⟩

/-- The ten bytes `BombsiteA` followed by the terminating zero byte. -/
def nameBombsiteA : List Nat := [66, 111, 109, 98, 115, 105, 116, 101, 65, 0]

/-- The eight bytes `Kitchen` followed by the terminating zero byte. -/
def nameKitchen : List Nat := [75, 105, 116, 99, 104, 101, 110, 0]

/-- A version-5 file whose directory names the one place `places` entry and whose single
flat area carries place entry 1. -/
def placeFile (name : List Nat) : NavFile :=
  ⟨0, 5, 0, [name],
    [{ plainRecord 1 ⟨⟨0, 0, 0⟩, ⟨100, 100, 0⟩⟩ 0 0 with placeEntry := 1 }]⟩

/-- A file with the single flat area of id 7. -/
def sevenFile : NavFile := ⟨0, 5, 0, [], [plainRecord 7 ⟨⟨0, 0, 0⟩, ⟨100, 100, 0⟩⟩ 0 0]⟩

/-- A file with one flat area of id 1 whose only connection, to the `EAST`, names the
id 99 that no area of the file has. -/
def danglingFile : NavFile :=
  ⟨0, 5, 0, [],
    [{ plainRecord 1 ⟨⟨0, 0, 0⟩, ⟨100, 100, 0⟩⟩ 0 0 with connect := [[], [99], [], []] }]⟩

/-- A file with two flat areas side by side: A (id 1) names B (id 2) to its `EAST`,
B names A to its `WEST`. -/
def pairFile : NavFile :=
  ⟨0, 5, 0, [],
    [{ plainRecord 1 ⟨⟨0, 0, 0⟩, ⟨100, 100, 0⟩⟩ 0 0 with connect := [[], [2], [], []] },
     { plainRecord 2 ⟨⟨100, 0, 0⟩, ⟨200, 100, 0⟩⟩ 0 0 with connect := [[], [], [], [1]] }]⟩

/-- The four bytes `Zzz` and a terminating zero byte: a name that the table of `Load`
does not have. -/
def nameZzz : List Nat := [90, 122, 122, 0]

/-- A version-5 file with the place names `BombsiteA`, `Zzz`, `Kitchen`, each with its
terminating zero byte, and one flat area. -/
def namedFile : NavFile :=
  ⟨0, 5, 0, [nameBombsiteA, nameZzz, nameKitchen],
    [plainRecord 1 ⟨⟨0, 0, 0⟩, ⟨100, 100, 0⟩⟩ 0 0]⟩

/-- The file `namedFile` with the names stored without their zero bytes. -/
def bareNamedFile : NavFile :=
  ⟨0, 5, 0, [nameBombsiteA.dropLast, nameZzz.dropLast, nameKitchen.dropLast],
    [plainRecord 1 ⟨⟨0, 0, 0⟩, ⟨100, 100, 0⟩⟩ 0 0]⟩

/-- A version-5 file with the single place name of twelve bytes `Kitchen`, zero byte,
`junk`, and one flat area. -/
def junkNamedFile : NavFile :=
  ⟨0, 5, 0, [nameKitchen ++ [106, 117, 110, 107]],
    [plainRecord 1 ⟨⟨0, 0, 0⟩, ⟨100, 100, 0⟩⟩ 0 0]⟩

/-- Bit patterns of the `float` values that the example files use: 10, 20, 100 and 200,
and 0 for 0. -/
def bitsOf (q : ℚ) : Nat :=
  if q = 10 then 0x41200000 else if q = 20 then 0x41A00000
  else if q = 100 then 0x42C80000 else if q = 200 then 0x43480000 else 0

/-- A version-5 file with the place name `Kitchen` and two flat areas side by side.
A (id 1) names B (id 2) to its `EAST` and carries the place entry 1, a hiding spot with
the id 7 and the flags 1, an approach record and an encounter with one spot; B names A
to its `WEST`. -/
def richFile : NavFile :=
  ⟨4277009102, 5, 0, [nameKitchen],
    [⟨1, 0, ⟨⟨0, 0, 0⟩, ⟨100, 100, 0⟩⟩, 0, 0, [[], [2], [], []],
        [⟨7, ⟨10, 10, 0⟩, 1⟩], [⟨2, 1, 0, 2, 0⟩], [⟨2, EAST, 2, EAST, [(7, 128)]⟩], 1⟩,
     ⟨2, 0, ⟨⟨100, 0, 0⟩, ⟨200, 100, 0⟩⟩, 0, 0, [[], [], [], [1]], [], [], [], 0⟩]⟩

/-- A version-5 file with one flat area that carries 17 approach records, one more than
the approach table of an area has slots. -/
def seventeenFile : NavFile :=
  ⟨0, 5, 0, [],
    [{ plainRecord 1 ⟨⟨0, 0, 0⟩, ⟨100, 100, 0⟩⟩ 0 0 with
        approach := List.replicate 17 ⟨1, 1, 0, 1, 0⟩ }]⟩

/-- The area A of the portal scenario: flat, over `(0,0)-(100,100)`. -/
def squareA : NavArea :=
  { NavArea.Initialize 1 with m_extent := ⟨⟨0, 0, 0⟩, ⟨100, 100, 0⟩⟩ }

/-- The area B of the portal scenario: flat, over `(100,0)-(200,100)`, east of A along
a whole edge. -/
def squareB : NavArea :=
  { NavArea.Initialize 2 with m_extent := ⟨⟨100, 0, 0⟩, ⟨200, 100, 0⟩⟩ }

/-- A flat area over `(100,100)-(200,200)`: it shares the corner `(100,100)` with A. -/
def squareC : NavArea :=
  { NavArea.Initialize 3 with m_extent := ⟨⟨100, 100, 0⟩, ⟨200, 200, 0⟩⟩ }

/-- A flat area over `(50,50)-(150,150)`: it overlaps A. -/
def squareD : NavArea :=
  { NavArea.Initialize 4 with m_extent := ⟨⟨50, 50, 0⟩, ⟨150, 150, 0⟩⟩ }

/-- A host whose world is the plane `z = 0`: no entities, every ray ends at height 0
after half of its length. -/
def floorHost : Host :=
  ⟨[], fun _ to_ _ _ => ⟨false, 1 / 2, ⟨to_.x, to_.y, 0⟩, ⟨0, 0, 1⟩, none⟩⟩

/-- A version-5 file whose single area, flat over `(0,0)-(100,100)`, has `n` approach
records. -/
def approachFile (n : Nat) : NavFile :=
  ⟨0, 5, 0, [],
    [{ plainRecord 1 ⟨⟨0, 0, 0⟩, ⟨100, 100, 0⟩⟩ 0 0 with
        approach := List.replicate n ⟨1, 1, 0, 1, 0⟩ }]⟩

/-- A place name of 300 bytes: 299 letters `A` and the terminating zero byte. -/
def longName : List Nat := List.replicate 299 65 ++ [0]

/-- A place name of 256 bytes: `Kitchen`, its zero byte, and 248 further zero bytes. -/
def fullName : List Nat := nameKitchen ++ List.replicate 248 0

/-- A flat area over `(-400,-400)-(100,100)`. -/
def wideArea : NavArea :=
  { NavArea.Initialize 1 with m_extent := ⟨⟨-400, -400, 0⟩, ⟨100, 100, 0⟩⟩ }

/-- A host whose world is the plane `z = 0` with a platform at the height `h` above it:
no entities; a ray that starts below `h` ends at the height 0, any other at the height
`h`. -/
def shelfHost (h : ℚ) : Host :=
  ⟨[], fun from_ to_ _ _ =>
    ⟨false, 1 / 2, ⟨to_.x, to_.y, if from_.z < h then 0 else h⟩, ⟨0, 0, 1⟩, none⟩⟩

/-- A map whose store holds the two `stackedAreas` and whose grid is `stackedGrid`. -/
def stackedMap : NavigationMap := ⟨stackedAreas, ⟨[]⟩, stackedGrid, [], []⟩

/-- A version-5 file whose single flat area carries the id `2^32 - 1`, the largest value
of an `unsigned int`. -/
def maxIdFile : NavFile :=
  ⟨0, 5, 0, [], [plainRecord 4294967295 ⟨⟨0, 0, 0⟩, ⟨100, 100, 0⟩⟩ 0 0]⟩

/-- A host with one `func_ladder` entity of height 100, bounding box
`(0,0,0)-(10,2,100)`, in front of whose base stands a crate of height 10: a ray that
starts below the height 10 stops half way, every other ray arrives. -/
def crateHost : Host :=
  ⟨[⟨"func_ladder", ⟨0, 0, 0⟩, ⟨10, 2, 100⟩, 0⟩],
    fun from_ to_ _ _ =>
      if from_.z < 10 then ⟨false, 1 / 2, from_, ⟨0, 0, 0⟩, none⟩
      else ⟨false, 1, to_, ⟨0, 0, 0⟩, none⟩⟩

/-- Three flat areas over `(0,0)-(100,100)` with the ids 1, 257 and 513, which all have
the hash key 1. -/
def hashAreas : List NavArea :=
  [{ NavArea.Initialize 1 with m_extent := ⟨⟨0, 0, 0⟩, ⟨100, 100, 0⟩⟩ },
   { NavArea.Initialize 257 with m_extent := ⟨⟨0, 0, 0⟩, ⟨100, 100, 0⟩⟩ },
   { NavArea.Initialize 513 with m_extent := ⟨⟨0, 0, 0⟩, ⟨100, 100, 0⟩⟩ }]

/-- The grid initialised for `(0,0)-(100,100)`, and the store and the grid after the
calls `ops` on it with the store `hashAreas`. -/
def hashFill (ops : List GridOp) : Run (NavAreaGrid × List NavArea × NavAreaGrid) := do
  let g0 ← (NavAreaGrid.ctor 0 0).Initialize 0 100 0 100
  let st ← GridOps_run ops (hashAreas, g0)
  pure (g0, st.1, st.2)

/-- An area over `(0,0)-(100,100)` whose north-west corner lies at the binary32 number
of `0.3` and whose other three corners lie at the binary32 number of `0.1`. -/
def tiltedArea : NavArea :=
  { NavArea.Initialize 1 with
    m_extent := ⟨⟨0, 0, F32.round (3 / 10)⟩, ⟨100, 100, F32.round (1 / 10)⟩⟩,
    m_neZ := F32.round (1 / 10), m_swZ := F32.round (1 / 10) }

/-- The grid initialised in binary32 arithmetic for the extent `(0,0)-(100,100)`
holding `deepArea` alone. -/
def deepState_f32 : Run (List NavArea × NavAreaGrid) := do
  let g ← (NavAreaGrid.ctor 0 0).Initialize_f32 0 100 0 100
  NavAreaGrid.AddNavArea_f32 [deepArea] g 0

/-- An area lying flat at the binary32 number of `5.3`, extent `(0,0)-(100,100)`. -/
def liftedArea : NavArea :=
  { NavArea.Initialize 1 with
    m_extent := ⟨⟨0, 0, F32.round (53 / 10)⟩, ⟨100, 100, F32.round (53 / 10)⟩⟩,
    m_neZ := F32.round (53 / 10), m_swZ := F32.round (53 / 10) }

/-- The grid initialised in binary32 arithmetic for the extent `(0,0)-(100,100)`
holding `liftedArea` alone. -/
def liftedState_f32 : Run (List NavArea × NavAreaGrid) := do
  let g ← (NavAreaGrid.ctor 0 0).Initialize_f32 0 100 0 100
  NavAreaGrid.AddNavArea_f32 [liftedArea] g 0

/-- The grid initialised in binary32 arithmetic for `(0,0)-(100,100)` and filled with
the two `stackedAreas`, together with the grid as `Initialize` left it. -/
def stackedFill_f32 : Run (NavAreaGrid × List NavArea × NavAreaGrid) := do
  let g0 ← (NavAreaGrid.ctor 0 0).Initialize_f32 0 100 0 100
  let st ← AddNavAreas_f32 stackedAreas g0 [0, 1]
  pure (g0, st.1, st.2)

/-- The grid that `Initialize(0, -900, 0, -1200)` sets up in binary32 arithmetic, for an
extent whose maxima lie below its minima, after `AddNavArea` was called for
`wideArea`. -/
def invertedFill_f32 : Run (List NavArea × NavAreaGrid) := do
  let g0 ← (NavAreaGrid.ctor 0 0).Initialize_f32 0 (-900) 0 (-1200)
  AddNavAreas_f32 [wideArea] g0 [0]

/-- A host whose world is a floor at the height `lo` with a platform at the height `hi`
above it: no entities; a ray that starts below `hi` ends at the height `lo`, any other
at the height `hi`. -/
def ledgeHost (lo hi : ℚ) : Host :=
  ⟨[], fun from_ to_ _ _ =>
    ⟨false, 1 / 2, ⟨to_.x, to_.y, if from_.z < hi then lo else hi⟩, ⟨0, 0, 1⟩, none⟩⟩

end navmesh

/-! ## Theorems -/

namespace navmesh

/-! ### Helper lemmas: monadic plumbing -/

theorem fdiv_ok {a b : ℚ} (hb : b ≠ 0) : fdiv a b = .ok (a / b) := by
  simp [fdiv, hb]

theorem clamp01_of_mem {u : ℚ} (h0 : 0 ≤ u) (h1 : u ≤ 1) : NavArea.clamp01 u = u := by
  unfold NavArea.clamp01
  rw [if_neg (not_lt.mpr h0), if_neg (not_lt.mpr h1)]

theorem clamp01_nonneg (u : ℚ) : 0 ≤ NavArea.clamp01 u := by
  unfold NavArea.clamp01
  split_ifs <;> linarith

theorem clamp01_le_one (u : ℚ) : NavArea.clamp01 u ≤ 1 := by
  unfold NavArea.clamp01
  split_ifs <;> linarith

/-- Closed form of `GetZ` on an area that is not degenerate. -/
theorem GetZ_of_nondegenerate (a : NavArea) (pos : Vector)
    (hx : a.m_extent.hi.x - a.m_extent.lo.x ≠ 0) (hy : a.m_extent.hi.y - a.m_extent.lo.y ≠ 0) :
    a.GetZ pos = .ok
      ((a.m_extent.lo.z + NavArea.clamp01 ((pos.x - a.m_extent.lo.x) /
            (a.m_extent.hi.x - a.m_extent.lo.x)) * (a.m_neZ - a.m_extent.lo.z)) +
        NavArea.clamp01 ((pos.y - a.m_extent.lo.y) / (a.m_extent.hi.y - a.m_extent.lo.y)) *
          ((a.m_swZ + NavArea.clamp01 ((pos.x - a.m_extent.lo.x) /
              (a.m_extent.hi.x - a.m_extent.lo.x)) * (a.m_extent.hi.z - a.m_swZ)) -
           (a.m_extent.lo.z + NavArea.clamp01 ((pos.x - a.m_extent.lo.x) /
              (a.m_extent.hi.x - a.m_extent.lo.x)) * (a.m_neZ - a.m_extent.lo.z)))) := by
  unfold NavArea.GetZ
  simp only [hx, hy, or_self, if_false, fdiv_ok hx, fdiv_ok hy]
  rfl

/-- Value of `GetZ` on a degenerate area. -/
theorem GetZ_of_degenerate (a : NavArea) (pos : Vector)
    (h : a.m_extent.hi.x - a.m_extent.lo.x = 0 ∨ a.m_extent.hi.y - a.m_extent.lo.y = 0) :
    a.GetZ pos = .ok a.m_neZ := by
  unfold NavArea.GetZ
  simp only [h, if_true]

/-! ### `NavArea::GetZ` over exact arithmetic: claims C5 and C7 -/

/-- C5: on an area with `lo.x < hi.x` and `lo.y < hi.y`, at every `(x, y)` of its
rectangle, `GetZ(x, y)` returns the bilinear interpolation
`northZ + v * (southZ - northZ)` with `u = (x - lo.x) / (hi.x - lo.x)`,
`v = (y - lo.y) / (hi.y - lo.y)`, `northZ = lo.z + u * (neZ - lo.z)`,
`southZ = swZ + u * (hi.z - swZ)`. -/
theorem C5_GetZ_bilinear (a : NavArea) (x y : ℚ)
    (hx : a.m_extent.lo.x < a.m_extent.hi.x) (hy : a.m_extent.lo.y < a.m_extent.hi.y)
    (hx0 : a.m_extent.lo.x ≤ x) (hx1 : x ≤ a.m_extent.hi.x)
    (hy0 : a.m_extent.lo.y ≤ y) (hy1 : y ≤ a.m_extent.hi.y) :
    a.GetZ_xy x y = .ok
      (let u := (x - a.m_extent.lo.x) / (a.m_extent.hi.x - a.m_extent.lo.x)
       let v := (y - a.m_extent.lo.y) / (a.m_extent.hi.y - a.m_extent.lo.y)
       let northZ := a.m_extent.lo.z + u * (a.m_neZ - a.m_extent.lo.z)
       let southZ := a.m_swZ + u * (a.m_extent.hi.z - a.m_swZ)
       northZ + v * (southZ - northZ)) := by
  have hdx : 0 < a.m_extent.hi.x - a.m_extent.lo.x := by linarith
  have hdy : 0 < a.m_extent.hi.y - a.m_extent.lo.y := by linarith
  have hu : NavArea.clamp01 ((x - a.m_extent.lo.x) / (a.m_extent.hi.x - a.m_extent.lo.x))
      = (x - a.m_extent.lo.x) / (a.m_extent.hi.x - a.m_extent.lo.x) :=
    clamp01_of_mem (div_nonneg (by linarith) hdx.le) ((div_le_one hdx).mpr (by linarith))
  have hv : NavArea.clamp01 ((y - a.m_extent.lo.y) / (a.m_extent.hi.y - a.m_extent.lo.y))
      = (y - a.m_extent.lo.y) / (a.m_extent.hi.y - a.m_extent.lo.y) :=
    clamp01_of_mem (div_nonneg (by linarith) hdy.le) ((div_le_one hdy).mpr (by linarith))
  unfold NavArea.GetZ_xy
  rw [GetZ_of_nondegenerate a _ hdx.ne' hdy.ne']
  simp only [hu, hv]

/-- C5 at the sloped area and the point `(30, 70)`. -/
theorem C5_GetZ_bilinear_witness :
    slopedArea.GetZ_xy 30 70 = .ok
      (let u := ((30 : ℚ) - 0) / (100 - 0)
       let v := ((70 : ℚ) - 0) / (100 - 0)
       let northZ := 0 + u * (50 - 0)
       let southZ := 50 + u * (100 - 50)
       northZ + v * (southZ - northZ)) :=
  C5_GetZ_bilinear slopedArea 30 70 (by decide!) (by decide!) (by decide!) (by decide!)
    (by decide!) (by decide!)

/-- C7: on an area of zero width (`hi.x = lo.x`) or zero height (`hi.y = lo.y`),
`GetZ` returns `m_neZ` at every query point; in particular it returns normally, no
division by zero takes place. -/
theorem C7_GetZ_degenerate (a : NavArea) (pos : Vector)
    (h : a.m_extent.hi.x = a.m_extent.lo.x ∨ a.m_extent.hi.y = a.m_extent.lo.y) :
    a.GetZ pos = .ok a.m_neZ ∧ a.GetZ_xy pos.x pos.y = .ok a.m_neZ := by
  have h2 : a.m_extent.hi.x - a.m_extent.lo.x = 0 ∨ a.m_extent.hi.y - a.m_extent.lo.y = 0 :=
    h.imp (fun e => sub_eq_zero.mpr e) (fun e => sub_eq_zero.mpr e)
  exact ⟨GetZ_of_degenerate a pos h2, GetZ_of_degenerate a _ h2⟩

/-- C7 at the area of zero width and the point `(25, 40, 1)`. -/
theorem C7_GetZ_degenerate_witness :
    thinArea.GetZ ⟨25, 40, 1⟩ = .ok 7 ∧ thinArea.GetZ_xy 25 40 = .ok 7 :=
  C7_GetZ_degenerate thinArea ⟨25, 40, 1⟩ (Or.inl rfl)

/-! ### C8 – C10: `PlaceDirectory` -/

theorem firstOccurrences_filter (q : Place → Bool) (l : List Place) :
    firstOccurrences (l.filter q) = (firstOccurrences l).filter q := by
  induction l with
  | nil => rfl
  | cons x xs ih =>
    by_cases hq : q x = true
    · simp only [List.filter_cons, hq, if_true, firstOccurrences, ih, List.filter_filter]
      congr 1
      apply List.filter_congr
      intro y _
      exact Bool.and_comm _ _
    · simp only [List.filter_cons, hq, firstOccurrences, ih, List.filter_filter]
      simp only [Bool.false_eq_true, if_false]
      rw [ih]
      apply List.filter_congr
      intro y _
      by_cases hy : y = x
      · subst hy; simp [hq]
      · simp [hy]

theorem mem_firstOccurrences {l : List Place} {p : Place} :
    p ∈ firstOccurrences l ↔ p ∈ l := by
  induction l with
  | nil => simp [firstOccurrences]
  | cons x xs ih =>
    simp only [firstOccurrences, List.mem_cons, List.mem_filter, ih]
    by_cases h : p = x <;> simp [h]

theorem nodup_firstOccurrences (l : List Place) : (firstOccurrences l).Nodup := by
  induction l with
  | nil => simp [firstOccurrences]
  | cons x xs ih =>
    simp only [firstOccurrences, List.nodup_cons, List.mem_filter]
    exact ⟨by simp, ih.filter _⟩

/-- What a run of `AddPlace` calls appends to a directory `acc`. -/
theorem AddPlaces_eq (ps : List Place) (acc : List Place) (h : ∀ p ∈ ps, p < 1000) :
    PlaceDirectory.AddPlaces ⟨acc⟩ ps =
      .ok ⟨acc ++ firstOccurrences (ps.filter (fun p => decide (p ≠ 0 ∧ p ∉ acc)))⟩ := by
  induction ps generalizing acc with
  | nil => simp [PlaceDirectory.AddPlaces, firstOccurrences, pure, Except.pure]
  | cons p ps ih =>
    have hp : p < 1000 := h p (List.mem_cons_self _ _)
    have hps : ∀ q ∈ ps, q < 1000 := fun q hq => h q (List.mem_cons_of_mem _ hq)
    unfold PlaceDirectory.AddPlaces at ih ⊢
    rw [List.foldlM_cons]
    by_cases h0 : p = 0
    · simp only [PlaceDirectory.AddPlace, Undefined_Place, h0, if_true, bind, Except.bind]
      rw [ih acc hps]
      simp
    · by_cases hk : p ∈ acc
      · simp only [PlaceDirectory.AddPlace, Undefined_Place, h0, if_false, hp, not_true,
          PlaceDirectory.IsKnown, hk, decide_True, if_true, bind, Except.bind]
        rw [ih acc hps]
        simp [hk]
      · simp only [PlaceDirectory.AddPlace, Undefined_Place, h0, if_false, hp, not_true,
          PlaceDirectory.IsKnown, hk, decide_False, bind, Except.bind]
        simp only [Bool.false_eq_true, if_false]
        rw [ih (acc ++ [p]) hps]
        have hf : ps.filter (fun q => decide (q ≠ 0 ∧ q ∉ acc ++ [p]))
            = (ps.filter (fun q => decide (q ≠ 0 ∧ q ∉ acc))).filter (fun q => decide (q ≠ p)) := by
          rw [List.filter_filter]
          apply List.filter_congr
          intro y _
          by_cases hy : y = p <;> simp [hy, h0, hk]
        rw [hf, firstOccurrences_filter]
        simp [List.filter_cons, h0, hk, firstOccurrences]

/-- Every directory built from the empty one is duplicate free and holds only
non-zero places below 1000. -/
theorem AddPlaces_invariant (ps : List Place) (d : PlaceDirectory)
    (h : PlaceDirectory.AddPlaces ⟨[]⟩ ps = .ok d) :
    d.m_directory.Nodup ∧ ∀ p ∈ d.m_directory, p ≠ 0 ∧ p < 1000 := by
  suffices H : ∀ (ps : List Place) (acc d : PlaceDirectory),
      (acc.m_directory.Nodup ∧ ∀ p ∈ acc.m_directory, p ≠ 0 ∧ p < 1000) →
      PlaceDirectory.AddPlaces acc ps = .ok d →
      (d.m_directory.Nodup ∧ ∀ p ∈ d.m_directory, p ≠ 0 ∧ p < 1000) from
    H ps ⟨[]⟩ d (by simp) h
  intro ps
  induction ps with
  | nil =>
    intro acc d hacc h
    simp only [PlaceDirectory.AddPlaces, List.foldlM_nil, pure, Except.pure, Except.ok.injEq] at h
    subst h; exact hacc
  | cons p ps ih =>
    intro acc d hacc h
    unfold PlaceDirectory.AddPlaces at ih h
    rw [List.foldlM_cons] at h
    cases hstep : PlaceDirectory.AddPlace acc p with
    | error e => rw [hstep] at h; simp [bind, Except.bind] at h
    | ok acc2 =>
      rw [hstep] at h
      simp only [bind, Except.bind] at h
      refine ih acc2 d ?_ h
      unfold PlaceDirectory.AddPlace at hstep
      split_ifs at hstep with h0 hlt hk
      · cases hstep; exact hacc
      · cases hstep; exact hacc
      · cases hstep
        have hk2 : p ∉ acc.m_directory := by simpa [PlaceDirectory.IsKnown] using hk
        refine ⟨?_, ?_⟩
        · exact List.Nodup.append hacc.1 (List.nodup_singleton p) (by simpa using hk2)
        · intro q hq
          rcases List.mem_append.mp hq with hq | hq
          · exact hacc.2 q hq
          · have : q = p := by simpa using hq
            subst this
            exact ⟨h0, hlt⟩

/-- A duplicate free list of non-zero naturals below 1000 has fewer than 1000 members. -/
theorem length_lt_of_small (l : List Place) (hnd : l.Nodup) (hs : ∀ p ∈ l, p ≠ 0 ∧ p < 1000) :
    l.length < 1000 := by
  have hsub : l.toFinset ⊆ (Finset.range 1000).erase 0 := by
    intro p hp
    have := hs p (List.mem_toFinset.mp hp)
    simp [this.1, this.2]
  have hc := Finset.card_le_card hsub
  rw [List.toFinset_card_of_nodup hnd] at hc
  simp at hc
  omega

/-- C8: for every directory `d` built by a sequence of `AddPlace` calls on the empty
directory and every place `p` it holds, `GetEntry(p)` returns an entry `e` with
`EntryToPlace(e) = p`; and `EntryToPlace(0) = 0` on every directory. -/
theorem C8_place_round_trip (ps : List Place) (d : PlaceDirectory)
    (h : PlaceDirectory.AddPlaces ⟨[]⟩ ps = .ok d) :
    (∀ p ∈ d.m_directory, ∃ e, d.GetEntry p = .ok e ∧ d.EntryToPlace e = .ok p) ∧
    (∀ d2 : PlaceDirectory, d2.EntryToPlace 0 = .ok Undefined_Place) := by
  obtain ⟨hnd, hs⟩ := AddPlaces_invariant ps d h
  have hlen := length_lt_of_small d.m_directory hnd hs
  refine ⟨?_, fun d2 => by simp [PlaceDirectory.EntryToPlace]⟩
  intro p hp
  have hidx : d.m_directory.indexOf p < d.m_directory.length := List.indexOf_lt_length.mpr hp
  refine ⟨1 + d.m_directory.indexOf p, ?_, ?_⟩
  · unfold PlaceDirectory.GetEntry
    rw [if_neg (show ¬ p = Undefined_Place from (hs p hp).1), if_pos hp]
    congr 1
    apply Nat.mod_eq_of_lt
    unfold PlaceDirectory.EntryType_size
    omega
  · unfold PlaceDirectory.EntryToPlace
    have h1 : ¬ (1 + d.m_directory.indexOf p = 0) := by omega
    have h2 : ¬ (d.m_directory.indexOf p > d.m_directory.length) := by omega
    simp only [h1, if_false, Nat.add_sub_cancel_left]
    rw [if_neg h2, List.getElem?_indexOf hp]

/-- C8 at the calls `AddPlace(1), AddPlace(0), AddPlace(24), AddPlace(1), AddPlace(7)`. -/
theorem C8_place_round_trip_witness :
    (∀ p ∈ [1, 24, 7], ∃ e, PlaceDirectory.GetEntry ⟨[1, 24, 7]⟩ p = .ok e ∧
        PlaceDirectory.EntryToPlace ⟨[1, 24, 7]⟩ e = .ok p) ∧
    (∀ d2 : PlaceDirectory, d2.EntryToPlace 0 = .ok Undefined_Place) :=
  C8_place_round_trip [1, 0, 24, 1, 7] ⟨[1, 24, 7]⟩ (by decide)

/-- C9 (the code at the failing input): with `n` entries in the directory,
`EntryToPlace(n + 1)` passes the guard `i > m_directory.size()` with `i = n` and reads
`m_directory[n]`, one past the last element. -/
theorem C9_EntryToPlace_one_past_end (d : PlaceDirectory) :
    d.EntryToPlace (d.m_directory.length + 1) = .error .outOfBounds := by
  simp [PlaceDirectory.EntryToPlace]

/-- C10: a sequence of `AddPlace` calls on the empty directory (each argument within
the asserted range `place < 1000`) returns the directory of the non-zero arguments in
order of first occurrence; that directory holds neither 0 nor a duplicate, and on it
`AddPlace(0)` and `AddPlace` of a place already present change nothing. -/
theorem C10_AddPlace_first_occurrences (ps : List Place) (h : ∀ p ∈ ps, p < 1000) :
    PlaceDirectory.AddPlaces ⟨[]⟩ ps
      = .ok ⟨firstOccurrences (ps.filter (fun p => decide (p ≠ 0)))⟩ ∧
    (firstOccurrences (ps.filter (fun p => decide (p ≠ 0)))).Nodup ∧
    0 ∉ firstOccurrences (ps.filter (fun p => decide (p ≠ 0))) ∧
    (∀ d : PlaceDirectory, d.AddPlace 0 = .ok d) ∧
    (∀ p ∈ firstOccurrences (ps.filter (fun p => decide (p ≠ 0))),
      PlaceDirectory.AddPlace ⟨firstOccurrences (ps.filter (fun p => decide (p ≠ 0)))⟩ p
        = .ok ⟨firstOccurrences (ps.filter (fun p => decide (p ≠ 0)))⟩) := by
  have hmem : ∀ p, p ∈ firstOccurrences (ps.filter (fun p => decide (p ≠ 0))) ↔
      (p ∈ ps ∧ p ≠ 0) := by
    intro p; rw [mem_firstOccurrences]; simp
  refine ⟨?_, nodup_firstOccurrences _, ?_, ?_, ?_⟩
  · have := AddPlaces_eq ps [] h
    simpa using this
  · intro h0; exact ((hmem 0).mp h0).2 rfl
  · intro d; simp [PlaceDirectory.AddPlace, Undefined_Place]
  · intro p hp
    have hp2 := (hmem p).mp hp
    unfold PlaceDirectory.AddPlace
    rw [if_neg (show ¬ p = Undefined_Place from hp2.2), if_neg (not_not.mpr (h p hp2.1)), if_pos]
    exact decide_eq_true hp

/-- C10 at the calls `AddPlace(1), AddPlace(0), AddPlace(24), AddPlace(1), AddPlace(7),
AddPlace(24)`: the directory is `[1, 24, 7]`. -/
theorem C10_AddPlace_first_occurrences_witness :
    PlaceDirectory.AddPlaces ⟨[]⟩ [1, 0, 24, 1, 7, 24] = .ok ⟨[1, 24, 7]⟩ :=
  (C10_AddPlace_first_occurrences [1, 0, 24, 1, 7, 24] (by decide)).1

/-! ### `NavAreaGrid::GetNavArea` over exact arithmetic -/

theorem deref_eq_ok {areas : List NavArea} {r : AreaRef} {a : NavArea} :
    deref areas r = .ok a ↔ areas[r]? = some a := by
  unfold deref
  cases h : areas[r]? <;> simp

/-- `GetZ` reads only the `x` and `y` of the query point. -/
theorem GetZ_congr (a : NavArea) (p q : Vector) (hx : p.x = q.x) (hy : p.y = q.y) :
    a.GetZ p = a.GetZ q := by
  unfold NavArea.GetZ
  rw [hx, hy]

/-- `IsOverlapping` reads only the `x` and `y` of the query point. -/
theorem IsOverlapping_congr (a : NavArea) (p q : Vector) (hx : p.x = q.x) (hy : p.y = q.y) :
    a.IsOverlapping p = a.IsOverlapping q := by
  unfold NavArea.IsOverlapping
  rw [hx, hy]

/-- `GetZ` always returns a value. -/
theorem GetZ_total (a : NavArea) (pos : Vector) : ∃ z, a.GetZ pos = .ok z := by
  by_cases h : a.m_extent.hi.x - a.m_extent.lo.x = 0 ∨ a.m_extent.hi.y - a.m_extent.lo.y = 0
  · exact ⟨_, GetZ_of_degenerate a pos h⟩
  · rw [not_or] at h
    exact ⟨_, GetZ_of_nondegenerate a pos h.1 h.2⟩

/-- One iteration of the loop of `GetNavArea`: either the element is admissible and
higher than `useZ` and becomes the choice, or the state is unchanged and the element
is not admissible or not higher than `useZ`. -/
theorem GetNavArea_step_spec (areas : List NavArea) (pos : Vector) (L : ℚ)
    (st st2 : Option AreaRef × ℚ) (r : AreaRef)
    (h : NavAreaGrid.GetNavArea_step areas pos ⟨pos.x + 0, pos.y + 0, pos.z + 5⟩ L st r = .ok st2) :
    (∃ z, Admissible areas pos L r z ∧ st.2 < z ∧ st2 = (some r, z)) ∨
    (st2 = st ∧ ∀ z, Admissible areas pos L r z → z ≤ st.2) := by
  unfold NavAreaGrid.GetNavArea_step at h
  cases hd : deref areas r with
  | error e => rw [hd] at h; simp [bind, Except.bind] at h
  | ok area =>
    have hget := deref_eq_ok.mp hd
    have hov : area.IsOverlapping ⟨pos.x + 0, pos.y + 0, pos.z + 5⟩ = area.IsOverlapping pos :=
      IsOverlapping_congr _ _ _ (by simp) (by simp)
    have hz : area.GetZ ⟨pos.x + 0, pos.y + 0, pos.z + 5⟩ = area.GetZ pos :=
      GetZ_congr _ _ _ (by simp) (by simp)
    rw [hd] at h
    simp only [bind, Except.bind, hov, hz] at h
    obtain ⟨z, hzv⟩ := GetZ_total area pos
    rw [hzv] at h
    have unique : ∀ z2, Admissible areas pos L r z2 →
        area.IsOverlapping pos = true ∧ z2 = z ∧ pos.z - L ≤ z ∧ z ≤ pos.z + 5 := by
      rintro z2 ⟨area2, h1, h2, h3, h4, h5⟩
      rw [hget] at h1
      cases h1
      rw [hzv] at h3
      cases h3
      exact ⟨h2, rfl, h4, h5⟩
    by_cases ho : area.IsOverlapping pos = true
    · simp only [ho, if_true] at h
      by_cases h1 : z > pos.z + 5
      · right
        simp only [h1, if_true, pure, Except.pure, Except.ok.injEq] at h
        refine ⟨h.symm, fun z2 hz2 => ?_⟩
        obtain ⟨_, rfl, _, hle⟩ := unique z2 hz2
        exact absurd h1 (not_lt.mpr hle)
      · by_cases h2 : z < pos.z - L
        · right
          simp only [h1, h2, if_true, if_false, pure, Except.pure, Except.ok.injEq] at h
          refine ⟨h.symm, fun z2 hz2 => ?_⟩
          obtain ⟨_, rfl, hge, _⟩ := unique z2 hz2
          exact absurd h2 (not_lt.mpr hge)
        · by_cases h3 : z > st.2
          · left
            simp only [h1, h2, h3, if_true, if_false, pure, Except.pure, Except.ok.injEq] at h
            exact ⟨z, ⟨area, hget, ho, hzv, not_lt.mp h2, not_lt.mp h1⟩, h3, h.symm⟩
          · right
            simp only [h1, h2, h3, if_false, pure, Except.pure, Except.ok.injEq] at h
            refine ⟨h.symm, fun z2 hz2 => ?_⟩
            obtain ⟨_, rfl, _, _⟩ := unique z2 hz2
            exact not_lt.mp h3
    · right
      simp only [ho, Bool.false_eq_true, if_false, pure, Except.pure, Except.ok.injEq] at h
      refine ⟨h.symm, fun z2 hz2 => ?_⟩
      obtain ⟨hov2, _, _, _⟩ := unique z2 hz2
      exact absurd hov2 ho

/-- The loop of `GetNavArea` over a bucket: the final `useZ` bounds the start value and
every admissible height of the bucket, and a changed state names an admissible
element of the bucket together with its height. -/
theorem GetNavArea_scan_spec (areas : List NavArea) (pos : Vector) (L : ℚ) :
    ∀ (list : List AreaRef) (st st2 : Option AreaRef × ℚ),
      list.foldlM (NavAreaGrid.GetNavArea_step areas pos ⟨pos.x + 0, pos.y + 0, pos.z + 5⟩ L) st
        = .ok st2 →
      st.2 ≤ st2.2 ∧
      (∀ r ∈ list, ∀ z, Admissible areas pos L r z → z ≤ st2.2) ∧
      (st2 = st ∨ ∃ r ∈ list, st2 = (some r, st2.2) ∧ Admissible areas pos L r st2.2 ∧
        st.2 < st2.2) := by
  intro list
  induction list with
  | nil =>
    intro st st2 h
    simp only [List.foldlM_nil, pure, Except.pure, Except.ok.injEq] at h
    subst h
    exact ⟨le_rfl, by simp, Or.inl rfl⟩
  | cons r rest ih =>
    intro st st2 h
    rw [List.foldlM_cons] at h
    cases hs : NavAreaGrid.GetNavArea_step areas pos ⟨pos.x + 0, pos.y + 0, pos.z + 5⟩ L st r with
    | error e => rw [hs] at h; simp [bind, Except.bind] at h
    | ok st1 =>
      rw [hs] at h
      simp only [bind, Except.bind] at h
      obtain ⟨hmono, hmax, hsel⟩ := ih st1 st2 h
      rcases GetNavArea_step_spec areas pos L st st1 r hs with ⟨z, hadm, hlt, rfl⟩ | ⟨rfl, hnot⟩
      · refine ⟨le_trans hlt.le hmono, ?_, ?_⟩
        · intro q hq z2 hz2
          rcases List.mem_cons.mp hq with rfl | hq
          · obtain ⟨a1, e1, _, g1, _, _⟩ := hadm
            obtain ⟨a2, e2, _, g2, _, _⟩ := hz2
            rw [e1] at e2; cases e2
            rw [g1] at g2; cases g2
            exact hmono
          · exact hmax q hq z2 hz2
        · right
          rcases hsel with rfl | ⟨q, hq, he, hadm2, hlt2⟩
          · exact ⟨_, List.mem_cons_self _ _, rfl, hadm, hlt⟩
          · exact ⟨q, List.mem_cons_of_mem _ hq, he, hadm2, lt_trans hlt hlt2⟩
      · refine ⟨hmono, ?_, ?_⟩
        · intro q hq z2 hz2
          rcases List.mem_cons.mp hq with rfl | hq
          · exact le_trans (hnot z2 hz2) hmono
          · exact hmax q hq z2 hz2
        · rcases hsel with rfl | ⟨q, hq, he, hadm2, hlt2⟩
          · exact Or.inl rfl
          · exact Or.inr ⟨q, List.mem_cons_of_mem _ hq, he, hadm2, hlt2⟩

/-- Shape of a normal return of `GetNavArea` on a grid with buckets: the probed bucket
exists and the result is the first component of the scan over it. -/
theorem GetNavArea_eq_ok (areas : List NavArea) (g : NavAreaGrid) (pos : Vector) (L : ℚ)
    (res : Option AreaRef) (hg : g.m_grid.isNone = false)
    (h : g.GetNavArea areas pos L = .ok res) :
    ∃ cell st, g.probedCell pos = .ok cell ∧
      cell.foldlM (NavAreaGrid.GetNavArea_step areas pos ⟨pos.x + 0, pos.y + 0, pos.z + 5⟩ L)
        (none, NavAreaGrid.GetNavArea_useZ0) = .ok st ∧ st.1 = res := by
  unfold NavAreaGrid.GetNavArea at h
  rw [hg] at h
  simp only [Bool.false_eq_true, if_false] at h
  unfold NavAreaGrid.probedCell
  cases hb : g.bucket (g.WorldToGridX pos.x + g.WorldToGridY pos.y * g.m_gridSizeX) with
  | error e => rw [hb] at h; simp [bind, Except.bind] at h
  | ok cell =>
    rw [hb] at h
    simp only [bind, Except.bind] at h
    cases hf : cell.foldlM
        (NavAreaGrid.GetNavArea_step areas pos ⟨pos.x + 0, pos.y + 0, pos.z + 5⟩ L)
        (none, NavAreaGrid.GetNavArea_useZ0) with
    | error e => rw [hf] at h; simp at h
    | ok st =>
      rw [hf] at h
      simp only [pure, Except.pure, Except.ok.injEq] at h
      exact ⟨cell, st, rfl, hf, h⟩

/-- What `GetNavArea` returns, in terms of the probed cell (content of claim C1). -/
theorem GetNavArea_topmost (areas : List NavArea) (g : NavAreaGrid) (pos : Vector) (L : ℚ) :
    (∀ a, g.GetNavArea areas pos L = .ok (some a) →
      ∃ cell z, g.probedCell pos = .ok cell ∧ a ∈ cell ∧ Admissible areas pos L a z ∧
        ∀ b ∈ cell, ∀ zb, Admissible areas pos L b zb → zb ≤ z) ∧
    (g.GetNavArea areas pos L = .ok none →
      ∀ cell, g.probedCell pos = .ok cell →
        ∀ b ∈ cell, ∀ zb, Admissible areas pos L b zb → zb ≤ NavAreaGrid.GetNavArea_useZ0) := by
  constructor
  · intro a h
    have hg : g.m_grid.isNone = false := by
      cases hn : g.m_grid.isNone
      · rfl
      · unfold NavAreaGrid.GetNavArea at h
        rw [hn] at h
        simp at h
    obtain ⟨cell, st, hcell, hfold, hres⟩ := GetNavArea_eq_ok areas g pos L _ hg h
    obtain ⟨_, hmax, hsel⟩ := GetNavArea_scan_spec areas pos L cell _ st hfold
    rcases hsel with rfl | ⟨r, hr, he, hadm, _⟩
    · simp at hres
    · rw [he] at hres
      simp only [Option.some.injEq] at hres
      subst hres
      exact ⟨cell, st.2, hcell, hr, hadm, hmax⟩
  · intro h cell hcell b hb zb hadm
    have hg : g.m_grid.isNone = false := by
      cases hn : g.m_grid.isNone
      · rfl
      · unfold NavAreaGrid.probedCell NavAreaGrid.bucket at hcell
        cases hm : g.m_grid with
        | none => rw [hm] at hcell; simp at hcell
        | some c => rw [hm] at hn; simp at hn
    obtain ⟨cell2, st, hcell2, hfold, hres⟩ := GetNavArea_eq_ok areas g pos L _ hg h
    rw [hcell] at hcell2
    cases hcell2
    obtain ⟨_, hmax, hsel⟩ := GetNavArea_scan_spec areas pos L cell _ st hfold
    rcases hsel with rfl | ⟨r, _, he, _, _⟩
    · exact hmax b hb zb hadm
    · rw [he] at hres
      simp at hres

/-! ### The state left by `Load` -/

theorem bind_eq_ok {α β : Type} {x : Run α} {f : α → Run β} {b : β} :
    (x >>= f) = .ok b ↔ ∃ a, x = .ok a ∧ f a = .ok b := by
  cases x with
  | error e => simp [bind, Except.bind]
  | ok a => simp [bind, Except.bind]

theorem pure_eq_ok {α : Type} {a b : α} : (pure a : Run α) = .ok b ↔ a = b := by
  simp [pure, Except.pure]

/-- A monadic fold whose steps all preserve a relation to the start state preserves it. -/
theorem foldlM_preserves {σ ι : Type} (R : σ → σ → Prop) (hrefl : ∀ s, R s s)
    (htrans : ∀ a b c, R a b → R b c → R a c) (step : σ → ι → Run σ)
    (hstep : ∀ s i s2, step s i = .ok s2 → R s s2) :
    ∀ (l : List ι) (s s2 : σ), l.foldlM step s = .ok s2 → R s s2 := by
  intro l
  induction l with
  | nil =>
    intro s s2 h
    simp only [List.foldlM_nil, pure_eq_ok] at h
    subst h
    exact hrefl s
  | cons i rest ih =>
    intro s s2 h
    rw [List.foldlM_cons, bind_eq_ok] at h
    obtain ⟨s1, h1, h2⟩ := h
    exact htrans _ _ _ (hstep s i s1 h1) (ih s1 s2 h2)

/-- The phases of a `Load` that returns: the call returns `true`, and the state it
leaves is reached through the area loop, the grid part, `Validate` and
`BuildLadders`. -/
theorem Load_inv (host : Host) (f : NavFile) (s : State) (b : Bool) (s2 : State)
    (h : Load host (some f) s = .ok (b, s2)) :
    b = true ∧ ∃ (s0 : State) (st : State × Extent) (m1 m2 : NavigationMap),
      s0.mesh.m_areas = [] ∧ s0.mesh.m_navAreaGrid = (s.mesh.m_navAreaGrid).Reset ∧
      f.areas.foldlM (Load_area f.version) (s0, Load_extent0) = .ok st ∧
      Load_grid st.1.mesh st.2 = .ok m1 ∧
      (List.range m1.m_areas.length).foldlM Validate m1 = .ok m2 ∧
      BuildLadders host m2 = .ok s2.mesh := by
  unfold Load at h
  simp only [bind_eq_ok, pure_eq_ok, Prod.mk.injEq] at h
  obtain ⟨d, _, st, hst, m1, hm1, m2, hm2, m3, hm3, hb, hs⟩ := h
  refine ⟨hb.symm, _, st, m1, m2, ?_, ?_, hst, hm1, hm2, ?_⟩
  · rfl
  · rfl
  · rw [← hs]; exact hm3

theorem update_eq_ok {areas areas2 : List NavArea} {r : AreaRef} {f : NavArea → NavArea}
    (h : update areas r f = .ok areas2) :
    ∃ a, areas[r]? = some a ∧ areas2 = areas.set r (f a) := by
  unfold update at h
  cases ha : areas[r]? with
  | none => rw [ha] at h; simp at h
  | some a =>
    rw [ha] at h
    simp only [Except.ok.injEq] at h
    exact ⟨a, rfl, h.symm⟩

/-- A write through a pointer that keeps the core of the area keeps the cores of the
store. -/
theorem update_core {areas areas2 : List NavArea} {r : AreaRef} {f : NavArea → NavArea}
    (h : update areas r f = .ok areas2) (hf : ∀ a, (f a).core = a.core) :
    areas2.map NavArea.core = areas.map NavArea.core := by
  obtain ⟨a, ha, rfl⟩ := update_eq_ok h
  apply List.ext_getElem?
  intro i
  simp only [List.getElem?_map, List.getElem?_set]
  by_cases hi : r = i
  · subst hi
    have hlt : r < areas.length := by
      rcases List.getElem?_eq_some_iff.mp ha with ⟨hlt, _⟩
      exact hlt
    simp [hlt, ha, hf]
  · simp [hi]

theorem SameIndex.refl (m : NavigationMap) : SameIndex m m := ⟨rfl, rfl⟩

theorem SameIndex.trans (a b c : NavigationMap) (h1 : SameIndex a b) (h2 : SameIndex b c) :
    SameIndex a c :=
  ⟨h2.1.trans h1.1, h2.2.trans h1.2⟩

/-- `Validate` leaves the grid and the cores of the areas as they are. -/
theorem Validate_same (m m2 : NavigationMap) (area : AreaRef) (h : Validate m area = .ok m2) :
    SameIndex m m2 := by
  unfold Validate at h
  simp only [bind_eq_ok, pure_eq_ok] at h
  obtain ⟨a, _, connect, _, approach, _, encounters, _, areas, hup, rfl⟩ := h
  exact ⟨rfl, update_core hup (fun _ => rfl)⟩

theorem addLadder_core {areas areas2 : List NavArea} {area : Option AreaRef} {which : Nat}
    {ladder : LadderRef} (h : BuildLadders_addLadder areas area which ladder = .ok areas2) :
    areas2.map NavArea.core = areas.map NavArea.core := by
  unfold BuildLadders_addLadder at h
  cases area with
  | none => simp only [Except.ok.injEq] at h; rw [h]
  | some r => exact update_core h (fun _ => rfl)

/-- The second half of the body of `BuildLadders` leaves the grid and the cores of the
areas as they are. -/
theorem BuildLadders_connect_same (host : Host) (m m2 : NavigationMap) (entity : EdictRef)
    (top bottom : Vector) (dir : NavDirType)
    (h : BuildLadders_connect host m entity top bottom dir = .ok m2) : SameIndex m m2 := by
  unfold BuildLadders_connect at h
  simp only [bind_eq_ok, pure_eq_ok] at h
  obtain ⟨bottomArea, _, areas1, h1, f1, _, f2, _, f3, _, f4, _, areas2, h2, areas3, h3,
    areas4, h4, areas5, h5, adj, _, dang, _, rfl⟩ := h
  refine ⟨rfl, ?_⟩
  show areas5.map NavArea.core = m.m_areas.map NavArea.core
  rw [addLadder_core h5, addLadder_core h4, addLadder_core h3, addLadder_core h2,
    addLadder_core h1]

/-- The body of `BuildLadders` leaves the grid and the cores of the areas as they are. -/
theorem BuildLadders_one_same (host : Host) (m m2 : NavigationMap) (entity : EdictRef)
    (h : BuildLadders_one host m entity = .ok m2) : SameIndex m m2 := by
  unfold BuildLadders_one at h
  simp only [bind_eq_ok] at h
  obtain ⟨ent, _, h2⟩ := h
  exact BuildLadders_connect_same host m m2 entity _ _ _ h2

/-- `BuildLadders` leaves the grid and the cores of the areas as they are. -/
theorem BuildLadders_same (host : Host) (m m2 : NavigationMap)
    (h : BuildLadders host m = .ok m2) : SameIndex m m2 := by
  unfold BuildLadders at h
  have := foldlM_preserves SameIndex SameIndex.refl SameIndex.trans (BuildLadders_one host)
    (fun s i s2 hs => BuildLadders_one_same host s s2 i hs) _ _ _ h
  exact SameIndex.trans _ _ _ ⟨rfl, rfl⟩ this

/-- One pass of the area loop of `Load` appends one area with the geometry of the
record, leaves the grid alone and widens the total extent to cover the record. -/
theorem Load_area_spec (version : Nat) (s s2 : State) (e e2 : Extent) (r : AreaRecord)
    (h : Load_area version (s, e) r = .ok (s2, e2)) :
    (∃ a, s2.mesh.m_areas = s.mesh.m_areas ++ [a] ∧ a.geometry = r.geometry) ∧
    s2.mesh.m_navAreaGrid = s.mesh.m_navAreaGrid ∧
    (e2.lo.x ≤ e.lo.x ∧ e2.lo.x ≤ r.extent.lo.x) ∧ (e2.lo.y ≤ e.lo.y ∧ e2.lo.y ≤ r.extent.lo.y) ∧
    (e.hi.x ≤ e2.hi.x ∧ r.extent.hi.x ≤ e2.hi.x) ∧ (e.hi.y ≤ e2.hi.y ∧ r.extent.hi.y ≤ e2.hi.y) := by
  unfold Load_area at h
  simp only [bind_eq_ok, pure_eq_ok, Prod.mk.injEq] at h
  obtain ⟨ap, _, place, _, hs, he⟩ := h
  subst hs he
  refine ⟨⟨_, rfl, rfl⟩, rfl, ?_, ?_, ?_, ?_⟩
  · dsimp only
    split_ifs with hc
    · exact ⟨hc.le, le_rfl⟩
    · exact ⟨le_rfl, not_lt.mp hc⟩
  · dsimp only
    split_ifs with hc
    · exact ⟨hc.le, le_rfl⟩
    · exact ⟨le_rfl, not_lt.mp hc⟩
  · dsimp only
    split_ifs with hc
    · exact ⟨hc.le, le_rfl⟩
    · exact ⟨le_rfl, not_lt.mp hc⟩
  · dsimp only
    split_ifs with hc
    · exact ⟨hc.le, le_rfl⟩
    · exact ⟨le_rfl, not_lt.mp hc⟩

/-- The area loop of `Load`: the areas appended have the geometry of the records, in
file order; the grid is left alone; the total extent covers every record. -/
theorem Load_areas_spec (version : Nat) :
    ∀ (records : List AreaRecord) (st st2 : State × Extent),
      records.foldlM (Load_area version) st = .ok st2 →
      st2.1.mesh.m_areas.map NavArea.geometry
        = st.1.mesh.m_areas.map NavArea.geometry ++ records.map AreaRecord.geometry ∧
      st2.1.mesh.m_navAreaGrid = st.1.mesh.m_navAreaGrid ∧
      (st2.2.lo.x ≤ st.2.lo.x ∧ st2.2.lo.y ≤ st.2.lo.y ∧
        st.2.hi.x ≤ st2.2.hi.x ∧ st.2.hi.y ≤ st2.2.hi.y) ∧
      ∀ r ∈ records, st2.2.lo.x ≤ r.extent.lo.x ∧ st2.2.lo.y ≤ r.extent.lo.y ∧
        r.extent.hi.x ≤ st2.2.hi.x ∧ r.extent.hi.y ≤ st2.2.hi.y := by
  intro records
  induction records with
  | nil =>
    intro st st2 h
    simp only [List.foldlM_nil, pure_eq_ok] at h
    subst h
    simp
  | cons r rest ih =>
    intro st st2 h
    rw [List.foldlM_cons, bind_eq_ok] at h
    obtain ⟨⟨s1, e1⟩, h1, h2⟩ := h
    obtain ⟨s, e⟩ := st
    obtain ⟨⟨a, ha, hgeo⟩, hgrid, hx0, hy0, hx1, hy1⟩ := Load_area_spec version s s1 e e1 r h1
    obtain ⟨iha, ihg, ihe, ihr⟩ := ih (s1, e1) st2 h2
    dsimp only at iha ihg ihe ihr ⊢
    refine ⟨?_, ihg.trans hgrid, ?_, ?_⟩
    · rw [iha, ha]
      simp [hgeo]
    · exact ⟨le_trans ihe.1 hx0.1, le_trans ihe.2.1 hy0.1, le_trans hx1.1 ihe.2.2.1,
        le_trans hy1.1 ihe.2.2.2⟩
    · intro q hq
      rcases List.mem_cons.mp hq with rfl | hq
      · exact ⟨le_trans ihe.1 hx0.2, le_trans ihe.2.1 hy0.2, le_trans hx1.2 ihe.2.2.1,
          le_trans hy1.2 ihe.2.2.2⟩
      · exact ihr q hq

/-! ### The grid part of `Load` -/

theorem mem_intRange {lo hi x : Int} : x ∈ intRange lo hi ↔ lo ≤ x ∧ x ≤ hi := by
  unfold intRange
  simp only [List.mem_map, List.mem_range]
  constructor
  · rintro ⟨k, hk, rfl⟩
    omega
  · rintro ⟨h1, h2⟩
    refine ⟨(x - lo).toNat, ?_, ?_⟩ <;> omega

theorem mem_cellIndices {sizeX loX hiX loY hiY i : Int} :
    i ∈ cellIndices sizeX loX hiX loY hiY ↔
      ∃ x y : Int, (loX ≤ x ∧ x ≤ hiX) ∧ (loY ≤ y ∧ y ≤ hiY) ∧ i = x + y * sizeX := by
  unfold cellIndices
  simp only [List.mem_flatMap, List.mem_map, mem_intRange]
  constructor
  · rintro ⟨y, hy, x, hx, rfl⟩
    exact ⟨x, y, hx, hy, rfl⟩
  · rintro ⟨x, y, hx, hy, rfl⟩
    exact ⟨y, hy, x, hx, rfl⟩

/-- The nested loops of `forCells` are one loop over `cellIndices`. -/
theorem forCells_eq (cells : Option (List (List AreaRef))) (sizeX loX hiX loY hiY : Int)
    (f : List AreaRef → List AreaRef) :
    NavAreaGrid.forCells cells sizeX loX hiX loY hiY f
      = (cellIndices sizeX loX hiX loY hiY).foldlM
          (fun cells i => NavAreaGrid.modifyBucket cells i f) cells := by
  unfold NavAreaGrid.forCells cellIndices
  generalize intRange loY hiY = ys
  induction ys generalizing cells with
  | nil => simp
  | cons y rest ih =>
    rw [List.foldlM_cons, List.flatMap_cons, List.foldlM_append, List.foldlM_map]
    congr 1
    funext c
    exact ih c

/-- A successful `push_back(k)` on the bucket `i`. -/
theorem modifyBucket_push (cs : List (List AreaRef)) (i : Int) (k : AreaRef)
    (cells2 : Option (List (List AreaRef)))
    (h : NavAreaGrid.modifyBucket (some cs) i (fun l => l ++ [k]) = .ok cells2) :
    ∃ c2, cells2 = some c2 ∧ c2.length = cs.length ∧ 0 ≤ i ∧
      ∀ j r, inBucket c2 j r ↔ (inBucket cs j r ∨ (j = i.toNat ∧ r = k)) := by
  unfold NavAreaGrid.modifyBucket at h
  by_cases hi : i < 0
  · simp [hi] at h
  · simp only [hi, if_false] at h
    cases hl : (cs[i.toNat]?) with
    | none => rw [hl] at h; simp at h
    | some l =>
      rw [hl] at h
      simp only [Except.ok.injEq] at h
      have hlt : i.toNat < cs.length := (List.getElem?_eq_some_iff.mp hl).1
      refine ⟨_, h.symm, by simp, not_lt.mp hi, ?_⟩
      intro j r
      unfold inBucket
      rw [List.getElem?_set]
      by_cases hj : i.toNat = j
      · subst hj
        simp only [if_true, hlt, hl, Option.some.injEq, exists_eq_left', List.mem_append,
          List.mem_singleton, true_and]
      · simp only [hj, if_false]
        constructor
        · intro h2; exact Or.inl h2
        · rintro (h2 | ⟨h2, _⟩)
          · exact h2
          · exact absurd h2.symm hj

/-- A successful run of `push_back(k)` over a list of bucket indices. -/
theorem pushAll_spec (k : AreaRef) :
    ∀ (is : List Int) (c : List (List AreaRef)) (cells2 : Option (List (List AreaRef))),
      is.foldlM (fun cells i => NavAreaGrid.modifyBucket cells i (fun l => l ++ [k])) (some c)
        = .ok cells2 →
      ∃ c2, cells2 = some c2 ∧ c2.length = c.length ∧
        ∀ j r, inBucket c2 j r ↔ (inBucket c j r ∨ (r = k ∧ ∃ i ∈ is, 0 ≤ i ∧ j = i.toNat)) := by
  intro is
  induction is with
  | nil =>
    intro c cells2 h
    simp only [List.foldlM_nil, pure_eq_ok] at h
    exact ⟨c, h.symm, rfl, by simp⟩
  | cons i rest ih =>
    intro c cells2 h
    rw [List.foldlM_cons, bind_eq_ok] at h
    obtain ⟨cells1, h1, h2⟩ := h
    obtain ⟨c1, rfl, hlen1, hi0, hin1⟩ := modifyBucket_push c i k cells1 h1
    obtain ⟨c2, rfl, hlen2, hin2⟩ := ih c1 cells2 h2
    refine ⟨c2, rfl, hlen2.trans hlen1, ?_⟩
    intro j r
    rw [hin2, hin1]
    constructor
    · rintro ((h3 | ⟨h3, h4⟩) | ⟨h3, i2, hi2, h5⟩)
      · exact Or.inl h3
      · exact Or.inr ⟨h4, i, List.mem_cons_self _ _, hi0, h3⟩
      · exact Or.inr ⟨h3, i2, List.mem_cons_of_mem _ hi2, h5⟩
    · rintro (h3 | ⟨h3, i2, hi2, h5, h6⟩)
      · exact Or.inl (Or.inl h3)
      · rcases List.mem_cons.mp hi2 with rfl | hi2
        · exact Or.inl (Or.inr ⟨h6, h3⟩)
        · exact Or.inr ⟨h3, i2, hi2, h5, h6⟩

/-- A write through a pointer that keeps a projection of the area keeps that projection
of the whole store. -/
theorem update_map {β : Type} (proj : NavArea → β) {areas areas2 : List NavArea} {r : AreaRef}
    {f : NavArea → NavArea} (h : update areas r f = .ok areas2)
    (hf : ∀ a, proj (f a) = proj a) : areas2.map proj = areas.map proj := by
  obtain ⟨a, ha, rfl⟩ := update_eq_ok h
  apply List.ext_getElem?
  intro i
  simp only [List.getElem?_map, List.getElem?_set]
  by_cases hi : r = i
  · subst hi
    have hlt : r < areas.length := (List.getElem?_eq_some_iff.mp ha).1
    simp [hlt, ha, hf]
  · simp [hi]

/-- What a write through the pointer `r` leaves at `r` and elsewhere. -/
theorem update_getElem? {areas areas2 : List NavArea} {r : AreaRef} {f : NavArea → NavArea}
    (h : update areas r f = .ok areas2) :
    areas2[r]? = (areas[r]?).map f ∧ ∀ j, j ≠ r → areas2[j]? = areas[j]? := by
  obtain ⟨a, ha, rfl⟩ := update_eq_ok h
  have hlt : r < areas.length := (List.getElem?_eq_some_iff.mp ha).1
  constructor
  · rw [List.getElem?_set]
    simp [hlt, ha]
  · intro j hj
    rw [List.getElem?_set]
    simp [Ne.symm hj]

theorem map_getElem?_eq {β : Type} (proj : NavArea → β) {areas areas2 : List NavArea}
    (h : areas2.map proj = areas.map proj) (j : Nat) :
    (areas2[j]?).map proj = (areas[j]?).map proj := by
  rw [← List.getElem?_map, ← List.getElem?_map, h]

/-- What a successful `AddNavArea(k)` does on a grid with buckets `cs`: the geometry of
the areas stays, area `k` gets the old chain head as `m_nextHash`, all other forward
links stay, `k` becomes the head of the chain of its key, and `k` is appended to
exactly the buckets its extent covers. -/
theorem AddNavArea_spec (areas areas2 : List NavArea) (g g2 : NavAreaGrid) (k : AreaRef)
    (cs : List (List AreaRef)) (hg : g.m_grid = some cs)
    (h : g.AddNavArea areas k = .ok (areas2, g2)) :
    ∃ a, areas[k]? = some a ∧
      areas2.map NavArea.geometry = areas.map NavArea.geometry ∧
      (areas2[k]?).map NavArea.m_nextHash
        = some (g.m_hashTable (NavAreaGrid.ComputeHashKey a.m_id)) ∧
      (∀ j, j ≠ k → (areas2[j]?).map NavArea.m_nextHash = (areas[j]?).map NavArea.m_nextHash) ∧
      (∀ key, g2.m_hashTable key
        = if key = NavAreaGrid.ComputeHashKey a.m_id then some k else g.m_hashTable key) ∧
      (g2.m_gridSizeX = g.m_gridSizeX ∧ g2.m_gridSizeY = g.m_gridSizeY ∧
        g2.m_minX = g.m_minX ∧ g2.m_minY = g.m_minY) ∧
      ∃ cs2, g2.m_grid = some cs2 ∧ cs2.length = cs.length ∧
        ∀ j r, inBucket cs2 j r ↔ (inBucket cs j r ∨ (r = k ∧ g.covers a.m_extent j)) := by
  unfold NavAreaGrid.AddNavArea at h
  simp only [bind_eq_ok, pure_eq_ok, Prod.mk.injEq] at h
  obtain ⟨a, ha, cells, hcells, areas1, hup, rfl, rfl⟩ := h
  have hak := deref_eq_ok.mp ha
  unfold NavAreaGrid.AddNavArea_link at hup
  refine ⟨a, hak, ?_, ?_, ?_, fun key => rfl, ⟨rfl, rfl, rfl, rfl⟩, ?_⟩
  · cases hh : g.m_hashTable (NavAreaGrid.ComputeHashKey a.m_id) with
    | none =>
      rw [hh] at hup
      exact update_map NavArea.geometry hup (fun _ => rfl)
    | some head =>
      rw [hh] at hup
      simp only [bind_eq_ok] at hup
      obtain ⟨areas0, h0, h1⟩ := hup
      rw [update_map NavArea.geometry h1 (fun _ => rfl),
        update_map NavArea.geometry h0 (fun _ => rfl)]
  · cases hh : g.m_hashTable (NavAreaGrid.ComputeHashKey a.m_id) with
    | none =>
      rw [hh] at hup
      rw [(update_getElem? hup).1, hak]
      rfl
    | some head =>
      rw [hh] at hup
      simp only [bind_eq_ok] at hup
      obtain ⟨areas0, h0, h1⟩ := hup
      rw [map_getElem?_eq NavArea.m_nextHash
        (update_map NavArea.m_nextHash h1 (fun _ => rfl)) k, (update_getElem? h0).1, hak]
      rfl
  · intro j hj
    cases hh : g.m_hashTable (NavAreaGrid.ComputeHashKey a.m_id) with
    | none =>
      rw [hh] at hup
      rw [(update_getElem? hup).2 j hj]
    | some head =>
      rw [hh] at hup
      simp only [bind_eq_ok] at hup
      obtain ⟨areas0, h0, h1⟩ := hup
      rw [map_getElem?_eq NavArea.m_nextHash
        (update_map NavArea.m_nextHash h1 (fun _ => rfl)) j, (update_getElem? h0).2 j hj]
  · rw [forCells_eq, hg] at hcells
    obtain ⟨cs2, rfl, hlen, hin⟩ := pushAll_spec k _ cs cells hcells
    refine ⟨cs2, rfl, hlen, ?_⟩
    intro j r
    rw [hin]
    unfold NavAreaGrid.covers
    simp only [mem_cellIndices]
    constructor
    · rintro (h1 | ⟨h1, i, ⟨x, y, hx, hy, rfl⟩, h2, h3⟩)
      · exact Or.inl h1
      · exact Or.inr ⟨h1, x, y, hx, hy, h2, h3⟩
    · rintro (h1 | ⟨h1, x, y, hx, hy, h2, h3⟩)
      · exact Or.inl h1
      · exact Or.inr ⟨h1, _, ⟨x, y, hx, hy, rfl⟩, h2, h3⟩

theorem lastBelow_succ (ids : List Nat) (k key : Nat) :
    lastBelow ids (k + 1) key
      = if ids[k]?.map NavAreaGrid.ComputeHashKey = some key then some k
        else lastBelow ids k key := rfl

theorem lastWithId_succ (ids : List Nat) (k id : Nat) :
    lastWithId ids (k + 1) id = if ids[k]? = some id then some k else lastWithId ids k id := rfl

theorem covers_congr (g g2 : NavAreaGrid) (e : Extent) (j : Nat)
    (h : g2.m_gridSizeX = g.m_gridSizeX ∧ g2.m_gridSizeY = g.m_gridSizeY ∧
      g2.m_minX = g.m_minX ∧ g2.m_minY = g.m_minY) :
    g2.covers e j ↔ g.covers e j := by
  unfold NavAreaGrid.covers NavAreaGrid.WorldToGridX NavAreaGrid.WorldToGridY
  rw [h.1, h.2.1, h.2.2.1, h.2.2.2]

theorem getElem?_of_map_eq {β : Type} (proj : NavArea → β) {areas areas2 : List NavArea}
    (h : areas2.map proj = areas.map proj) {j : Nat} {a : NavArea} (ha : areas2[j]? = some a) :
    ∃ a0, areas[j]? = some a0 ∧ proj a0 = proj a := by
  have := map_getElem?_eq proj h j
  rw [ha] at this
  cases h0 : areas[j]? with
  | none => rw [h0] at this; simp at this
  | some a0 =>
    rw [h0] at this
    simp only [Option.map_some', Option.some.injEq] at this
    exact ⟨a0, rfl, this.symm⟩

/-- State of the map after `AddNavArea` has run for the first `k` areas of `m0`, whose
grid has empty buckets `cs0` and an empty hash table. -/
theorem Load_addToGrid_fold (m0 : NavigationMap) (cs0 : List (List AreaRef))
    (hcs0 : m0.m_navAreaGrid.m_grid = some cs0) (hempty : ∀ j r, ¬ inBucket cs0 j r)
    (hhash : ∀ key, m0.m_navAreaGrid.m_hashTable key = none) :
    ∀ (k : Nat) (m : NavigationMap),
      (List.range k).foldlM Load_addToGrid m0 = .ok m →
      m.m_areas.map NavArea.geometry = m0.m_areas.map NavArea.geometry ∧
      (m.m_navAreaGrid.m_gridSizeX = m0.m_navAreaGrid.m_gridSizeX ∧
        m.m_navAreaGrid.m_gridSizeY = m0.m_navAreaGrid.m_gridSizeY ∧
        m.m_navAreaGrid.m_minX = m0.m_navAreaGrid.m_minX ∧
        m.m_navAreaGrid.m_minY = m0.m_navAreaGrid.m_minY) ∧
      (∃ cs, m.m_navAreaGrid.m_grid = some cs ∧
        ∀ j r, inBucket cs j r ↔
          (r < k ∧ ∃ a, m0.m_areas[r]? = some a ∧ m0.m_navAreaGrid.covers a.m_extent j)) ∧
      (∀ key, m.m_navAreaGrid.m_hashTable key
        = lastBelow (m0.m_areas.map NavArea.m_id) k key) ∧
      (∀ j a, j < k → m0.m_areas[j]? = some a →
        (m.m_areas[j]?).map NavArea.m_nextHash
          = some (lastBelow (m0.m_areas.map NavArea.m_id) j
              (NavAreaGrid.ComputeHashKey a.m_id))) := by
  intro k
  induction k with
  | zero =>
    intro m h
    simp only [List.range_zero, List.foldlM_nil, pure_eq_ok] at h
    subst h
    refine ⟨rfl, ⟨rfl, rfl, rfl, rfl⟩, ⟨cs0, hcs0, ?_⟩, ?_, ?_⟩
    · intro j r
      simp [hempty j r]
    · intro key
      rw [hhash key]
      rfl
    · intro j a hj
      omega
  | succ k ih =>
    intro m h
    rw [List.range_succ, List.foldlM_append, bind_eq_ok] at h
    obtain ⟨m1, h1, h2⟩ := h
    obtain ⟨hgeo1, hpar1, ⟨cs1, hcs1, hin1⟩, htab1, hnext1⟩ := ih m1 h1
    simp only [List.foldlM_cons, List.foldlM_nil, bind_eq_ok, pure_eq_ok] at h2
    obtain ⟨m2, h2, rfl⟩ := h2
    unfold Load_addToGrid at h2
    simp only [bind_eq_ok, pure_eq_ok] at h2
    obtain ⟨⟨areas2, g2⟩, hadd, rfl⟩ := h2
    obtain ⟨a, hak, hgeo2, hnk, hnj, htab2, hpar2, cs2, hcs2, _, hin2⟩ :=
      AddNavArea_spec m1.m_areas areas2 m1.m_navAreaGrid g2 k cs1 hcs1 hadd
    obtain ⟨a0, ha0, hga0⟩ := getElem?_of_map_eq NavArea.geometry hgeo1 hak
    have hid : a0.m_id = a.m_id := congrArg (fun t => t.1) hga0
    have hext : a0.m_extent = a.m_extent := congrArg (fun t => t.2.1) hga0
    have hidk : (m0.m_areas.map NavArea.m_id)[k]? = some a.m_id := by
      rw [List.getElem?_map, ha0, ← hid]
      rfl
    dsimp only
    refine ⟨hgeo2.trans hgeo1, ?_, ⟨cs2, hcs2, ?_⟩, ?_, ?_⟩
    · exact ⟨hpar2.1.trans hpar1.1, hpar2.2.1.trans hpar1.2.1, hpar2.2.2.1.trans hpar1.2.2.1,
        hpar2.2.2.2.trans hpar1.2.2.2⟩
    · intro j r
      rw [hin2, hin1, covers_congr _ _ _ _ hpar1]
      constructor
      · rintro (⟨hr, a1, ha1, hc⟩ | ⟨rfl, hc⟩)
        · exact ⟨Nat.lt_succ_of_lt hr, a1, ha1, hc⟩
        · exact ⟨Nat.lt_succ_self _, a0, ha0, by rw [hext]; exact hc⟩
      · rintro ⟨hr, a1, ha1, hc⟩
        by_cases hrk : r = k
        · subst hrk
          rw [ha0] at ha1
          cases ha1
          exact Or.inr ⟨rfl, by rw [← hext]; exact hc⟩
        · exact Or.inl ⟨Nat.lt_of_le_of_ne (Nat.lt_succ_iff.mp hr) hrk, a1, ha1, hc⟩
    · intro key
      rw [htab2, htab1]
      rw [lastBelow_succ, hidk]
      simp only [Option.map_some', Option.some.injEq]
      by_cases hkey : key = NavAreaGrid.ComputeHashKey a.m_id
      · subst hkey
        simp
      · rw [if_neg hkey, if_neg (Ne.symm hkey)]
    · intro j a1 hj ha1
      by_cases hjk : j = k
      · subst hjk
        rw [ha0] at ha1
        cases ha1
        rw [hnk, htab1, hid]
      · rw [hnj j hjk]
        exact hnext1 j a1 (by omega) ha1

/-! ### World-to-grid conversion -/

theorem truncToInt_mono {a b : ℚ} (h : a ≤ b) : truncToInt a ≤ truncToInt b := by
  unfold truncToInt
  by_cases ha : 0 ≤ a
  · have hb : 0 ≤ b := le_trans ha h
    rw [if_pos ha, if_pos hb]
    exact Int.floor_le_floor h
  · rw [if_neg ha]
    by_cases hb : 0 ≤ b
    · rw [if_pos hb]
      have h1 : ⌈a⌉ ≤ 0 := Int.ceil_le.mpr (by push_cast; linarith)
      have h2 : (0 : Int) ≤ ⌊b⌋ := Int.le_floor.mpr (by push_cast; exact hb)
      exact le_trans h1 h2
    · rw [if_neg hb]
      exact Int.ceil_le_ceil h

theorem one_le_truncToInt {q : ℚ} (h : 1 ≤ q) : 1 ≤ truncToInt q := by
  unfold truncToInt
  rw [if_pos (by linarith)]
  exact Int.le_floor.mpr (by push_cast; exact h)

theorem WorldToGridX_mono (g : NavAreaGrid) (hs : 1 ≤ g.m_gridSizeX) {a b : ℚ} (h : a ≤ b) :
    g.WorldToGridX a ≤ g.WorldToGridX b := by
  have hm : truncToInt ((a - g.m_minX) / NavAreaGrid.m_cellSize)
      ≤ truncToInt ((b - g.m_minX) / NavAreaGrid.m_cellSize) := by
    apply truncToInt_mono
    unfold NavAreaGrid.m_cellSize
    apply div_le_div_of_nonneg_right _ (by norm_num)
    linarith
  unfold NavAreaGrid.WorldToGridX
  dsimp only
  split_ifs <;> omega

theorem WorldToGridY_mono (g : NavAreaGrid) (hs : 1 ≤ g.m_gridSizeY) {a b : ℚ} (h : a ≤ b) :
    g.WorldToGridY a ≤ g.WorldToGridY b := by
  have hm : truncToInt ((a - g.m_minY) / NavAreaGrid.m_cellSize)
      ≤ truncToInt ((b - g.m_minY) / NavAreaGrid.m_cellSize) := by
    apply truncToInt_mono
    unfold NavAreaGrid.m_cellSize
    apply div_le_div_of_nonneg_right _ (by norm_num)
    linarith
  unfold NavAreaGrid.WorldToGridY
  dsimp only
  split_ifs <;> omega

theorem WorldToGridX_nonneg (g : NavAreaGrid) (hs : 1 ≤ g.m_gridSizeX) (w : ℚ) :
    0 ≤ g.WorldToGridX w := by
  unfold NavAreaGrid.WorldToGridX
  dsimp only
  split_ifs <;> omega

theorem WorldToGridY_nonneg (g : NavAreaGrid) (hs : 1 ≤ g.m_gridSizeY) (w : ℚ) :
    0 ≤ g.WorldToGridY w := by
  unfold NavAreaGrid.WorldToGridY
  dsimp only
  split_ifs <;> omega

/-- On a grid of positive sizes the cell of a point of an extent is among the cells
that `AddNavArea` visits for the extent. -/
theorem covers_of_mem (g : NavAreaGrid) (hx : 1 ≤ g.m_gridSizeX) (hy : 1 ≤ g.m_gridSizeY)
    (e : Extent) (x y : ℚ) (hx0 : e.lo.x ≤ x) (hx1 : x ≤ e.hi.x) (hy0 : e.lo.y ≤ y)
    (hy1 : y ≤ e.hi.y) :
    0 ≤ g.WorldToGridX x + g.WorldToGridY y * g.m_gridSizeX ∧
    g.covers e (g.WorldToGridX x + g.WorldToGridY y * g.m_gridSizeX).toNat := by
  have h0 : 0 ≤ g.WorldToGridX x + g.WorldToGridY y * g.m_gridSizeX := by
    have h1 := WorldToGridX_nonneg g hx x
    have h2 := WorldToGridY_nonneg g hy y
    have h3 : 0 ≤ g.WorldToGridY y * g.m_gridSizeX := mul_nonneg h2 (by omega)
    omega
  exact ⟨h0, g.WorldToGridX x, g.WorldToGridY y,
    ⟨WorldToGridX_mono g hx hx0, WorldToGridX_mono g hx hx1⟩,
    ⟨WorldToGridY_mono g hy hy0, WorldToGridY_mono g hy hy1⟩, h0, rfl⟩

/-! ### Summary of a `Load` that returns -/

theorem Initialize_of_reset (g0 g : NavAreaGrid) (minX maxX minY maxY : ℚ)
    (h : (g0.Reset).Initialize minX maxX minY maxY = .ok g) :
    (g.m_minX = minX ∧ g.m_minY = minY ∧
      g.m_gridSizeX = truncToInt ((maxX - minX) / NavAreaGrid.m_cellSize + 1) ∧
      g.m_gridSizeY = truncToInt ((maxY - minY) / NavAreaGrid.m_cellSize + 1)) ∧
    (∃ n, g.m_grid = some (List.replicate n [])) ∧ ∀ key, g.m_hashTable key = none := by
  unfold NavAreaGrid.Initialize at h
  simp only [NavAreaGrid.Reset, Option.isSome_none, Bool.false_eq_true, if_false] at h
  split_ifs at h
  simp only [Except.ok.injEq] at h
  subst h
  exact ⟨⟨rfl, rfl, rfl, rfl⟩, ⟨_, rfl⟩, fun _ => rfl⟩

theorem not_inBucket_replicate (n j : Nat) (r : AreaRef) :
    ¬ inBucket (List.replicate n []) j r := by
  rintro ⟨l, hl, hr⟩
  have hmem : l ∈ List.replicate n ([] : List AreaRef) := List.getElem?_mem hl
  rw [List.eq_of_mem_replicate hmem] at hr
  simp at hr

theorem geometry_of_core {areas areas2 : List NavArea}
    (h : areas2.map NavArea.core = areas.map NavArea.core) :
    areas2.map NavArea.geometry = areas.map NavArea.geometry := by
  have := congrArg (List.map (fun c : Nat × Extent × ℚ × ℚ × Option AreaRef =>
    (c.1, c.2.1, c.2.2.1, c.2.2.2.1))) h
  simpa [List.map_map, Function.comp, NavArea.core, NavArea.geometry] using this

theorem nextHash_of_core {areas areas2 : List NavArea}
    (h : areas2.map NavArea.core = areas.map NavArea.core) :
    areas2.map NavArea.m_nextHash = areas.map NavArea.m_nextHash := by
  have := congrArg (List.map (fun c : Nat × Extent × ℚ × ℚ × Option AreaRef => c.2.2.2.2)) h
  simpa [List.map_map, Function.comp, NavArea.core] using this

/-- What a `Load` that returns leaves behind, as far as the grid queries are concerned:
the areas carry the geometry of the records in file order; the grid has positive sizes
as soon as one record has a non-empty interval on the axis; each bucket holds exactly
the areas whose extent covers it; each hash chain starts with the last area of its key
and each area links to the last earlier area of its key. -/
theorem Load_summary (host : Host) (f : NavFile) (s : State) (b : Bool) (s2 : State)
    (h : Load host (some f) s = .ok (b, s2)) :
    b = true ∧
    s2.mesh.m_areas.map NavArea.geometry = f.areas.map AreaRecord.geometry ∧
    (∀ r ∈ f.areas, r.extent.lo.x ≤ r.extent.hi.x → 1 ≤ s2.mesh.m_navAreaGrid.m_gridSizeX) ∧
    (∀ r ∈ f.areas, r.extent.lo.y ≤ r.extent.hi.y → 1 ≤ s2.mesh.m_navAreaGrid.m_gridSizeY) ∧
    (∃ cs, s2.mesh.m_navAreaGrid.m_grid = some cs ∧
      ∀ j r, inBucket cs j r ↔
        ∃ a, s2.mesh.m_areas[r]? = some a ∧ s2.mesh.m_navAreaGrid.covers a.m_extent j) ∧
    (∀ key, s2.mesh.m_navAreaGrid.m_hashTable key
      = lastBelow (s2.mesh.m_areas.map NavArea.m_id) s2.mesh.m_areas.length key) ∧
    (∀ j a, s2.mesh.m_areas[j]? = some a →
      a.m_nextHash = lastBelow (s2.mesh.m_areas.map NavArea.m_id) j
        (NavAreaGrid.ComputeHashKey a.m_id)) := by
  obtain ⟨hb, s0, st, m1, m2, hareas0, hgrid0, hfold, hgridphase, hval, hlad⟩ :=
    Load_inv host f s b s2 h
  obtain ⟨hgeoA, hgridA, _, hextA⟩ := Load_areas_spec f.version f.areas (s0, Load_extent0) st hfold
  dsimp only at hgeoA hgridA hextA
  rw [hareas0] at hgeoA
  simp only [List.map_nil, List.nil_append] at hgeoA
  unfold Load_grid at hgridphase
  simp only [bind_eq_ok] at hgridphase
  obtain ⟨grid, hinit, hadd⟩ := hgridphase
  rw [hgridA, hgrid0] at hinit
  obtain ⟨⟨hminX, hminY, hsx, hsy⟩, ⟨n, hcs0⟩, hhash0⟩ := Initialize_of_reset _ _ _ _ _ _ hinit
  obtain ⟨hgeo1, hpar1, ⟨cs, hcs, hin⟩, htab, hnext⟩ :=
    Load_addToGrid_fold { st.1.mesh with m_navAreaGrid := grid } (List.replicate n []) hcs0
      (not_inBucket_replicate n) hhash0 _ m1 hadd
  dsimp only at hgeo1 hpar1 hin htab hnext
  have hsame : SameIndex m1 s2.mesh :=
    SameIndex.trans _ _ _
      (foldlM_preserves SameIndex SameIndex.refl SameIndex.trans Validate
        (fun a i c hc => Validate_same a c i hc) _ _ _ hval)
      (BuildLadders_same host m2 s2.mesh hlad)
  obtain ⟨hG, hC⟩ := hsame
  have hgeo2 : s2.mesh.m_areas.map NavArea.geometry = st.1.mesh.m_areas.map NavArea.geometry :=
    (geometry_of_core hC).trans hgeo1
  have hids : s2.mesh.m_areas.map NavArea.m_id = st.1.mesh.m_areas.map NavArea.m_id := by
    have := congrArg (List.map (fun c : Nat × Extent × ℚ × ℚ => c.1)) hgeo2
    simpa [List.map_map, Function.comp, NavArea.geometry] using this
  have hlen : s2.mesh.m_areas.length = st.1.mesh.m_areas.length := by
    have := congrArg List.length hids
    simpa using this
  have hsizeX : ∀ r ∈ f.areas, r.extent.lo.x ≤ r.extent.hi.x → 1 ≤ grid.m_gridSizeX := by
    intro r hr hle
    rw [hsx]
    apply one_le_truncToInt
    have := hextA r hr
    have h0 : 0 ≤ (st.2.hi.x - st.2.lo.x) / NavAreaGrid.m_cellSize :=
      div_nonneg (by linarith [this.1, this.2.2.1]) (by unfold NavAreaGrid.m_cellSize; norm_num)
    linarith
  have hsizeY : ∀ r ∈ f.areas, r.extent.lo.y ≤ r.extent.hi.y → 1 ≤ grid.m_gridSizeY := by
    intro r hr hle
    rw [hsy]
    apply one_le_truncToInt
    have := hextA r hr
    have h0 : 0 ≤ (st.2.hi.y - st.2.lo.y) / NavAreaGrid.m_cellSize :=
      div_nonneg (by linarith [this.2.1, this.2.2.2]) (by unfold NavAreaGrid.m_cellSize; norm_num)
    linarith
  refine ⟨hb, hgeo2.trans hgeoA, ?_, ?_, ⟨cs, by rw [hG]; exact hcs, ?_⟩, ?_, ?_⟩
  · intro r hr hle
    rw [hG, hpar1.1]
    exact hsizeX r hr hle
  · intro r hr hle
    rw [hG, hpar1.2.1]
    exact hsizeY r hr hle
  · intro j r
    rw [hin, hG]
    constructor
    · rintro ⟨hr, a0, ha0, hc⟩
      have hlt : r < s2.mesh.m_areas.length := by rw [hlen]; exact hr
      refine ⟨s2.mesh.m_areas[r], List.getElem?_eq_getElem hlt, ?_⟩
      obtain ⟨a1, ha1, hg1⟩ := getElem?_of_map_eq NavArea.geometry hgeo2
        (List.getElem?_eq_getElem hlt)
      rw [ha0] at ha1
      cases ha1
      have hext : a0.m_extent = (s2.mesh.m_areas[r]).m_extent := congrArg (fun t => t.2.1) hg1
      rw [← hext, covers_congr _ _ _ _ hpar1]
      exact hc
    · rintro ⟨a, ha, hc⟩
      obtain ⟨a0, ha0, hg0⟩ := getElem?_of_map_eq NavArea.geometry hgeo2 ha
      have hext : a0.m_extent = a.m_extent := congrArg (fun t => t.2.1) hg0
      refine ⟨(List.getElem?_eq_some_iff.mp ha0).1, a0, ha0, ?_⟩
      rw [hext, ← covers_congr _ _ _ _ hpar1]
      exact hc
  · intro key
    rw [hG, htab key, hids, hlen]
  · intro j a ha
    obtain ⟨a0, ha0, hg0⟩ := getElem?_of_map_eq NavArea.geometry hgeo2 ha
    have hid : a0.m_id = a.m_id := congrArg (fun t => t.1) hg0
    have hj : j < st.1.mesh.m_areas.length := (List.getElem?_eq_some_iff.mp ha0).1
    have h1 := hnext j a0 hj ha0
    have h2 := map_getElem?_eq NavArea.m_nextHash (nextHash_of_core hC) j
    rw [ha, h1] at h2
    simp only [Option.map_some', Option.some.injEq] at h2
    rw [h2, hids, hid]

/-! ### Queries on a loaded map -/

theorem GetNavArea_step_total (areas : List NavArea) (pos testPos : Vector) (L : ℚ)
    (st : Option AreaRef × ℚ) (r : AreaRef) (hr : r < areas.length) :
    ∃ st2, NavAreaGrid.GetNavArea_step areas pos testPos L st r = .ok st2 := by
  unfold NavAreaGrid.GetNavArea_step
  have hd : deref areas r = .ok areas[r] := deref_eq_ok.mpr (List.getElem?_eq_getElem hr)
  obtain ⟨z, hz⟩ := GetZ_total areas[r] testPos
  simp only [hd, bind, Except.bind, hz, pure, Except.pure]
  split_ifs <;> exact ⟨_, rfl⟩

theorem GetNavArea_scan_total (areas : List NavArea) (pos testPos : Vector) (L : ℚ) :
    ∀ (list : List AreaRef) (st : Option AreaRef × ℚ), (∀ r ∈ list, r < areas.length) →
      ∃ st2, list.foldlM (NavAreaGrid.GetNavArea_step areas pos testPos L) st = .ok st2 := by
  intro list
  induction list with
  | nil => intro st _; exact ⟨st, rfl⟩
  | cons r rest ih =>
    intro st hall
    obtain ⟨st1, h1⟩ := GetNavArea_step_total areas pos testPos L st r
      (hall r (List.mem_cons_self _ _))
    obtain ⟨st2, h2⟩ := ih st1 (fun q hq => hall q (List.mem_cons_of_mem _ hq))
    exact ⟨st2, by rw [List.foldlM_cons, h1]; exact h2⟩

theorem IsOverlapping_iff (a : NavArea) (pos : Vector) :
    a.IsOverlapping pos = true ↔
      (a.m_extent.lo.x ≤ pos.x ∧ pos.x ≤ a.m_extent.hi.x) ∧
      (a.m_extent.lo.y ≤ pos.y ∧ pos.y ≤ a.m_extent.hi.y) := by
  unfold NavArea.IsOverlapping
  simp only [decide_eq_true_eq, ge_iff_le]
  tauto

/-- On a loaded map, a probe inside the XY rectangle of the area `i` finds a probed
cell that holds `i` and only live areas, and `GetNavArea` returns normally. -/
theorem GetNavArea_loaded (host : Host) (f : NavFile) (s : State) (b : Bool) (s2 : State)
    (h : Load host (some f) s = .ok (b, s2)) (i : AreaRef) (a : NavArea)
    (ha : s2.mesh.m_areas[i]? = some a) (pos : Vector) (hov : a.IsOverlapping pos = true)
    (L : ℚ) :
    ∃ cell res, s2.mesh.m_navAreaGrid.probedCell pos = .ok cell ∧ i ∈ cell ∧
      (∀ r ∈ cell, r < s2.mesh.m_areas.length) ∧
      s2.mesh.m_navAreaGrid.GetNavArea s2.mesh.m_areas pos L = .ok res := by
  obtain ⟨_, hgeo, hsx, hsy, ⟨cs, hcs, hin⟩, _, _⟩ := Load_summary host f s b s2 h
  obtain ⟨⟨hx0, hx1⟩, hy0, hy1⟩ := (IsOverlapping_iff a pos).mp hov
  have hrec : ∃ r ∈ f.areas, r.extent = a.m_extent := by
    have h1 := congrArg (fun l => l[i]?) hgeo
    simp only [List.getElem?_map, ha, Option.map_some'] at h1
    cases hr : f.areas[i]? with
    | none => rw [hr] at h1; simp at h1
    | some r =>
      rw [hr] at h1
      simp only [Option.map_some', Option.some.injEq] at h1
      exact ⟨r, List.getElem?_mem hr, (congrArg (fun t => t.2.1) h1).symm⟩
  obtain ⟨r, hr, hre⟩ := hrec
  have h1x := hsx r hr (by rw [hre]; linarith)
  have h1y := hsy r hr (by rw [hre]; linarith)
  obtain ⟨h0, hcov⟩ := covers_of_mem s2.mesh.m_navAreaGrid h1x h1y a.m_extent pos.x pos.y
    hx0 hx1 hy0 hy1
  obtain ⟨cell, hcell, himem⟩ := (hin _ i).mpr ⟨a, ha, hcov⟩
  have hprobe : s2.mesh.m_navAreaGrid.probedCell pos = .ok cell := by
    unfold NavAreaGrid.probedCell NavAreaGrid.bucket
    rw [hcs]
    simp only [not_lt.mpr h0, if_false, hcell]
  have hlive : ∀ q ∈ cell, q < s2.mesh.m_areas.length := by
    intro q hq
    obtain ⟨aq, haq, _⟩ := (hin _ q).mp ⟨cell, hcell, hq⟩
    exact (List.getElem?_eq_some_iff.mp haq).1
  obtain ⟨st2, hst2⟩ := GetNavArea_scan_total s2.mesh.m_areas pos
    ⟨pos.x + 0, pos.y + 0, pos.z + 5⟩ L cell (none, NavAreaGrid.GetNavArea_useZ0) hlive
  refine ⟨cell, st2.1, hprobe, himem, hlive, ?_⟩
  unfold NavAreaGrid.GetNavArea
  unfold NavAreaGrid.probedCell at hprobe
  simp only [hcs, Option.isNone_some, Bool.false_eq_true, if_false, hprobe, bind, Except.bind,
    hst2, pure, Except.pure]

/-! ### The hash chains of a loaded map -/

theorem lastWithId_some (ids : List Nat) (id : Nat) :
    ∀ (k j : Nat), lastWithId ids k id = some j →
      j < k ∧ ids[j]? = some id ∧ ∀ j2, j < j2 → j2 < k → ids[j2]? ≠ some id := by
  intro k
  induction k with
  | zero => intro j h; simp [lastWithId] at h
  | succ k ih =>
    intro j h
    rw [lastWithId_succ] at h
    by_cases hk : ids[k]? = some id
    · rw [if_pos hk] at h
      cases h
      exact ⟨Nat.lt_succ_self _, hk, fun j2 h1 h2 => by omega⟩
    · rw [if_neg hk] at h
      obtain ⟨h1, h2, h3⟩ := ih j h
      refine ⟨Nat.lt_succ_of_lt h1, h2, fun j2 h4 h5 => ?_⟩
      by_cases hj2 : j2 = k
      · subst hj2; exact hk
      · exact h3 j2 h4 (by omega)

theorem lastWithId_exists (ids : List Nat) (id i : Nat) (hi : ids[i]? = some id) :
    ∀ k, i < k → ∃ j, lastWithId ids k id = some j ∧ i ≤ j := by
  intro k
  induction k with
  | zero => intro h; omega
  | succ k ih =>
    intro h
    rw [lastWithId_succ]
    by_cases hk : ids[k]? = some id
    · rw [if_pos hk]
      exact ⟨k, rfl, by omega⟩
    · rw [if_neg hk]
      have hik : i ≠ k := by
        rintro rfl
        exact hk hi
      exact ih (by omega)

/-- Along chains linked as `Load` leaves them, the loop of `GetNavAreaByID` started at
the head of the chain among the first `k` areas returns the last of these areas with the
id looked for. -/
theorem GetNavAreaByID_loop_spec (areas : List NavArea) (id : Nat)
    (hnext : ∀ j a, areas[j]? = some a →
      a.m_nextHash = lastBelow (areas.map NavArea.m_id) j (NavAreaGrid.ComputeHashKey a.m_id)) :
    ∀ k, k ≤ areas.length → ∀ fuel, k ≤ fuel →
      NavAreaGrid.GetNavAreaByID_loop areas id fuel
          (lastBelow (areas.map NavArea.m_id) k (NavAreaGrid.ComputeHashKey id))
        = .ok (lastWithId (areas.map NavArea.m_id) k id) := by
  intro k
  induction k with
  | zero =>
    intro _ fuel _
    simp [lastBelow, lastWithId, NavAreaGrid.GetNavAreaByID_loop]
  | succ k ih =>
    intro hk fuel hfuel
    have hlt : k < areas.length := hk
    have ha : areas[k]? = some areas[k] := List.getElem?_eq_getElem hlt
    have hid : (areas.map NavArea.m_id)[k]? = some (areas[k]).m_id := by
      rw [List.getElem?_map, ha]; rfl
    rw [lastBelow_succ, lastWithId_succ, hid]
    simp only [Option.map_some', Option.some.injEq]
    by_cases hkey : NavAreaGrid.ComputeHashKey (areas[k]).m_id = NavAreaGrid.ComputeHashKey id
    · rw [if_pos hkey]
      obtain ⟨f, rfl⟩ : ∃ f, fuel = f + 1 := ⟨fuel - 1, by omega⟩
      unfold NavAreaGrid.GetNavAreaByID_loop
      simp only [ha]
      by_cases hid2 : (areas[k]).m_id = id
      · rw [if_pos hid2, if_pos hid2]
      · rw [if_neg hid2, if_neg hid2, hnext k _ ha, hkey]
        exact ih (by omega) f (by omega)
    · rw [if_neg hkey]
      have hid2 : ¬ (areas[k]).m_id = id := fun e => hkey (by rw [e])
      rw [if_neg hid2]
      exact ih (by omega) fuel (by omega)

/-! ### C4: `GetNavAreaByID` after `Load` -/

/-- C4 (as stated, refuted): after loading the file whose single area has the id 0,
`GetNavAreaByID(0)` returns none, not that area; after loading the file with two areas
of id 7, `GetNavAreaByID(7)` returns the second area (pointer 1) also for the first. -/
theorem C4_counterexample :
    (do let (_, s) ← Load emptyHost (some zeroIdFile) (State.initial 0 0)
        let a ← deref s.mesh.m_areas 0
        let r ← s.mesh.m_navAreaGrid.GetNavAreaByID s.mesh.m_areas a.m_id
        pure (a.m_id, r)) = .ok (0, none) ∧
    (do let (_, s) ← Load emptyHost (some twinFile) (State.initial 0 0)
        let a ← deref s.mesh.m_areas 0
        let r ← s.mesh.m_navAreaGrid.GetNavAreaByID s.mesh.m_areas a.m_id
        pure (a.m_id, r)) = .ok (7, some 1) := by
  decide!

/-- C4 (amended): after a `Load` that returns, for every area `a` of the area list with
a non-zero id, `GetNavAreaByID(a.id)` returns the last area of the list whose id is
`a.id` (pointer `j`, at or after `a`); it is `a` itself when no other area of the list
has the id of `a`. -/
theorem C4_GetNavAreaByID_loaded (host : Host) (f : NavFile) (s : State) (b : Bool) (s2 : State)
    (h : Load host (some f) s = .ok (b, s2)) (i : AreaRef) (a : NavArea)
    (ha : s2.mesh.m_areas[i]? = some a) (hid : a.m_id ≠ 0) :
    ∃ j a2, s2.mesh.m_navAreaGrid.GetNavAreaByID s2.mesh.m_areas a.m_id = .ok (some j) ∧
      s2.mesh.m_areas[j]? = some a2 ∧ a2.m_id = a.m_id ∧ i ≤ j ∧
      (∀ j2 a3, j < j2 → s2.mesh.m_areas[j2]? = some a3 → a3.m_id ≠ a.m_id) ∧
      ((∀ j2 a3, s2.mesh.m_areas[j2]? = some a3 → a3.m_id = a.m_id → j2 = i) → j = i) := by
  obtain ⟨_, _, _, _, _, htab, hnext⟩ := Load_summary host f s b s2 h
  have hi : i < s2.mesh.m_areas.length := (List.getElem?_eq_some_iff.mp ha).1
  have hidi : (s2.mesh.m_areas.map NavArea.m_id)[i]? = some a.m_id := by
    rw [List.getElem?_map, ha]; rfl
  obtain ⟨j, hj, hij⟩ := lastWithId_exists _ a.m_id i hidi _ hi
  obtain ⟨hjlt, hjid, hjlast⟩ := lastWithId_some _ a.m_id _ j hj
  have hget : s2.mesh.m_navAreaGrid.GetNavAreaByID s2.mesh.m_areas a.m_id = .ok (some j) := by
    unfold NavAreaGrid.GetNavAreaByID
    rw [if_neg hid, htab, GetNavAreaByID_loop_spec s2.mesh.m_areas a.m_id hnext _ le_rfl _
      (Nat.le_succ _), hj]
  rw [List.getElem?_map] at hjid
  cases haj : s2.mesh.m_areas[j]? with
  | none => rw [haj] at hjid; simp at hjid
  | some a2 =>
    rw [haj] at hjid
    simp only [Option.map_some', Option.some.injEq] at hjid
    refine ⟨j, a2, hget, haj, hjid, hij, ?_, fun huniq => huniq j a2 haj hjid⟩
    intro j2 a3 hlt ha3 hid3
    have hj2 : j2 < s2.mesh.m_areas.length := (List.getElem?_eq_some_iff.mp ha3).1
    apply hjlast j2 hlt hj2
    rw [List.getElem?_map, ha3, ← hid3]
    rfl

/-- C4 (amended) at the file of the single flat area with id 1: `GetNavAreaByID(1)`
returns that area. -/
theorem C4_GetNavAreaByID_loaded_witness :
    ∃ s2 : State, Load emptyHost (some flatFile) (State.initial 0 0) = .ok (true, s2) ∧
      ∃ a, s2.mesh.m_areas[0]? = some a ∧ a.m_id = 1 ∧
        ∃ j a2, s2.mesh.m_navAreaGrid.GetNavAreaByID s2.mesh.m_areas a.m_id = .ok (some j) ∧
          s2.mesh.m_areas[j]? = some a2 ∧ a2.m_id = a.m_id ∧ 0 ≤ j ∧
          (∀ j2 a3, j < j2 → s2.mesh.m_areas[j2]? = some a3 → a3.m_id ≠ a.m_id) ∧
          ((∀ j2 a3, s2.mesh.m_areas[j2]? = some a3 → a3.m_id = a.m_id → j2 = 0) → j = 0) := by
  have hok : (Load emptyHost (some flatFile) (State.initial 0 0)).toBool = true := by decide!
  cases hl : Load emptyHost (some flatFile) (State.initial 0 0) with
  | error e =>
    rw [hl] at hok
    simp [Except.toBool] at hok
  | ok r =>
    obtain ⟨b, s2⟩ := r
    have hb : b = true := (Load_inv _ _ _ _ _ hl).1
    subst hb
    have hgeo := (Load_summary _ _ _ _ _ hl).2.1
    cases ha : s2.mesh.m_areas[0]? with
    | none =>
      have := congrArg List.length hgeo
      have hlen : s2.mesh.m_areas.length = 1 := by simpa [flatFile] using this
      have h0 := List.getElem?_eq_none_iff.mp ha
      omega
    | some a =>
      have hid : a.m_id = 1 := by
        have h1 := congrArg (fun l => (l[0]?).map (fun t => t.1)) hgeo
        simpa [List.getElem?_map, ha, flatFile, plainRecord, NavArea.geometry,
          AreaRecord.geometry] using h1
      exact ⟨s2, rfl, a, ha, hid,
        C4_GetNavAreaByID_loaded emptyHost flatFile (State.initial 0 0) true s2 hl 0 a ha
          (by rw [hid]; decide)⟩

/-! ### The areas of a loaded map -/

/-- A `Load` of a file shown to return by evaluation returns `true` and a state. -/
theorem Load_ok_of_toBool (host : Host) (f : NavFile) (s : State)
    (h : (Load host (some f) s).toBool = true) :
    ∃ s2, Load host (some f) s = .ok (true, s2) := by
  cases hl : Load host (some f) s with
  | error e => rw [hl] at h; simp [Except.toBool] at h
  | ok r =>
    obtain ⟨b, s2⟩ := r
    have hb : b = true := (Load_inv _ _ _ _ _ hl).1
    subst hb
    exact ⟨s2, rfl⟩

/-- After a `Load` that returns, the area behind the pointer `i` exists and carries the
id, the extent and the implicit corner heights of the `i`-th record of the file. -/
theorem loaded_area (host : Host) (f : NavFile) (s : State) (b : Bool) (s2 : State)
    (h : Load host (some f) s = .ok (b, s2)) (i : Nat) (r : AreaRecord)
    (hr : f.areas[i]? = some r) :
    ∃ a, s2.mesh.m_areas[i]? = some a ∧ a.m_id = r.id ∧ a.m_extent = r.extent ∧
      a.m_neZ = r.neZ ∧ a.m_swZ = r.swZ := by
  have hgeo := (Load_summary host f s b s2 h).2.1
  have h1 := congrArg (fun l => l[i]?) hgeo
  simp only [List.getElem?_map, hr, Option.map_some'] at h1
  cases ha : s2.mesh.m_areas[i]? with
  | none => rw [ha] at h1; simp at h1
  | some a =>
    rw [ha] at h1
    simp only [Option.map_some', Option.some.injEq] at h1
    exact ⟨a, rfl, congrArg (fun t => t.1) h1, congrArg (fun t => t.2.1) h1,
      congrArg (fun t => t.2.2.1) h1, congrArg (fun t => t.2.2.2) h1⟩

theorem loaded_length (host : Host) (f : NavFile) (s : State) (b : Bool) (s2 : State)
    (h : Load host (some f) s = .ok (b, s2)) : s2.mesh.m_areas.length = f.areas.length := by
  have := congrArg List.length (Load_summary host f s b s2 h).2.1
  simpa using this

/-- `GetZ` on an area whose four corner heights are all `c`. -/
theorem GetZ_flat (a : NavArea) (pos : Vector) (c : ℚ) (hlo : a.m_extent.lo.z = c)
    (hhi : a.m_extent.hi.z = c) (hne : a.m_neZ = c) (hsw : a.m_swZ = c) :
    a.GetZ pos = .ok c := by
  by_cases h : a.m_extent.hi.x - a.m_extent.lo.x = 0 ∨ a.m_extent.hi.y - a.m_extent.lo.y = 0
  · rw [GetZ_of_degenerate a pos h, hne]
  · rw [not_or] at h
    rw [GetZ_of_nondegenerate a pos h.1 h.2, hlo, hhi, hne, hsw]
    simp

/-! ### C3: the single flat area and the default `beneathLimit` -/

/-- C3 (as stated, refuted): on the map loaded from the file of the single flat area
at `Z = 0` over `(0,0)-(100,100)`, `GetNavArea((50,50,-119))` returns none: the area is
above the probe lifted by 5 and is skipped. -/
theorem C3_counterexample :
    (do let (_, s) ← Load emptyHost (some flatFile) (State.initial 0 0)
        s.mesh.GetNavArea ⟨50, 50, -119⟩) = .ok none := by
  decide!

/-- On the map loaded from the file of the single flat area, `GetNavArea` at
`(50, 50, pz)` returns the area exactly when `pz - 120 ≤ 0 ≤ pz + 5`. -/
theorem flat_probe (host : Host) (s : State) (b : Bool) (s2 : State)
    (h : Load host (some flatFile) s = .ok (b, s2)) (pz : ℚ) :
    s2.mesh.GetNavArea ⟨50, 50, pz⟩
      = .ok (if pz - 120 ≤ 0 ∧ 0 ≤ pz + 5 then some 0 else none) := by
  obtain ⟨a, ha, _, hext, hne, hsw⟩ := loaded_area host flatFile s b s2 h 0
    (plainRecord 1 ⟨⟨0, 0, 0⟩, ⟨100, 100, 0⟩⟩ 0 0) rfl
  have hlen : s2.mesh.m_areas.length = 1 := loaded_length host flatFile s b s2 h
  have hov : a.IsOverlapping ⟨50, 50, pz⟩ = true := by
    rw [IsOverlapping_iff, hext]
    simp only [plainRecord]
    norm_num
  have hz : a.GetZ ⟨50, 50, pz⟩ = .ok 0 :=
    GetZ_flat a _ 0 (by rw [hext]; rfl) (by rw [hext]; rfl) (by rw [hne]; rfl) (by rw [hsw]; rfl)
  obtain ⟨cell, res, hprobe, himem, hlive, hres⟩ :=
    GetNavArea_loaded host flatFile s b s2 h 0 a ha ⟨50, 50, pz⟩ hov 120
  obtain ⟨htop, hnone⟩ := GetNavArea_topmost s2.mesh.m_areas s2.mesh.m_navAreaGrid ⟨50, 50, pz⟩ 120
  show s2.mesh.m_navAreaGrid.GetNavArea s2.mesh.m_areas ⟨50, 50, pz⟩ 120 = _
  rw [hres]
  congr 1
  cases res with
  | none =>
    by_cases hc : pz - 120 ≤ 0 ∧ 0 ≤ pz + 5
    · have := hnone hres cell hprobe 0 himem 0 ⟨a, ha, hov, hz, hc.1, hc.2⟩
      unfold NavAreaGrid.GetNavArea_useZ0 at this
      norm_num at this
    · rw [if_neg hc]
  | some j =>
    obtain ⟨cell2, z2, hprobe2, hj, ⟨a2, ha2, _, hz2, hlo2, hhi2⟩, _⟩ := htop j hres
    rw [hprobe] at hprobe2
    cases hprobe2
    have hj0 : j = 0 := by
      have hlt := hlive j hj
      rw [hlen] at hlt
      exact Nat.lt_one_iff.mp hlt
    subst hj0
    rw [ha] at ha2
    cases ha2
    rw [hz] at hz2
    cases hz2
    rw [if_pos ⟨hlo2, hhi2⟩]

/-- C3 (amended): on every map loaded from the file of the single flat area at `Z = 0`
over `(0,0)-(100,100)`, with the default `beneathLimit` of 120,
`GetNavArea((50,50,119))` returns that area and `GetNavArea((50,50,121))` returns none;
`GetNavArea((50,50,-119))` and `GetNavArea((50,50,-121))` return none, the area lying
above these probes. -/
theorem C3_flat_area_probes (host : Host) (s : State) (b : Bool) (s2 : State)
    (h : Load host (some flatFile) s = .ok (b, s2)) :
    s2.mesh.m_areas.map NavArea.geometry = [(1, ⟨⟨0, 0, 0⟩, ⟨100, 100, 0⟩⟩, 0, 0)] ∧
    s2.mesh.GetNavArea ⟨50, 50, 119⟩ = .ok (some 0) ∧
    s2.mesh.GetNavArea ⟨50, 50, 121⟩ = .ok none ∧
    s2.mesh.GetNavArea ⟨50, 50, -119⟩ = .ok none ∧
    s2.mesh.GetNavArea ⟨50, 50, -121⟩ = .ok none := by
  refine ⟨(Load_summary host flatFile s b s2 h).2.1, ?_, ?_, ?_, ?_⟩
  · rw [flat_probe host s b s2 h 119]; norm_num
  · rw [flat_probe host s b s2 h 121]; norm_num
  · rw [flat_probe host s b s2 h (-119)]; norm_num
  · rw [flat_probe host s b s2 h (-121)]; norm_num

/-- C3 (amended) on the map loaded into a fresh state with a host without entities. -/
theorem C3_flat_area_probes_witness :
    ∃ s2 : State, Load emptyHost (some flatFile) (State.initial 0 0) = .ok (true, s2) ∧
      s2.mesh.m_areas.map NavArea.geometry = [(1, ⟨⟨0, 0, 0⟩, ⟨100, 100, 0⟩⟩, 0, 0)] ∧
      s2.mesh.GetNavArea ⟨50, 50, 119⟩ = .ok (some 0) ∧
      s2.mesh.GetNavArea ⟨50, 50, 121⟩ = .ok none ∧
      s2.mesh.GetNavArea ⟨50, 50, -119⟩ = .ok none ∧
      s2.mesh.GetNavArea ⟨50, 50, -121⟩ = .ok none := by
  obtain ⟨s2, hl⟩ := Load_ok_of_toBool emptyHost flatFile (State.initial 0 0) (by decide!)
  exact ⟨s2, hl, C3_flat_area_probes emptyHost (State.initial 0 0) true s2 hl⟩

/-! ### `Load` and `Destroy` as a whole: claims C11 to C14 -/

/-- Claim C11: when the file cannot be opened, `Load` returns `false` and the state it
leaves is the state it was called with: areas, ladders, hiding spots, place directory,
grid and both id counters are unchanged. -/
theorem C11_Load_unopened (host : Host) (s : State) :
    Load host none s = .ok (false, s) := rfl

/-- Claim C12, evaluation of the code: for the version-5 file with no place and no area,
`Load` started in any state has no result. The total extent keeps its start values, so
`NavAreaGrid::Initialize` is called with `minX = 9999999999.9 > maxX = -9999999999.9`;
both grid sizes come out as `-66666665` and their product leaves the range of `int`. -/
theorem C12_Load_empty_file (host : Host) (s : State) :
    Load host (some emptyFile) s = .error .overflow ∧
    truncToInt ((Load_extent0.hi.x - Load_extent0.lo.x) / NavAreaGrid.m_cellSize + 1)
      = -66666665 := by
  have hsize : truncToInt ((-9999999999.9 - 9999999999.9 : ℚ) / NavAreaGrid.m_cellSize + 1)
      = -66666665 := by decide!
  refine ⟨?_, hsize⟩
  simp [Load, emptyFile, Load_places, Load_grid, NavAreaGrid.Initialize, Load_extent0,
    Destroy, DestroyHidingSpots, NavigationMap.DestroyLadders, NavAreaGrid.Reset, hsize, isInt]
  rfl

/-- Claim C13, evaluation of the code: the file `placeFile nameBombsiteA` is loaded into
a fresh map and then the file `placeFile nameKitchen`. After the second load the place
directory is `[1, 24]` (BombsiteA, Kitchen) and the area, whose place entry is 1, has
place 1 (BombsiteA); loaded into a fresh map the same second file gives the directory
`[24]` and the place 24 (Kitchen). -/
theorem C13_Load_twice_keeps_places :
    ((Load emptyHost (some (placeFile nameBombsiteA)) (State.initial 0 0) >>= fun r =>
        Load emptyHost (some (placeFile nameKitchen)) r.2).map
      (fun r => (r.2.mesh.m_placeDirectory.m_directory,
        r.2.mesh.m_areas.map (fun a => a.m_place)))) = .ok ([1, 24], [1]) ∧
    ((Load emptyHost (some (placeFile nameKitchen)) (State.initial 0 0)).map
      (fun r => (r.2.mesh.m_placeDirectory.m_directory,
        r.2.mesh.m_areas.map (fun a => a.m_place)))) = .ok ([24], [24]) := by
  constructor <;> decide!

/-- Claim C14 fails as stated: after `sevenFile` (one area of id 7) was loaded into a
fresh map, `NavArea::m_nextID` is 8 after `Destroy`, not its initial value 1. -/
theorem C14_counterexample :
    (Load emptyHost (some sevenFile) (State.initial 0 0)).map
      (fun r => (Destroy r.2).statics.NavArea_m_nextID) = .ok 8 ∧
    Statics.initial.NavArea_m_nextID = 1 := by
  constructor <;> decide!

/-- Claim C14, amended: whatever the state, `Destroy` sets `HidingSpot::m_nextID` to its
initial value and leaves `NavArea::m_nextID` as it is; it is `Load` that sets the area
counter after its call of `Destroy`, so that the value the counter had before does not
influence what `Load` does. -/
theorem C14_Destroy_counters (s : State) :
    (Destroy s).statics.HidingSpot_m_nextID = Statics.initial.HidingSpot_m_nextID ∧
    (Destroy s).statics.NavArea_m_nextID = s.statics.NavArea_m_nextID ∧
    ∀ (host : Host) (f : NavFile) (n : Nat),
      Load host (some f) { s with statics := { s.statics with NavArea_m_nextID := n } }
        = Load host (some f) s :=
  ⟨rfl, rfl, fun _ _ _ => rfl⟩

/-! ### Tracing the members of the areas through `Load` -/

/-- A `mapM` in `Run` returns exactly when the run of every element returns, with the
results in the order of the elements. -/
theorem mapM_eq_ok {α β : Type} (f : α → Run β) :
    ∀ (l : List α) (l2 : List β),
      l.mapM f = .ok l2 ↔ List.Forall₂ (fun x y => f x = .ok y) l l2 := by
  intro l
  induction l with
  | nil =>
    intro l2
    simp only [List.mapM_nil, pure_eq_ok, List.forall₂_nil_left_iff]
    exact eq_comm
  | cons x rest ih =>
    intro l2
    rw [List.mapM_cons]
    simp only [bind_eq_ok, pure_eq_ok]
    constructor
    · rintro ⟨y, hy, ys, hys, rfl⟩
      exact List.Forall₂.cons hy ((ih ys).mp hys)
    · intro h
      cases h with
      | cons hy hrest => exact ⟨_, hy, _, (ih _).mpr hrest, rfl⟩

theorem mapM_eq_ok_map {α β : Type} (f : α → Run β) (g : α → β) (l : List α)
    (h : ∀ x ∈ l, f x = .ok (g x)) : l.mapM f = .ok (l.map g) := by
  rw [mapM_eq_ok]
  induction l with
  | nil => exact List.Forall₂.nil
  | cons x rest ih =>
    exact List.Forall₂.cons (h x (List.mem_cons_self _ _))
      (ih (fun y hy => h y (List.mem_cons_of_mem _ hy)))

theorem Kept_refl (m : NavigationMap) : Kept m m := ⟨rfl, rfl, rfl⟩

theorem Kept_trans (a b c : NavigationMap) (h1 : Kept a b) (h2 : Kept b c) : Kept a c :=
  ⟨h2.1.trans h1.1, h2.2.1.trans h1.2.1, h2.2.2.trans h1.2.2⟩

theorem AddNavArea_link_content {areas areas2 : List NavArea} {head : Option AreaRef}
    {k : AreaRef} (h : NavAreaGrid.AddNavArea_link areas head k = .ok areas2) :
    areas2.map NavArea.content = areas.map NavArea.content := by
  unfold NavAreaGrid.AddNavArea_link at h
  cases head with
  | none => exact update_map NavArea.content h (fun _ => rfl)
  | some hd =>
    simp only [bind_eq_ok] at h
    obtain ⟨areas1, h1, h2⟩ := h
    rw [update_map NavArea.content h2 (fun _ => rfl),
      update_map NavArea.content h1 (fun _ => rfl)]

/-- The grid part of `Load` writes the grid and the hash links only. -/
theorem Load_grid_kept (m m1 : NavigationMap) (e : Extent) (h : Load_grid m e = .ok m1) :
    Kept m m1 := by
  unfold Load_grid at h
  simp only [bind_eq_ok] at h
  obtain ⟨grid, _, hadd⟩ := h
  have := foldlM_preserves Kept Kept_refl Kept_trans Load_addToGrid (by
    intro s i s2 hs
    unfold Load_addToGrid NavAreaGrid.AddNavArea at hs
    simp only [bind_eq_ok, pure_eq_ok] at hs
    obtain ⟨⟨areas, g⟩, ⟨a, _, cells, _, areas1, hl, hp⟩, rfl⟩ := hs
    simp only [Prod.mk.injEq] at hp
    obtain ⟨rfl, _⟩ := hp
    exact ⟨AddNavArea_link_content hl, rfl, rfl⟩) _ _ _ hadd
  exact Kept_trans _ _ _ ⟨rfl, rfl, rfl⟩ this

/-- `Validate` writes members of areas only. -/
theorem Validate_stores (m m2 : NavigationMap) (area : AreaRef) (h : Validate m area = .ok m2) :
    m2.m_placeDirectory = m.m_placeDirectory ∧ m2.m_hidingSpots = m.m_hidingSpots := by
  unfold Validate at h
  simp only [bind_eq_ok, pure_eq_ok] at h
  obtain ⟨a, _, connect, _, approach, _, encounters, _, areas, hup, rfl⟩ := h
  exact ⟨rfl, rfl⟩

theorem addLadder_content {areas areas2 : List NavArea} {area : Option AreaRef} {which : Nat}
    {ladder : LadderRef} (h : BuildLadders_addLadder areas area which ladder = .ok areas2) :
    areas2.map NavArea.content = areas.map NavArea.content := by
  unfold BuildLadders_addLadder at h
  cases area with
  | none => simp only [Except.ok.injEq] at h; rw [h]
  | some r => exact update_map NavArea.content h (fun _ => rfl)

/-- `BuildLadders` writes the ladder store and the ladder lists of the areas only. -/
theorem BuildLadders_kept (host : Host) (m m2 : NavigationMap)
    (h : BuildLadders host m = .ok m2) : Kept m m2 := by
  unfold BuildLadders at h
  have := foldlM_preserves Kept Kept_refl Kept_trans (BuildLadders_one host) (by
    intro s i s2 hs
    unfold BuildLadders_one at hs
    simp only [bind_eq_ok] at hs
    obtain ⟨ent, _, h2⟩ := hs
    unfold BuildLadders_connect at h2
    simp only [bind_eq_ok, pure_eq_ok] at h2
    obtain ⟨bottomArea, _, areas1, h1, f1, _, f2, _, f3, _, f4, _, areas2, h2, areas3, h3,
      areas4, h4, areas5, h5, adj, _, dang, _, rfl⟩ := h2
    refine ⟨?_, rfl, rfl⟩
    show areas5.map NavArea.content = s.m_areas.map NavArea.content
    rw [addLadder_content h5, addLadder_content h4, addLadder_content h3,
      addLadder_content h2, addLadder_content h1]) _ _ _ h
  exact Kept_trans _ _ _ ⟨rfl, rfl, rfl⟩ this

theorem ids_of_core {areas areas2 : List NavArea}
    (h : areas2.map NavArea.core = areas.map NavArea.core) :
    areas2.map NavArea.m_id = areas.map NavArea.m_id := by
  have := congrArg (List.map (fun c : Nat × Extent × ℚ × ℚ × Option AreaRef => c.1)) h
  simpa [List.map_map, Function.comp, NavArea.core] using this

theorem ids_of_geometry {areas areas2 : List NavArea}
    (h : areas2.map NavArea.geometry = areas.map NavArea.geometry) :
    areas2.map NavArea.m_id = areas.map NavArea.m_id := by
  have := congrArg (List.map (fun c : Nat × Extent × ℚ × ℚ => c.1)) h
  simpa [List.map_map, Function.comp, NavArea.geometry] using this

theorem length_of_map_eq {α β : Type} {proj : α → β} {l l2 : List α}
    (h : l2.map proj = l.map proj) : l2.length = l.length := by
  have := congrArg List.length h
  simpa using this

/-- The index facts are facts about the grid and the cores of the areas. -/
theorem Indexed.of_same {m m2 : NavigationMap} (hs : SameIndex m m2) (h : Indexed m) :
    Indexed m2 := by
  obtain ⟨hG, hC⟩ := hs
  obtain ⟨htab, hnext⟩ := h
  have hids := ids_of_core hC
  have hlen := length_of_map_eq hC
  refine ⟨fun key => by rw [hG, htab key, hids, hlen], ?_⟩
  intro j a ha
  obtain ⟨a0, ha0, hc⟩ := getElem?_of_map_eq NavArea.core hC ha
  have hid : a0.m_id = a.m_id := congrArg (fun t => t.1) hc
  have hnx : a0.m_nextHash = a.m_nextHash := congrArg (fun t => t.2.2.2.2) hc
  rw [hids, ← hnx, ← hid]
  exact hnext j a0 ha0

/-- The grid part of `Load`, started on a grid that was reset, leaves the index facts. -/
theorem Load_grid_indexed (m m1 : NavigationMap) (e : Extent) (g0 : NavAreaGrid)
    (hreset : m.m_navAreaGrid = g0.Reset) (h : Load_grid m e = .ok m1) : Indexed m1 := by
  unfold Load_grid at h
  simp only [bind_eq_ok] at h
  obtain ⟨grid, hinit, hadd⟩ := h
  rw [hreset] at hinit
  obtain ⟨_, ⟨n, hcs0⟩, hhash0⟩ := Initialize_of_reset _ _ _ _ _ _ hinit
  obtain ⟨hgeo1, _, _, htab, hnext⟩ :=
    Load_addToGrid_fold { m with m_navAreaGrid := grid } (List.replicate n []) hcs0
      (not_inBucket_replicate n) hhash0 _ m1 hadd
  dsimp only at hgeo1 htab hnext
  have hids := ids_of_geometry hgeo1
  have hlen := length_of_map_eq hgeo1
  refine ⟨fun key => by rw [htab key, hids, hlen], ?_⟩
  intro j a ha
  obtain ⟨a0, ha0, hg0⟩ := getElem?_of_map_eq NavArea.geometry hgeo1 ha
  have hid : a0.m_id = a.m_id := congrArg (fun t => t.1) hg0
  have hj : j < m.m_areas.length := (List.getElem?_eq_some_iff.mp ha0).1
  have h1 := hnext j a0 hj ha0
  rw [ha] at h1
  simp only [Option.map_some', Option.some.injEq] at h1
  rw [h1, hids, hid]

/-- On a map with the index facts, `GetNavAreaByID` returns the area that the id stands
for. -/
theorem GetNavAreaByID_indexed (m : NavigationMap) (h : Indexed m) (id : Nat) :
    m.m_navAreaGrid.GetNavAreaByID m.m_areas id
      = .ok (resolveId (m.m_areas.map NavArea.m_id) id) := by
  obtain ⟨htab, hnext⟩ := h
  unfold NavAreaGrid.GetNavAreaByID resolveId
  by_cases hid : id = 0
  · rw [if_pos hid, if_pos hid]
  · rw [if_neg hid, if_neg hid, htab, GetNavAreaByID_loop_spec m.m_areas id hnext _ le_rfl _
      (Nat.le_succ _), List.length_map]

/-- On a map with the index facts, `Validate` turns an id into the pointer to the area
that the id stands for. -/
theorem Validate_resolve_id (m : NavigationMap) (h : Indexed m) (n : Nat) :
    Validate_resolve m (.id n) = .ok (.area (resolveId (m.m_areas.map NavArea.m_id) n)) := by
  unfold Validate_resolve
  simp only [NavConnect.getId, bind_eq_ok, pure_eq_ok]
  exact ⟨n, rfl, _, GetNavAreaByID_indexed m h n, rfl⟩

/-- What one call of `Validate` does to the store: the area validated gets its
connections, approach table and encounters rewritten and its overlap list extended; no
other area is written. -/
theorem Validate_step (m m2 : NavigationMap) (i : AreaRef) (h : Validate m i = .ok m2) :
    ∃ a connect approach encounters overlap,
      m.m_areas[i]? = some a ∧
      a.m_connect.mapM (fun l => l.mapM (Validate_resolve m)) = .ok connect ∧
      a.encounter_spots.mapM (Validate_encounter m a) = .ok encounters ∧
      m2.m_areas[i]? =
        some { a with
                m_connect := connect, m_approach := approach,
                encounter_spots := encounters, m_overlapList := overlap } ∧
      ∀ j, j ≠ i → m2.m_areas[j]? = m.m_areas[j]? := by
  unfold Validate at h
  simp only [bind_eq_ok, pure_eq_ok] at h
  obtain ⟨a, ha, connect, hc, approach, _, encounters, he, areas, hup, rfl⟩ := h
  obtain ⟨h1, h2⟩ := update_getElem? hup
  have ha2 := deref_eq_ok.mp ha
  rw [ha2] at h1
  exact ⟨a, connect, approach, encounters, _, ha2, hc, he, h1, h2⟩

/-- The loop of `Load` over `Validate`: the area `i` is written by the `i`-th call only,
and that call runs on a map with the grid, the cores and the hiding spots of the start. -/
theorem Validate_fold (m1 : NavigationMap) :
    ∀ (k : Nat) (m : NavigationMap), (List.range k).foldlM Validate m1 = .ok m →
      SameIndex m1 m ∧
      (m.m_placeDirectory = m1.m_placeDirectory ∧ m.m_hidingSpots = m1.m_hidingSpots) ∧
      (∀ j, k ≤ j → m.m_areas[j]? = m1.m_areas[j]?) ∧
      ∀ i, i < k → ∃ m' m'', SameIndex m1 m' ∧ m'.m_hidingSpots = m1.m_hidingSpots ∧
        m'.m_areas[i]? = m1.m_areas[i]? ∧ Validate m' i = .ok m'' ∧
        m.m_areas[i]? = m''.m_areas[i]? := by
  intro k
  induction k with
  | zero =>
    intro m h
    simp only [List.range_zero, List.foldlM_nil, pure_eq_ok] at h
    subst h
    exact ⟨SameIndex.refl _, ⟨rfl, rfl⟩, fun _ _ => rfl, fun i hi => absurd hi (Nat.not_lt_zero i)⟩
  | succ k ih =>
    intro m h
    rw [List.range_succ, List.foldlM_append, bind_eq_ok] at h
    obtain ⟨mk, hk, hlast⟩ := h
    simp only [List.foldlM_cons, List.foldlM_nil, bind_eq_ok, pure_eq_ok] at hlast
    obtain ⟨m', hv, rfl⟩ := hlast
    obtain ⟨hsame, hst, hrest, hdone⟩ := ih mk hk
    obtain ⟨_, _, _, _, _, _, _, _, _, hother⟩ := Validate_step mk m' k hv
    have hst2 := Validate_stores mk m' k hv
    refine ⟨SameIndex.trans _ _ _ hsame (Validate_same mk m' k hv),
      ⟨hst2.1.trans hst.1, hst2.2.trans hst.2⟩, ?_, ?_⟩
    · intro j hj
      rw [hother j (fun e => by rw [e] at hj; exact Nat.not_succ_le_self _ hj)]
      exact hrest j (Nat.le_of_succ_le hj)
    · intro i hi
      by_cases hik : i = k
      · subst hik
        exact ⟨mk, m', hsame, hst.2, hrest i le_rfl, hv, rfl⟩
      · obtain ⟨ma, mb, h1, h2, h3, h4, h5⟩ := hdone i (by omega)
        exact ⟨ma, mb, h1, h2, h3, h4, (hother i hik).trans h5⟩

theorem forall₂_getElem? {α β : Type} {R : α → β → Prop} {l : List α} {l2 : List β}
    (h : List.Forall₂ R l l2) :
    ∀ (i : Nat) (x : α), l[i]? = some x → ∃ y, l2[i]? = some y ∧ R x y := by
  induction h with
  | nil => intro i x hx; simp at hx
  | cons hxy _ ih =>
    intro i x hx
    cases i with
    | zero =>
      simp only [List.getElem?_cons_zero, Option.some.injEq] at hx
      subst hx
      exact ⟨_, List.getElem?_cons_zero, hxy⟩
    | succ i =>
      simp only [List.getElem?_cons_succ] at hx ⊢
      exact ih i x hx

/-- One pass of the area loop of `Load` appends one area that carries the record and
leaves the place directory as it is. -/
theorem Load_area_fields (version : Nat) (s s2 : State) (e e2 : Extent) (r : AreaRecord)
    (h : Load_area version (s, e) r = .ok (s2, e2)) :
    (∃ a, s2.mesh.m_areas = s.mesh.m_areas ++ [a] ∧ FromRecord s.mesh.m_placeDirectory r a) ∧
    s2.mesh.m_placeDirectory = s.mesh.m_placeDirectory := by
  unfold Load_area at h
  simp only [bind_eq_ok, pure_eq_ok, Prod.mk.injEq] at h
  obtain ⟨ap, hap, place, hplace, hs, he⟩ := h
  subst hs he
  refine ⟨⟨_, rfl, rfl, rfl, rfl, rfl, rfl, ?_, ?_, rfl, ⟨ap.2, hap⟩, hplace⟩, rfl⟩
  · dsimp only
    unfold AreaRecord.connectIds
    rw [List.map_map]
    apply List.map_congr_left
    intro d hd
    have hnil : (NavArea.Initialize s.statics.NavArea_m_nextID).m_connect.getD d [] = [] := by
      simp only [NavArea.Initialize, List.getD_eq_getElem?_getD, List.getElem?_replicate]
      split_ifs <;> rfl
    simp only [Function.comp, hnil, List.nil_append]
  · dsimp only
    simp [NavArea.Initialize]

/-- The area loop of `Load` appends one area per record, in file order, each carrying
its record; the place directory is left as it is. -/
theorem Load_areas_fields (version : Nat) :
    ∀ (records : List AreaRecord) (st st2 : State × Extent),
      records.foldlM (Load_area version) st = .ok st2 →
      st2.1.mesh.m_placeDirectory = st.1.mesh.m_placeDirectory ∧
      ∃ new, st2.1.mesh.m_areas = st.1.mesh.m_areas ++ new ∧
        List.Forall₂ (FromRecord st.1.mesh.m_placeDirectory) records new := by
  intro records
  induction records with
  | nil =>
    intro st st2 h
    simp only [List.foldlM_nil, pure_eq_ok] at h
    subst h
    exact ⟨rfl, [], by simp, List.Forall₂.nil⟩
  | cons r rest ih =>
    intro st st2 h
    rw [List.foldlM_cons, bind_eq_ok] at h
    obtain ⟨⟨s1, e1⟩, h1, h2⟩ := h
    obtain ⟨s, e⟩ := st
    obtain ⟨⟨a, ha, hfrom⟩, hdir⟩ := Load_area_fields version s s1 e e1 r h1
    obtain ⟨ihd, new, hnew, hall⟩ := ih (s1, e1) st2 h2
    dsimp only at ihd hnew hall ⊢
    rw [hdir] at hall
    exact ⟨ihd.trans hdir, a :: new, by rw [hnew, ha]; simp, List.Forall₂.cons hfrom hall⟩

/-- The phases of a `Load` that returns, with the state in which the area loop starts:
counters 1 and 0, no area, no ladder, no hiding spot, the grid reset, and the place
directory that the place part of `Load` made of the directory found. -/
theorem Load_phases (host : Host) (f : NavFile) (s : State) (b : Bool) (s2 : State)
    (h : Load host (some f) s = .ok (b, s2)) :
    b = true ∧ ∃ (d : PlaceDirectory) (st : State × Extent) (m1 m2 : NavigationMap),
      Load_places f.version s.mesh.m_placeDirectory f.places = .ok d ∧
      f.areas.foldlM (Load_area f.version)
        (⟨⟨1, 0⟩, ⟨[], d, s.mesh.m_navAreaGrid.Reset, [], []⟩⟩, Load_extent0) = .ok st ∧
      Load_grid st.1.mesh st.2 = .ok m1 ∧
      (List.range m1.m_areas.length).foldlM Validate m1 = .ok m2 ∧
      BuildLadders host m2 = .ok s2.mesh ∧ s2.statics = st.1.statics := by
  unfold Load at h
  simp only [bind_eq_ok, pure_eq_ok, Prod.mk.injEq] at h
  obtain ⟨d, hd, st, hst, m1, hm1, m2, hm2, m3, hm3, hb, hs⟩ := h
  refine ⟨hb.symm, d, st, m1, m2, hd, hst, hm1, hm2, ?_, ?_⟩
  · rw [← hs]; exact hm3
  · rw [← hs]
theorem unvalidated_of_content {a b : NavArea} (h : a.content = b.content) :
    a.unvalidated = b.unvalidated := by
  unfold NavArea.unvalidated
  rw [h]

/-- The way of the `i`-th area record through a `Load` that returns. The area loop
stores the record in an area `a0`; the grid part makes `a1` of it by writing hash links;
the `i`-th call of `Validate` runs on a map `m'` that has the index facts and the cores,
ids and hiding spots of the final map, and rewrites the connections and the encounters
of `a1`; nothing but the ladder lists is written afterwards. -/
theorem Load_validated (host : Host) (f : NavFile) (s : State) (b : Bool) (s2 : State)
    (h : Load host (some f) s = .ok (b, s2)) (i : Nat) (r : AreaRecord)
    (hr : f.areas[i]? = some r) :
    ∃ (d : PlaceDirectory) (m' : NavigationMap) (a0 a1 a : NavArea),
      Load_places f.version s.mesh.m_placeDirectory f.places = .ok d ∧
      FromRecord d r a0 ∧
      (Indexed m' ∧ m'.m_areas.map NavArea.core = s2.mesh.m_areas.map NavArea.core ∧
        m'.m_areas.map NavArea.m_id = f.areas.map (fun q => q.id) ∧
        m'.m_hidingSpots = s2.mesh.m_hidingSpots) ∧
      m'.m_areas[i]? = some a1 ∧ a1.content = a0.content ∧
      s2.mesh.m_areas[i]? = some a ∧
      a1.m_connect.mapM (fun l => l.mapM (Validate_resolve m')) = .ok a.m_connect ∧
      a1.encounter_spots.mapM (Validate_encounter m' a1) = .ok a.encounter_spots ∧
      a.unvalidated = a0.unvalidated := by
  obtain ⟨_, d, st, m1, m2, hd, hst, hm1, hm2, hm3, _⟩ := Load_phases host f s b s2 h
  obtain ⟨_, hgeo, _⟩ := Load_summary host f s b s2 h
  obtain ⟨_, new, hnew, hall⟩ := Load_areas_fields f.version f.areas _ st hst
  obtain ⟨_, hgrid, _⟩ := Load_areas_spec f.version f.areas _ st hst
  dsimp only at hnew hall hgrid
  rw [List.nil_append] at hnew
  rw [← hnew] at hall
  obtain ⟨a0, ha0, hfrom⟩ := forall₂_getElem? hall i r hr
  have K1 := Load_grid_kept _ _ _ hm1
  have I1 := Load_grid_indexed _ _ _ _ hgrid hm1
  obtain ⟨a1, ha1, hc1⟩ := getElem?_of_map_eq NavArea.content K1.1.symm ha0
  have hi : i < m1.m_areas.length := (List.getElem?_eq_some_iff.mp ha1).1
  obtain ⟨hsame12, hst12, _, hdone⟩ := Validate_fold m1 _ m2 hm2
  obtain ⟨m', m'', hs', hsp', hai', hv, hfin⟩ := hdone i hi
  obtain ⟨a, connect, approach, encounters, overlap, ha', hc, he, ha'', _⟩ :=
    Validate_step m' m'' i hv
  rw [hai', ha1] at ha'
  cases ha'
  rw [ha''] at hfin
  have K3 := BuildLadders_kept host m2 s2.mesh hm3
  have S3 := BuildLadders_same host m2 s2.mesh hm3
  obtain ⟨afin, hafin, hcfin⟩ := getElem?_of_map_eq NavArea.content K3.1.symm hfin
  have hcores : m'.m_areas.map NavArea.core = s2.mesh.m_areas.map NavArea.core := by
    rw [hs'.2, S3.2, hsame12.2]
  have hids : m'.m_areas.map NavArea.m_id = f.areas.map (fun q => q.id) := by
    rw [ids_of_core hcores]
    have := congrArg (List.map (fun c : Nat × Extent × ℚ × ℚ => c.1)) hgeo
    simpa [List.map_map, Function.comp, NavArea.geometry, AreaRecord.geometry] using this
  refine ⟨d, m', a0, a1, afin, hd, hfrom,
    ⟨I1.of_same hs', hcores, hids, by rw [hsp', K3.2.2, hst12.2]⟩, by rw [hai', ha1], hc1,
    hafin, ?_, ?_, ?_⟩
  · rw [hc]
    exact congrArg (fun l => Except.ok l) (congrArg NavArea.m_connect hcfin).symm
  · rw [he]
    exact congrArg (fun l => Except.ok l) (congrArg NavArea.encounter_spots hcfin).symm
  · rw [unvalidated_of_content hcfin, ← unvalidated_of_content hc1]
    rfl

/-- On a map with the index facts, `Validate` turns lists of connections that are ids
into the pointers to the areas that the ids stand for. -/
theorem Validate_connect_ids (m : NavigationMap) (h : Indexed m) (ll : List (List Nat)) :
    (ll.map (fun l => l.map NavConnect.id)).mapM (fun l => l.mapM (Validate_resolve m))
      = .ok (ll.map (fun l => l.map (fun n =>
          NavConnect.area (resolveId (m.m_areas.map NavArea.m_id) n)))) := by
  have hinner : ∀ l : List Nat, (l.map NavConnect.id).mapM (Validate_resolve m)
      = .ok (l.map (fun n => NavConnect.area (resolveId (m.m_areas.map NavArea.m_id) n))) := by
    intro l
    have := mapM_eq_ok_map (Validate_resolve m)
      (fun c => match c with
        | .id n => NavConnect.area (resolveId (m.m_areas.map NavArea.m_id) n)
        | c => c) (l.map NavConnect.id) (by
          intro c hc
          obtain ⟨n, _, rfl⟩ := List.mem_map.mp hc
          exact Validate_resolve_id m h n)
    rw [this, List.map_map]
    rfl
  have := mapM_eq_ok_map (fun l => l.mapM (Validate_resolve m))
    (fun l => l.map (fun c => match c with
        | .id n => NavConnect.area (resolveId (m.m_areas.map NavArea.m_id) n)
        | c => c)) (ll.map (fun l => l.map NavConnect.id)) (by
      intro l hl
      obtain ⟨l0, _, rfl⟩ := List.mem_map.mp hl
      beta_reduce
      rw [hinner l0, List.map_map]
      rfl)
  rw [this, List.map_map]
  refine congrArg (fun x => Except.ok x) (List.map_congr_left (fun l _ => ?_))
  simp only [Function.comp, List.map_map]
  rfl

/-- The connections of the `i`-th area after a `Load` that returns: for each direction
the pointers to the areas that the ids of the record stand for, in file order. -/
theorem Load_connect (host : Host) (f : NavFile) (s : State) (b : Bool) (s2 : State)
    (h : Load host (some f) s = .ok (b, s2)) (i : Nat) (r : AreaRecord)
    (hr : f.areas[i]? = some r) :
    ∃ a, s2.mesh.m_areas[i]? = some a ∧
      a.m_connect = r.connectIds.map (fun l => l.map (fun n =>
        NavConnect.area (resolveId (f.areas.map (fun q => q.id)) n))) := by
  obtain ⟨d, m', a0, a1, a, _, hfrom, ⟨hI, _, hids, _⟩, _, hc1, ha, hconn, _, _⟩ :=
    Load_validated host f s b s2 h i r hr
  refine ⟨a, ha, ?_⟩
  have h1 : a1.m_connect = r.connectIds.map (fun l => l.map NavConnect.id) := by
    have := congrArg NavArea.m_connect hc1
    exact this.trans hfrom.2.2.2.2.2.1
  rw [h1, Validate_connect_ids m' hI, hids] at hconn
  exact (Except.ok.inj hconn).symm

/-! ### The connections after `Load`: claims C15 and C16 -/

theorem lastWithId_none (ids : List Nat) (n : Nat) (h : ∀ j : Nat, ids[j]? ≠ some n) (k : Nat) :
    lastWithId ids k n = none := by
  cases hl : lastWithId ids k n with
  | none => rfl
  | some j => exact absurd (lastWithId_some ids n k j hl).2.1 (h j)

theorem connectIds_getD (r : AreaRecord) {β : Type} (g : List Nat → List β) (d : Nat)
    (hd : d < NUM_DIRECTIONS) : (r.connectIds.map g).getD d [] = g (r.connect.getD d []) := by
  unfold AreaRecord.connectIds
  rw [List.map_map, List.getD_eq_getElem?_getD, List.getElem?_map,
    List.getElem?_range hd]
  rfl

theorem connectIds_getD_none (r : AreaRecord) {β : Type} (g : List Nat → List β) (d : Nat)
    (hd : ¬ d < NUM_DIRECTIONS) : (r.connectIds.map g).getD d [] = [] := by
  unfold AreaRecord.connectIds
  rw [List.map_map, List.getD_eq_getElem?_getD, List.getElem?_eq_none]
  · rfl
  · simpa using hd

/-- Claim C15 fails as stated: after `danglingFile` was loaded into a fresh map, the
`EAST` connection of its area has a null area, and its id member reads 0, not the 99 of
the file. -/
theorem C15_counterexample :
    (Load emptyHost (some danglingFile) (State.initial 0 0)).map
      (fun r => r.2.mesh.m_areas.map (fun a =>
        (a.m_connect.getD EAST []).map (fun cn => (cn.getArea, cn.getId))))
      = .ok [[(none, .ok 0)]] := by
  decide!

/-- Claim C15, amended: whenever `Load` returns, it returns `true`, and a connection
that the file gives as a non-zero id which no area of the file has is afterwards the
null area pointer; the id is not kept, the id member of the connection then reads 0. -/
theorem C15_dangling_connection (host : Host) (f : NavFile) (s : State) (b : Bool) (s2 : State)
    (h : Load host (some f) s = .ok (b, s2)) (i : Nat) (r : AreaRecord)
    (hr : f.areas[i]? = some r) (d : NavDirType) (hd : d < NUM_DIRECTIONS) (k n : Nat)
    (hn : (r.connect.getD d [])[k]? = some n) (hn0 : n ≠ 0)
    (hdangling : ∀ q ∈ f.areas, q.id ≠ n) :
    b = true ∧ ∃ a cn, s2.mesh.m_areas[i]? = some a ∧ (a.m_connect.getD d [])[k]? = some cn ∧
      cn = NavConnect.area none ∧ cn.getId = .ok 0 := by
  obtain ⟨a, ha, hconn⟩ := Load_connect host f s b s2 h i r hr
  refine ⟨(Load_inv host f s b s2 h).1, a, NavConnect.area none, ha, ?_, rfl, rfl⟩
  rw [hconn, connectIds_getD r _ d hd, List.getElem?_map, hn]
  simp only [Option.map_some', resolveId, if_neg hn0]
  rw [lastWithId_none]
  intro j hj
  rw [List.getElem?_map] at hj
  cases hq : f.areas[j]? with
  | none => rw [hq] at hj; simp at hj
  | some q =>
    rw [hq] at hj
    simp only [Option.map_some', Option.some.injEq] at hj
    exact hdangling q (List.getElem?_mem hq) hj

/-- Claim C15, amended, at `danglingFile` loaded into a fresh map: `Load` returns and
the `EAST` connection of the area is the null area pointer. -/
theorem C15_dangling_connection_witness :
    ∃ s2 : State, Load emptyHost (some danglingFile) (State.initial 0 0) = .ok (true, s2) ∧
      (true = true ∧ ∃ a cn, s2.mesh.m_areas[0]? = some a ∧
        (a.m_connect.getD EAST [])[0]? = some cn ∧
        cn = NavConnect.area none ∧ cn.getId = .ok 0) := by
  obtain ⟨s2, hl⟩ := Load_ok_of_toBool emptyHost danglingFile (State.initial 0 0) (by decide!)
  exact ⟨s2, hl, C15_dangling_connection emptyHost danglingFile (State.initial 0 0) true s2 hl
    0 _ rfl EAST (by decide) 0 99 rfl (by decide) (by decide)⟩

/-- Claim C16: after a `Load` that returns, of a file whose area ids are non-zero and
pairwise distinct, every connection whose id in the file is the id of the `j`-th area
of the file is the pointer to the `j`-th area of the map, and that area has this id;
and every connection that is a non-null pointer points into the area list of the map. -/
theorem C16_resolved_connections (host : Host) (f : NavFile) (s : State) (b : Bool)
    (s2 : State) (h : Load host (some f) s = .ok (b, s2))
    (hnz : ∀ q ∈ f.areas, q.id ≠ 0)
    (huniq : ∀ (i j : Nat) (qi qj : AreaRecord), f.areas[i]? = some qi → f.areas[j]? = some qj → qi.id = qj.id →
      i = j) :
    (∀ (i : Nat) (r : AreaRecord) (d k n j : Nat) (q : AreaRecord),
      f.areas[i]? = some r → d < NUM_DIRECTIONS →
      (r.connect.getD d [])[k]? = some n → f.areas[j]? = some q → q.id = n →
      ∃ a aj, s2.mesh.m_areas[i]? = some a ∧
        (a.m_connect.getD d [])[k]? = some (NavConnect.area (some j)) ∧
        s2.mesh.m_areas[j]? = some aj ∧ aj.m_id = n) ∧
    (∀ (i : Nat) (a : NavArea) (d k t : Nat), s2.mesh.m_areas[i]? = some a →
      (a.m_connect.getD d [])[k]? = some (NavConnect.area (some t)) →
      ∃ at_, s2.mesh.m_areas[t]? = some at_) := by
  have hlen := loaded_length host f s b s2 h
  constructor
  · intro i r d k n j q hr hd hn hq hqn
    obtain ⟨a, ha, hconn⟩ := Load_connect host f s b s2 h i r hr
    obtain ⟨aj, haj, hid, _⟩ := loaded_area host f s b s2 h j q hq
    refine ⟨a, aj, ha, ?_, haj, hid.trans hqn⟩
    rw [hconn, connectIds_getD r _ d hd, List.getElem?_map, hn]
    have hn0 : n ≠ 0 := hqn ▸ hnz q (List.getElem?_mem hq)
    simp only [Option.map_some', resolveId, if_neg hn0, Option.some.injEq, NavConnect.area.injEq]
    have hj : j < (f.areas.map (fun q => q.id)).length := by
      rw [List.length_map]
      exact (List.getElem?_eq_some_iff.mp hq).1
    have hidj : (f.areas.map (fun q => q.id))[j]? = some n := by
      rw [List.getElem?_map, hq]
      exact congrArg some hqn
    obtain ⟨j2, hj2, _⟩ := lastWithId_exists _ n j hidj _ hj
    obtain ⟨_, hj2id, _⟩ := lastWithId_some _ n _ j2 hj2
    rw [hj2]
    rw [List.getElem?_map] at hj2id
    cases hq2 : f.areas[j2]? with
    | none => rw [hq2] at hj2id; simp at hj2id
    | some q2 =>
      rw [hq2] at hj2id
      simp only [Option.map_some', Option.some.injEq] at hj2id
      exact congrArg some (huniq j2 j q2 q hq2 hq (hj2id.trans hqn.symm))
  · intro i a d k t ha hcn
    have hi : i < f.areas.length := hlen ▸ (List.getElem?_eq_some_iff.mp ha).1
    obtain ⟨a2, ha2, hconn⟩ := Load_connect host f s b s2 h i _ (List.getElem?_eq_getElem hi)
    rw [ha] at ha2
    cases ha2
    rw [hconn] at hcn
    by_cases hd : d < NUM_DIRECTIONS
    · rw [connectIds_getD _ _ d hd, List.getElem?_map] at hcn
      cases hn : ((f.areas[i]).connect.getD d [])[k]? with
      | none => rw [hn] at hcn; simp at hcn
      | some n =>
        rw [hn] at hcn
        simp only [Option.map_some', Option.some.injEq, NavConnect.area.injEq, resolveId] at hcn
        split_ifs at hcn
        have hlt := (lastWithId_some _ n _ t hcn).1
        rw [List.length_map, ← hlen] at hlt
        exact ⟨_, List.getElem?_eq_getElem hlt⟩
    · rw [connectIds_getD_none _ _ d hd] at hcn
      simp at hcn

/-- Claim C16 at `pairFile` loaded into a fresh map: the `EAST` connection of A is the
pointer to B, and every non-null connection points into the area list. -/
theorem C16_resolved_connections_witness :
    ∃ s2 : State, Load emptyHost (some pairFile) (State.initial 0 0) = .ok (true, s2) ∧
      (∃ a aj, s2.mesh.m_areas[0]? = some a ∧
        (a.m_connect.getD EAST [])[0]? = some (NavConnect.area (some 1)) ∧
        s2.mesh.m_areas[1]? = some aj ∧ aj.m_id = 2) ∧
      (∀ (i : Nat) (a : NavArea) (d k t : Nat), s2.mesh.m_areas[i]? = some a →
        (a.m_connect.getD d [])[k]? = some (NavConnect.area (some t)) →
        ∃ at_, s2.mesh.m_areas[t]? = some at_) := by
  obtain ⟨s2, hl⟩ := Load_ok_of_toBool emptyHost pairFile (State.initial 0 0) (by decide!)
  have huniq : ∀ (i j : Nat) (qi qj : AreaRecord), pairFile.areas[i]? = some qi → pairFile.areas[j]? = some qj →
      qi.id = qj.id → i = j := by
    intro i j qi qj hi hj he
    have hi2 : i < 2 := (List.getElem?_eq_some_iff.mp hi).1
    have hj2 : j < 2 := (List.getElem?_eq_some_iff.mp hj).1
    interval_cases i <;> interval_cases j <;>
      simp [pairFile, plainRecord] at hi hj <;> subst hi hj <;> simp_all
  have hmain := C16_resolved_connections emptyHost pairFile (State.initial 0 0) true s2 hl
    (by decide) huniq
  exact ⟨s2, hl, hmain.1 0 _ EAST 0 2 1 _ rfl (by decide) rfl rfl rfl, hmain.2⟩

/-! ### The encounter paths after `Load`: claim C17 -/

theorem lookup_mem {α β : Type} [BEq α] (l : List (α × β)) (k : α) (v : β)
    (h : l.lookup k = some v) : ∃ k2, (k2, v) ∈ l := by
  induction l with
  | nil => simp [List.lookup] at h
  | cons x rest ih =>
    obtain ⟨k1, v1⟩ := x
    unfold List.lookup at h
    cases hk : (k == k1) with
    | true =>
      rw [hk] at h
      simp only [Option.some.injEq] at h
      subst h
      exact ⟨k1, List.mem_cons_self _ _⟩
    | false =>
      rw [hk] at h
      obtain ⟨k2, hk2⟩ := ih h
      exact ⟨k2, List.mem_cons_of_mem _ hk2⟩

/-- Every id of the table of `Load` is a defined place below 1000. -/
theorem place_id_range (key : String) (p : Place) (h : place_id.lookup key = some p) :
    p ≠ 0 ∧ p < 1000 := by
  obtain ⟨k2, hk2⟩ := lookup_mem place_id key p h
  have hall : ∀ x ∈ place_id, x.2 ≠ 0 ∧ x.2 < 1000 := by
    unfold place_id
    simp
  exact hall (k2, p) hk2

theorem placeOfName_range (names : List (List Nat)) :
    ∀ p ∈ names.filterMap placeOfName, p ≠ 0 ∧ p < 1000 := by
  intro p hp
  obtain ⟨name, _, hname⟩ := List.mem_filterMap.mp hp
  exact place_id_range _ p hname

/-- The body of the place loop of `Load` on a name that carries a zero byte within its
at most 256 bytes: `AddPlace` of the id that the table has for the name, if any. -/
theorem Load_place_eq (d : PlaceDirectory) (name : List Nat) (h0 : 0 ∈ name)
    (hlen : name.length ≤ 256) :
    Load_place d name = match placeOfName name with
      | some p => d.AddPlace p
      | none => .ok d := by
  have hkey : Load_placeName name = .ok (cString name) := by
    unfold Load_placeName
    rw [if_neg (by omega), if_pos h0]
    rfl
  unfold Load_place
  rw [hkey]
  rfl

/-- The place loop of `Load` on names that carry a zero byte within their at most 256
bytes is the sequence of `AddPlace` calls for the names that the table has. -/
theorem Load_place_fold (names : List (List Nat))
    (hnames : ∀ name ∈ names, 0 ∈ name ∧ name.length ≤ 256) :
    ∀ d : PlaceDirectory,
      names.foldlM Load_place d = d.AddPlaces (names.filterMap placeOfName) := by
  induction names with
  | nil => intro d; rfl
  | cons name rest ih =>
    intro d
    obtain ⟨h0, hlen⟩ := hnames name (List.mem_cons_self _ _)
    have hrest := ih (fun n hn => hnames n (List.mem_cons_of_mem _ hn))
    rw [List.foldlM_cons, Load_place_eq d name h0 hlen]
    cases hp : placeOfName name with
    | none =>
      rw [List.filterMap_cons_none hp]
      exact hrest d
    | some p =>
      rw [List.filterMap_cons_some hp]
      unfold PlaceDirectory.AddPlaces
      rw [List.foldlM_cons]
      dsimp only
      cases hadd : d.AddPlace p with
      | error e => rfl
      | ok d1 => exact hrest d1

/-- `Load` writes the place directory in its place part only. -/
theorem Load_directory (host : Host) (f : NavFile) (s : State) (b : Bool) (s2 : State)
    (h : Load host (some f) s = .ok (b, s2)) :
    Load_places f.version s.mesh.m_placeDirectory f.places = .ok s2.mesh.m_placeDirectory := by
  obtain ⟨_, d, st, m1, m2, hd, hst, hm1, hm2, hm3, _⟩ := Load_phases host f s b s2 h
  obtain ⟨hdir, _⟩ := Load_areas_fields f.version f.areas _ st hst
  have K1 := Load_grid_kept _ _ _ hm1
  obtain ⟨_, hst12, _⟩ := Validate_fold m1 _ m2 hm2
  have K3 := BuildLadders_kept host m2 s2.mesh hm3
  rw [hd, K3.2.1, hst12.1, K1.2.1, hdir]

/-- Claim C18 fails as stated. With the names of the claim stored by their letters only
(`BombsiteA`, `Zzz`, `Kitchen`, no zero byte) `Load` has no result: the lookup key is a
zero-terminated string and runs into bytes that were never written. With the single
name of the twelve bytes `Kitchen`, zero byte, `junk`, which the table does not have,
the directory holds the id 24 of `Kitchen`. -/
theorem C18_counterexample :
    (Load emptyHost (some bareNamedFile) (State.initial 0 0)).map (fun _ => ())
      = .error .indeterminate ∧
    (Load emptyHost (some junkNamedFile) (State.initial 0 0)).map
      (fun r => r.2.mesh.m_placeDirectory.m_directory) = .ok [24] ∧
    place_id.lookup (String.mk ((nameKitchen ++ [106, 117, 110, 107]).map Char.ofNat)) = none := by
  refine ⟨?_, ?_, ?_⟩ <;> decide!

/-- Claim C18, amended: for a file of version 5 or later whose place names each carry a
zero byte within their at most 256 bytes, loaded into a map with an empty place
directory, the place part of `Load` returns, and when `Load` returns the place
directory is the list of the ids of the names, each read up to its first zero byte, that
the table of `Load` has, in file order without duplicates; names that the table does
not have are dropped. -/
theorem C18_place_directory (host : Host) (f : NavFile) (s : State)
    (hv : f.version ≥ 5) (hfresh : s.mesh.m_placeDirectory = ⟨[]⟩)
    (hnames : ∀ name ∈ f.places, 0 ∈ name ∧ name.length ≤ 256) :
    Load_places f.version s.mesh.m_placeDirectory f.places
      = .ok ⟨firstOccurrences (f.places.filterMap placeOfName)⟩ ∧
    ∀ b s2, Load host (some f) s = .ok (b, s2) →
      s2.mesh.m_placeDirectory.m_directory
        = firstOccurrences (f.places.filterMap placeOfName) := by
  have hplaces : Load_places f.version s.mesh.m_placeDirectory f.places
      = .ok ⟨firstOccurrences (f.places.filterMap placeOfName)⟩ := by
    unfold Load_places
    rw [if_pos hv, Load_place_fold f.places hnames, hfresh,
      AddPlaces_eq _ [] (fun p hp => (placeOfName_range f.places p hp).2)]
    simp only [List.nil_append, List.not_mem_nil, not_false_eq_true, and_true]
    rw [List.filter_eq_self.mpr]
    intro p hp
    simpa using (placeOfName_range f.places p hp).1
  refine ⟨hplaces, ?_⟩
  intro b s2 h
  have := Load_directory host f s b s2 h
  rw [hplaces] at this
  rw [← Except.ok.inj this]

/-- Claim C18, amended, at `namedFile` loaded into a fresh map: `Load` returns, the
directory has the two entries 1 (BombsiteA) and 24 (Kitchen), which the entries 1 and 2
of the file stand for. -/
theorem C18_place_directory_witness :
    ∃ s2 : State, Load emptyHost (some namedFile) (State.initial 0 0) = .ok (true, s2) ∧
      s2.mesh.m_placeDirectory.m_directory = [1, 24] ∧
      s2.mesh.m_placeDirectory.EntryToPlace 1 = .ok 1 ∧
      s2.mesh.m_placeDirectory.EntryToPlace 2 = .ok 24 := by
  obtain ⟨s2, hl⟩ := Load_ok_of_toBool emptyHost namedFile (State.initial 0 0) (by decide!)
  have hdir := (C18_place_directory emptyHost namedFile (State.initial 0 0) (by decide) rfl
    (by decide)).2 true s2 hl
  have hval : firstOccurrences (namedFile.places.filterMap placeOfName) = [1, 24] := by decide
  rw [hval] at hdir
  refine ⟨s2, hl, hdir, ?_, ?_⟩
  · unfold PlaceDirectory.EntryToPlace
    rw [hdir]
    rfl
  · unfold PlaceDirectory.EntryToPlace
    rw [hdir]
    rfl

/-! ### The hiding spots after `Load`: claim C20 -/

/-- The spot loop of a version-1 area on a store whose counter is the number of spots
made so far, in 32 bits. -/
theorem Load_spot_fold_v1 (recs : List SpotRecord) :
    ∀ (n : Nat) (spots : List HidingSpot) (mine : List SpotRef),
      n = spots.length % 2 ^ 32 →
      recs.foldl (Load_spot 1) (n, spots, mine)
        = ((spots.length + recs.length) % 2 ^ 32, spots ++ spotsOfV1 spots.length recs,
            mine ++ List.range' spots.length recs.length) := by
  induction recs with
  | nil =>
    intro n spots mine hn
    simp [spotsOfV1, hn]
  | cons r rest ih =>
    intro n spots mine hn
    rw [List.foldl_cons]
    have hstep : Load_spot 1 (n, spots, mine) r
        = ((n + 1) % 2 ^ 32, spots ++ [⟨r.pos, n, HidingSpot.IN_COVER⟩],
            mine ++ [spots.length]) := by
      simp [Load_spot]
    rw [hstep, ih _ _ _ (by rw [hn, List.length_append]; simp [Nat.add_mod])]
    simp only [List.length_append, List.length_singleton, List.length_cons, List.length_nil,
      spotsOfV1, List.append_assoc, List.singleton_append, List.range'_succ, hn, Prod.mk.injEq,
      and_true]
    omega

/-- The spot loop of an area of a file of another version than 1. -/
theorem Load_spot_fold_v2 (version : Nat) (hv : version ≠ 1) (recs : List SpotRecord) :
    ∀ (n : Nat) (spots : List HidingSpot) (mine : List SpotRef),
      ((recs.foldl (Load_spot version) (n, spots, mine)).2.1
          = spots ++ recs.map (fun r => (⟨r.pos, r.id, r.flags⟩ : HidingSpot))) ∧
      ((recs.foldl (Load_spot version) (n, spots, mine)).2.2
          = mine ++ List.range' spots.length recs.length) := by
  induction recs with
  | nil => intro n spots mine; simp
  | cons r rest ih =>
    intro n spots mine
    rw [List.foldl_cons]
    have hstep : Load_spot version (n, spots, mine) r
        = ((if r.id ≥ n then (r.id + 1) % 2 ^ 32 else n),
            spots ++ [⟨r.pos, r.id, r.flags⟩], mine ++ [spots.length]) := by
      simp [Load_spot, hv]
    rw [hstep]
    obtain ⟨h1, h2⟩ := ih (if r.id ≥ n then (r.id + 1) % 2 ^ 32 else n)
      (spots ++ [⟨r.pos, r.id, r.flags⟩]) (mine ++ [spots.length])
    rw [h1, h2]
    simp [List.range'_succ]

/-- One pass of the area loop of `Load` runs the spot loop of the record on the counter
and the store of the map; the area gets the pointers to the spots made. -/
theorem Load_area_spots (version : Nat) (s s2 : State) (e e2 : Extent) (r : AreaRecord)
    (h : Load_area version (s, e) r = .ok (s2, e2)) :
    ∃ a, s2.mesh.m_areas = s.mesh.m_areas ++ [a] ∧
      (s2.statics.HidingSpot_m_nextID, s2.mesh.m_hidingSpots, a.hiding_spots)
        = r.hidingSpots.foldl (Load_spot version)
            (s.statics.HidingSpot_m_nextID, s.mesh.m_hidingSpots, []) := by
  unfold Load_area at h
  simp only [bind_eq_ok, pure_eq_ok, Prod.mk.injEq] at h
  obtain ⟨ap, _, place, _, hs, he⟩ := h
  subst hs he
  exact ⟨_, rfl, rfl⟩
theorem spotsOfV1_append (l1 l2 : List SpotRecord) :
    ∀ start, spotsOfV1 start (l1 ++ l2)
      = spotsOfV1 start l1 ++ spotsOfV1 (start + l1.length) l2 := by
  induction l1 with
  | nil => intro start; simp [spotsOfV1]
  | cons r rest ih =>
    intro start
    show _ :: spotsOfV1 (start + 1) (rest ++ l2) = _
    rw [ih (start + 1)]
    simp only [spotsOfV1, List.cons_append, List.length_cons]
    rw [show start + 1 + rest.length = start + (rest.length + 1) by omega]

theorem spotsOf_append (version : Nat) (l1 l2 : List SpotRecord) (start : Nat) :
    spotsOf version start (l1 ++ l2)
      = spotsOf version start l1 ++ spotsOf version (start + l1.length) l2 := by
  unfold spotsOf
  split_ifs
  · exact spotsOfV1_append l1 l2 start
  · simp

theorem spotsOfV1_ids (recs : List SpotRecord) :
    ∀ start, (spotsOfV1 start recs).map (fun sp => sp.m_id)
      = (List.range' start recs.length).map (fun k => k % 2 ^ 32) := by
  induction recs with
  | nil => intro start; simp [spotsOfV1]
  | cons r rest ih =>
    intro start
    simp [spotsOfV1, ih, List.range'_succ]

theorem spotsOf_length (version : Nat) (start : Nat) (recs : List SpotRecord) :
    (spotsOf version start recs).length = recs.length := by
  unfold spotsOf
  split_ifs
  · have := congrArg List.length (spotsOfV1_ids recs start)
    simpa using this
  · simp

/-- The spot loop of an area, for every version: the spots that the records stand for
are appended to the store and the area gets the pointers to them; for version 1 the
counter stays the number of spots made, in 32 bits. -/
theorem Load_spot_fold (version : Nat) (recs : List SpotRecord) (n : Nat)
    (spots : List HidingSpot) (mine : List SpotRef)
    (hn : version = 1 → n = spots.length % 2 ^ 32) :
    (recs.foldl (Load_spot version) (n, spots, mine)).2.1
      = spots ++ spotsOf version spots.length recs ∧
    (recs.foldl (Load_spot version) (n, spots, mine)).2.2
      = mine ++ List.range' spots.length recs.length ∧
    (version = 1 → (recs.foldl (Load_spot version) (n, spots, mine)).1
      = (spots.length + recs.length) % 2 ^ 32) := by
  by_cases hv : version = 1
  · subst hv
    rw [Load_spot_fold_v1 recs n spots mine (hn rfl)]
    exact ⟨by simp [spotsOf], rfl, fun _ => rfl⟩
  · obtain ⟨h1, h2⟩ := Load_spot_fold_v2 version hv recs n spots mine
    exact ⟨by rw [h1]; simp [spotsOf, hv], h2, fun h => absurd h hv⟩

/-- The area loop of `Load` and the hiding spots: the spots that the records stand for
are appended to the store in file order, and each area appended holds the pointers to
its own spots. -/
theorem Load_areas_spots (version : Nat) :
    ∀ (records : List AreaRecord) (st st2 : State × Extent),
      records.foldlM (Load_area version) st = .ok st2 →
      (version = 1 →
        st.1.statics.HidingSpot_m_nextID = st.1.mesh.m_hidingSpots.length % 2 ^ 32) →
      st2.1.mesh.m_hidingSpots = st.1.mesh.m_hidingSpots ++
        spotsOf version st.1.mesh.m_hidingSpots.length
          (records.flatMap (fun r => r.hidingSpots)) ∧
      ∃ new, st2.1.mesh.m_areas = st.1.mesh.m_areas ++ new ∧
        new.map (fun a => a.hiding_spots)
          = spotRefs st.1.mesh.m_hidingSpots.length records := by
  intro records
  induction records with
  | nil =>
    intro st st2 h _
    simp only [List.foldlM_nil, pure_eq_ok] at h
    subst h
    refine ⟨?_, [], by simp, rfl⟩
    simp [spotsOf, spotsOfV1]
  | cons r rest ih =>
    intro st st2 h hn
    rw [List.foldlM_cons, bind_eq_ok] at h
    obtain ⟨⟨s1, e1⟩, h1, h2⟩ := h
    obtain ⟨s, e⟩ := st
    obtain ⟨a, ha, htriple⟩ := Load_area_spots version s s1 e e1 r h1
    obtain ⟨f1, f2, f3⟩ := Load_spot_fold version r.hidingSpots
      s.statics.HidingSpot_m_nextID s.mesh.m_hidingSpots [] hn
    rw [← htriple] at f1 f2 f3
    dsimp only at f1 f2 f3 hn ⊢
    have hlen : s1.mesh.m_hidingSpots.length
        = s.mesh.m_hidingSpots.length + r.hidingSpots.length := by
      rw [f1, List.length_append, spotsOf_length]
    obtain ⟨ihs, new, hnew, hrefs⟩ := ih (s1, e1) st2 h2 (fun hv => by
      dsimp only
      rw [f3 hv, hlen])
    dsimp only at ihs hnew hrefs
    refine ⟨?_, a :: new, by rw [hnew, ha]; simp, ?_⟩
    · rw [ihs, hlen, f1, List.flatMap_cons, spotsOf_append, List.append_assoc]
    · rw [List.map_cons, hrefs, f2, hlen]
      simp [spotRefs]

theorem Validate_unvalidated (m m2 : NavigationMap) (area : AreaRef)
    (h : Validate m area = .ok m2) :
    m2.m_areas.map NavArea.unvalidated = m.m_areas.map NavArea.unvalidated := by
  unfold Validate at h
  simp only [bind_eq_ok, pure_eq_ok] at h
  obtain ⟨a, _, connect, _, approach, _, encounters, _, areas, hup, rfl⟩ := h
  exact update_map NavArea.unvalidated hup (fun _ => rfl)

theorem unvalidated_of_kept {m m2 : NavigationMap} (h : Kept m m2) :
    m2.m_areas.map NavArea.unvalidated = m.m_areas.map NavArea.unvalidated := by
  have := congrArg (List.map (fun a : NavArea =>
    ({ a with m_connect := [], m_approach := [], encounter_spots := [],
              m_overlapList := [] } : NavArea))) h.1
  simpa [List.map_map, Function.comp, NavArea.unvalidated] using this

/-- After its area loop, `Load` writes neither the store of the hiding spots nor the
members of the areas that stay in `unvalidated`. -/
theorem Load_unvalidated (host : Host) (f : NavFile) (s : State) (b : Bool) (s2 : State)
    (h : Load host (some f) s = .ok (b, s2)) :
    ∃ (d : PlaceDirectory) (st : State × Extent),
      f.areas.foldlM (Load_area f.version)
        (⟨⟨1, 0⟩, ⟨[], d, s.mesh.m_navAreaGrid.Reset, [], []⟩⟩, Load_extent0) = .ok st ∧
      s2.mesh.m_hidingSpots = st.1.mesh.m_hidingSpots ∧
      s2.mesh.m_areas.map NavArea.unvalidated = st.1.mesh.m_areas.map NavArea.unvalidated ∧
      s2.statics = st.1.statics := by
  obtain ⟨_, d, st, m1, m2, _, hst, hm1, hm2, hm3, hstat⟩ := Load_phases host f s b s2 h
  have K1 := Load_grid_kept _ _ _ hm1
  obtain ⟨_, hst12, _⟩ := Validate_fold m1 _ m2 hm2
  have hV := foldlM_preserves
    (fun m m2 : NavigationMap =>
      m2.m_areas.map NavArea.unvalidated = m.m_areas.map NavArea.unvalidated)
    (fun _ => rfl) (fun _ _ _ h1 h2 => h2.trans h1) Validate
    (fun m i m2 hm => Validate_unvalidated m m2 i hm) _ _ _ hm2
  have K3 := BuildLadders_kept host m2 s2.mesh hm3
  refine ⟨d, st, hst, by rw [K3.2.2, hst12.2, K1.2.2], ?_, hstat⟩
  rw [unvalidated_of_kept K3, hV, unvalidated_of_kept K1]
/-- The hiding spots after a `Load` that returns: the store holds the spots that the
records of the file stand for, in file order, and each area holds the pointers to its
own spots. -/
theorem Load_store (host : Host) (f : NavFile) (s : State) (b : Bool) (s2 : State)
    (h : Load host (some f) s = .ok (b, s2)) :
    s2.mesh.m_hidingSpots = spotsOf f.version 0 (f.areas.flatMap (fun r => r.hidingSpots)) ∧
    s2.mesh.m_areas.map (fun a => a.hiding_spots) = spotRefs 0 f.areas := by
  obtain ⟨d, st, hst, hspots, hun, _⟩ := Load_unvalidated host f s b s2 h
  obtain ⟨h1, new, hnew, hrefs⟩ := Load_areas_spots f.version f.areas _ st hst (fun _ => rfl)
  dsimp only at h1 hnew hrefs
  rw [List.nil_append] at h1 hnew
  rw [List.length_nil] at h1 hrefs
  refine ⟨hspots.trans h1, ?_⟩
  have := congrArg (List.map (fun a : NavArea => a.hiding_spots)) hun
  simp only [List.map_map] at this
  rw [← hrefs, ← hnew]
  exact this

theorem reads_pure {α : Type} (v : α) : Reads (pure v : Reader α) [] v := by
  intro rest
  rfl

theorem reads_bind {α β : Type} {x : Reader α} {f : α → Reader β} {u v : List Nat}
    {a : α} {b : β} (hx : Reads x u a) (hf : Reads (f a) v b) :
    Reads (x >>= f) (u ++ v) b := by
  intro rest
  show (x (u ++ v ++ rest) >>= fun p => f p.1 p.2) = _
  rw [List.append_assoc, hx (v ++ rest)]
  exact hf rest

theorem reads_of_eq {α : Type} {rd : Reader α} {e1 e2 : List Nat} {v : α}
    (h : Reads rd e1 v) (he : e1 = e2) : Reads rd e2 v := he ▸ h

theorem length_encLE (size : Nat) : ∀ n, (encLE size n).length = size := by
  induction size with
  | zero => intro n; rfl
  | succ k ih => intro n; simp [encLE, ih]

theorem leValue_encLE (size : Nat) : ∀ n, n < 256 ^ size → leValue (encLE size n) = n := by
  induction size with
  | zero => intro n hn; simp at hn; simp [encLE, leValue, hn]
  | succ k ih =>
    intro n hn
    have hdiv : n / 256 < 256 ^ k := by
      rw [Nat.div_lt_iff_lt_mul (by norm_num)]
      rw [pow_succ] at hn
      exact hn
    simp only [encLE, leValue, ih _ hdiv, Nat.mod_mod]
    omega

theorem reads_fread (size n : Nat) (hn : n < 256 ^ size) :
    Reads (fread size) (encLE size n) n := by
  intro rest
  unfold fread
  have hlen := length_encLE size n
  rw [if_neg (by rw [List.length_append]; omega), List.take_left' hlen, List.drop_left' hlen,
    leValue_encLE size n hn]

theorem reads_fread_zeroed (size n : Nat) (hs : 0 < size) (hn : n < 256 ^ size) :
    Reads (fread_zeroed size) (encLE size n) n := by
  intro rest
  unfold fread_zeroed
  have hlen := length_encLE size n
  have hne : encLE size n ++ rest ≠ [] := by
    intro h
    have := congrArg List.length h
    rw [List.length_append, hlen] at this
    simp at this
    omega
  rw [if_neg hne]
  exact reads_fread size n hn rest

theorem reads_float (bits : ℚ → Nat) (q : ℚ) (h : Encodable bits q) :
    Reads fread_float (encLE 4 (bits q)) q := by
  have := reads_bind
    (reads_fread 4 (bits q) (by have := h.1; norm_num at this ⊢; exact this))
    (f := fun w => (floatOfBits w : Reader ℚ)) (v := []) (b := q) (by
      intro rest
      show (floatOfBits (bits q) >>= fun a => (pure (a, [] ++ rest) : Run _)) = _
      rw [h.2]
      rfl)
  exact reads_of_eq this (List.append_nil _)

theorem reads_readN {α : Type} (rd : Reader α) (enc : α → List Nat) (l : List α)
    (h : ∀ x ∈ l, Reads rd (enc x) x) : Reads (readN rd l.length) (l.flatMap enc) l := by
  induction l with
  | nil => exact reads_pure _
  | cons x rest ih =>
    have h1 := h x (List.mem_cons_self _ _)
    have h2 := ih (fun y hy => h y (List.mem_cons_of_mem _ hy))
    have := reads_bind h1 (f := fun a => readN rd rest.length >>= fun r => pure (a :: r))
      (reads_bind h2 (f := fun r => (pure (x :: r) : Reader (List α))) (reads_pure _))
    exact reads_of_eq this (by simp)
theorem reads_seq {α β : Type} {x : Reader α} {f : α → Reader β} {u v enc : List Nat}
    {a : α} {b : β} (hx : Reads x u a) (hf : Reads (f a) v b) (he : enc = u ++ v) :
    Reads (x >>= f) enc b :=
  he ▸ reads_bind hx hf

theorem reads_u32 (n : Nat) (h : n < 2 ^ 32) : Reads (fread 4) (encLE 4 n) n :=
  reads_fread 4 n (by norm_num at h ⊢; exact h)

theorem reads_u8 (n : Nat) (h : n < 256) : Reads (fread 1) (encLE 1 n) n :=
  reads_fread 1 n (by norm_num at h ⊢; exact h)

theorem reads_Vector (bits : ℚ → Nat) (v : Vector) (h : v.Fits bits) :
    Reads fread_Vector (encVector bits v) v := by
  unfold fread_Vector
  exact reads_seq (reads_float bits v.x h.1)
    (reads_seq (reads_float bits v.y h.2.1)
      (reads_seq (reads_float bits v.z h.2.2) (reads_pure _) rfl) rfl)
    (by simp [encVector])

theorem reads_Extent (bits : ℚ → Nat) (e : Extent) (h : e.lo.Fits bits ∧ e.hi.Fits bits) :
    Reads fread_Extent (encExtent bits e) e := by
  unfold fread_Extent
  exact reads_seq (reads_Vector bits e.lo h.1)
    (reads_seq (reads_Vector bits e.hi h.2) (reads_pure _) rfl)
    (by simp [encExtent])

theorem reads_Connect (l : List Nat) (h : l.length < 2 ^ 32 ∧ ∀ n ∈ l, n < 2 ^ 32) :
    Reads Load_readConnect (encConnect l) l := by
  unfold Load_readConnect
  exact reads_seq (reads_u32 l.length h.1)
    (reads_readN (fread 4) (encLE 4) l (fun n hn => reads_u32 n (h.2 n hn))) rfl

theorem reads_Spot (bits : ℚ → Nat) (version : Nat) (hv : version ≠ 1) (r : SpotRecord)
    (h : r.Fits bits) : Reads (Load_readSpot version) (encSpot bits r) r := by
  unfold Load_readSpot
  rw [if_neg hv]
  exact reads_seq (reads_u32 r.id h.1)
    (reads_seq (reads_Vector bits r.pos h.2.1)
      (reads_seq (reads_u8 r.flags h.2.2) (reads_pure _) rfl) rfl)
    (by simp [encSpot])

theorem reads_Approach (r : ApproachRecord) (h : r.Fits) :
    Reads Load_readApproach (encApproach r) r := by
  obtain ⟨h1, h2, h3, h4, h5⟩ := h
  unfold Load_readApproach
  exact reads_seq (reads_u32 _ h1) (reads_seq (reads_u32 _ h2) (reads_seq (reads_u8 _ h3)
    (reads_seq (reads_u32 _ h4) (reads_seq (reads_u8 _ h5) (reads_pure _) rfl) rfl) rfl) rfl)
    (by simp [encApproach])

theorem reads_Order (sp : Nat × Nat) (h : sp.1 < 2 ^ 32 ∧ sp.2 < 256) :
    Reads Load_readOrder (encOrder sp) sp := by
  unfold Load_readOrder
  exact reads_seq (reads_u32 _ h.1) (reads_seq (reads_u8 _ h.2) (reads_pure _) rfl)
    (by simp [encOrder])

theorem reads_Encounter (r : EncounterRecord) (h : r.Fits) :
    Reads Load_readEncounter (encEncounter r) r := by
  obtain ⟨h1, h2, h3, h4, h5, h6⟩ := h
  unfold Load_readEncounter
  exact reads_seq (reads_u32 _ h1) (reads_seq (reads_u8 _ h2) (reads_seq (reads_u32 _ h3)
    (reads_seq (reads_u8 _ h4) (reads_seq (reads_u8 _ h5)
      (reads_seq (reads_readN Load_readOrder encOrder r.spots
          (fun sp hsp => reads_Order sp (h6 sp hsp)))
        (reads_pure _) rfl) rfl) rfl) rfl) rfl)
    (by simp [encEncounter])
theorem reads_Area (bits : ℚ → Nat) (version : Nat) (hv : version ≠ 1) (r : AreaRecord)
    (h : r.Fits bits) : Reads (Load_readArea version) (encArea bits r) r := by
  obtain ⟨h1, h2, h3, h4, h5, ⟨h6, h7⟩, ⟨h8, h9⟩, ⟨h10, h11⟩, ⟨h12, h13⟩, h14⟩ := h
  unfold Load_readArea
  rw [← h6]
  exact reads_seq (reads_u32 _ h1) (reads_seq (reads_u8 _ h2)
    (reads_seq (reads_Extent bits _ h3) (reads_seq (reads_float bits _ h4)
    (reads_seq (reads_float bits _ h5)
    (reads_seq (reads_readN Load_readConnect encConnect r.connect
      (fun l hl => reads_Connect l (h7 l hl)))
    (reads_seq (reads_u8 _ h8)
    (reads_seq (reads_readN (Load_readSpot version) (encSpot bits) r.hidingSpots
      (fun sp hsp => reads_Spot bits version hv sp (h9 sp hsp)))
    (reads_seq (reads_u8 _ h10)
    (reads_seq (reads_readN Load_readApproach encApproach r.approach
      (fun ap hap => reads_Approach ap (h11 ap hap)))
    (reads_seq (reads_u32 _ h12)
    (reads_seq (reads_readN Load_readEncounter encEncounter r.encounters
      (fun en hen => reads_Encounter en (h13 en hen)))
    (reads_seq (reads_fread_zeroed 2 _ (by norm_num) (by norm_num at h14 ⊢; exact h14))
      (reads_pure _) rfl) rfl) rfl) rfl) rfl) rfl) rfl) rfl) rfl) rfl) rfl) rfl)
    (by simp [encArea])

theorem reads_Name (name : List Nat) (h : name.length < 2 ^ 16) :
    Reads Load_readName (encName name) name := by
  unfold Load_readName
  refine reads_seq (reads_fread_zeroed 2 _ (by norm_num) (by norm_num at h ⊢; exact h))
    (v := name) ?_ rfl
  intro rest
  show Except.ok ((name ++ rest).take name.length, (name ++ rest).drop name.length) = _
  rw [List.take_left' rfl, List.drop_left' rfl]

theorem leValue_append (l1 l2 : List Nat) :
    leValue (l1 ++ l2) = leValue l1 + 256 ^ l1.length * leValue l2 := by
  induction l1 with
  | nil => simp [leValue]
  | cons b rest ih =>
    show b % 256 + 256 * leValue (rest ++ l2)
      = b % 256 + 256 * leValue rest + 256 ^ (rest.length + 1) * leValue l2
    rw [ih, pow_succ]
    ring

theorem reads_header (magic version : Nat) (hm : magic < 2 ^ 32) (hv : version < 2 ^ 32) :
    Reads (fread 8) (encLE 4 magic ++ encLE 4 version) (magic + 2 ^ 32 * version) := by
  intro rest
  unfold fread
  have hlen : (encLE 4 magic ++ encLE 4 version).length = 8 := by
    rw [List.length_append, length_encLE, length_encLE]
  rw [if_neg (by rw [List.length_append, hlen]; omega), List.take_left' hlen,
    List.drop_left' hlen, leValue_append, length_encLE,
    leValue_encLE 4 magic (by norm_num at hm ⊢; exact hm),
    leValue_encLE 4 version (by norm_num at hv ⊢; exact hv)]
  norm_num

/-- The reader of `Load` returns the file that a stream of version 5 encodes. -/
theorem reads_File (bits : ℚ → Nat) (f : NavFile) (h : f.Fits bits) :
    Reads Load_read (encFile bits f) f := by
  obtain ⟨h1, h2, h3, ⟨h4, h5⟩, ⟨h6, h7⟩⟩ := h
  have hv1 : f.version ≠ 1 := by rw [h2]; decide
  have hver : (f.magic + 2 ^ 32 * f.version) / 2 ^ 32 = f.version := by
    rw [Nat.add_mul_div_left _ _ (by norm_num), Nat.div_eq_of_lt h1, Nat.zero_add]
  have hmag : (f.magic + 2 ^ 32 * f.version) % 2 ^ 32 = f.magic := by
    rw [Nat.add_mul_mod_self_left, Nat.mod_eq_of_lt h1]
  have hbody : Reads (Load_readBody f.magic f.version)
      (encLE 4 f.saveBspSize ++ (encLE 2 f.places.length ++ f.places.flatMap encName) ++
        encLE 4 f.areas.length ++ f.areas.flatMap (encArea bits)) f := by
    unfold Load_readBody Load_readBspSize Load_readPlaces
    rw [if_pos (by omega), if_pos (by omega)]
    exact reads_seq (reads_fread_zeroed 4 _ (by norm_num) (by norm_num at h3 ⊢; exact h3))
      (reads_seq
        (reads_seq (reads_fread 2 _ (by norm_num at h4 ⊢; exact h4))
          (reads_readN Load_readName encName f.places
            (fun name hn => reads_Name name (h5 name hn))) rfl)
        (reads_seq (reads_fread_zeroed 4 _ (by norm_num) (by norm_num at h6 ⊢; exact h6))
          (reads_seq (reads_readN (Load_readArea f.version) (encArea bits) f.areas
            (fun r hr => reads_Area bits f.version hv1 r (h7 r hr)))
            (reads_pure _) rfl) rfl) rfl)
      (by simp)
  unfold Load_read
  exact reads_seq (reads_header f.magic f.version h1 (by rw [h2]; norm_num))
    (by rw [hver, hmag]; exact hbody) (by simp [encFile])

/-- On the stream that encodes a file of version 5, `Load` on the bytes is `Load` on
that file. -/
theorem Load_stream_encFile (host : Host) (bits : ℚ → Nat) (f : NavFile) (h : f.Fits bits)
    (s : State) : Load_stream host (some (encFile bits f)) s = Load host (some f) s := by
  have := reads_File bits f h []
  rw [List.append_nil] at this
  simp only [Load_stream, this]
  rfl

/-! ### The area loop of `Load` returns -/

/-- The approach loop of an area on a table with room for the records: the records fill
the slots from `k` on, in file order. -/
theorem Load_approach_fold (recs : List ApproachRecord) :
    ∀ (table : List ApproachInfo) (k : Nat), k + recs.length ≤ table.length →
      recs.foldlM Load_approach (table, k)
        = .ok (table.take k ++ recs.map ApproachRecord.toInfo ++
            table.drop (k + recs.length), k + recs.length) := by
  induction recs with
  | nil =>
    intro table k _
    simp [pure, Except.pure]
  | cons r rest ih =>
    intro table k hk
    rw [List.length_cons] at hk
    have hlt : k < table.length := by omega
    rw [List.foldlM_cons]
    have hstep : Load_approach (table, k) r = .ok (table.set k r.toInfo, k + 1) := by
      simp [Load_approach, hlt, ApproachRecord.toInfo]
    rw [hstep]
    show rest.foldlM Load_approach (table.set k r.toInfo, k + 1) = _
    rw [ih (table.set k r.toInfo) (k + 1) (by rw [List.length_set]; omega)]
    have h1 : (table.set k r.toInfo).take (k + 1) = table.take k ++ [r.toInfo] := by
      rw [List.set_eq_take_append_cons_drop, if_pos hlt]
      rw [List.take_append_eq_append_take, List.take_take]
      simp [List.length_take, Nat.min_eq_left (Nat.le_of_lt hlt)]
    have h2 : (table.set k r.toInfo).drop (k + 1 + rest.length)
        = table.drop (k + (rest.length + 1)) := by
      rw [List.drop_set_of_lt _ _ (by omega)]
      congr 1
      omega
    rw [h1, h2]
    simp only [List.map_cons, List.append_assoc, List.singleton_append, List.length_cons,
      Except.ok.injEq, Prod.mk.injEq, true_and]
    omega

theorem EntryToPlace_ok (d : PlaceDirectory) (entry : Nat)
    (h : entry ≤ d.m_directory.length) : ∃ p, d.EntryToPlace entry = .ok p := by
  unfold PlaceDirectory.EntryToPlace
  by_cases h0 : entry = 0
  · exact ⟨_, if_pos h0⟩
  · rw [if_neg h0]
    have hlt : entry - 1 < d.m_directory.length := by omega
    simp only [gt_iff_lt, if_neg (Nat.not_lt.mpr (Nat.le_of_lt hlt)),
      List.getElem?_eq_getElem hlt]
    exact ⟨_, rfl⟩

/-- One pass of the area loop of `Load` returns when the record has at most 16 approach
records and a place entry that the directory has. -/
theorem Load_area_ok (version : Nat) (s : State) (e : Extent) (r : AreaRecord)
    (hap : r.approach.length ≤ NavArea.MAX_APPROACH_AREAS)
    (hpl : r.placeEntry ≤ s.mesh.m_placeDirectory.m_directory.length) :
    ∃ st2, Load_area version (s, e) r = .ok st2 := by
  have h1 := Load_approach_fold r.approach
    (NavArea.Initialize s.statics.NavArea_m_nextID).m_approach 0 (by
      simp only [NavArea.Initialize, List.length_replicate]
      omega)
  obtain ⟨p, hp⟩ := EntryToPlace_ok _ _ hpl
  cases h : Load_area version (s, e) r with
  | ok st2 => exact ⟨st2, rfl⟩
  | error err =>
    exfalso
    unfold Load_area at h
    simp [h1, hp, bind, Except.bind, pure, Except.pure] at h

/-- The area loop of `Load` returns when every record has at most 16 approach records
and a place entry that the directory has. -/
theorem Load_areas_ok (version : Nat) :
    ∀ (records : List AreaRecord) (st : State × Extent),
      (∀ r ∈ records, r.approach.length ≤ NavArea.MAX_APPROACH_AREAS ∧
        r.placeEntry ≤ st.1.mesh.m_placeDirectory.m_directory.length) →
      ∃ st2, records.foldlM (Load_area version) st = .ok st2 := by
  intro records
  induction records with
  | nil => intro st _; exact ⟨st, rfl⟩
  | cons r rest ih =>
    intro st h
    obtain ⟨s, e⟩ := st
    obtain ⟨hap, hpl⟩ := h r (List.mem_cons_self _ _)
    obtain ⟨⟨s1, e1⟩, h1⟩ := Load_area_ok version s e r hap hpl
    have hdir := (Load_area_fields version s s1 e e1 r h1).2
    obtain ⟨st2, h2⟩ := ih (s1, e1) (fun q hq => by
      have := h q (List.mem_cons_of_mem _ hq)
      dsimp only at this ⊢
      rw [hdir]
      exact this)
    exact ⟨st2, by rw [List.foldlM_cons, h1]; exact h2⟩

/-- The approach table of an area that carries a record with at most 16 approach
records starts with the records, in file order. -/
theorem FromRecord.approach {d : PlaceDirectory} {r : AreaRecord} {a : NavArea}
    (h : FromRecord d r a) (hap : r.approach.length ≤ NavArea.MAX_APPROACH_AREAS) :
    a.m_approach.take r.approach.length = r.approach.map ApproachRecord.toInfo := by
  obtain ⟨n, hn⟩ := h.2.2.2.2.2.2.2.2.1
  rw [Load_approach_fold r.approach _ 0 (by simp only [List.length_replicate]; omega)] at hn
  simp only [Except.ok.injEq, Prod.mk.injEq] at hn
  rw [← hn.1]
  simp

/-! ### The area records of an encoded stream: claim C19 -/

theorem connectIds_of_length (r : AreaRecord) (h : r.connect.length = NUM_DIRECTIONS) :
    r.connectIds = r.connect := by
  unfold AreaRecord.connectIds
  apply List.ext_getElem?
  intro i
  rw [List.getElem?_map]
  by_cases hi : i < NUM_DIRECTIONS
  · rw [List.getElem?_range hi]
    simp only [Option.map_some', List.getD_eq_getElem?_getD]
    rw [List.getElem?_eq_getElem (h ▸ hi)]
    rfl
  · rw [List.getElem?_eq_none (by simpa using hi), List.getElem?_eq_none (by omega)]
    rfl

/-- Claim C19 fails as stated. The file `seventeenFile`, whose area record has 17
approach records, has an encoding as a stream of version 5, and `Load` of that stream
has no result: the 17th record is written behind the 16 slots of the approach table.
The file `danglingFile` has an encoding too, and after `Load` of that stream into a
fresh map the `EAST` neighbour id 99 of its area record is not in the map: the
connection is the null area pointer, whose id member reads 0. -/
theorem C19_counterexample :
    (NavFile.Fits bitsOf seventeenFile ∧
      (Load_stream emptyHost (some (encFile bitsOf seventeenFile)) (State.initial 0 0)).map
        (fun _ => ()) = .error .outOfBounds) ∧
    NavFile.Fits bitsOf danglingFile ∧
    (danglingFile.areas.map (fun r => r.connect.getD EAST [])) = [[99]] ∧
    (Load_stream emptyHost (some (encFile bitsOf danglingFile)) (State.initial 0 0)).map
      (fun r => r.2.mesh.m_areas.map (fun a =>
        (a.m_connect.getD EAST []).map (fun cn => (cn.getArea, cn.getId))))
      = .ok [[(none, .ok 0)]] := by
  refine ⟨⟨?_, ?_⟩, ?_, ?_, ?_⟩ <;> decide!

/-- Claim C19, amended. For every file that has an encoding as a stream of version 5
(little-endian, no padding, `bits` giving the bit patterns of the floats): the reads of
`Load` on the stream return exactly the file, so that `Load` on the stream is `Load` on
the file. When every area record has at most 16 approach records and a place entry that
the place directory has, the area loop of `Load` returns, and it leaves one area per
record, in file order, with the id, the attribute flags, the extent, `neZ` and `swZ` of
the record, the neighbour ids of the four directions in file order, the approach
records and the encounters, all areas in them as ids, and the hiding spots with id,
position and flags. When `Load` returns, the map still has these areas and spots, with
the connections turned by `Validate` into the pointers to the areas that the ids stand
for. -/
theorem C19_encoded_records (host : Host) (bits : ℚ → Nat) (f : NavFile)
    (hfits : f.Fits bits) (s : State) :
    Load_read (encFile bits f) = .ok (f, []) ∧
    Load_stream host (some (encFile bits f)) s = Load host (some f) s ∧
    (∀ d, Load_places f.version s.mesh.m_placeDirectory f.places = .ok d →
      (∀ r ∈ f.areas, r.approach.length ≤ 16 ∧ r.placeEntry ≤ d.m_directory.length) →
      ∃ st, f.areas.foldlM (Load_area f.version)
          (⟨⟨1, 0⟩, ⟨[], d, s.mesh.m_navAreaGrid.Reset, [], []⟩⟩, Load_extent0) = .ok st ∧
        List.Forall₂ (fun r a =>
            a.m_id = r.id ∧ a.m_attributeFlags = r.attributeFlags ∧ a.m_extent = r.extent ∧
            a.m_neZ = r.neZ ∧ a.m_swZ = r.swZ ∧
            a.m_connect = r.connect.map (fun l => l.map NavConnect.id) ∧
            a.m_approachCount = r.approach.length ∧
            a.m_approach.take r.approach.length = r.approach.map ApproachRecord.toInfo ∧
            a.encounter_spots = r.encounters.map Load_encounter)
          f.areas st.1.mesh.m_areas ∧
        st.1.mesh.m_hidingSpots = (f.areas.flatMap (fun r => r.hidingSpots)).map
          (fun r => (⟨r.pos, r.id, r.flags⟩ : HidingSpot)) ∧
        st.1.mesh.m_areas.map (fun a => a.hiding_spots) = spotRefs 0 f.areas) ∧
    (∀ b s2, Load_stream host (some (encFile bits f)) s = .ok (b, s2) →
      s2.mesh.m_hidingSpots = (f.areas.flatMap (fun r => r.hidingSpots)).map
        (fun r => (⟨r.pos, r.id, r.flags⟩ : HidingSpot)) ∧
      s2.mesh.m_areas.map (fun a => a.hiding_spots) = spotRefs 0 f.areas ∧
      ∀ (i : Nat) (r : AreaRecord), f.areas[i]? = some r →
        ∃ a : NavArea, s2.mesh.m_areas[i]? = some a ∧
        a.m_id = r.id ∧ a.m_attributeFlags = r.attributeFlags ∧ a.m_extent = r.extent ∧
        a.m_neZ = r.neZ ∧ a.m_swZ = r.swZ ∧ a.m_approachCount = r.approach.length ∧
        a.m_connect = r.connect.map (fun l => l.map (fun n =>
          NavConnect.area (resolveId (f.areas.map (fun q => q.id)) n)))) := by
  have hread : Load_read (encFile bits f) = .ok (f, []) := by
    have := reads_File bits f hfits []
    rwa [List.append_nil] at this
  have hstream := Load_stream_encFile host bits f hfits s
  have hv : f.version ≠ 1 := by rw [hfits.2.1]; decide
  have hconn : ∀ r ∈ f.areas, r.connectIds = r.connect := fun r hr =>
    connectIds_of_length r (hfits.2.2.2.2.2 r hr).2.2.2.2.2.1.1
  refine ⟨hread, hstream, ?_, ?_⟩
  · intro d _ hrec
    obtain ⟨st, hst⟩ := Load_areas_ok f.version f.areas
      (⟨⟨1, 0⟩, ⟨[], d, s.mesh.m_navAreaGrid.Reset, [], []⟩⟩, Load_extent0) hrec
    obtain ⟨_, new, hnew, hall⟩ := Load_areas_fields f.version f.areas _ st hst
    obtain ⟨hsp, new2, hnew2, hrefs⟩ :=
      Load_areas_spots f.version f.areas _ st hst (fun h => absurd h hv)
    dsimp only at hnew hall hsp hnew2 hrefs
    rw [List.nil_append] at hnew hnew2 hsp
    rw [List.length_nil] at hsp hrefs
    refine ⟨st, hst, ?_, ?_, ?_⟩
    · rw [hnew]
      have hmem : List.Forall₂ (fun r a => r ∈ f.areas ∧ FromRecord d r a) f.areas new := by
        rw [List.forall₂_iff_get] at hall ⊢
        exact ⟨hall.1, fun i h1 h2 => ⟨List.get_mem _ _ _, hall.2 i h1 h2⟩⟩
      refine hmem.imp ?_
      intro r a ⟨hr, hfrom⟩
      have hap := FromRecord.approach hfrom (hrec r hr).1
      obtain ⟨h1, h2, h3, h4, h5, h6, h7, h8, _, _⟩ := hfrom
      refine ⟨h1, h2, h3, h4, h5, ?_, h8, hap, h7⟩
      rw [h6, hconn r hr]
    · rw [hsp, spotsOf, if_neg hv]
    · rw [hnew2]
      exact hrefs
  · intro b s2 hl
    rw [hstream] at hl
    obtain ⟨hstore, hrefs⟩ := Load_store host f s b s2 hl
    refine ⟨by rw [hstore, spotsOf, if_neg hv], hrefs, ?_⟩
    intro i r hr
    obtain ⟨d, m', a0, a1, a, _, hfrom, _, _, _, ha, _, _, hun⟩ :=
      Load_validated host f s b s2 hl i r hr
    obtain ⟨a2, ha2, hconn2⟩ := Load_connect host f s b s2 hl i r hr
    rw [ha] at ha2
    cases ha2
    obtain ⟨h1, h2, h3, h4, h5, _, _, h8, _, _⟩ := hfrom
    have e1 := congrArg NavArea.m_id hun
    have e2 := congrArg NavArea.m_attributeFlags hun
    have e3 := congrArg NavArea.m_extent hun
    have e4 := congrArg NavArea.m_neZ hun
    have e5 := congrArg NavArea.m_swZ hun
    have e8 := congrArg NavArea.m_approachCount hun
    refine ⟨a, ha, e1.trans h1, e2.trans h2, e3.trans h3, e4.trans h4, e5.trans h5,
      e8.trans h8, ?_⟩
    rw [hconn2, hconn r (List.getElem?_mem hr)]

/-- Claim C19, amended, at `richFile` with the bit patterns `bitsOf`, loaded into a
fresh map: the file has an encoding, the reads return it, the area loop returns and
stores the records, and `Load` returns a map in which the area A has the id, the extent
and the approach count of its record and the connection to B as a pointer. -/
theorem C19_encoded_records_witness :
    NavFile.Fits bitsOf richFile ∧
    Load_read (encFile bitsOf richFile) = .ok (richFile, []) ∧
    (∃ st, richFile.areas.foldlM (Load_area richFile.version)
        (⟨⟨1, 0⟩, ⟨[], ⟨[24]⟩, (State.initial 0 0).mesh.m_navAreaGrid.Reset, [], []⟩⟩,
          Load_extent0) = .ok st ∧
      List.Forall₂ (fun r a =>
          a.m_id = r.id ∧ a.m_attributeFlags = r.attributeFlags ∧ a.m_extent = r.extent ∧
          a.m_neZ = r.neZ ∧ a.m_swZ = r.swZ ∧
          a.m_connect = r.connect.map (fun l => l.map NavConnect.id) ∧
          a.m_approachCount = r.approach.length ∧
          a.m_approach.take r.approach.length = r.approach.map ApproachRecord.toInfo ∧
          a.encounter_spots = r.encounters.map Load_encounter)
        richFile.areas st.1.mesh.m_areas ∧
      st.1.mesh.m_hidingSpots = [⟨⟨10, 10, 0⟩, 7, 1⟩] ∧
      st.1.mesh.m_areas.map (fun a => a.hiding_spots) = [[0], []]) ∧
    ∃ s2 a, Load_stream emptyHost (some (encFile bitsOf richFile)) (State.initial 0 0)
        = .ok (true, s2) ∧
      s2.mesh.m_hidingSpots = [⟨⟨10, 10, 0⟩, 7, 1⟩] ∧
      s2.mesh.m_areas[0]? = some a ∧ a.m_id = 1 ∧ a.m_attributeFlags = 0 ∧
      a.m_extent = ⟨⟨0, 0, 0⟩, ⟨100, 100, 0⟩⟩ ∧ a.m_approachCount = 1 ∧
      a.m_connect = [[], [NavConnect.area (some 1)], [], []] := by
  have hf : NavFile.Fits bitsOf richFile := by decide!
  obtain ⟨hread, hstream, hloop, hfinal⟩ :=
    C19_encoded_records emptyHost bitsOf richFile hf (State.initial 0 0)
  obtain ⟨st, hst, hall, hsp, hrefs⟩ := hloop ⟨[24]⟩ (by decide!) (by decide)
  obtain ⟨s2, hl⟩ := Load_ok_of_toBool emptyHost richFile (State.initial 0 0) (by decide!)
  rw [← hstream] at hl
  obtain ⟨h1, _, h3⟩ := hfinal true s2 hl
  obtain ⟨a, ha, e1, e2, e3, _, _, e8, e9⟩ := h3 0 _ rfl
  exact ⟨hf, hread, ⟨st, hst, hall, hsp.trans (by decide), hrefs.trans (by decide)⟩,
    s2, a, hl, h1.trans (by decide), ha, e1, e2, e3, e8, e9.trans (by decide)⟩

/-! ### The grid part of `Load` returns -/

theorem WorldToGridX_lt (g : NavAreaGrid) (hs : 1 ≤ g.m_gridSizeX) (w : ℚ) :
    g.WorldToGridX w < g.m_gridSizeX := by
  unfold NavAreaGrid.WorldToGridX
  dsimp only
  split_ifs <;> omega

theorem WorldToGridY_lt (g : NavAreaGrid) (hs : 1 ≤ g.m_gridSizeY) (w : ℚ) :
    g.WorldToGridY w < g.m_gridSizeY := by
  unfold NavAreaGrid.WorldToGridY
  dsimp only
  split_ifs <;> omega

theorem update_ok (areas : List NavArea) (r : AreaRef) (f : NavArea → NavArea)
    (h : r < areas.length) :
    ∃ areas2, update areas r f = .ok areas2 ∧ areas2.length = areas.length := by
  unfold update
  rw [List.getElem?_eq_getElem h]
  exact ⟨_, rfl, List.length_set _ _ _⟩

/-- A run of `push_back(k)` over bucket indices that all lie in the array returns. -/
theorem pushAll_ok (f : List AreaRef → List AreaRef) :
    ∀ (is : List Int) (cs : List (List AreaRef)),
      (∀ i ∈ is, 0 ≤ i ∧ i.toNat < cs.length) →
      ∃ cs2, is.foldlM (fun cells i => NavAreaGrid.modifyBucket cells i f) (some cs)
          = .ok (some cs2) ∧ cs2.length = cs.length := by
  intro is
  induction is with
  | nil => intro cs _; exact ⟨cs, rfl, rfl⟩
  | cons i rest ih =>
    intro cs h
    obtain ⟨h0, hlt⟩ := h i (List.mem_cons_self _ _)
    have hstep : NavAreaGrid.modifyBucket (some cs) i f
        = .ok (some (cs.set i.toNat (f (cs.get ⟨i.toNat, hlt⟩)))) := by
      unfold NavAreaGrid.modifyBucket
      simp only [if_neg (not_lt.mpr h0), List.getElem?_eq_getElem hlt]
      rfl
    obtain ⟨cs2, hc2, hlen⟩ := ih (cs.set i.toNat (f (cs.get ⟨i.toNat, hlt⟩))) (fun j hj => by
      rw [List.length_set]
      exact h j (List.mem_cons_of_mem _ hj))
    refine ⟨cs2, ?_, by rw [hlen, List.length_set]⟩
    rw [List.foldlM_cons, hstep]
    exact hc2

/-- `AddNavArea` returns on a grid whose bucket array has the length that its sizes ask
for, when the sizes are positive, the area exists and the chain heads are areas. -/
theorem AddNavArea_ok (areas : List NavArea) (g : NavAreaGrid) (k : AreaRef)
    (cs : List (List AreaRef)) (hg : g.m_grid = some cs)
    (hlen : (cs.length : Int) = g.m_gridSizeX * g.m_gridSizeY)
    (hx : 1 ≤ g.m_gridSizeX) (hy : 1 ≤ g.m_gridSizeY) (hk : k < areas.length)
    (htab : ∀ key h, g.m_hashTable key = some h → h < areas.length) :
    ∃ areas2 g2, g.AddNavArea areas k = .ok (areas2, g2) := by
  have ha : deref areas k = .ok areas[k] := deref_eq_ok.mpr (List.getElem?_eq_getElem hk)
  obtain ⟨c2, hc2, _⟩ := pushAll_ok (fun l => l ++ [k])
    (cellIndices g.m_gridSizeX (g.WorldToGridX (areas[k]).m_extent.lo.x)
      (g.WorldToGridX (areas[k]).m_extent.hi.x) (g.WorldToGridY (areas[k]).m_extent.lo.y)
      (g.WorldToGridY (areas[k]).m_extent.hi.y)) cs (by
    intro i hi
    obtain ⟨x, y, ⟨hx0, hx1⟩, ⟨hy0, hy1⟩, rfl⟩ := mem_cellIndices.mp hi
    have a1 := WorldToGridX_nonneg g hx (areas[k]).m_extent.lo.x
    have a2 := WorldToGridX_lt g hx (areas[k]).m_extent.hi.x
    have b1 := WorldToGridY_nonneg g hy (areas[k]).m_extent.lo.y
    have b2 := WorldToGridY_lt g hy (areas[k]).m_extent.hi.y
    have hnonneg : 0 ≤ x + y * g.m_gridSizeX := by nlinarith
    refine ⟨hnonneg, ?_⟩
    have hlt : x + y * g.m_gridSizeX < g.m_gridSizeX * g.m_gridSizeY := by nlinarith
    have : ((x + y * g.m_gridSizeX).toNat : Int) < (cs.length : Int) := by
      rw [Int.toNat_of_nonneg hnonneg, hlen]
      exact hlt
    exact_mod_cast this)
  have hlink : ∃ areas2, NavAreaGrid.AddNavArea_link areas
      (g.m_hashTable (NavAreaGrid.ComputeHashKey (areas[k]).m_id)) k = .ok areas2 := by
    unfold NavAreaGrid.AddNavArea_link
    cases hh : g.m_hashTable (NavAreaGrid.ComputeHashKey (areas[k]).m_id) with
    | none =>
      obtain ⟨a2, h2, _⟩ := update_ok areas k
        (fun a => { a with m_nextHash := none, m_prevHash := none }) hk
      exact ⟨a2, h2⟩
    | some head =>
      obtain ⟨a1, h1, hl1⟩ := update_ok areas k
        (fun a => { a with m_prevHash := none, m_nextHash := some head }) hk
      obtain ⟨a2, h2, _⟩ := update_ok a1 head (fun h => { h with m_prevHash := some k })
        (by rw [hl1]; exact htab _ _ hh)
      refine ⟨a2, ?_⟩
      simp only [bind_eq_ok]
      exact ⟨a1, h1, h2⟩
  obtain ⟨areas2, hl⟩ := hlink
  cases hres : g.AddNavArea areas k with
  | ok p => exact ⟨p.1, p.2, rfl⟩
  | error err =>
    exfalso
    unfold NavAreaGrid.AddNavArea at hres
    rw [ha] at hres
    simp only [bind, Except.bind] at hres
    rw [forCells_eq, hg, hc2] at hres
    simp only [hl] at hres
    cases hres

/-! ### The portal between two areas: claim C21 -/

theorem clampTo_of_mem {v lo hi : ℚ} (h0 : lo ≤ v) (h1 : v ≤ hi) : NavArea.clampTo v lo hi = v := by
  unfold NavArea.clampTo
  rw [if_neg (not_lt.mpr h0), if_neg (not_lt.mpr h1)]

/-- The two ends of the portal on one axis, when the intervals `[alo, ahi]` of the area
and `[blo, bhi]` of its neighbour meet: the ends of the intersection. -/
theorem portal_ends (alo ahi blo bhi : ℚ) (h : max alo blo ≤ min ahi bhi) :
    NavArea.clampTo (if alo > blo then alo else blo) alo ahi = max alo blo ∧
    NavArea.clampTo (if ahi < bhi then ahi else bhi) alo ahi = min ahi bhi := by
  have e1 : (if alo > blo then alo else blo) = max alo blo := by
    split_ifs with hc
    · exact (max_eq_left hc.le).symm
    · exact (max_eq_right (not_lt.mp hc)).symm
  have e2 : (if ahi < bhi then ahi else bhi) = min ahi bhi := by
    split_ifs with hc
    · exact (min_eq_left hc.le).symm
    · exact (min_eq_right (not_lt.mp hc)).symm
  rw [e1, e2]
  have h1 : alo ≤ max alo blo := le_max_left _ _
  have h2 : min ahi bhi ≤ ahi := min_le_left _ _
  exact ⟨clampTo_of_mem h1 (le_trans h h2), clampTo_of_mem (le_trans h1 h) h2⟩

/-- C21: when the Y intervals of the area and of `to` meet (which makes them well
formed), `ComputePortal(to, EAST)` sets `center.x = hi.x` (`WEST`: `lo.x`), `center.y`
to the midpoint of the intersection of the two Y intervals and `halfWidth` to half the
length of that intersection; when the X intervals meet, `NORTH` sets `center.y = lo.y`
(`SOUTH`: `hi.y`), `center.x` to the midpoint of the intersection of the X intervals and
`halfWidth` to half its length. `center.z` is left as it was. -/
theorem C21_ComputePortal_intersection (a to_ : NavArea) (center : Vector) :
    (max a.m_extent.lo.y to_.m_extent.lo.y ≤ min a.m_extent.hi.y to_.m_extent.hi.y →
      a.ComputePortal to_ EAST center =
        (⟨a.m_extent.hi.x,
          (max a.m_extent.lo.y to_.m_extent.lo.y + min a.m_extent.hi.y to_.m_extent.hi.y) / 2,
          center.z⟩,
         (min a.m_extent.hi.y to_.m_extent.hi.y - max a.m_extent.lo.y to_.m_extent.lo.y) / 2) ∧
      a.ComputePortal to_ WEST center =
        (⟨a.m_extent.lo.x,
          (max a.m_extent.lo.y to_.m_extent.lo.y + min a.m_extent.hi.y to_.m_extent.hi.y) / 2,
          center.z⟩,
         (min a.m_extent.hi.y to_.m_extent.hi.y - max a.m_extent.lo.y to_.m_extent.lo.y) / 2)) ∧
    (max a.m_extent.lo.x to_.m_extent.lo.x ≤ min a.m_extent.hi.x to_.m_extent.hi.x →
      a.ComputePortal to_ NORTH center =
        (⟨(max a.m_extent.lo.x to_.m_extent.lo.x + min a.m_extent.hi.x to_.m_extent.hi.x) / 2,
          a.m_extent.lo.y, center.z⟩,
         (min a.m_extent.hi.x to_.m_extent.hi.x - max a.m_extent.lo.x to_.m_extent.lo.x) / 2) ∧
      a.ComputePortal to_ SOUTH center =
        (⟨(max a.m_extent.lo.x to_.m_extent.lo.x + min a.m_extent.hi.x to_.m_extent.hi.x) / 2,
          a.m_extent.hi.y, center.z⟩,
         (min a.m_extent.hi.x to_.m_extent.hi.x - max a.m_extent.lo.x to_.m_extent.lo.x) / 2)) := by
  constructor
  · intro h
    obtain ⟨e1, e2⟩ := portal_ends _ _ _ _ h
    constructor
    · unfold NavArea.ComputePortal
      rw [if_neg (by decide)]
      simp only [e1, e2]
      rw [if_neg (by decide)]
    · unfold NavArea.ComputePortal
      rw [if_neg (by decide)]
      simp only [e1, e2, if_true]
  · intro h
    obtain ⟨e1, e2⟩ := portal_ends _ _ _ _ h
    constructor
    · unfold NavArea.ComputePortal
      rw [if_pos (Or.inl rfl)]
      simp only [e1, e2, if_true]
    · unfold NavArea.ComputePortal
      rw [if_pos (Or.inr rfl)]
      simp only [e1, e2]
      rw [if_neg (by decide)]

/-- C21 at the areas A over `(0,0)-(100,100)` and B over `(100,0)-(200,100)`: towards
`EAST` the portal of A has the centre `(100, 50)` and the half width 50. -/
theorem C21_ComputePortal_intersection_witness :
    max squareA.m_extent.lo.y squareB.m_extent.lo.y
      ≤ min squareA.m_extent.hi.y squareB.m_extent.hi.y ∧
    squareA.ComputePortal squareB EAST ⟨0, 0, 7⟩ = (⟨100, 50, 7⟩, 50) := by
  have h : max squareA.m_extent.lo.y squareB.m_extent.lo.y
      ≤ min squareA.m_extent.hi.y squareB.m_extent.hi.y := by decide!
  refine ⟨h, ?_⟩
  rw [((C21_ComputePortal_intersection squareA squareB ⟨0, 0, 7⟩).1 h).1]
  decide!

/-! ### Overlap of two areas: claim C22 -/

/-- C22: `a.IsOverlapping(b)` holds exactly when the XY rectangles of the two areas
intersect with strict inequality on both axes; it is symmetric in the two areas; and
two areas of which one ends on an axis where the other begins (a shared edge or a
shared corner; also a gap) do not overlap. -/
theorem C22_IsOverlapping_area (a b : NavArea) :
    (a.IsOverlapping_area b = true ↔
      a.m_extent.lo.x < b.m_extent.hi.x ∧ b.m_extent.lo.x < a.m_extent.hi.x ∧
      a.m_extent.lo.y < b.m_extent.hi.y ∧ b.m_extent.lo.y < a.m_extent.hi.y) ∧
    a.IsOverlapping_area b = b.IsOverlapping_area a ∧
    (a.m_extent.hi.x ≤ b.m_extent.lo.x ∨ a.m_extent.hi.y ≤ b.m_extent.lo.y ∨
      b.m_extent.hi.x ≤ a.m_extent.lo.x ∨ b.m_extent.hi.y ≤ a.m_extent.lo.y →
      a.IsOverlapping_area b = false) := by
  have hiff : ∀ p q : NavArea, p.IsOverlapping_area q = true ↔
      p.m_extent.lo.x < q.m_extent.hi.x ∧ q.m_extent.lo.x < p.m_extent.hi.x ∧
      p.m_extent.lo.y < q.m_extent.hi.y ∧ q.m_extent.lo.y < p.m_extent.hi.y := by
    intro p q
    unfold NavArea.IsOverlapping_area
    simp only [decide_eq_true_eq, gt_iff_lt]
    tauto
  refine ⟨hiff a b, ?_, ?_⟩
  · rw [Bool.eq_iff_iff, hiff a b, hiff b a]
    tauto
  · intro h
    rw [← Bool.not_eq_true, hiff a b]
    rintro ⟨h1, h2, h3, h4⟩
    rcases h with h | h | h | h
    · exact absurd h2 (not_lt.mpr h)
    · exact absurd h4 (not_lt.mpr h)
    · exact absurd h1 (not_lt.mpr h)
    · exact absurd h3 (not_lt.mpr h)

/-- C22 at the area A over `(0,0)-(100,100)`: B over `(100,0)-(200,100)` shares an edge
with A and does not overlap it, nor does the area over `(100,100)-(200,200)`, which
shares a corner with A; the area over `(50,50)-(150,150)` overlaps A. -/
theorem C22_IsOverlapping_area_witness :
    squareA.IsOverlapping_area squareB = false ∧
    squareA.IsOverlapping_area squareC = false ∧
    squareA.IsOverlapping_area squareD = true :=
  ⟨(C22_IsOverlapping_area squareA squareB).2.2 (Or.inl (by decide!)),
   (C22_IsOverlapping_area squareA squareC).2.2 (Or.inl (by decide!)),
   (C22_IsOverlapping_area squareA squareD).1.mpr (by decide!)⟩

/-! ### The closest point of an area: claim C23 -/

/-- The `x` and `y` that the nine-way case split of `GetClosestPointOnArea` chooses. -/
theorem GetClosestPointOnArea_eq_ok (a : NavArea) (pos c : Vector)
    (h : a.GetClosestPointOnArea pos = .ok c) :
    c.x = (if pos.x < a.m_extent.lo.x then a.m_extent.lo.x
      else if pos.x > a.m_extent.hi.x then a.m_extent.hi.x else pos.x) ∧
    c.y = (if pos.y < a.m_extent.lo.y then a.m_extent.lo.y
      else if pos.y > a.m_extent.hi.y then a.m_extent.hi.y else pos.y) ∧
    a.GetZ c = .ok c.z := by
  unfold NavArea.GetClosestPointOnArea at h
  simp only [bind_eq_ok, pure_eq_ok] at h
  obtain ⟨z, hz, rfl⟩ := h
  refine ⟨?_, ?_, ?_⟩
  · dsimp only
    split_ifs <;> rfl
  · dsimp only
    split_ifs <;> rfl
  · rw [← hz]
    exact GetZ_congr _ _ _ rfl rfl

/-- `GetClosestPointOnArea` always returns a point. -/
theorem GetClosestPointOnArea_total (a : NavArea) (pos : Vector) :
    ∃ c, a.GetClosestPointOnArea pos = .ok c := by
  cases hres : a.GetClosestPointOnArea pos with
  | ok c => exact ⟨c, rfl⟩
  | error e =>
    exfalso
    unfold NavArea.GetClosestPointOnArea at hres
    simp only [bind, Except.bind, pure, Except.pure] at hres
    split at hres
    · rename_i err heq
      obtain ⟨z, hz⟩ := GetZ_total a _
      rw [hz] at heq
      cases heq
    · cases hres

/-- The clamp of a coordinate to an interval is no farther from the coordinate than
any point of the interval. -/
theorem clamp_closest (p lo hi q : ℚ) (h0 : lo ≤ q) (h1 : q ≤ hi) :
    ((if p < lo then lo else if p > hi then hi else p) - p) ^ 2 ≤ (q - p) ^ 2 := by
  split_ifs with c1 c2
  · nlinarith
  · nlinarith
  · nlinarith [sq_nonneg (q - p)]

/-- C23: on an area with `lo.x ≤ hi.x` and `lo.y ≤ hi.y`, `GetClosestPointOnArea(p)`
returns a point `c` of the XY rectangle with `c.z = GetZ(c)`; no point of the rectangle
is closer to `p` in XY distance than `c`; and for `p` inside the rectangle `c` has the
`x` and `y` of `p`. -/
theorem C23_GetClosestPointOnArea (a : NavArea) (p : Vector)
    (hx : a.m_extent.lo.x ≤ a.m_extent.hi.x) (hy : a.m_extent.lo.y ≤ a.m_extent.hi.y) :
    ∃ c, a.GetClosestPointOnArea p = .ok c ∧
      (a.m_extent.lo.x ≤ c.x ∧ c.x ≤ a.m_extent.hi.x ∧
        a.m_extent.lo.y ≤ c.y ∧ c.y ≤ a.m_extent.hi.y) ∧
      a.GetZ_xy c.x c.y = .ok c.z ∧
      (∀ qx qy : ℚ, a.m_extent.lo.x ≤ qx → qx ≤ a.m_extent.hi.x →
        a.m_extent.lo.y ≤ qy → qy ≤ a.m_extent.hi.y →
        (c.x - p.x) ^ 2 + (c.y - p.y) ^ 2 ≤ (qx - p.x) ^ 2 + (qy - p.y) ^ 2) ∧
      (a.m_extent.lo.x ≤ p.x → p.x ≤ a.m_extent.hi.x →
        a.m_extent.lo.y ≤ p.y → p.y ≤ a.m_extent.hi.y → c.x = p.x ∧ c.y = p.y) := by
  obtain ⟨c, hc⟩ := GetClosestPointOnArea_total a p
  obtain ⟨ex, ey, hz⟩ := GetClosestPointOnArea_eq_ok a p c hc
  refine ⟨c, hc, ?_, ?_, ?_, ?_⟩
  · rw [ex, ey]
    refine ⟨?_, ?_, ?_, ?_⟩ <;> split_ifs <;> linarith
  · rw [← hz]
    exact GetZ_congr _ _ _ rfl rfl
  · intro qx qy h1 h2 h3 h4
    rw [ex, ey]
    exact add_le_add (clamp_closest _ _ _ _ h1 h2) (clamp_closest _ _ _ _ h3 h4)
  · intro h1 h2 h3 h4
    rw [ex, ey, if_neg (not_lt.mpr h1), if_neg (not_lt.mpr h2), if_neg (not_lt.mpr h3),
      if_neg (not_lt.mpr h4)]
    exact ⟨rfl, rfl⟩

/-- C23 at the sloped area over `(0,0)-(100,100)` and the point `(150, 50, 0)` east of
it: the closest point is `(100, 50, 75)` on the east edge. -/
theorem C23_GetClosestPointOnArea_witness :
    ∃ c, slopedArea.GetClosestPointOnArea ⟨150, 50, 0⟩ = .ok c ∧ c = ⟨100, 50, 75⟩ ∧
      (slopedArea.m_extent.lo.x ≤ c.x ∧ c.x ≤ slopedArea.m_extent.hi.x ∧
        slopedArea.m_extent.lo.y ≤ c.y ∧ c.y ≤ slopedArea.m_extent.hi.y) ∧
      slopedArea.GetZ_xy c.x c.y = .ok c.z := by
  obtain ⟨c, hc, hin, hz, _, _⟩ :=
    C23_GetClosestPointOnArea slopedArea ⟨150, 50, 0⟩ (by decide!) (by decide!)
  have hv : slopedArea.GetClosestPointOnArea ⟨150, 50, 0⟩ = .ok ⟨100, 50, 75⟩ := by decide!
  rw [hv] at hc
  cases hc
  exact ⟨_, hv, rfl, hin, hz⟩

/-! ### The approach table of an area: claim C25 -/

/-- The approach loop of an area on a table without room for all the records stops at
the first record that has no slot. -/
theorem Load_approach_overrun (recs : List ApproachRecord) :
    ∀ (table : List ApproachInfo) (k : Nat), k ≤ table.length →
      table.length < k + recs.length →
      recs.foldlM Load_approach (table, k) = .error .outOfBounds := by
  induction recs with
  | nil =>
    intro table k h1 h2
    simp only [List.length_nil] at h2
    omega
  | cons r rest ih =>
    intro table k h1 h2
    rw [List.length_cons] at h2
    rw [List.foldlM_cons]
    by_cases hlt : k < table.length
    · have hstep : Load_approach (table, k) r = .ok (table.set k r.toInfo, k + 1) := by
        simp [Load_approach, hlt, ApproachRecord.toInfo]
      rw [hstep]
      show rest.foldlM Load_approach (table.set k r.toInfo, k + 1) = _
      exact ih _ _ (by rw [List.length_set]; omega) (by rw [List.length_set]; omega)
    · have hstep : Load_approach (table, k) r = .error .outOfBounds := by
        simp [Load_approach, hlt]
      rw [hstep]
      rfl

/-- C25 does not hold of the code. The approach loop of `Load` has a result exactly for
the records that have at most 16 approach records, and stops on an index outside the
table for all others: the count byte of the file is not checked against the 16 slots of
the table, and with 17 records or more the 17th is written behind the table. `Load` of
the file whose area has 17 approach records, and of the one with 255, has no result for
this reason; with 16 records it returns. -/
theorem C25_approach_table_overrun :
    (∀ (recs : List ApproachRecord) (n : Nat),
      (recs.foldlM Load_approach ((NavArea.Initialize n).m_approach, 0)).map (fun _ => ())
        = if recs.length ≤ 16 then .ok () else .error .outOfBounds) ∧
    (Load emptyHost (some (approachFile 17)) (State.initial 0 0)).map (fun _ => ())
      = .error .outOfBounds ∧
    (Load emptyHost (some (approachFile 255)) (State.initial 0 0)).map (fun _ => ())
      = .error .outOfBounds ∧
    (Load emptyHost (some (approachFile 16)) (State.initial 0 0)).map
      (fun r => r.2.mesh.m_areas.map (fun a => a.m_approachCount)) = .ok [16] := by
  have hlen : ∀ n, (NavArea.Initialize n).m_approach.length = 16 := by
    intro n
    simp [NavArea.Initialize, NavArea.MAX_APPROACH_AREAS]
  refine ⟨?_, by decide!, by decide!, by decide!⟩
  intro recs n
  by_cases h : recs.length ≤ 16
  · rw [Load_approach_fold recs _ 0 (by rw [hlen]; omega), if_pos h]
    rfl
  · rw [Load_approach_overrun recs _ 0 (Nat.zero_le _) (by rw [hlen]; omega), if_neg h]
    rfl

/-! ### The parameter `t` of a spot order: claim C26 -/

theorem leValue_lt : ∀ l : List Nat, leValue l < 256 ^ l.length := by
  intro l
  induction l with
  | nil => simp [leValue]
  | cons b rest ih =>
    show b % 256 + 256 * leValue rest < 256 ^ (rest.length + 1)
    have hb : b % 256 < 256 := Nat.mod_lt _ (by norm_num)
    rw [pow_succ]
    omega

/-- What `fread` returns for an object of `size` bytes is below `256 ^ size`. -/
theorem fread_lt (size : Nat) (stream rest : List Nat) (v : Nat)
    (h : fread size stream = .ok (v, rest)) : v < 256 ^ size := by
  unfold fread at h
  split_ifs at h with hlen
  simp only [Except.ok.injEq, Prod.mk.injEq] at h
  rw [← h.1]
  have := leValue_lt (stream.take size)
  rwa [List.length_take, Nat.min_eq_left (not_lt.mp hlen)] at this

/-- The byte `t` of a spot order that `Load` reads from the stream is at most 255. -/
theorem Load_readOrder_byte (stream rest : List Nat) (id tByte : Nat)
    (h : Load_readOrder stream = .ok ((id, tByte), rest)) : tByte ≤ 255 := by
  unfold Load_readOrder at h
  simp only [bind, StateT.bind, Except.bind, pure, StateT.pure, Except.pure] at h
  split at h
  · cases h
  · rename_i p h1
    split at h
    · cases h
    · rename_i q h2
      simp only [Except.ok.injEq, Prod.mk.injEq] at h
      obtain ⟨⟨_, ht⟩, _⟩ := h
      have := fread_lt 1 _ _ _ h2
      omega

/-- C26: a spot order that `Load` stores for the spot `(id, tByte)` of an encounter
record, `tByte` being a byte, has `t = tByte / 255`; this `t` lies in `[0, 1]`, it is 0
exactly for `tByte = 0` and 1 exactly for `tByte = 255`, and of two spot orders the one
with the smaller byte has the smaller `t`. Every `tByte` that the reader of `Load`
takes from the stream is a byte. -/
theorem C26_spot_order_t (r : EncounterRecord) (k id tByte : Nat)
    (hk : r.spots[k]? = some (id, tByte)) (hb : tByte ≤ 255) :
    (∃ so, (Load_encounter r).spotList[k]? = some so ∧ so.t = (tByte : ℚ) / 255 ∧
      0 ≤ so.t ∧ so.t ≤ 1 ∧ (so.t = 0 ↔ tByte = 0) ∧ (so.t = 1 ↔ tByte = 255) ∧
      ∀ (k2 id2 tByte2 : Nat), r.spots[k2]? = some (id2, tByte2) →
        ∃ so2, (Load_encounter r).spotList[k2]? = some so2 ∧
          (so.t < so2.t ↔ tByte < tByte2)) ∧
    ∀ (stream rest : List Nat) (id3 tByte3 : Nat),
      Load_readOrder stream = .ok ((id3, tByte3), rest) → tByte3 ≤ 255 := by
  have hget : ∀ (j i b : Nat), r.spots[j]? = some (i, b) →
      (Load_encounter r).spotList[j]? = some (SpotOrder.id ((b : ℚ) / 255) i) := by
    intro j i b hj
    simp only [Load_encounter, List.getElem?_map, hj, Option.map_some']
  refine ⟨⟨_, hget k id tByte hk, rfl, ?_, ?_, ?_, ?_, ?_⟩, Load_readOrder_byte⟩
  · show (0 : ℚ) ≤ (tByte : ℚ) / 255
    positivity
  · show (tByte : ℚ) / 255 ≤ 1
    rw [div_le_one (by norm_num)]
    exact_mod_cast hb
  · show (tByte : ℚ) / 255 = 0 ↔ tByte = 0
    rw [div_eq_zero_iff]
    constructor
    · rintro (h | h)
      · exact_mod_cast h
      · norm_num at h
    · intro h
      left
      exact_mod_cast h
  · show (tByte : ℚ) / 255 = 1 ↔ tByte = 255
    rw [div_eq_one_iff_eq (by norm_num)]
    constructor
    · intro h
      exact_mod_cast h
    · intro h
      exact_mod_cast h
  · intro k2 id2 tByte2 hk2
    refine ⟨_, hget k2 id2 tByte2 hk2, ?_⟩
    show (tByte : ℚ) / 255 < (tByte2 : ℚ) / 255 ↔ tByte < tByte2
    rw [div_lt_div_iff_of_pos_right (by norm_num)]
    exact Nat.cast_lt

/-- C26 at an encounter record with the spot bytes 0, 51 and 255: the stored `t` are
0, 1/5 and 1. -/
theorem C26_spot_order_t_witness :
    (⟨1, 0, 2, 0, [(7, 0), (8, 51), (9, 255)]⟩ : EncounterRecord).spots[1]? = some (8, 51) ∧
    (51 ≤ 255) ∧
    ((Load_encounter ⟨1, 0, 2, 0, [(7, 0), (8, 51), (9, 255)]⟩).spotList.map SpotOrder.t
      = [0, 1 / 5, 1]) ∧
    ∃ so, (Load_encounter ⟨1, 0, 2, 0, [(7, 0), (8, 51), (9, 255)]⟩).spotList[1]? = some so ∧
      so.t = ((51 : Nat) : ℚ) / 255 ∧ 0 ≤ so.t ∧ so.t ≤ 1 := by
  obtain ⟨⟨so, h1, h2, h3, h4, _⟩, _⟩ :=
    C26_spot_order_t ⟨1, 0, 2, 0, [(7, 0), (8, 51), (9, 255)]⟩ 1 8 51 rfl (by decide)
  exact ⟨rfl, by decide, by decide!, so, h1, h2, h3, h4⟩

/-! ### The buffer of the place names: claim C27 -/

/-- C27 does not hold of the code. The reader of `Load` takes as many name bytes as the
`nameLen` of the file says: of the stream of a name of 300 bytes it returns all 300,
and of one of 256 bytes all 256. Storing them in `char placeName[256]` has a result
exactly for the names of at most 256 bytes that hold a zero byte; `Load` of a file with
the name of 300 bytes has none, the bytes from the 257th on are written behind the
buffer, while the name of 256 bytes is stored in full and found in the table. -/
theorem C27_place_name_overrun :
    longName.length = 300 ∧ Load_readName (encName longName) = .ok (longName, []) ∧
    fullName.length = 256 ∧ Load_readName (encName fullName) = .ok (fullName, []) ∧
    (∀ name : List Nat,
      (Load_placeName name).toBool = decide (0 ∈ name ∧ name.length ≤ 256)) ∧
    (Load emptyHost (some (placeFile longName)) (State.initial 0 0)).map (fun _ => ())
      = .error .outOfBounds ∧
    NavFile.Fits bitsOf (placeFile longName) ∧
    (Load_stream emptyHost (some (encFile bitsOf (placeFile longName)))
      (State.initial 0 0)).map (fun _ => ()) = .error .outOfBounds ∧
    (Load emptyHost (some (placeFile fullName)) (State.initial 0 0)).map
      (fun r => r.2.mesh.m_placeDirectory.m_directory) = .ok [24] := by
  refine ⟨by rw [longName, List.length_append, List.length_replicate]; rfl, by decide!,
    by rw [fullName, List.length_append, List.length_replicate]; rfl, by decide!, ?_,
    by decide!, by decide!, by decide!, by decide!⟩
  intro name
  unfold Load_placeName
  by_cases hlen : name.length > 256
  · rw [if_pos hlen]
    simp only [Except.toBool]
    symm
    rw [decide_eq_false_iff_not]
    rintro ⟨_, h⟩
    omega
  · rw [if_neg hlen]
    by_cases h0 : 0 ∈ name
    · rw [if_pos h0]
      simp only [Except.toBool]
      symm
      rw [decide_eq_true_eq]
      exact ⟨h0, by omega⟩
    · rw [if_neg h0]
      have : decide (0 ∈ name ∧ name.length ≤ 256) = false := by
        rw [decide_eq_false_iff_not]
        rintro ⟨h, _⟩
        exact h0 h
      rw [this]
      split_ifs <;> rfl

/-! ### Truncation and floor under the clamp of the cells -/

/-- Truncation toward zero followed by the clamp of `WorldToGridX` is the floor followed
by the clamp to `[0, size - 1]`, on an axis of at least one cell. -/
theorem trunc_clamp_eq_floor_clamp (q : ℚ) (size : Int) (hs : 1 ≤ size) :
    (if truncToInt q < 0 then 0
      else if truncToInt q ≥ size then size - 1 else truncToInt q)
      = max 0 (min ⌊q⌋ (size - 1)) := by
  unfold truncToInt
  by_cases hq : 0 ≤ q
  · rw [if_pos hq]
    have h0 : (0 : Int) ≤ ⌊q⌋ := Int.le_floor.mpr (by push_cast; exact hq)
    split_ifs with c1 c2
    · omega
    · rw [min_eq_right (by omega), max_eq_right (by omega)]
    · rw [min_eq_left (by omega), max_eq_right h0]
  · rw [if_neg hq]
    have hq2 : q < 0 := not_le.mp hq
    have hc : ⌈q⌉ ≤ 0 := Int.ceil_le.mpr (by push_cast; exact hq2.le)
    have hf : ⌊q⌋ < 0 := Int.floor_lt.mpr (by push_cast; exact hq2)
    rw [min_eq_left (by omega), max_eq_left (by omega)]
    split_ifs with c1 c2
    · rfl
    · omega
    · omega

/-! ### Faults of the grid functions on an allocated grid -/

theorem bind_eq_error {α β : Type} {x : Run α} {f : α → Run β} {e : Fault} :
    (x >>= f) = .error e ↔ x = .error e ∨ ∃ a, x = .ok a ∧ f a = .error e := by
  cases x with
  | error e2 => simp [bind, Except.bind]
  | ok a => simp [bind, Except.bind]

/-- A computation shown to return by evaluation has a result. -/
theorem ok_of_toBool {α : Type} {x : Run α} (h : x.toBool = true) : ∃ v, x = .ok v := by
  cases x with
  | error e => simp [Except.toBool] at h
  | ok v => exact ⟨v, rfl⟩

/-- A monadic fold stops only with a fault of one of its steps. -/
theorem foldlM_error {σ ι : Type} (P : Fault → Prop) (step : σ → ι → Run σ)
    (hstep : ∀ s i e, step s i = .error e → P e) :
    ∀ (l : List ι) (s : σ) (e : Fault), l.foldlM step s = .error e → P e := by
  intro l
  induction l with
  | nil => intro s e h; cases h
  | cons i rest ih =>
    intro s e h
    rw [List.foldlM_cons, bind_eq_error] at h
    rcases h with h | ⟨s1, _, h⟩
    · exact hstep s i e h
    · exact ih s1 e h

theorem deref_error {areas : List NavArea} {r : AreaRef} {e : Fault}
    (h : deref areas r = .error e) : e = .badPointer := by
  unfold deref at h
  split at h
  · cases h
  · cases h
    rfl

theorem update_error {areas : List NavArea} {r : AreaRef} {f : NavArea → NavArea} {e : Fault}
    (h : update areas r f = .error e) : e = .badPointer := by
  unfold update at h
  split at h
  · cases h
  · cases h
    rfl

/-- What `Initialize` leaves when it returns: the origin, the sizes and an array of
`m_gridSizeX * m_gridSizeY` empty buckets. -/
theorem Initialize_eq_ok (g g2 : NavAreaGrid) (minX maxX minY maxY : ℚ)
    (h : g.Initialize minX maxX minY maxY = .ok g2) :
    g2.m_minX = minX ∧ g2.m_minY = minY ∧
    g2.m_gridSizeX = truncToInt ((maxX - minX) / NavAreaGrid.m_cellSize + 1) ∧
    g2.m_gridSizeY = truncToInt ((maxY - minY) / NavAreaGrid.m_cellSize + 1) ∧
    0 ≤ g2.m_gridSizeX * g2.m_gridSizeY ∧
    g2.m_grid = some (List.replicate (g2.m_gridSizeX * g2.m_gridSizeY).toNat []) := by
  unfold NavAreaGrid.Initialize at h
  dsimp only at h
  by_cases h1 : ¬ (isInt (truncToInt ((maxX - minX) / NavAreaGrid.m_cellSize + 1)) ∧
      isInt (truncToInt ((maxY - minY) / NavAreaGrid.m_cellSize + 1)) ∧
      isInt (truncToInt ((maxX - minX) / NavAreaGrid.m_cellSize + 1) *
        truncToInt ((maxY - minY) / NavAreaGrid.m_cellSize + 1)))
  · rw [if_pos h1] at h
    cases h
  · rw [if_neg h1] at h
    by_cases h2 : truncToInt ((maxX - minX) / NavAreaGrid.m_cellSize + 1) *
        truncToInt ((maxY - minY) / NavAreaGrid.m_cellSize + 1) < 0
    · rw [if_pos h2] at h
      cases h
    · rw [if_neg h2] at h
      simp only [Except.ok.injEq] at h
      subst h
      exact ⟨rfl, rfl, rfl, rfl, not_lt.mp h2, rfl⟩

/-- `Initialize` for an extent with `minX ≤ maxX` and `minY ≤ maxY` leaves a grid of
positive sizes whose bucket array has the length the sizes ask for. -/
theorem Initialize_allocated (g g2 : NavAreaGrid) (minX maxX minY maxY : ℚ)
    (hx : minX ≤ maxX) (hy : minY ≤ maxY)
    (h : g.Initialize minX maxX minY maxY = .ok g2) : g2.Allocated := by
  obtain ⟨_, _, hsx, hsy, h0, hgrid⟩ := Initialize_eq_ok g g2 _ _ _ _ h
  have hqx0 : 0 ≤ (maxX - minX) / NavAreaGrid.m_cellSize :=
    div_nonneg (by linarith) (by unfold NavAreaGrid.m_cellSize; norm_num)
  have hqy0 : 0 ≤ (maxY - minY) / NavAreaGrid.m_cellSize :=
    div_nonneg (by linarith) (by unfold NavAreaGrid.m_cellSize; norm_num)
  refine ⟨?_, ?_, _, hgrid, ?_⟩
  · rw [hsx]
    exact one_le_truncToInt (by linarith)
  · rw [hsy]
    exact one_le_truncToInt (by linarith)
  · rw [List.length_replicate, Int.toNat_of_nonneg h0]

/-- On an allocated grid the loops of `AddNavArea` and `RemoveNavArea` over the cells of
an extent return, with a bucket array of the same length. -/
theorem Allocated_forCells_ok {g : NavAreaGrid} (hg : g.Allocated) (cs : List (List AreaRef))
    (hcs : g.m_grid = some cs) (e : Extent) (f : List AreaRef → List AreaRef) :
    ∃ cs2, NavAreaGrid.forCells g.m_grid g.m_gridSizeX (g.WorldToGridX e.lo.x)
        (g.WorldToGridX e.hi.x) (g.WorldToGridY e.lo.y) (g.WorldToGridY e.hi.y) f
        = .ok (some cs2) ∧ cs2.length = cs.length := by
  obtain ⟨hx, hy, cs0, hcs0, hlen⟩ := hg
  rw [hcs] at hcs0
  cases hcs0
  rw [forCells_eq, hcs]
  apply pushAll_ok
  intro i hi
  obtain ⟨x, y, ⟨hx0, hx1⟩, ⟨hy0, hy1⟩, rfl⟩ := mem_cellIndices.mp hi
  have a1 := WorldToGridX_nonneg g hx e.lo.x
  have a2 := WorldToGridX_lt g hx e.hi.x
  have b1 := WorldToGridY_nonneg g hy e.lo.y
  have b2 := WorldToGridY_lt g hy e.hi.y
  have hnonneg : 0 ≤ x + y * g.m_gridSizeX := by nlinarith
  refine ⟨hnonneg, ?_⟩
  have hlt : x + y * g.m_gridSizeX < g.m_gridSizeX * g.m_gridSizeY := by nlinarith
  have : ((x + y * g.m_gridSizeX).toNat : Int) < (cs.length : Int) := by
    rw [Int.toNat_of_nonneg hnonneg, hlen]
    exact hlt
  exact_mod_cast this

theorem AddNavArea_link_error {areas : List NavArea} {head : Option AreaRef} {k : AreaRef}
    {e : Fault} (h : NavAreaGrid.AddNavArea_link areas head k = .error e) : e = .badPointer := by
  unfold NavAreaGrid.AddNavArea_link at h
  cases head with
  | none => exact update_error h
  | some hd =>
    simp only [bind_eq_error] at h
    rcases h with h | ⟨_, _, h⟩
    · exact update_error h
    · exact update_error h

/-- On an allocated grid `AddNavArea` stops only on a bad pointer, and when it returns
the grid is allocated. -/
theorem Allocated_AddNavArea {g : NavAreaGrid} (hg : g.Allocated) (areas : List NavArea)
    (r : AreaRef) :
    (∀ e, g.AddNavArea areas r = .error e → e = .badPointer) ∧
    ∀ areas2 g2, g.AddNavArea areas r = .ok (areas2, g2) → g2.Allocated := by
  have hg2 := hg
  obtain ⟨hx, hy, cs, hcs, hlen⟩ := hg2
  constructor
  · intro e h
    unfold NavAreaGrid.AddNavArea at h
    simp only [bind_eq_error] at h
    rcases h with h | ⟨a, _, h⟩
    · exact deref_error h
    · obtain ⟨cs2, hc2, _⟩ := Allocated_forCells_ok hg cs hcs a.m_extent (fun l => l ++ [r])
      rcases h with h | ⟨cells, _, h⟩
      · rw [hc2] at h
        cases h
      · rcases h with h | ⟨_, _, h⟩
        · exact AddNavArea_link_error h
        · cases h
  · intro areas2 g2 h
    unfold NavAreaGrid.AddNavArea at h
    simp only [bind_eq_ok, pure_eq_ok, Prod.mk.injEq] at h
    obtain ⟨a, _, cells, hcells, _, _, _, rfl⟩ := h
    obtain ⟨cs2, hc2, hl2⟩ := Allocated_forCells_ok hg cs hcs a.m_extent (fun l => l ++ [r])
    rw [hc2] at hcells
    simp only [Except.ok.injEq] at hcells
    subst hcells
    exact ⟨hx, hy, cs2, rfl, by rw [hl2]; exact hlen⟩

theorem RemoveNavArea_unlink_error {areas : List NavArea} {table : Nat → Option AreaRef}
    {a : NavArea} {k : AreaRef} {e : Fault}
    (h : NavAreaGrid.RemoveNavArea_unlink areas table a k = .error e) : e = .badPointer := by
  unfold NavAreaGrid.RemoveNavArea_unlink at h
  split at h
  · simp only [bind_eq_error] at h
    rcases h with h | ⟨a1, _, h | ⟨y, _, h | ⟨a2, _, h⟩⟩⟩
    · exact update_error h
    · cases h
    · exact deref_error h
    · split at h
      · simp only [bind_eq_error] at h
        rcases h with h | ⟨_, _, h⟩
        · exact update_error h
        · cases h
      · cases h
  · split at h
    · simp only [bind_eq_error] at h
      rcases h with h | ⟨a1, _, h | ⟨y, _, h | ⟨a2, _, h⟩⟩⟩
      · exact update_error h
      · cases h
      · exact deref_error h
      · split at h
        · simp only [bind_eq_error] at h
          rcases h with h | ⟨_, _, h⟩
          · exact update_error h
          · cases h
        · cases h
    · simp only [bind_eq_error] at h
      rcases h with h | ⟨y, _, h | ⟨a2, _, h⟩⟩
      · cases h
      · exact deref_error h
      · split at h
        · simp only [bind_eq_error] at h
          rcases h with h | ⟨_, _, h⟩
          · exact update_error h
          · cases h
        · cases h

/-! ### Appending to the buckets -/

/-- A successful `push_back(k)` on the bucket `i`: what each bucket holds afterwards. -/
theorem modifyBucket_push_get (cs : List (List AreaRef)) (i : Int) (k : AreaRef)
    (cells2 : Option (List (List AreaRef)))
    (h : NavAreaGrid.modifyBucket (some cs) i (fun l => l ++ [k]) = .ok cells2) :
    ∃ c2, cells2 = some c2 ∧
      ∀ j, c2[j]? = (cs[j]?).map
        (fun l => l ++ List.replicate (if i.toNat = j then 1 else 0) k) := by
  unfold NavAreaGrid.modifyBucket at h
  by_cases hi : i < 0
  · simp [hi] at h
  · simp only [hi, if_false] at h
    cases hl : (cs[i.toNat]?) with
    | none => rw [hl] at h; simp at h
    | some l =>
      rw [hl] at h
      simp only [Except.ok.injEq] at h
      have hlt : i.toNat < cs.length := (List.getElem?_eq_some_iff.mp hl).1
      refine ⟨_, h.symm, ?_⟩
      intro j
      rw [List.getElem?_set]
      by_cases hj : i.toNat = j
      · subst hj
        simp [hlt, hl]
      · simp only [hj, if_false, List.replicate_zero, List.append_nil]
        cases cs[j]? <;> rfl

/-- A successful run of `push_back(k)` over a list of bucket indices: each bucket gets
one `k` for every time its index is in the list. -/
theorem pushAll_get (k : AreaRef) :
    ∀ (is : List Int) (cs : List (List AreaRef)) (cells2 : Option (List (List AreaRef))),
      is.foldlM (fun cells i => NavAreaGrid.modifyBucket cells i (fun l => l ++ [k])) (some cs)
        = .ok cells2 →
      ∃ c2, cells2 = some c2 ∧
        ∀ j, c2[j]? = (cs[j]?).map
          (fun l => l ++ List.replicate ((is.map Int.toNat).count j) k) := by
  intro is
  induction is with
  | nil =>
    intro cs cells2 h
    simp only [List.foldlM_nil, pure_eq_ok] at h
    refine ⟨cs, h.symm, ?_⟩
    intro j
    cases cs[j]? <;> simp
  | cons i rest ih =>
    intro cs cells2 h
    rw [List.foldlM_cons, bind_eq_ok] at h
    obtain ⟨cells1, h1, h2⟩ := h
    obtain ⟨c1, rfl, hget1⟩ := modifyBucket_push_get cs i k cells1 h1
    obtain ⟨c2, rfl, hget2⟩ := ih c1 cells2 h2
    refine ⟨c2, rfl, ?_⟩
    intro j
    rw [hget2 j, hget1 j, List.map_cons, List.count_cons]
    cases cs[j]? with
    | none => rfl
    | some l =>
      simp only [Option.map_some', Option.some.injEq, List.append_assoc]
      rw [← List.replicate_add]
      congr 2
      simp only [beq_iff_eq]
      omega

/-! ### The algebra of the directions: claim C33 -/

/-- C33: for each of the four directions, `DirectionLeft` maps N to W, S to E, E to N
and W to S; `DirectionRight` and `DirectionLeft` undo each other; `OppositeDirection` is
`DirectionLeft` twice and undoes itself; and `DirectionToAngle`, with E = 0, S = 90,
W = 180 and N = 270, gains 90 modulo 360 under `DirectionRight`. -/
theorem C33_direction_algebra (d : NavDirType) (hd : d < NUM_DIRECTIONS) :
    (DirectionLeft NORTH = WEST ∧ DirectionLeft SOUTH = EAST ∧
      DirectionLeft EAST = NORTH ∧ DirectionLeft WEST = SOUTH) ∧
    (DirectionRight (DirectionLeft d) = d ∧ DirectionLeft (DirectionRight d) = d) ∧
    (OppositeDirection d = DirectionLeft (DirectionLeft d) ∧
      OppositeDirection (OppositeDirection d) = d) ∧
    (DirectionToAngle EAST = 0 ∧ DirectionToAngle SOUTH = 90 ∧
      DirectionToAngle WEST = 180 ∧ DirectionToAngle NORTH = 270) ∧
    ∃ angle : Nat, DirectionToAngle d = angle ∧
      DirectionToAngle (DirectionRight d) = ((angle + 90) % 360 : Nat) := by
  have hcases : d = 0 ∨ d = 1 ∨ d = 2 ∨ d = 3 :=
    (fun (n : Nat) (h : n < 4) => (by omega : n = 0 ∨ n = 1 ∨ n = 2 ∨ n = 3)) d hd
  refine ⟨⟨rfl, rfl, rfl, rfl⟩, ?_, ?_, ⟨rfl, rfl, rfl, rfl⟩, ?_⟩
  · rcases hcases with rfl | rfl | rfl | rfl <;> exact ⟨rfl, rfl⟩
  · rcases hcases with rfl | rfl | rfl | rfl <;> exact ⟨rfl, rfl⟩
  · rcases hcases with rfl | rfl | rfl | rfl
    · exact ⟨270, by norm_num [DirectionToAngle], by norm_num [DirectionToAngle, DirectionRight, EAST]⟩
    · exact ⟨0, by norm_num [DirectionToAngle], by norm_num [DirectionToAngle, DirectionRight, SOUTH]⟩
    · exact ⟨90, by norm_num [DirectionToAngle], by norm_num [DirectionToAngle, DirectionRight, WEST]⟩
    · exact ⟨180, by norm_num [DirectionToAngle], by norm_num [DirectionToAngle, DirectionRight, NORTH]⟩

/-- C33 at the direction `NORTH`: right of its left and left of its right are `NORTH`,
its opposite is `SOUTH`, and the angle of `DirectionRight(NORTH) = EAST` is
`(270 + 90) mod 360 = 0`. -/
theorem C33_direction_algebra_witness :
    NORTH < NUM_DIRECTIONS ∧
    (DirectionRight (DirectionLeft NORTH) = NORTH ∧ DirectionLeft (DirectionRight NORTH) = NORTH) ∧
    OppositeDirection NORTH = SOUTH ∧ DirectionRight NORTH = EAST ∧
    DirectionToAngle (DirectionRight NORTH) = 0 :=
  ⟨by decide, (C33_direction_algebra NORTH (by decide)).2.1, rfl, rfl, by decide!⟩

/-! ### The exact probe positions -/

theorem probe_zero (start : Vector) (dir : NavDirType) :
    FindFirstAreaInDirection_probe start dir 0 = start := by
  unfold FindFirstAreaInDirection_probe
  simp

/-! ### The portal between any two areas: claim C38 -/

theorem clampTo_mem {v lo hi : ℚ} (h : lo ≤ hi) :
    lo ≤ NavArea.clampTo v lo hi ∧ NavArea.clampTo v lo hi ≤ hi := by
  unfold NavArea.clampTo
  split_ifs <;> constructor <;> linarith

/-- The two ends of the portal on one axis, for well-formed intervals `[alo, ahi]` of the
area and `[blo, bhi]` of its neighbour: both lie in `[alo, ahi]`, the first is not
behind the second, and they coincide when the intervals are disjoint. -/
theorem portal_ends_ordered (alo ahi blo bhi : ℚ) (ha : alo ≤ ahi) (hb : blo ≤ bhi) :
    (alo ≤ NavArea.clampTo (if alo > blo then alo else blo) alo ahi ∧
      NavArea.clampTo (if alo > blo then alo else blo) alo ahi ≤ ahi) ∧
    (alo ≤ NavArea.clampTo (if ahi < bhi then ahi else bhi) alo ahi ∧
      NavArea.clampTo (if ahi < bhi then ahi else bhi) alo ahi ≤ ahi) ∧
    NavArea.clampTo (if alo > blo then alo else blo) alo ahi
      ≤ NavArea.clampTo (if ahi < bhi then ahi else bhi) alo ahi ∧
    (ahi < blo ∨ bhi < alo →
      NavArea.clampTo (if alo > blo then alo else blo) alo ahi
        = NavArea.clampTo (if ahi < bhi then ahi else bhi) alo ahi) := by
  refine ⟨clampTo_mem ha, clampTo_mem ha, ?_, ?_⟩
  · unfold NavArea.clampTo
    split_ifs <;> linarith
  · intro h
    unfold NavArea.clampTo
    rcases h with h | h <;> split_ifs <;> linarith

/-- C38: for two areas with `lo ≤ hi` on both axes, whether they overlap, touch or are
disjoint, and for every direction, `ComputePortal` returns a half width that is not
negative and a centre on the edge of the area for that direction, within the rectangle
of the area: `y = lo.y` for `NORTH`, `y = hi.y` for `SOUTH`, `x = lo.x` for `WEST`,
`x = hi.x` for `EAST`; when the intervals of the two areas along the edge are disjoint
the half width is 0. -/
theorem C38_ComputePortal_on_edge (a to_ : NavArea) (dir : NavDirType) (center : Vector)
    (hd : dir < NUM_DIRECTIONS)
    (hax : a.m_extent.lo.x ≤ a.m_extent.hi.x) (hay : a.m_extent.lo.y ≤ a.m_extent.hi.y)
    (htx : to_.m_extent.lo.x ≤ to_.m_extent.hi.x) (hty : to_.m_extent.lo.y ≤ to_.m_extent.hi.y) :
    0 ≤ (a.ComputePortal to_ dir center).2 ∧
    (a.m_extent.lo.x ≤ (a.ComputePortal to_ dir center).1.x ∧
      (a.ComputePortal to_ dir center).1.x ≤ a.m_extent.hi.x ∧
      a.m_extent.lo.y ≤ (a.ComputePortal to_ dir center).1.y ∧
      (a.ComputePortal to_ dir center).1.y ≤ a.m_extent.hi.y) ∧
    (dir = NORTH → (a.ComputePortal to_ dir center).1.y = a.m_extent.lo.y) ∧
    (dir = SOUTH → (a.ComputePortal to_ dir center).1.y = a.m_extent.hi.y) ∧
    (dir = WEST → (a.ComputePortal to_ dir center).1.x = a.m_extent.lo.x) ∧
    (dir = EAST → (a.ComputePortal to_ dir center).1.x = a.m_extent.hi.x) ∧
    ((dir = NORTH ∨ dir = SOUTH) →
      (a.m_extent.hi.x < to_.m_extent.lo.x ∨ to_.m_extent.hi.x < a.m_extent.lo.x) →
      (a.ComputePortal to_ dir center).2 = 0) ∧
    ((dir = EAST ∨ dir = WEST) →
      (a.m_extent.hi.y < to_.m_extent.lo.y ∨ to_.m_extent.hi.y < a.m_extent.lo.y) →
      (a.ComputePortal to_ dir center).2 = 0) := by
  obtain ⟨⟨x1, x2⟩, ⟨x3, x4⟩, x5, x6⟩ := portal_ends_ordered _ _ _ _ hax htx
  obtain ⟨⟨y1, y2⟩, ⟨y3, y4⟩, y5, y6⟩ := portal_ends_ordered _ _ _ _ hay hty
  have hcases : dir = 0 ∨ dir = 1 ∨ dir = 2 ∨ dir = 3 :=
    (fun (n : Nat) (h : n < 4) => (by omega : n = 0 ∨ n = 1 ∨ n = 2 ∨ n = 3)) dir hd
  rcases hcases with rfl | rfl | rfl | rfl
  · have e : a.ComputePortal to_ 0 center =
        (⟨(NavArea.clampTo (if a.m_extent.lo.x > to_.m_extent.lo.x then a.m_extent.lo.x
              else to_.m_extent.lo.x) a.m_extent.lo.x a.m_extent.hi.x +
            NavArea.clampTo (if a.m_extent.hi.x < to_.m_extent.hi.x then a.m_extent.hi.x
              else to_.m_extent.hi.x) a.m_extent.lo.x a.m_extent.hi.x) / 2,
          a.m_extent.lo.y, center.z⟩,
         (NavArea.clampTo (if a.m_extent.hi.x < to_.m_extent.hi.x then a.m_extent.hi.x
              else to_.m_extent.hi.x) a.m_extent.lo.x a.m_extent.hi.x -
            NavArea.clampTo (if a.m_extent.lo.x > to_.m_extent.lo.x then a.m_extent.lo.x
              else to_.m_extent.lo.x) a.m_extent.lo.x a.m_extent.hi.x) / 2) := rfl
    rw [e]
    dsimp only
    refine ⟨by linarith, ⟨by linarith, by linarith, le_rfl, hay⟩, fun _ => rfl,
      fun h => absurd h (by decide), fun h => absurd h (by decide),
      fun h => absurd h (by decide), fun _ h => by rw [x6 h]; simp,
      fun h => absurd h (by decide)⟩
  · have e : a.ComputePortal to_ 1 center =
        (⟨a.m_extent.hi.x,
          (NavArea.clampTo (if a.m_extent.lo.y > to_.m_extent.lo.y then a.m_extent.lo.y
              else to_.m_extent.lo.y) a.m_extent.lo.y a.m_extent.hi.y +
            NavArea.clampTo (if a.m_extent.hi.y < to_.m_extent.hi.y then a.m_extent.hi.y
              else to_.m_extent.hi.y) a.m_extent.lo.y a.m_extent.hi.y) / 2, center.z⟩,
         (NavArea.clampTo (if a.m_extent.hi.y < to_.m_extent.hi.y then a.m_extent.hi.y
              else to_.m_extent.hi.y) a.m_extent.lo.y a.m_extent.hi.y -
            NavArea.clampTo (if a.m_extent.lo.y > to_.m_extent.lo.y then a.m_extent.lo.y
              else to_.m_extent.lo.y) a.m_extent.lo.y a.m_extent.hi.y) / 2) := rfl
    rw [e]
    dsimp only
    refine ⟨by linarith, ⟨hax, le_rfl, by linarith, by linarith⟩,
      fun h => absurd h (by decide), fun h => absurd h (by decide),
      fun h => absurd h (by decide), fun _ => rfl, fun h => absurd h (by decide),
      fun _ h => by rw [y6 h]; simp⟩
  · have e : a.ComputePortal to_ 2 center =
        (⟨(NavArea.clampTo (if a.m_extent.lo.x > to_.m_extent.lo.x then a.m_extent.lo.x
              else to_.m_extent.lo.x) a.m_extent.lo.x a.m_extent.hi.x +
            NavArea.clampTo (if a.m_extent.hi.x < to_.m_extent.hi.x then a.m_extent.hi.x
              else to_.m_extent.hi.x) a.m_extent.lo.x a.m_extent.hi.x) / 2,
          a.m_extent.hi.y, center.z⟩,
         (NavArea.clampTo (if a.m_extent.hi.x < to_.m_extent.hi.x then a.m_extent.hi.x
              else to_.m_extent.hi.x) a.m_extent.lo.x a.m_extent.hi.x -
            NavArea.clampTo (if a.m_extent.lo.x > to_.m_extent.lo.x then a.m_extent.lo.x
              else to_.m_extent.lo.x) a.m_extent.lo.x a.m_extent.hi.x) / 2) := rfl
    rw [e]
    dsimp only
    refine ⟨by linarith, ⟨by linarith, by linarith, hay, le_rfl⟩,
      fun h => absurd h (by decide), fun _ => rfl, fun h => absurd h (by decide),
      fun h => absurd h (by decide), fun _ h => by rw [x6 h]; simp,
      fun h => absurd h (by decide)⟩
  · have e : a.ComputePortal to_ 3 center =
        (⟨a.m_extent.lo.x,
          (NavArea.clampTo (if a.m_extent.lo.y > to_.m_extent.lo.y then a.m_extent.lo.y
              else to_.m_extent.lo.y) a.m_extent.lo.y a.m_extent.hi.y +
            NavArea.clampTo (if a.m_extent.hi.y < to_.m_extent.hi.y then a.m_extent.hi.y
              else to_.m_extent.hi.y) a.m_extent.lo.y a.m_extent.hi.y) / 2, center.z⟩,
         (NavArea.clampTo (if a.m_extent.hi.y < to_.m_extent.hi.y then a.m_extent.hi.y
              else to_.m_extent.hi.y) a.m_extent.lo.y a.m_extent.hi.y -
            NavArea.clampTo (if a.m_extent.lo.y > to_.m_extent.lo.y then a.m_extent.lo.y
              else to_.m_extent.lo.y) a.m_extent.lo.y a.m_extent.hi.y) / 2) := rfl
    rw [e]
    dsimp only
    refine ⟨by linarith, ⟨le_rfl, hax, by linarith, by linarith⟩,
      fun h => absurd h (by decide), fun h => absurd h (by decide), fun _ => rfl,
      fun h => absurd h (by decide), fun h => absurd h (by decide),
      fun _ h => by rw [y6 h]; simp⟩

/-- C38 at the area A over `(0,0)-(100,100)` and the area over `(100,100)-(200,200)`,
which touches A in a corner, towards `EAST`: the centre `(100, 100)` lies on the east
edge of A and the half width is 0; towards the area over `(300,300)-(400,400)`, which
is disjoint from A, the half width is 0 too. -/
theorem C38_ComputePortal_on_edge_witness :
    squareA.ComputePortal squareC EAST ⟨0, 0, 0⟩ = (⟨100, 100, 0⟩, 0) ∧
    0 ≤ (squareA.ComputePortal squareC EAST ⟨0, 0, 0⟩).2 ∧
    (squareA.ComputePortal squareC EAST ⟨0, 0, 0⟩).1.x = squareA.m_extent.hi.x ∧
    (squareA.ComputePortal
      { squareC with m_extent := ⟨⟨300, 300, 0⟩, ⟨400, 400, 0⟩⟩ } EAST ⟨0, 0, 0⟩).2 = 0 := by
  obtain ⟨h0, _, _, _, _, hE, _, _⟩ := C38_ComputePortal_on_edge squareA squareC EAST ⟨0, 0, 0⟩
    (by decide) (by decide!) (by decide!) (by decide!) (by decide!)
  obtain ⟨_, _, _, _, _, _, _, hdis⟩ := C38_ComputePortal_on_edge squareA
    { squareC with m_extent := ⟨⟨300, 300, 0⟩, ⟨400, 400, 0⟩⟩ } EAST ⟨0, 0, 0⟩
    (by decide) (by decide!) (by decide!) (by decide!) (by decide!)
  exact ⟨by decide!, h0, hE rfl, hdis (Or.inl rfl) (Or.inl (by decide!))⟩

/-! ### Linear interpolation -/

/-- An interpolation between two values lies between them. -/
theorem lerp_between (p q t : ℚ) (h0 : 0 ≤ t) (h1 : t ≤ 1) :
    min p q ≤ p + t * (q - p) ∧ p + t * (q - p) ≤ max p q := by
  rcases le_total p q with h | h
  · rw [min_eq_left h, max_eq_right h]
    constructor <;> nlinarith
  · rw [min_eq_right h, max_eq_left h]
    constructor <;> nlinarith

/-! ### The clearance fit of `BuildLadders`: claim C36 -/

/-- The length of a normalised vector is 1. -/
theorem Normalize_z_Length_z (v : Vector) : (v.Normalize_z).Length_z = 1 := by
  unfold Vector.Normalize_z
  by_cases h : v.Length_z = 0
  · rw [if_pos h]
    simp [Vector.Length_z]
  · rw [if_neg h]
    unfold Vector.Length_z at h ⊢
    simp only [Vector.scale]
    rw [abs_mul, abs_of_nonneg (by positivity : (0 : ℚ) ≤ 1 / |v.z|)]
    field_simp

/-- C36: in `BuildLadders` the bound `length` of the clearance loops is the length of
the normalised vector `along`, which is 1 whatever the ladder, so that `t = 0` is the
only value tried and the fit returns the position it was given: bottom and top are never
moved. On `crateHost`, whose ladder of height 100 has its outward cast blocked at `t = 0`
and free at `t = 10`, the ladder built has its bottom at height 0, where the fit over
`t = 0, 10, ..., 100` gives the height 10. -/
theorem C36_fit_tries_only_zero :
    (∀ top bottom : Vector,
      BuildLadders_steps ((top.sub bottom).Normalize_z).Length_z = [0]) ∧
    (∀ (host : Host) (entity : EdictRef) (dir : NavDirType) (base along : Vector) (sign : ℚ),
      BuildLadders_fit host entity dir base along sign [0] = base) ∧
    (UTIL_TraceLine crateHost ⟨5, 1, 0⟩ (AddDirectionVector ⟨5, 1, 0⟩ SOUTH 32)
        ignore_monsters (some 0)).flFraction ≠ 1 ∧
    (UTIL_TraceLine crateHost ⟨5, 1, 10⟩ (AddDirectionVector ⟨5, 1, 10⟩ SOUTH 32)
        ignore_monsters (some 0)).flFraction = 1 ∧
    BuildLadders_fit crateHost 0 SOUTH ⟨5, 1, 0⟩ ⟨0, 0, 1⟩ 1 (BuildLadders_steps 100)
      = ⟨5, 1, 10⟩ ∧
    (BuildLadders crateHost (State.initial 0 0).mesh).map
        (fun m => m.m_navLadders.map (fun l => (l.m_bottom, l.m_top, l.m_dir)))
      = .ok [(⟨5, 1, 0⟩, ⟨5, 1, 100⟩, SOUTH)] := by
  refine ⟨?_, ?_, by decide!, by decide!, by decide!, by decide!⟩
  · intro top bottom
    rw [Normalize_z_Length_z]
    decide!
  · intro host entity dir base along sign
    have hb : base.add (Vector.scale (sign * 0) along) = base := by
      simp [Vector.add, Vector.scale]
    simp only [BuildLadders_fit, hb, ite_self]

/-! ### The overlap lists after `Load`: claim C37 -/

/-- `IsOverlapping(area)` reads the extents of the two areas only. -/
theorem IsOverlapping_area_of_extent {a b t u : NavArea} (h1 : a.m_extent = b.m_extent)
    (h2 : t.m_extent = u.m_extent) : a.IsOverlapping_area t = b.IsOverlapping_area u := by
  unfold NavArea.IsOverlapping_area
  rw [h1, h2]

/-- `IsOverlapping(area)` is symmetric in the two areas. -/
theorem IsOverlapping_area_comm (a b : NavArea) :
    a.IsOverlapping_area b = b.IsOverlapping_area a := by
  unfold NavArea.IsOverlapping_area
  rw [Bool.eq_iff_iff]
  simp only [decide_eq_true_eq, gt_iff_lt]
  tauto

/-- The list `overlapsOf` depends on the extents of the areas only. -/
theorem overlapsOf_congr {areas areas2 : List NavArea} {a a2 : NavArea} (i : AreaRef)
    (h : areas2.map NavArea.core = areas.map NavArea.core) (ha : a2.m_extent = a.m_extent) :
    overlapsOf areas2 i a2 = overlapsOf areas i a := by
  have hlen : areas2.length = areas.length := by
    have := congrArg List.length h
    simpa using this
  unfold overlapsOf
  rw [hlen]
  apply List.filter_congr
  intro j _
  congr 1
  have hj := map_getElem?_eq NavArea.core h j
  cases h2 : areas2[j]? with
  | none =>
    rw [h2] at hj
    cases h1 : areas[j]? with
    | none => rfl
    | some c => rw [h1] at hj; simp at hj
  | some c2 =>
    rw [h2] at hj
    cases h1 : areas[j]? with
    | none => rw [h1] at hj; simp at hj
    | some c =>
      rw [h1] at hj
      simp only [Option.map_some', Option.some.injEq] at hj
      exact IsOverlapping_area_of_extent ha (congrArg (fun t => t.2.1) hj)

/-- Membership in `overlapsOf`. -/
theorem mem_overlapsOf (areas : List NavArea) (i j : AreaRef) (a : NavArea) :
    j ∈ overlapsOf areas i a ↔
      j ≠ i ∧ ∃ c, areas[j]? = some c ∧ a.IsOverlapping_area c = true := by
  unfold overlapsOf
  rw [List.mem_filter, List.mem_range, Bool.and_eq_true, decide_eq_true_eq]
  constructor
  · rintro ⟨hlt, hne, hov⟩
    refine ⟨hne, ?_⟩
    cases hc : areas[j]? with
    | none => rw [hc] at hov; simp at hov
    | some c => rw [hc] at hov; exact ⟨c, rfl, hov⟩
  · rintro ⟨hne, c, hc, hov⟩
    refine ⟨(List.getElem?_eq_some_iff.mp hc).1, hne, ?_⟩
    rw [hc]
    exact hov

theorem overlapsOf_nodup (areas : List NavArea) (i : AreaRef) (a : NavArea) :
    (overlapsOf areas i a).Nodup :=
  List.Nodup.filter _ (List.nodup_range _)

/-- One pass of the area loop of `Load` appends an area with an empty overlap list. -/
theorem Load_area_overlap (version : Nat) (s s2 : State) (e e2 : Extent) (r : AreaRecord)
    (h : Load_area version (s, e) r = .ok (s2, e2)) :
    ∃ a, s2.mesh.m_areas = s.mesh.m_areas ++ [a] ∧ a.m_overlapList = [] := by
  unfold Load_area at h
  simp only [bind_eq_ok, pure_eq_ok, Prod.mk.injEq] at h
  obtain ⟨ap, hap, place, hplace, hs, he⟩ := h
  subst hs he
  exact ⟨_, rfl, rfl⟩

/-- The area loop of `Load` appends areas with empty overlap lists. -/
theorem Load_areas_overlap (version : Nat) :
    ∀ (records : List AreaRecord) (st st2 : State × Extent),
      records.foldlM (Load_area version) st = .ok st2 →
      (∀ a ∈ st.1.mesh.m_areas, a.m_overlapList = []) →
      ∀ a ∈ st2.1.mesh.m_areas, a.m_overlapList = [] := by
  intro records
  induction records with
  | nil =>
    intro st st2 h h0
    simp only [List.foldlM_nil, pure_eq_ok] at h
    subst h
    exact h0
  | cons r rest ih =>
    intro st st2 h h0
    rw [List.foldlM_cons, bind_eq_ok] at h
    obtain ⟨⟨s1, e1⟩, h1, h2⟩ := h
    obtain ⟨s, e⟩ := st
    obtain ⟨a, ha, hov⟩ := Load_area_overlap version s s1 e e1 r h1
    apply ih (s1, e1) st2 h2
    intro x hx
    dsimp only at hx h0
    rw [ha, List.mem_append, List.mem_singleton] at hx
    rcases hx with hx | rfl
    · exact h0 x hx
    · exact hov

/-- The overlap list that one call of `Validate` leaves in its area. -/
theorem Validate_overlap (m m2 : NavigationMap) (i : AreaRef) (h : Validate m i = .ok m2) :
    ∃ a a2, m.m_areas[i]? = some a ∧ m2.m_areas[i]? = some a2 ∧
      a2.m_overlapList = a.m_overlapList ++ overlapsOf m.m_areas i a := by
  unfold Validate at h
  simp only [bind_eq_ok, pure_eq_ok] at h
  obtain ⟨a, ha, connect, hc, approach, _, encounters, he, areas, hup, rfl⟩ := h
  obtain ⟨h1, _⟩ := update_getElem? hup
  have ha2 := deref_eq_ok.mp ha
  rw [ha2] at h1
  exact ⟨a, _, ha2, h1, rfl⟩

/-- After a `Load` that returns, the overlap list of every area is `overlapsOf` on the
store of the map. -/
theorem Load_overlapList (host : Host) (f : NavFile) (s : State) (b : Bool) (s2 : State)
    (h : Load host (some f) s = .ok (b, s2)) (i : AreaRef) (a : NavArea)
    (ha : s2.mesh.m_areas[i]? = some a) :
    a.m_overlapList = overlapsOf s2.mesh.m_areas i a := by
  obtain ⟨_, d, st, m1, m2, hd, hst, hm1, hm2, hm3, _⟩ := Load_phases host f s b s2 h
  have hnil0 := Load_areas_overlap f.version f.areas _ st hst (by
    intro x hx
    simp at hx)
  have K1 := Load_grid_kept _ _ _ hm1
  have K3 := BuildLadders_kept host m2 s2.mesh hm3
  have S3 := BuildLadders_same host m2 s2.mesh hm3
  obtain ⟨hsame12, _, _, hdone⟩ := Validate_fold m1 _ m2 hm2
  have hlen : s2.mesh.m_areas.length = m1.m_areas.length := by
    have := congrArg List.length (S3.2.trans hsame12.2)
    simpa using this
  have hi : i < m1.m_areas.length := by
    rw [← hlen]
    exact (List.getElem?_eq_some_iff.mp ha).1
  obtain ⟨m', m'', hs', _, hai', hv, hfin⟩ := hdone i hi
  obtain ⟨a1, a2, ha1, ha2, hov⟩ := Validate_overlap m' m'' i hv
  rw [ha2] at hfin
  obtain ⟨a3, ha3, hc2⟩ := getElem?_of_map_eq NavArea.content K3.1 ha
  rw [hfin] at ha3
  cases ha3
  rw [hai'] at ha1
  obtain ⟨a0, ha0, hc0⟩ := getElem?_of_map_eq NavArea.content K1.1 ha1
  have hnil : a1.m_overlapList = [] := by
    have h0 : a0.m_overlapList = [] := hnil0 a0 (List.getElem?_mem ha0)
    have := congrArg NavArea.m_overlapList hc0
    exact this.symm.trans h0
  have hfinov : a.m_overlapList = a2.m_overlapList :=
    (congrArg NavArea.m_overlapList hc2).symm
  have hcores : m'.m_areas.map NavArea.core = s2.mesh.m_areas.map NavArea.core := by
    rw [hs'.2, S3.2, hsame12.2]
  have hext : a1.m_extent = a.m_extent := by
    have := map_getElem?_eq NavArea.core hcores i
    rw [hai', ha1, ha] at this
    simp only [Option.map_some', Option.some.injEq] at this
    exact congrArg (fun t => t.2.1) this
  rw [hfinov, hov, hnil, List.nil_append]
  exact overlapsOf_congr i hcores hext

/-- C37: after a `Load` that returns, for the areas `a` and `c` behind two pointers `i`
and `j` of the map: when the pointers differ, `j` is in the overlap list of `a` exactly
when `a.IsOverlapping(c)`; the overlap list of `a` has no pointer twice and does not
hold `i` itself; every pointer in it is one to an area of the map; and, when the pointers
differ, `j` is in the overlap list of `a` exactly when `i` is in the overlap list of
`c`. -/
theorem C37_overlap_lists (host : Host) (f : NavFile) (s : State) (b : Bool) (s2 : State)
    (h : Load host (some f) s = .ok (b, s2)) (i j : AreaRef) (a c : NavArea)
    (ha : s2.mesh.m_areas[i]? = some a) (hc : s2.mesh.m_areas[j]? = some c) :
    (i ≠ j → (j ∈ a.m_overlapList ↔ a.IsOverlapping_area c = true)) ∧
    a.m_overlapList.Nodup ∧ i ∉ a.m_overlapList ∧
    (∀ k ∈ a.m_overlapList, k < s2.mesh.m_areas.length) ∧
    (i ≠ j → (j ∈ a.m_overlapList ↔ i ∈ c.m_overlapList)) := by
  have hA := Load_overlapList host f s b s2 h i a ha
  have hC := Load_overlapList host f s b s2 h j c hc
  have h1 : i ≠ j → (j ∈ a.m_overlapList ↔ a.IsOverlapping_area c = true) := by
    intro hij
    rw [hA, mem_overlapsOf]
    constructor
    · rintro ⟨_, c2, hc2, hov⟩
      rw [hc] at hc2
      cases hc2
      exact hov
    · intro hov
      exact ⟨fun e => hij e.symm, c, hc, hov⟩
  have h2 : i ≠ j → (i ∈ c.m_overlapList ↔ c.IsOverlapping_area a = true) := by
    intro hij
    rw [hC, mem_overlapsOf]
    constructor
    · rintro ⟨_, a2, ha2, hov⟩
      rw [ha] at ha2
      cases ha2
      exact hov
    · intro hov
      exact ⟨hij, a, ha, hov⟩
  refine ⟨h1, ?_, ?_, ?_, ?_⟩
  · rw [hA]
    exact overlapsOf_nodup _ _ _
  · rw [hA, mem_overlapsOf]
    rintro ⟨hne, _⟩
    exact hne rfl
  · intro k hk
    rw [hA, mem_overlapsOf] at hk
    obtain ⟨_, c2, hc2, _⟩ := hk
    exact (List.getElem?_eq_some_iff.mp hc2).1
  · intro hij
    rw [h1 hij, h2 hij, IsOverlapping_area_comm]

/-- C37 on `stackedFile`, whose two areas lie over the same square: each is in the
overlap list of the other. -/
theorem C37_overlap_lists_witness :
    ∃ (s2 : State) (a c : NavArea),
      Load emptyHost (some stackedFile) (State.initial 0 0) = .ok (true, s2) ∧
      s2.mesh.m_areas[0]? = some a ∧ s2.mesh.m_areas[1]? = some c ∧
      a.IsOverlapping_area c = true ∧
      (1 ∈ a.m_overlapList ↔ a.IsOverlapping_area c = true) ∧
      a.m_overlapList.Nodup ∧ 0 ∉ a.m_overlapList ∧
      (1 ∈ a.m_overlapList ↔ 0 ∈ c.m_overlapList) := by
  obtain ⟨s2, hs2⟩ := Load_ok_of_toBool emptyHost stackedFile (State.initial 0 0) (by decide!)
  obtain ⟨a, ha, _, hae, _⟩ := loaded_area emptyHost stackedFile (State.initial 0 0) true s2
    hs2 0 (plainRecord 1 ⟨⟨0, 0, 0⟩, ⟨100, 100, 0⟩⟩ 0 0) rfl
  obtain ⟨c, hc, _, hce, _⟩ := loaded_area emptyHost stackedFile (State.initial 0 0) true s2
    hs2 1 (plainRecord 2 ⟨⟨0, 0, 3⟩, ⟨100, 100, 3⟩⟩ 3 3) rfl
  have hov : a.IsOverlapping_area c = true := by
    unfold NavArea.IsOverlapping_area
    rw [hae, hce]
    decide!
  have hw := C37_overlap_lists emptyHost stackedFile (State.initial 0 0) true s2 hs2 0 1 a c
    ha hc
  exact ⟨s2, a, c, hs2, ha, hc, hov, hw.1 (by decide), hw.2.1, hw.2.2.1,
    hw.2.2.2.2 (by decide)⟩

/-! ### The counter `NavArea::m_nextID` after `Load`: claim C39 -/

/-- The counter `NavArea::m_nextID` that a `Load` leaves is the one its area loop
leaves, and the loop starts with the counter 1. -/
theorem Load_statics (host : Host) (f : NavFile) (s : State) (b : Bool) (s2 : State)
    (h : Load host (some f) s = .ok (b, s2)) :
    ∃ (s0 : State) (st : State × Extent), s0.statics.NavArea_m_nextID = 1 ∧
      f.areas.foldlM (Load_area f.version) (s0, Load_extent0) = .ok st ∧
      s2.statics = st.1.statics := by
  unfold Load at h
  simp only [bind_eq_ok, pure_eq_ok, Prod.mk.injEq] at h
  obtain ⟨d, _, st, hst, m1, _, m2, _, m3, _, _, hs⟩ := h
  refine ⟨_, st, ?_, hst, ?_⟩
  · rfl
  · rw [← hs]

/-- One round of the area loop of `Load` on the counter `NavArea::m_nextID`. -/
theorem Load_area_nextID (version : Nat) (st st2 : State × Extent) (r : AreaRecord)
    (h : Load_area version st r = .ok st2) :
    st2.1.statics.NavArea_m_nextID
      = if r.id ≥ (st.1.statics.NavArea_m_nextID + 1) % 2 ^ 32 then (r.id + 1) % 2 ^ 32
        else (st.1.statics.NavArea_m_nextID + 1) % 2 ^ 32 := by
  unfold Load_area at h
  simp only [bind_eq_ok, pure_eq_ok] at h
  obtain ⟨_, _, _, _, h⟩ := h
  rw [← h]

/-- The area loop of `Load` on the counter `NavArea::m_nextID`, as long as `K` exceeds
the counter's start value less one and every id, and `K` plus the number of records stays
below `2^32`. -/
theorem Load_areas_nextID (version : Nat) :
    ∀ (records : List AreaRecord) (st st2 : State × Extent) (K : Nat),
      records.foldlM (Load_area version) st = .ok st2 →
      st.1.statics.NavArea_m_nextID ≤ K → (∀ r ∈ records, r.id < K) →
      K + records.length < 2 ^ 32 →
      st.1.statics.NavArea_m_nextID ≤ st2.1.statics.NavArea_m_nextID ∧
      st2.1.statics.NavArea_m_nextID ≤ K + records.length ∧
      ∀ r ∈ records, r.id < st2.1.statics.NavArea_m_nextID := by
  intro records
  induction records with
  | nil =>
    intro st st2 K h h0 _ _
    simp only [List.foldlM_nil, pure_eq_ok] at h
    subst h
    exact ⟨le_rfl, by simpa using h0, by simp⟩
  | cons r rest ih =>
    intro st st2 K h h0 hK hlen
    rw [List.foldlM_cons, bind_eq_ok] at h
    obtain ⟨st1, h1, h2⟩ := h
    have hstep := Load_area_nextID version st st1 r h1
    have hr : r.id < K := hK r (List.mem_cons_self _ _)
    simp only [List.length_cons] at hlen
    have hmod1 : (st.1.statics.NavArea_m_nextID + 1) % 2 ^ 32
        = st.1.statics.NavArea_m_nextID + 1 := Nat.mod_eq_of_lt (by omega)
    have hmod2 : (r.id + 1) % 2 ^ 32 = r.id + 1 := Nat.mod_eq_of_lt (by omega)
    rw [hmod1, hmod2] at hstep
    have hn1 : st.1.statics.NavArea_m_nextID < st1.1.statics.NavArea_m_nextID ∧
        r.id < st1.1.statics.NavArea_m_nextID ∧ st1.1.statics.NavArea_m_nextID ≤ K + 1 := by
      rw [hstep]
      split_ifs with hc <;> omega
    obtain ⟨g1, g2, g3⟩ := ih st1 st2 (K + 1) h2 hn1.2.2
      (fun x hx => Nat.lt_succ_of_lt (hK x (List.mem_cons_of_mem _ hx))) (by omega)
    refine ⟨by omega, by simp only [List.length_cons]; omega, ?_⟩
    intro x hx
    rcases List.mem_cons.mp hx with rfl | hx
    · omega
    · exact g3 x hx

/-- Claim C39 fails as stated for a file with the id `2^32 - 1`: after `maxIdFile` was
loaded, the area has the id `4294967295` and `NavArea::m_nextID` is 0. -/
theorem C39_counterexample :
    (Load emptyHost (some maxIdFile) (State.initial 0 0)).map
      (fun r => (r.1, r.2.mesh.m_areas.map NavArea.m_id, r.2.statics.NavArea_m_nextID))
      = .ok (true, [4294967295], 0) := by
  decide!

/-- Claim C39, amended: when some `K ≥ 1` exceeds every area id of the file and `K` plus
the number of areas of the file is below `2^32`, then after a `Load` that returns,
`NavArea::m_nextID` is strictly greater than the id of every loaded area and at most
`K` plus the number of areas, so that the id `Initialize` hands out next is the id of no
loaded area. -/
theorem C39_nextID_above_ids (host : Host) (f : NavFile) (s : State) (b : Bool) (s2 : State)
    (h : Load host (some f) s = .ok (b, s2)) (K : Nat) (hK0 : 0 < K)
    (hK : ∀ r ∈ f.areas, r.id < K) (hlen : K + f.areas.length < 2 ^ 32) :
    b = true ∧
    (∀ a ∈ s2.mesh.m_areas, a.m_id < s2.statics.NavArea_m_nextID) ∧
    s2.statics.NavArea_m_nextID ≤ K + f.areas.length ∧
    ∀ a ∈ s2.mesh.m_areas,
      (NavArea.Initialize s2.statics.NavArea_m_nextID).m_id ≠ a.m_id := by
  obtain ⟨s0, st, hs0, hfold, hst⟩ := Load_statics host f s b s2 h
  obtain ⟨_, g2, g3⟩ := Load_areas_nextID f.version f.areas (s0, Load_extent0) st K hfold
    (by show s0.statics.NavArea_m_nextID ≤ K; omega) hK hlen
  have hgeo := (Load_summary host f s b s2 h).2.1
  have hids : ∀ a ∈ s2.mesh.m_areas, a.m_id < s2.statics.NavArea_m_nextID := by
    intro a ha
    have hmem : a.geometry ∈ s2.mesh.m_areas.map NavArea.geometry := List.mem_map_of_mem _ ha
    rw [hgeo] at hmem
    obtain ⟨r, hr, hra⟩ := List.mem_map.mp hmem
    have hid : r.id = a.m_id := congrArg (fun t => t.1) hra
    rw [hst, ← hid]
    exact g3 r hr
  refine ⟨(Load_inv host f s b s2 h).1, hids, by rw [hst]; exact g2, ?_⟩
  intro a ha
  have := hids a ha
  show s2.statics.NavArea_m_nextID ≠ a.m_id
  omega

theorem C39_nextID_above_ids_witness :
    ∃ s2, Load emptyHost (some sevenFile) (State.initial 0 0) = .ok (true, s2) ∧
      s2.mesh.m_areas.map NavArea.m_id = [7] ∧
      (∀ a ∈ s2.mesh.m_areas, a.m_id < s2.statics.NavArea_m_nextID) ∧
      s2.statics.NavArea_m_nextID ≤ 8 + 1 := by
  obtain ⟨s2, hs2⟩ := Load_ok_of_toBool emptyHost sevenFile (State.initial 0 0) (by decide!)
  have hc := C39_nextID_above_ids emptyHost sevenFile (State.initial 0 0) true s2 hs2 8
    (by decide) (by decide) (by decide)
  have hids : s2.mesh.m_areas.map NavArea.m_id = [7] := by
    have hgeo := (Load_summary _ _ _ _ _ hs2).2.1
    have := congrArg (fun l => l.map (fun t : Nat × Extent × ℚ × ℚ => t.1)) hgeo
    simpa [List.map_map, Function.comp_def, NavArea.geometry, AreaRecord.geometry, sevenFile,
      plainRecord] using this
  exact ⟨s2, hs2, hids, hc.2.1, hc.2.2.1⟩

/-! ### The hash chains under `AddNavArea`, `RemoveNavArea` and `Reset`: claims C31, C32 -/

/-- A chain is a chain in every store that agrees with the store on its areas. -/
theorem IsChain_congr {areas areas2 : List NavArea} :
    ∀ (l : List AreaRef) (prev cur : Option AreaRef),
      (∀ x ∈ l, areas2[x]? = areas[x]?) → IsChain areas prev cur l →
      IsChain areas2 prev cur l := by
  intro l
  induction l with
  | nil => intro prev cur _ h; exact h
  | cons x rest ih =>
    intro prev cur hag h
    obtain ⟨hcur, a, ha, hp, hrest⟩ := h
    refine ⟨hcur, a, ?_, hp, ih _ _ (fun y hy => hag y (List.mem_cons_of_mem _ hy)) hrest⟩
    rw [hag x (List.mem_cons_self _ _)]
    exact ha

/-- The chain that starts at a pointer is determined by the store. -/
theorem IsChain_unique {areas : List NavArea} :
    ∀ (l l2 : List AreaRef) (prev cur : Option AreaRef),
      IsChain areas prev cur l → IsChain areas prev cur l2 → l = l2 := by
  intro l
  induction l with
  | nil =>
    intro l2 prev cur h h2
    cases l2 with
    | nil => rfl
    | cons y rest2 =>
      have h1 : cur = none := h
      obtain ⟨hcur, _⟩ := h2
      rw [h1] at hcur
      cases hcur
  | cons x rest ih =>
    intro l2 prev cur h h2
    obtain ⟨hcur, a, ha, hp, hrest⟩ := h
    cases l2 with
    | nil =>
      have h1 : cur = none := h2
      rw [h1] at hcur
      cases hcur
    | cons y rest2 =>
      obtain ⟨hcur2, a2, ha2, hp2, hrest2⟩ := h2
      rw [hcur] at hcur2
      cases hcur2
      rw [ha] at ha2
      cases ha2
      rw [ih rest2 _ _ hrest hrest2]

/-- The links of an area of a chain: its forward link is none or the pointer to another
area of the chain that links back to it; its back link is the back link of the chain when
the area is the head, and else the pointer to another area of the chain. -/
theorem IsChain_links {areas : List NavArea} (r : AreaRef) (a : NavArea)
    (ha : areas[r]? = some a) :
    ∀ (l : List AreaRef) (prev cur : Option AreaRef), IsChain areas prev cur l → l.Nodup →
      r ∈ l →
      (a.m_nextHash = none ∨ ∃ n ∈ l, a.m_nextHash = some n ∧ n ≠ r ∧
          ∃ an, areas[n]? = some an ∧ an.m_prevHash = some r) ∧
      ((cur = some r ∧ a.m_prevHash = prev) ∨
        (cur ≠ some r ∧ ∃ y ∈ l, a.m_prevHash = some y ∧ y ≠ r)) := by
  intro l
  induction l with
  | nil => intro prev cur _ _ hr; simp at hr
  | cons x rest ih =>
    intro prev cur h hnd hr
    obtain ⟨hcur, ax, hax, hp, hrest⟩ := h
    obtain ⟨hx, hnd2⟩ := List.nodup_cons.mp hnd
    by_cases hxr : x = r
    · subst hxr
      rw [ha] at hax
      cases hax
      refine ⟨?_, Or.inl ⟨hcur, hp⟩⟩
      cases rest with
      | nil => exact Or.inl hrest
      | cons n rest2 =>
        obtain ⟨hn, an, han, hpn, _⟩ := hrest
        refine Or.inr ⟨n, List.mem_cons_of_mem _ (List.mem_cons_self _ _), hn, ?_, an, han, hpn⟩
        rintro rfl
        exact hx (List.mem_cons_self _ _)
    · have hr2 : r ∈ rest := by
        rcases List.mem_cons.mp hr with h1 | h1
        · exact absurd h1.symm hxr
        · exact h1
      obtain ⟨g1, g2⟩ := ih (some x) ax.m_nextHash hrest hnd2 hr2
      constructor
      · rcases g1 with g1 | ⟨n, hn, g1⟩
        · exact Or.inl g1
        · exact Or.inr ⟨n, List.mem_cons_of_mem _ hn, g1⟩
      · refine Or.inr ⟨?_, ?_⟩
        · rw [hcur]
          intro e
          cases e
          exact hxr rfl
        · rcases g2 with ⟨_, g2⟩ | ⟨_, y, hy, g2⟩
          · exact ⟨x, List.mem_cons_self _ _, g2, hxr⟩
          · exact ⟨y, List.mem_cons_of_mem _ hy, g2⟩

/-- The sum of a function over `0 .. n - 1` when its value at one point changes. -/
theorem sum_range_update (f f2 : Nat → Nat) (K : Nat) (hf : ∀ k, k ≠ K → f2 k = f k) :
    ∀ n, K < n →
      ((List.range n).map f2).sum + f K = ((List.range n).map f).sum + f2 K := by
  have hsame : ∀ n, n ≤ K → ((List.range n).map f2).sum = ((List.range n).map f).sum := by
    intro n
    induction n with
    | zero => intro _; rfl
    | succ n ih =>
      intro hn
      rw [List.range_succ, List.map_append, List.map_append, List.sum_append, List.sum_append,
        ih (by omega), List.map_singleton, List.map_singleton, hf n (by omega)]
  intro n
  induction n with
  | zero => intro h; omega
  | succ n ih =>
    intro hn
    rw [List.range_succ, List.map_append, List.map_append, List.sum_append, List.sum_append,
      List.map_singleton, List.map_singleton, List.sum_singleton, List.sum_singleton]
    by_cases hK : K = n
    · subst hK
      rw [hsame K le_rfl]
      omega
    · have := ih (by omega)
      rw [hf n (fun e => hK e.symm)]
      omega

/-- The hash key of an id is below the size of the hash table. -/
theorem ComputeHashKey_lt (id : Nat) :
    NavAreaGrid.ComputeHashKey id < NavAreaGrid.HASH_TABLE_SIZE := by
  unfold NavAreaGrid.ComputeHashKey NavAreaGrid.HASH_TABLE_SIZE
  have : id &&& 0xFF ≤ 0xFF := Nat.and_le_right
  omega

/-- A write through a pointer to an area of the store returns. -/
theorem update_some {areas : List NavArea} {r : AreaRef} {a : NavArea} (f : NavArea → NavArea)
    (h : areas[r]? = some a) : update areas r f = .ok (areas.set r (f a)) := by
  unfold update
  rw [h]

/-- What a write through a pointer leaves behind every pointer. -/
theorem update_get {areas areas2 : List NavArea} {r : AreaRef} {f : NavArea → NavArea}
    (h : update areas r f = .ok areas2) (x : AreaRef) :
    areas2[x]? = (areas[x]?).map (fun a => if x = r then f a else a) := by
  obtain ⟨h1, h2⟩ := update_getElem? h
  by_cases hx : x = r
  · subst hx
    rw [h1]
    simp
  · rw [h2 x hx]
    cases areas[x]? <;> simp [hx]

/-- The head pointer of a chain points into the chain. -/
theorem IsChain_head_mem {areas : List NavArea} {prev : Option AreaRef} {x : AreaRef}
    {l : List AreaRef} (h : IsChain areas prev (some x) l) : x ∈ l := by
  cases l with
  | nil => cases h
  | cons y rest =>
    obtain ⟨hcur, _⟩ := h
    cases hcur
    exact List.mem_cons_self _ _

/-- What the hash part of `AddNavArea` leaves behind every pointer, when the area is not
the head of its chain already. -/
theorem AddNavArea_link_spec {areas areas2 : List NavArea} {head : Option AreaRef}
    {r : AreaRef} (h : NavAreaGrid.AddNavArea_link areas head r = .ok areas2)
    (hne : head ≠ some r) (x : AreaRef) :
    areas2[x]? = (areas[x]?).map (fun a =>
      if x = r then { a with m_prevHash := none, m_nextHash := head }
      else if head = some x then { a with m_prevHash := some r } else a) := by
  unfold NavAreaGrid.AddNavArea_link at h
  cases head with
  | none =>
    rw [update_get h x]
    congr 1
  | some hd =>
    simp only [bind_eq_ok] at h
    obtain ⟨areas1, h1, h2⟩ := h
    rw [update_get h2 x, update_get h1 x, Option.map_map]
    congr 1
    funext a
    have hdr : hd ≠ r := fun e => hne (by rw [e])
    by_cases hx : x = r
    · subst hx
      have : ¬ x = hd := fun e => hdr e.symm
      simp [this]
    · by_cases hx2 : x = hd
      · subst hx2
        simp [hx]
      · have : ¬ hd = x := fun e => hx2 e.symm
        simp [hx, hx2, this]

/-- The parts of a call of `AddNavArea` that returns. -/
theorem AddNavArea_eq_ok {areas areas2 : List NavArea} {g g2 : NavAreaGrid} {r : AreaRef}
    (h : g.AddNavArea areas r = .ok (areas2, g2)) :
    ∃ a cells, areas[r]? = some a ∧
      NavAreaGrid.forCells g.m_grid g.m_gridSizeX (g.WorldToGridX a.m_extent.lo.x)
        (g.WorldToGridX a.m_extent.hi.x) (g.WorldToGridY a.m_extent.lo.y)
        (g.WorldToGridY a.m_extent.hi.y) (fun l => l ++ [r]) = .ok cells ∧
      NavAreaGrid.AddNavArea_link areas
        (g.m_hashTable (NavAreaGrid.ComputeHashKey a.m_id)) r = .ok areas2 ∧
      g2 = { g with
        m_grid := cells,
        m_hashTable := fun k =>
          if k = NavAreaGrid.ComputeHashKey a.m_id then some r else g.m_hashTable k,
        m_areaCount := (g.m_areaCount + 1) % 2 ^ 32 } := by
  unfold NavAreaGrid.AddNavArea at h
  simp only [bind_eq_ok, pure_eq_ok, Prod.mk.injEq] at h
  obtain ⟨a, ha, cells, hcells, areas1, hl, rfl, rfl⟩ := h
  exact ⟨a, cells, deref_eq_ok.mp ha, hcells, hl, rfl⟩

/-- `AddNavArea` of an area that is not in the grid keeps the id-hash invariant. -/
theorem HashInvariant_add {areas areas2 : List NavArea} {g g2 : NavAreaGrid}
    {ms : List AreaRef} {r : AreaRef} (hinv : HashInvariant areas g ms) (hr : r ∉ ms)
    (h : g.AddNavArea areas r = .ok (areas2, g2)) : HashInvariant areas2 g2 (ms ++ [r]) := by
  obtain ⟨a, cells, ha, _, hl, rfl⟩ := AddNavArea_eq_ok h
  obtain ⟨chains, I1, I2, I3, I4, I5⟩ := hinv
  have hrK : ∀ k, r ∉ chains k := fun k hk => hr ((I4 r).mpr ⟨k, hk⟩)
  have hheadmem : ∀ x, g.m_hashTable (NavAreaGrid.ComputeHashKey a.m_id) = some x →
      x ∈ chains (NavAreaGrid.ComputeHashKey a.m_id) := by
    intro x hx
    have := I1 (NavAreaGrid.ComputeHashKey a.m_id)
    rw [hx] at this
    exact IsChain_head_mem this
  have hhead : g.m_hashTable (NavAreaGrid.ComputeHashKey a.m_id) ≠ some r :=
    fun e => hrK _ (hheadmem r e)
  have hspec := AddNavArea_link_spec hl hhead
  have hid : ∀ (x : AreaRef) (a0 : NavArea), areas[x]? = some a0 →
      ∃ a1 : NavArea, areas2[x]? = some a1 ∧ a1.m_id = a0.m_id := by
    intro x a0 hx
    rw [hspec x, hx]
    refine ⟨_, rfl, ?_⟩
    split_ifs <;> rfl
  refine ⟨fun k => if k = NavAreaGrid.ComputeHashKey a.m_id
    then r :: chains (NavAreaGrid.ComputeHashKey a.m_id) else chains k, ?_, ?_, ?_, ?_, ?_⟩
  · intro k
    by_cases hk : k = NavAreaGrid.ComputeHashKey a.m_id
    · subst hk
      simp only [if_true]
      refine ⟨rfl, { a with
        m_prevHash := none,
        m_nextHash := g.m_hashTable (NavAreaGrid.ComputeHashKey a.m_id) }, ?_, rfl, ?_⟩
      · rw [hspec r, ha]
        simp
      · show IsChain areas2 (some r) (g.m_hashTable (NavAreaGrid.ComputeHashKey a.m_id))
          (chains (NavAreaGrid.ComputeHashKey a.m_id))
        have hc := I1 (NavAreaGrid.ComputeHashKey a.m_id)
        have hnd := I3 (NavAreaGrid.ComputeHashKey a.m_id)
        have hrc := hrK (NavAreaGrid.ComputeHashKey a.m_id)
        revert hc hnd hrc
        generalize chains (NavAreaGrid.ComputeHashKey a.m_id) = l
        intro hc hnd hrc
        cases l with
        | nil => exact hc
        | cons hd rest =>
          obtain ⟨hcur, ah, hah, hp, hrest⟩ := hc
          obtain ⟨hhd, _⟩ := List.nodup_cons.mp hnd
          have hdr : hd ≠ r := fun e => hrc (by rw [e]; exact List.mem_cons_self _ _)
          refine ⟨hcur, { ah with m_prevHash := some r }, ?_, rfl, ?_⟩
          · rw [hspec hd, hah]
            simp [hdr, hcur]
          · apply IsChain_congr rest _ _ _ hrest
            intro x hx
            have hxr : x ≠ r := fun e => hrc (by rw [← e]; exact List.mem_cons_of_mem _ hx)
            have hxh : x ≠ hd := fun e => hhd (by rw [← e]; exact hx)
            rw [hspec x, hcur]
            cases areas[x]? with
            | none => rfl
            | some ax =>
              have : ¬ hd = x := fun e => hxh e.symm
              simp [hxr, this]
    · simp only [if_neg hk]
      apply IsChain_congr (chains k) _ _ _ (I1 k)
      intro x hx
      have hxr : x ≠ r := fun e => hrK k (by rw [← e]; exact hx)
      have hxh : g.m_hashTable (NavAreaGrid.ComputeHashKey a.m_id) ≠ some x := by
        intro e
        obtain ⟨a1, h1, hk1⟩ := I2 k x hx
        obtain ⟨a2, h2, hk2⟩ := I2 _ x (hheadmem x e)
        rw [h1] at h2
        cases h2
        exact hk (hk1.symm.trans hk2)
      rw [hspec x]
      cases areas[x]? with
      | none => rfl
      | some ax => simp [hxr, hxh]
  · intro k x hx
    by_cases hk : k = NavAreaGrid.ComputeHashKey a.m_id
    · subst hk
      simp only [if_true] at hx
      rcases List.mem_cons.mp hx with rfl | hx
      · obtain ⟨a1, h1, hi1⟩ := hid x a ha
        exact ⟨a1, h1, by rw [hi1]⟩
      · obtain ⟨a0, h0, hk0⟩ := I2 _ x hx
        obtain ⟨a1, h1, hi1⟩ := hid x a0 h0
        exact ⟨a1, h1, by rw [hi1]; exact hk0⟩
    · simp only [if_neg hk] at hx
      obtain ⟨a0, h0, hk0⟩ := I2 k x hx
      obtain ⟨a1, h1, hi1⟩ := hid x a0 h0
      exact ⟨a1, h1, by rw [hi1]; exact hk0⟩
  · intro k
    by_cases hk : k = NavAreaGrid.ComputeHashKey a.m_id
    · subst hk
      simp only [if_true]
      exact List.nodup_cons.mpr ⟨hrK _, I3 _⟩
    · simp only [if_neg hk]
      exact I3 k
  · intro x
    rw [List.mem_append, List.mem_singleton, I4 x]
    constructor
    · rintro (⟨k, hk⟩ | rfl)
      · by_cases hkK : k = NavAreaGrid.ComputeHashKey a.m_id
        · subst hkK
          exact ⟨NavAreaGrid.ComputeHashKey a.m_id, by
            simp only [if_true]; exact List.mem_cons_of_mem _ hk⟩
        · exact ⟨k, by simp only [if_neg hkK]; exact hk⟩
      · exact ⟨NavAreaGrid.ComputeHashKey a.m_id, by simp⟩
    · rintro ⟨k, hk⟩
      by_cases hkK : k = NavAreaGrid.ComputeHashKey a.m_id
      · subst hkK
        simp only [if_true] at hk
        rcases List.mem_cons.mp hk with rfl | hk
        · exact Or.inr rfl
        · exact Or.inl ⟨_, hk⟩
      · simp only [if_neg hkK] at hk
        exact Or.inl ⟨k, hk⟩
  · show (g.m_areaCount + 1) % 2 ^ 32 = _
    have hsum := sum_range_update (fun k => (chains k).length)
      (fun k => (if k = NavAreaGrid.ComputeHashKey a.m_id
        then r :: chains (NavAreaGrid.ComputeHashKey a.m_id) else chains k).length)
      (NavAreaGrid.ComputeHashKey a.m_id) (by
        intro k hk
        simp only [if_neg hk]) NavAreaGrid.HASH_TABLE_SIZE (ComputeHashKey_lt _)
    simp only [if_true, List.length_cons] at hsum
    rw [I5]
    beta_reduce
    omega

/-- The hash part of `RemoveNavArea` is its first half followed by its second half. -/
theorem RemoveNavArea_unlink_eq (areas : List NavArea) (table : Nat → Option AreaRef)
    (a : NavArea) (r : AreaRef) :
    NavAreaGrid.RemoveNavArea_unlink areas table a r
      = RemoveNavArea_unlink_first areas table a >>= RemoveNavArea_unlink_second r := by
  unfold NavAreaGrid.RemoveNavArea_unlink RemoveNavArea_unlink_first
  cases a.m_prevHash with
  | some p =>
    simp only [bind_assoc, pure_bind]
    rfl
  | none =>
    cases a.m_nextHash with
    | some hd =>
      simp only [bind_assoc, pure_bind]
      rfl
    | none =>
      simp only [bind_assoc, pure_bind]
      rfl

/-- What the first half of the hash part of `RemoveNavArea` leaves behind every pointer
and in the table. -/
theorem RemoveNavArea_unlink_first_spec {areas : List NavArea}
    {table : Nat → Option AreaRef} {a : NavArea}
    {st : List NavArea × (Nat → Option AreaRef)}
    (hst : RemoveNavArea_unlink_first areas table a = .ok st) :
    (∀ x, st.1[x]? = (areas[x]?).map (fun (ax : NavArea) => { ax with
        m_nextHash := if a.m_prevHash = some x then a.m_nextHash else ax.m_nextHash,
        m_prevHash :=
          if a.m_prevHash = none ∧ a.m_nextHash = some x then none else ax.m_prevHash })) ∧
    st.2 = fun k =>
      if a.m_prevHash = none ∧ k = NavAreaGrid.ComputeHashKey a.m_id then a.m_nextHash
      else table k := by
  unfold RemoveNavArea_unlink_first at hst
  cases hp : a.m_prevHash with
  | some p =>
    rw [hp] at hst
    simp only [bind_eq_ok, pure_eq_ok] at hst
    obtain ⟨areas1, h1, rfl⟩ := hst
    refine ⟨fun x => ?_, ?_⟩
    · rw [update_get h1 x]
      congr 1
      funext ax
      by_cases hx : x = p
      · subst hx
        simp
      · have : ¬ p = x := fun e => hx e.symm
        simp [hx, this]
    · funext k
      simp
  | none =>
    rw [hp] at hst
    cases hn : a.m_nextHash with
    | some hd =>
      rw [hn] at hst
      simp only [bind_eq_ok, pure_eq_ok] at hst
      obtain ⟨areas1, h1, rfl⟩ := hst
      refine ⟨fun x => ?_, ?_⟩
      · rw [update_get h1 x]
        congr 1
        funext ax
        by_cases hx : x = hd
        · subst hx
          simp
        · have : ¬ hd = x := fun e => hx e.symm
          simp [hx, this]
      · funext k
        simp
    | none =>
      rw [hn] at hst
      simp only [pure_eq_ok] at hst
      subst hst
      refine ⟨fun x => ?_, ?_⟩
      · cases areas[x]? <;> simp
      · funext k
        simp

/-- The area that the second half of the hash part of `RemoveNavArea` reads has the
links that the area had before the first half. -/
theorem RemoveNavArea_unlink_reread {areas : List NavArea}
    {table : Nat → Option AreaRef} {a : NavArea} {r : AreaRef}
    {st : List NavArea × (Nat → Option AreaRef)} (ha : areas[r]? = some a)
    (hst : RemoveNavArea_unlink_first areas table a = .ok st) :
    ∃ a1, deref st.1 r = .ok a1 ∧ a1.m_nextHash = a.m_nextHash ∧
      a1.m_prevHash = a.m_prevHash := by
  obtain ⟨hs1, _⟩ := RemoveNavArea_unlink_first_spec hst
  refine ⟨_, deref_eq_ok.mpr (by rw [hs1 r, ha]; rfl), ?_, ?_⟩
  · simp
  · dsimp only
    split_ifs with hc
    · exact hc.1.symm
    · rfl

/-- What the hash part of `RemoveNavArea` leaves behind every pointer and in the table:
the area before the removed one gets its forward link, the area after it gets its back
link, and the slot of the key gets the forward link when the area had no back link. -/
theorem RemoveNavArea_unlink_spec {areas areas2 : List NavArea}
    {table table2 : Nat → Option AreaRef} {a : NavArea} {r : AreaRef}
    (ha : areas[r]? = some a)
    (h : NavAreaGrid.RemoveNavArea_unlink areas table a r = .ok (areas2, table2)) :
    (∀ x, areas2[x]? = (areas[x]?).map (fun (ax : NavArea) => { ax with
        m_nextHash := if a.m_prevHash = some x then a.m_nextHash else ax.m_nextHash,
        m_prevHash := if a.m_nextHash = some x then a.m_prevHash else ax.m_prevHash })) ∧
    table2 = fun k =>
      if a.m_prevHash = none ∧ k = NavAreaGrid.ComputeHashKey a.m_id then a.m_nextHash
      else table k := by
  rw [RemoveNavArea_unlink_eq, bind_eq_ok] at h
  obtain ⟨st, hst, h⟩ := h
  obtain ⟨hs1, hs2⟩ := RemoveNavArea_unlink_first_spec hst
  obtain ⟨a1, ha1, hnext, hprev⟩ := RemoveNavArea_unlink_reread ha hst
  unfold RemoveNavArea_unlink_second at h
  rw [ha1] at h
  change (match a1.m_nextHash with
    | some next =>
      update st.1 next (fun n => { n with m_prevHash := a1.m_prevHash }) >>= fun areas3 =>
        pure (areas3, st.2)
    | none => pure st) = .ok (areas2, table2) at h
  rw [hnext, hprev] at h
  cases hn : a.m_nextHash with
  | none =>
    rw [hn] at h
    simp only [pure_eq_ok] at h
    subst h
    rw [hn] at hs2
    refine ⟨fun x => ?_, hs2⟩
    rw [hs1 x]
    congr 1
    funext ax
    simp [hn]
  | some n =>
    rw [hn] at h
    simp only [bind_eq_ok, pure_eq_ok, Prod.mk.injEq] at h
    obtain ⟨areas3, h3, rfl, rfl⟩ := h
    rw [hn] at hs2
    refine ⟨fun x => ?_, hs2⟩
    rw [update_get h3 x, hs1 x, Option.map_map]
    congr 1
    funext ax
    by_cases hx : x = n
    · subst hx
      simp [hn]
    · have : ¬ n = x := fun e => hx e.symm
      simp [hx, hn, this]

/-- The hash part of `RemoveNavArea` returns when the two links of the area are null or
point to areas of the store. -/
theorem RemoveNavArea_unlink_ok {areas : List NavArea} (table : Nat → Option AreaRef)
    {a : NavArea} {r : AreaRef} (ha : areas[r]? = some a)
    (hp : ∀ p, a.m_prevHash = some p → ∃ ap, areas[p]? = some ap)
    (hn : ∀ n, a.m_nextHash = some n → ∃ an, areas[n]? = some an) :
    ∃ st, NavAreaGrid.RemoveNavArea_unlink areas table a r = .ok st := by
  have hfirst : ∃ st, RemoveNavArea_unlink_first areas table a = .ok st := by
    unfold RemoveNavArea_unlink_first
    cases hpv : a.m_prevHash with
    | some p =>
      obtain ⟨ap, hap⟩ := hp p hpv
      exact ⟨_, by simp only [update_some _ hap]; rfl⟩
    | none =>
      cases hnx : a.m_nextHash with
      | some hd =>
        obtain ⟨ah, hah⟩ := hn hd hnx
        exact ⟨_, by simp only [update_some _ hah]; rfl⟩
      | none => exact ⟨_, rfl⟩
  obtain ⟨st, hst⟩ := hfirst
  obtain ⟨hs1, _⟩ := RemoveNavArea_unlink_first_spec hst
  obtain ⟨a1, ha1, hnext, hprev⟩ := RemoveNavArea_unlink_reread ha hst
  rw [RemoveNavArea_unlink_eq, hst]
  show ∃ st2, RemoveNavArea_unlink_second r st = .ok st2
  unfold RemoveNavArea_unlink_second
  rw [ha1]
  show ∃ st2, (match a1.m_nextHash with
    | some next =>
      update st.1 next (fun n => { n with m_prevHash := a1.m_prevHash }) >>= fun areas3 =>
        pure (areas3, st.2)
    | none => pure st) = .ok st2
  cases hnx : a1.m_nextHash with
  | none => exact ⟨st, rfl⟩
  | some n =>
    obtain ⟨an, han⟩ := hn n (by rw [← hnext]; exact hnx)
    have hsn : ∃ v, st.1[n]? = some v := by
      rw [hs1 n, han]
      exact ⟨_, rfl⟩
    obtain ⟨v, hv⟩ := hsn
    exact ⟨_, by simp only [update_some _ hv]; rfl⟩

/-- Taking an area out of a chain without repetitions shortens it by one. -/
theorem length_filter_ne (r : AreaRef) :
    ∀ l : List AreaRef, l.Nodup → r ∈ l →
      (l.filter (fun x => x ≠ r)).length + 1 = l.length := by
  intro l
  induction l with
  | nil => intro _ h; simp at h
  | cons x rest ih =>
    intro hnd hr
    obtain ⟨hx, hnd2⟩ := List.nodup_cons.mp hnd
    by_cases hxr : x = r
    · subst hxr
      have : rest.filter (fun y => y ≠ x) = rest :=
        List.filter_eq_self.mpr (fun y hy => by
          simp only [ne_eq, decide_eq_true_eq]
          rintro rfl
          exact hx hy)
      have h1 : (x :: rest).filter (fun y => y ≠ x) = rest.filter (fun y => y ≠ x) :=
        List.filter_cons_of_neg (by simp)
      rw [h1, this, List.length_cons]
    · have hr2 : r ∈ rest := by
        rcases List.mem_cons.mp hr with h1 | h1
        · exact absurd h1.symm hxr
        · exact h1
      have := ih hnd2 hr2
      have h1 : (x :: rest).filter (fun y => y ≠ r) = x :: rest.filter (fun y => y ≠ r) :=
        List.filter_cons_of_pos (by simpa using hxr)
      rw [h1, List.length_cons, List.length_cons, this]

/-- The chain that holds the area `r`, in the store that the hash part of
`RemoveNavArea` leaves: the chain without `r`. -/
theorem IsChain_remove {areas areas2 : List NavArea} (r : AreaRef) (a : NavArea)
    (ha : areas[r]? = some a)
    (hA : ∀ x, areas2[x]? = (areas[x]?).map (fun (ax : NavArea) => { ax with
        m_nextHash := if a.m_prevHash = some x then a.m_nextHash else ax.m_nextHash,
        m_prevHash := if a.m_nextHash = some x then a.m_prevHash else ax.m_prevHash })) :
    ∀ (l : List AreaRef) (prev cur : Option AreaRef), IsChain areas prev cur l → l.Nodup →
      r ∈ l → (∀ y, prev = some y → y ∉ l) →
      IsChain areas2 prev (if cur = some r then a.m_nextHash else cur)
        (l.filter (fun x => x ≠ r)) := by
  intro l
  induction l with
  | nil => intro prev cur _ _ hr; simp at hr
  | cons x rest ih =>
    intro prev cur h hnd hr hprev
    have hlinks := IsChain_links r a ha (x :: rest) prev cur h hnd hr
    obtain ⟨hcur, ax, hax, hp, hrest⟩ := h
    obtain ⟨hx, hnd2⟩ := List.nodup_cons.mp hnd
    by_cases hxr : x = r
    · subst hxr
      rw [ha] at hax
      cases hax
      have hfil : (x :: rest).filter (fun y => y ≠ x) = rest := by
        have : rest.filter (fun y => y ≠ x) = rest :=
          List.filter_eq_self.mpr (fun y hy => by
            simp only [ne_eq, decide_eq_true_eq]
            rintro rfl
            exact hx hy)
        have h1 : (x :: rest).filter (fun y => y ≠ x) = rest.filter (fun y => y ≠ x) :=
          List.filter_cons_of_neg (by simp)
        rw [h1, this]
      rw [hfil, if_pos hcur]
      cases rest with
      | nil => exact hrest
      | cons n rest2 =>
        obtain ⟨hn, an, han, hpn, hrest2⟩ := hrest
        obtain ⟨hn2, _⟩ := List.nodup_cons.mp hnd2
        have hpn2 : a.m_prevHash ≠ some n := by
          rw [hp]
          intro e
          exact hprev n e (List.mem_cons_of_mem _ (List.mem_cons_self _ _))
        refine ⟨hn, _, by rw [hA n, han]; rfl, ?_, ?_⟩
        · simp [hn, hp]
        · simp only [if_neg hpn2]
          apply IsChain_congr rest2 _ _ _ hrest2
          intro y hy
          have h1 : a.m_prevHash ≠ some y := by
            rw [hp]
            intro e
            exact hprev y e (List.mem_cons_of_mem _ (List.mem_cons_of_mem _ hy))
          have h2 : a.m_nextHash ≠ some y := by
            rw [hn]
            intro e
            cases e
            exact hn2 hy
          rw [hA y]
          cases areas[y]? with
          | none => rfl
          | some ay => simp [h1, h2]
    · have hr2 : r ∈ rest := by
        rcases List.mem_cons.mp hr with h1 | h1
        · exact absurd h1.symm hxr
        · exact h1
      have hfil : (x :: rest).filter (fun y => y ≠ r)
          = x :: rest.filter (fun y => y ≠ r) :=
        List.filter_cons_of_pos (by simpa using hxr)
      have hcr : cur ≠ some r := by
        rw [hcur]
        intro e
        cases e
        exact hxr rfl
      rw [hfil, if_neg hcr]
      obtain ⟨g1, g2⟩ := IsChain_links r a ha rest (some x) ax.m_nextHash hrest hnd2 hr2
      have hnx : a.m_nextHash ≠ some x := by
        rcases g1 with g1 | ⟨n, hn, g1, _⟩
        · rw [g1]
          intro e
          cases e
        · rw [g1]
          intro e
          cases e
          exact hx hn
      have hIH := ih (some x) ax.m_nextHash hrest hnd2 hr2 (by
        intro y e
        cases e
        exact hx)
      refine ⟨hcur, _, by rw [hA x, hax]; rfl, ?_, ?_⟩
      · simp [hnx, hp]
      · have heq : (if a.m_prevHash = some x then a.m_nextHash else ax.m_nextHash)
            = (if ax.m_nextHash = some r then a.m_nextHash else ax.m_nextHash) := by
          rcases g2 with ⟨c1, c2⟩ | ⟨c1, y, hy, c2, _⟩
          · rw [if_pos c2, if_pos c1]
          · have : a.m_prevHash ≠ some x := by
              rw [c2]
              intro e
              cases e
              exact hx hy
            rw [if_neg this, if_neg c1]
        show IsChain areas2 (some x)
          (if a.m_prevHash = some x then a.m_nextHash else ax.m_nextHash) _
        rw [heq]
        exact hIH

/-- The parts of a call of `RemoveNavArea` that returns. -/
theorem RemoveNavArea_eq_ok {areas areas2 : List NavArea} {g g2 : NavAreaGrid} {r : AreaRef}
    (h : g.RemoveNavArea areas r = .ok (areas2, g2)) :
    ∃ a cells table2, areas[r]? = some a ∧
      NavAreaGrid.forCells g.m_grid g.m_gridSizeX (g.WorldToGridX a.m_extent.lo.x)
        (g.WorldToGridX a.m_extent.hi.x) (g.WorldToGridY a.m_extent.lo.y)
        (g.WorldToGridY a.m_extent.hi.y) (fun l => l.filter (fun q => q ≠ r)) = .ok cells ∧
      NavAreaGrid.RemoveNavArea_unlink areas g.m_hashTable a r = .ok (areas2, table2) ∧
      g2 = { g with
        m_grid := cells, m_hashTable := table2,
        m_areaCount := (g.m_areaCount + 2 ^ 32 - 1) % 2 ^ 32 } := by
  unfold NavAreaGrid.RemoveNavArea at h
  simp only [bind_eq_ok, pure_eq_ok, Prod.mk.injEq] at h
  obtain ⟨a, ha, cells, hcells, st, hst, rfl, rfl⟩ := h
  exact ⟨a, cells, st.2, deref_eq_ok.mp ha, hcells, hst, rfl⟩

/-- `RemoveNavArea` of an area that is in the grid keeps the id-hash invariant. -/
theorem HashInvariant_remove {areas areas2 : List NavArea} {g g2 : NavAreaGrid}
    {ms : List AreaRef} {r : AreaRef} (hinv : HashInvariant areas g ms) (hr : r ∈ ms)
    (h : g.RemoveNavArea areas r = .ok (areas2, g2)) :
    HashInvariant areas2 g2 (ms.filter (fun x => x ≠ r)) := by
  obtain ⟨a, cells, table2, ha, _, hun, rfl⟩ := RemoveNavArea_eq_ok h
  obtain ⟨chains, I1, I2, I3, I4, I5⟩ := hinv
  obtain ⟨hA, rfl⟩ := RemoveNavArea_unlink_spec ha hun
  have hrK : r ∈ chains (NavAreaGrid.ComputeHashKey a.m_id) := by
    obtain ⟨k0, hk0⟩ := (I4 r).mp hr
    obtain ⟨a0, h0, hkey⟩ := I2 k0 r hk0
    rw [ha] at h0
    cases h0
    rw [hkey]
    exact hk0
  have honly : ∀ k x, x ∈ chains k → x ∈ chains (NavAreaGrid.ComputeHashKey a.m_id) →
      k = NavAreaGrid.ComputeHashKey a.m_id := by
    intro k x h1 h2
    obtain ⟨a1, g1, k1⟩ := I2 k x h1
    obtain ⟨a2, g2, k2⟩ := I2 _ x h2
    rw [g1] at g2
    cases g2
    exact k1.symm.trans k2
  obtain ⟨L1, L2⟩ := IsChain_links r a ha _ none _ (I1 _) (I3 _) hrK
  have hid : ∀ (x : AreaRef) (a0 : NavArea), areas[x]? = some a0 →
      ∃ a1 : NavArea, areas2[x]? = some a1 ∧ a1.m_id = a0.m_id := by
    intro x a0 hx
    rw [hA x, hx]
    exact ⟨_, rfl, rfl⟩
  have hother : ∀ k, k ≠ NavAreaGrid.ComputeHashKey a.m_id → ∀ x ∈ chains k,
      areas2[x]? = areas[x]? := by
    intro k hk x hx
    have h1 : a.m_prevHash ≠ some x := by
      rcases L2 with ⟨_, c⟩ | ⟨_, y, hy, c, _⟩
      · rw [c]
        intro e
        cases e
      · rw [c]
        intro e
        cases e
        exact hk (honly k _ hx hy)
    have h2 : a.m_nextHash ≠ some x := by
      rcases L1 with c | ⟨n, hn, c, _⟩
      · rw [c]
        intro e
        cases e
      · rw [c]
        intro e
        cases e
        exact hk (honly k _ hx hn)
    rw [hA x]
    cases areas[x]? with
    | none => rfl
    | some ax => simp [h1, h2]
  refine ⟨fun k => if k = NavAreaGrid.ComputeHashKey a.m_id
    then (chains (NavAreaGrid.ComputeHashKey a.m_id)).filter (fun x => x ≠ r) else chains k,
    ?_, ?_, ?_, ?_, ?_⟩
  · intro k
    by_cases hk : k = NavAreaGrid.ComputeHashKey a.m_id
    · subst hk
      simp only [if_true, and_true]
      have hrem := IsChain_remove r a ha hA _ none _ (I1 _) (I3 _) hrK (by
        intro y e
        cases e)
      have hhead : (if a.m_prevHash = none
          then a.m_nextHash else g.m_hashTable (NavAreaGrid.ComputeHashKey a.m_id))
          = (if g.m_hashTable (NavAreaGrid.ComputeHashKey a.m_id) = some r then a.m_nextHash
            else g.m_hashTable (NavAreaGrid.ComputeHashKey a.m_id)) := by
        rcases L2 with ⟨c1, c2⟩ | ⟨c1, y, _, c2, _⟩
        · rw [if_pos c2, if_pos c1]
        · have : ¬ (a.m_prevHash = none) := by
            intro e
            rw [c2] at e
            cases e
          rw [if_neg this, if_neg c1]
      rw [hhead]
      exact hrem
    · simp only [if_neg hk]
      have : ¬ (a.m_prevHash = none ∧ k = NavAreaGrid.ComputeHashKey a.m_id) :=
        fun c => hk c.2
      show IsChain areas2 none
        (if a.m_prevHash = none ∧ k = NavAreaGrid.ComputeHashKey a.m_id
          then a.m_nextHash else g.m_hashTable k) _
      rw [if_neg this]
      exact IsChain_congr (chains k) _ _ (hother k hk) (I1 k)
  · intro k x hx
    have hx2 : x ∈ chains k := by
      by_cases hk : k = NavAreaGrid.ComputeHashKey a.m_id
      · subst hk
        simp only [if_true] at hx
        exact (List.mem_filter.mp hx).1
      · simp only [if_neg hk] at hx
        exact hx
    obtain ⟨a0, h0, hk0⟩ := I2 k x hx2
    obtain ⟨a1, h1, hi1⟩ := hid x a0 h0
    exact ⟨a1, h1, by rw [hi1]; exact hk0⟩
  · intro k
    by_cases hk : k = NavAreaGrid.ComputeHashKey a.m_id
    · subst hk
      simp only [if_true]
      exact List.Nodup.filter _ (I3 _)
    · simp only [if_neg hk]
      exact I3 k
  · intro x
    rw [List.mem_filter, I4 x]
    simp only [ne_eq, decide_eq_true_eq]
    constructor
    · rintro ⟨⟨k, hk⟩, hxr⟩
      by_cases hkK : k = NavAreaGrid.ComputeHashKey a.m_id
      · subst hkK
        exact ⟨NavAreaGrid.ComputeHashKey a.m_id, by
          simp only [if_true]
          exact List.mem_filter.mpr ⟨hk, by simpa using hxr⟩⟩
      · exact ⟨k, by simp only [if_neg hkK]; exact hk⟩
    · rintro ⟨k, hk⟩
      by_cases hkK : k = NavAreaGrid.ComputeHashKey a.m_id
      · subst hkK
        simp only [if_true] at hk
        obtain ⟨h1, h2⟩ := List.mem_filter.mp hk
        exact ⟨⟨_, h1⟩, by simpa using h2⟩
      · simp only [if_neg hkK] at hk
        refine ⟨⟨k, hk⟩, ?_⟩
        rintro rfl
        exact hkK (honly k x hk hrK)
  · show (g.m_areaCount + 2 ^ 32 - 1) % 2 ^ 32 = _
    have hsum := sum_range_update
      (fun k => (if k = NavAreaGrid.ComputeHashKey a.m_id
        then (chains (NavAreaGrid.ComputeHashKey a.m_id)).filter (fun x => x ≠ r)
        else chains k).length)
      (fun k => (chains k).length)
      (NavAreaGrid.ComputeHashKey a.m_id) (by
        intro k hk
        simp only [if_neg hk]) NavAreaGrid.HASH_TABLE_SIZE (ComputeHashKey_lt _)
    have hlen := length_filter_ne r _ (I3 (NavAreaGrid.ComputeHashKey a.m_id)) hrK
    simp only [if_true] at hsum
    rw [I5]
    beta_reduce
    omega

/-- `Reset` establishes the id-hash invariant, with no area in the grid. -/
theorem HashInvariant_reset (areas : List NavArea) (g : NavAreaGrid) :
    HashInvariant areas g.Reset [] := by
  refine ⟨fun _ => [], fun _ => rfl, ?_, fun _ => List.nodup_nil, ?_, ?_⟩
  · intro k x hx
    simp at hx
  · intro x
    simp
  · show (0 : Nat) = _
    simp

/-- One valid call keeps the id-hash invariant. -/
theorem HashInvariant_step {areas areas2 : List NavArea} {g g2 : NavAreaGrid}
    {ms : List AreaRef} (op : GridOp) (hinv : HashInvariant areas g ms) (hv : op.Valid ms)
    (h : op.run (areas, g) = .ok (areas2, g2)) : HashInvariant areas2 g2 (op.members ms) := by
  cases op with
  | reset =>
    simp only [GridOp.run, Except.ok.injEq, Prod.mk.injEq] at h
    obtain ⟨rfl, rfl⟩ := h
    exact HashInvariant_reset _ _
  | add r => exact HashInvariant_add hinv hv h
  | remove r => exact HashInvariant_remove hinv hv h

/-- A valid sequence of calls keeps the id-hash invariant. -/
theorem HashInvariant_run :
    ∀ (ops : List GridOp) (areas areas2 : List NavArea) (g g2 : NavAreaGrid)
      (ms : List AreaRef), HashInvariant areas g ms → GridOps_Valid ms ops →
      GridOps_run ops (areas, g) = .ok (areas2, g2) →
      HashInvariant areas2 g2 (GridOps_members ms ops) := by
  intro ops
  induction ops with
  | nil =>
    intro areas areas2 g g2 ms hinv _ h
    simp only [GridOps_run, List.foldlM_nil, pure_eq_ok, Prod.mk.injEq] at h
    obtain ⟨rfl, rfl⟩ := h
    exact hinv
  | cons op rest ih =>
    intro areas areas2 g g2 ms hinv hv h
    obtain ⟨hv1, hv2⟩ := hv
    unfold GridOps_run at h
    rw [List.foldlM_cons, bind_eq_ok] at h
    obtain ⟨⟨areas1, g1⟩, h1, h2⟩ := h
    exact ih areas1 areas2 g1 g2 _ (HashInvariant_step op hinv hv1 h1) hv2 h2

/-- The links of the chains in the words of claim C32: the head of a chain has no
`m_prevHash`, and the area behind the `m_nextHash` of an area of the grid is in the grid
and has that area as its `m_prevHash`. -/
theorem HashInvariant_links {areas : List NavArea} {g : NavAreaGrid} {ms : List AreaRef}
    (hinv : HashInvariant areas g ms) :
    (∀ k hd, g.m_hashTable k = some hd →
      hd ∈ ms ∧ ∃ a, areas[hd]? = some a ∧ a.m_prevHash = none) ∧
    (∀ x a n, x ∈ ms → areas[x]? = some a → a.m_nextHash = some n →
      n ∈ ms ∧ n ≠ x ∧ ∃ an, areas[n]? = some an ∧ an.m_prevHash = some x) := by
  obtain ⟨chains, I1, I2, I3, I4, _⟩ := hinv
  constructor
  · intro k hd hk
    have hc := I1 k
    rw [hk] at hc
    refine ⟨(I4 hd).mpr ⟨k, IsChain_head_mem hc⟩, ?_⟩
    cases hl : chains k with
    | nil => rw [hl] at hc; cases hc
    | cons y rest =>
      rw [hl] at hc
      obtain ⟨hcur, a, ha, hp, _⟩ := hc
      cases hcur
      exact ⟨a, ha, hp⟩
  · intro x a n hx ha hn
    obtain ⟨k, hk⟩ := (I4 x).mp hx
    obtain ⟨L1, _⟩ := IsChain_links x a ha _ none _ (I1 k) (I3 k) hk
    rcases L1 with c | ⟨n2, hn2, c, hne, an, han, hpn⟩
    · rw [c] at hn
      cases hn
    · rw [c] at hn
      cases hn
      exact ⟨(I4 n).mpr ⟨k, hn2⟩, hne, an, han, hpn⟩

/-- `Initialize` of a grid that was reset establishes the id-hash invariant, with no area
in the grid. -/
theorem HashInvariant_fresh (areas : List NavArea) (g0 g : NavAreaGrid)
    (minX maxX minY maxY : ℚ) (h : (g0.Reset).Initialize minX maxX minY maxY = .ok g) :
    HashInvariant areas g [] := by
  unfold NavAreaGrid.Initialize at h
  simp only [NavAreaGrid.Reset, Option.isSome_none, Bool.false_eq_true, if_false] at h
  split_ifs at h
  simp only [Except.ok.injEq] at h
  subst h
  refine ⟨fun _ => [], fun _ => rfl, ?_, fun _ => List.nodup_nil, ?_, ?_⟩
  · intro k x hx
    simp at hx
  · intro x
    simp
  · show (0 : Nat) = _
    simp

/-- Claim C32 fails as stated: the claim restricts `RemoveNavArea` to areas in the grid
but not `AddNavArea` to areas outside it. After `AddNavArea` was called twice for the
same area on a grid just initialised, the area heads its chain and is its own
`m_prevHash` and `m_nextHash`: the head has a back link, the chain runs in a circle, and
`GetNavAreaByID` for another id of the same key does not return. -/
theorem C32_counterexample :
    (hashFill [.add 0, .add 0]).map
        (fun p => (p.2.1.map (fun a => (a.m_prevHash, a.m_nextHash)), p.2.2.m_hashTable 1,
          p.2.2.m_areaCount))
      = .ok ([(some 0, some 0), (none, none), (none, none)], some 0, 2) ∧
    (hashFill [.add 0, .add 0] >>= fun p => p.2.2.GetNavAreaByID p.2.1 257)
      = .error .noFuel := by
  constructor <;> decide!

/-- Claim C32, amended: from a store and a grid with the id-hash invariant (as `Reset`
and `Initialize` leave them), every sequence of calls of `Reset`, `AddNavArea` and
`RemoveNavArea` that return, in which `AddNavArea` is called only for areas that are not
in the grid and `RemoveNavArea` only for areas that are in it, keeps the invariant: every
slot `k` of the hash table heads a chain of areas of the key `k` without repetition whose
links are those of a doubly linked list, and `m_areaCount` is the number of areas in the
256 chains, counted in 32 bits. In particular a chain head is an area in the grid without
`m_prevHash`, and the `m_nextHash` of an area in the grid points to another area in the
grid whose `m_prevHash` points back. -/
theorem C32_hash_invariant (ops : List GridOp) (areas areas2 : List NavArea)
    (g g2 : NavAreaGrid) (ms : List AreaRef) (hinv : HashInvariant areas g ms)
    (hv : GridOps_Valid ms ops) (h : GridOps_run ops (areas, g) = .ok (areas2, g2)) :
    HashInvariant areas2 g2 (GridOps_members ms ops) ∧
    (∀ k hd, g2.m_hashTable k = some hd →
      hd ∈ GridOps_members ms ops ∧ ∃ a, areas2[hd]? = some a ∧ a.m_prevHash = none) ∧
    (∀ x a n, x ∈ GridOps_members ms ops → areas2[x]? = some a → a.m_nextHash = some n →
      n ∈ GridOps_members ms ops ∧ n ≠ x ∧
        ∃ an, areas2[n]? = some an ∧ an.m_prevHash = some x) := by
  have hfin := HashInvariant_run ops areas areas2 g g2 ms hinv hv h
  exact ⟨hfin, HashInvariant_links hfin⟩

/-- Claim C32, amended, on the grid initialised for `(0,0)-(100,100)` and three areas of
the same hash key: after the areas 0, 1, 2 were added, 1 and 2 removed and 1 added
again, the areas 0 and 1 are in the grid, the invariant holds and the count is 2. -/
theorem C32_hash_invariant_witness :
    ∃ g0 areas2 g2, (NavAreaGrid.ctor 0 0).Initialize 0 100 0 100 = .ok g0 ∧
      GridOps_run [.add 0, .add 1, .add 2, .remove 1, .remove 2, .add 1] (hashAreas, g0)
        = .ok (areas2, g2) ∧
      HashInvariant areas2 g2 [0, 1] ∧ g2.m_hashTable 1 = some 1 ∧ g2.m_areaCount = 2 := by
  obtain ⟨⟨g0, areas2, g2⟩, hfill⟩ := ok_of_toBool
    (show (hashFill [.add 0, .add 1, .add 2, .remove 1, .remove 2, .add 1]).toBool = true by
      decide!)
  have hv : (hashFill [.add 0, .add 1, .add 2, .remove 1, .remove 2, .add 1]).map
      (fun p => (p.2.2.m_hashTable 1, p.2.2.m_areaCount)) = .ok (some 1, 2) := by decide!
  rw [hfill] at hv
  simp only [Except.map, Except.ok.injEq, Prod.mk.injEq] at hv
  unfold hashFill at hfill
  simp only [bind_eq_ok, pure_eq_ok, Prod.mk.injEq] at hfill
  obtain ⟨g0', hinit, st, hrun, rfl, rfl, rfl⟩ := hfill
  exact ⟨g0', st.1, st.2, hinit, hrun,
    (C32_hash_invariant [.add 0, .add 1, .add 2, .remove 1, .remove 2, .add 1] hashAreas st.1
      g0' st.2 [] (HashInvariant_fresh hashAreas _ g0' 0 100 0 100 hinit)
      (by simp [GridOps_Valid, GridOp.Valid, GridOp.members]) hrun).1, hv.1, hv.2⟩

/-! ### `RemoveNavArea` after `AddNavArea`: claim C31 -/

/-- A successful `remove(r)` on the bucket `i`: what each bucket holds afterwards. -/
theorem modifyBucket_filter_get (cs : List (List AreaRef)) (i : Int) (r : AreaRef)
    (cells2 : Option (List (List AreaRef)))
    (h : NavAreaGrid.modifyBucket (some cs) i (fun l => l.filter (fun q => q ≠ r))
      = .ok cells2) :
    ∃ c2, cells2 = some c2 ∧
      ∀ j, c2[j]? = (cs[j]?).map
        (fun l => if i.toNat = j then l.filter (fun q => q ≠ r) else l) := by
  unfold NavAreaGrid.modifyBucket at h
  by_cases hi : i < 0
  · simp [hi] at h
  · simp only [hi, if_false] at h
    cases hl : (cs[i.toNat]?) with
    | none => rw [hl] at h; simp at h
    | some l =>
      rw [hl] at h
      simp only [Except.ok.injEq] at h
      have hlt : i.toNat < cs.length := (List.getElem?_eq_some_iff.mp hl).1
      refine ⟨_, h.symm, ?_⟩
      intro j
      rw [List.getElem?_set]
      by_cases hj : i.toNat = j
      · subst hj
        simp [hlt, hl]
      · simp only [hj, if_false]
        cases cs[j]? <;> rfl

/-- A successful run of `remove(r)` over a list of bucket indices: the buckets of the
list lose `r`, the others stay. -/
theorem filterAll_get (r : AreaRef) :
    ∀ (is : List Int) (cs : List (List AreaRef)) (cells2 : Option (List (List AreaRef))),
      is.foldlM (fun cells i =>
          NavAreaGrid.modifyBucket cells i (fun l => l.filter (fun q => q ≠ r))) (some cs)
        = .ok cells2 →
      ∃ c2, cells2 = some c2 ∧
        ∀ j, c2[j]? = (cs[j]?).map
          (fun l => if j ∈ is.map Int.toNat then l.filter (fun q => q ≠ r) else l) := by
  intro is
  induction is with
  | nil =>
    intro cs cells2 h
    simp only [List.foldlM_nil, pure_eq_ok] at h
    refine ⟨cs, h.symm, ?_⟩
    intro j
    cases cs[j]? <;> simp
  | cons i rest ih =>
    intro cs cells2 h
    rw [List.foldlM_cons, bind_eq_ok] at h
    obtain ⟨cells1, h1, h2⟩ := h
    obtain ⟨c1, rfl, hget1⟩ := modifyBucket_filter_get cs i r cells1 h1
    obtain ⟨c2, rfl, hget2⟩ := ih c1 cells2 h2
    refine ⟨c2, rfl, ?_⟩
    intro j
    rw [hget2 j, hget1 j, List.map_cons]
    cases cs[j]? with
    | none => rfl
    | some l =>
      simp only [Option.map_some', Option.some.injEq]
      by_cases hi : i.toNat = j
      · subst hi
        by_cases hm : i.toNat ∈ rest.map Int.toNat
        · simp [hm, List.filter_filter]
        · simp [hm]
      · have hji : ¬ j = i.toNat := fun e => hi e.symm
        by_cases hm : j ∈ rest.map Int.toNat
        · simp [hi, hji, hm]
        · simp [hi, hji, hm]

/-- The loops of `RemoveNavArea` after those of `AddNavArea` over the same cells leave
the buckets they found, when none of them held the area. -/
theorem push_filter_restore (r : AreaRef) (is : List Int) (cs : List (List AreaRef))
    (cells1 cells2 : Option (List (List AreaRef))) (hb : ∀ l ∈ cs, r ∉ l)
    (h1 : is.foldlM (fun cells i => NavAreaGrid.modifyBucket cells i (fun l => l ++ [r]))
      (some cs) = .ok cells1)
    (h2 : is.foldlM (fun cells i =>
      NavAreaGrid.modifyBucket cells i (fun l => l.filter (fun q => q ≠ r))) cells1
        = .ok cells2) :
    cells2 = some cs := by
  obtain ⟨c1, rfl, hget1⟩ := pushAll_get r is cs cells1 h1
  obtain ⟨c2, rfl, hget2⟩ := filterAll_get r is c1 cells2 h2
  congr 1
  apply List.ext_getElem?
  intro j
  rw [hget2 j, hget1 j]
  cases hl : cs[j]? with
  | none => rfl
  | some l =>
    have hrl : r ∉ l := hb l (List.getElem?_mem hl)
    have hfl : l.filter (fun q => q ≠ r) = l :=
      List.filter_eq_self.mpr (fun y hy => by
        simp only [ne_eq, decide_eq_true_eq]
        rintro rfl
        exact hrl hy)
    simp only [Option.map_some', Option.some.injEq]
    by_cases hm : j ∈ is.map Int.toNat
    · rw [if_pos hm, List.filter_append, hfl]
      have : (List.replicate ((is.map Int.toNat).count j) r).filter (fun q => q ≠ r) = [] := by
        apply List.filter_eq_nil_iff.mpr
        intro y hy
        have := List.eq_of_mem_replicate hy
        simp [this]
      rw [this, List.append_nil]
    · rw [if_neg hm, List.count_eq_zero_of_not_mem hm, List.replicate_zero, List.append_nil]

/-- Two stores of which one is the image of the other, pointer by pointer, have the same
length. -/
theorem length_of_getElem?_map {areas areas2 : List NavArea} (F : Nat → NavArea → NavArea)
    (h : ∀ x, areas2[x]? = (areas[x]?).map (F x)) : areas2.length = areas.length := by
  apply le_antisymm
  · apply List.getElem?_eq_none_iff.mp
    rw [h]
    simp
  · apply List.getElem?_eq_none_iff.mp
    have := h areas2.length
    rw [List.getElem?_eq_none_iff.mpr le_rfl] at this
    cases hx : areas[areas2.length]? with
    | none => rfl
    | some v => rw [hx] at this; simp at this

/-- The walk of `GetNavAreaByID` along a chain reads the areas of the chain only. -/
theorem GetNavAreaByID_loop_congr {areas areas2 : List NavArea} (id : Nat) :
    ∀ (l : List AreaRef) (prev cur : Option AreaRef), IsChain areas prev cur l →
      (∀ x ∈ l, areas2[x]? = areas[x]?) → ∀ fuel,
      NavAreaGrid.GetNavAreaByID_loop areas2 id fuel cur
        = NavAreaGrid.GetNavAreaByID_loop areas id fuel cur := by
  intro l
  induction l with
  | nil =>
    intro prev cur h _ fuel
    have hc : cur = none := h
    subst hc
    cases fuel <;> rfl
  | cons x rest ih =>
    intro prev cur h hag fuel
    obtain ⟨hcur, ax, hax, _, hrest⟩ := h
    subst hcur
    cases fuel with
    | zero => rfl
    | succ fuel =>
      simp only [NavAreaGrid.GetNavAreaByID_loop, hag x (List.mem_cons_self _ _), hax]
      split_ifs
      · rfl
      · exact ih _ _ hrest (fun y hy => hag y (List.mem_cons_of_mem _ hy)) fuel

/-- The walk of `GetNavAreaByID` along a chain returns areas of the chain only. -/
theorem GetNavAreaByID_loop_mem {areas : List NavArea} (id : Nat) :
    ∀ (l : List AreaRef) (prev cur : Option AreaRef), IsChain areas prev cur l →
      ∀ fuel y, NavAreaGrid.GetNavAreaByID_loop areas id fuel cur = .ok (some y) → y ∈ l := by
  intro l
  induction l with
  | nil =>
    intro prev cur h fuel y hy
    have hc : cur = none := h
    subst hc
    cases fuel <;> simp [NavAreaGrid.GetNavAreaByID_loop] at hy
  | cons x rest ih =>
    intro prev cur h fuel y hy
    obtain ⟨hcur, ax, hax, _, hrest⟩ := h
    subst hcur
    cases fuel with
    | zero => simp [NavAreaGrid.GetNavAreaByID_loop] at hy
    | succ fuel =>
      simp only [NavAreaGrid.GetNavAreaByID_loop, hax] at hy
      split_ifs at hy
      · simp only [Except.ok.injEq, Option.some.injEq] at hy
        rw [← hy]
        exact List.mem_cons_self _ _
      · exact List.mem_cons_of_mem _ (ih _ _ hrest fuel y hy)

/-- Two grids with the same members are the same grid. -/
theorem NavAreaGrid_eq {g g2 : NavAreaGrid} (h1 : g2.m_grid = g.m_grid)
    (h2 : g2.m_gridSizeX = g.m_gridSizeX) (h3 : g2.m_gridSizeY = g.m_gridSizeY)
    (h4 : g2.m_minX = g.m_minX) (h5 : g2.m_minY = g.m_minY)
    (h6 : g2.m_areaCount = g.m_areaCount) (h7 : g2.m_hashTable = g.m_hashTable) : g2 = g := by
  cases g
  cases g2
  simp only at h1 h2 h3 h4 h5 h6 h7
  subst h1 h2 h3 h4 h5 h6 h7
  rfl

/-- `RemoveNavArea` returns on an allocated grid for an area of the store whose two links
are null or point to areas of the store. -/
theorem RemoveNavArea_ok {areas : List NavArea} {g : NavAreaGrid} {r : AreaRef} {a : NavArea}
    (hg : g.Allocated) (ha : areas[r]? = some a)
    (hp : ∀ p, a.m_prevHash = some p → ∃ ap, areas[p]? = some ap)
    (hn : ∀ n, a.m_nextHash = some n → ∃ an, areas[n]? = some an) :
    ∃ areas2 g2, g.RemoveNavArea areas r = .ok (areas2, g2) := by
  have hg2 := hg
  obtain ⟨_, _, cs, hcs, _⟩ := hg2
  obtain ⟨cs2, hcells, _⟩ := Allocated_forCells_ok hg cs hcs a.m_extent
    (fun l => l.filter (fun q => q ≠ r))
  obtain ⟨st, hun⟩ := RemoveNavArea_unlink_ok g.m_hashTable ha hp hn
  cases hres : g.RemoveNavArea areas r with
  | ok p => exact ⟨p.1, p.2, rfl⟩
  | error e =>
    exfalso
    unfold NavAreaGrid.RemoveNavArea at hres
    simp only [bind_eq_error] at hres
    rcases hres with h | ⟨a2, hd, h⟩
    · rw [deref_eq_ok.mpr ha] at h
      cases h
    · rw [deref_eq_ok.mpr ha] at hd
      cases hd
      rcases h with h | ⟨cells, _, h⟩
      · rw [hcells] at h
        cases h
      · rcases h with h | ⟨st2, _, h⟩
        · rw [hun] at h
          cases h
        · cases h

/-- C31: on a grid that is allocated and has the id-hash invariant, for an area `a`
behind the pointer `r` that is in no bucket and in no chain, `AddNavArea(a)` and then
`RemoveNavArea(a)` both return, and they leave the grid as it was, the bucket lists, the
hash table and `m_areaCount` included; every area but `a` is as it was, so that every
chain of the hash table is the chain it was; after the add `GetNavAreaByID(a.id)`
returns `a` (for an id other than 0); after the remove it does not, and
`GetNavAreaByID` returns for every id what it returned before the add. -/
theorem C31_add_remove_restores (areas : List NavArea) (g : NavAreaGrid) (ms : List AreaRef)
    (r : AreaRef) (a : NavArea) (hg : g.Allocated) (hinv : HashInvariant areas g ms)
    (ha : areas[r]? = some a) (hr : r ∉ ms)
    (hb : ∀ cs, g.m_grid = some cs → ∀ l ∈ cs, r ∉ l) :
    ∃ areas1 g1 areas2 g2,
      g.AddNavArea areas r = .ok (areas1, g1) ∧
      g1.RemoveNavArea areas1 r = .ok (areas2, g2) ∧
      g2 = g ∧
      (∀ x, x ≠ r → areas2[x]? = areas[x]?) ∧
      (∀ k l, IsChain areas none (g.m_hashTable k) l →
        IsChain areas2 none (g2.m_hashTable k) l) ∧
      (a.m_id ≠ 0 → g1.GetNavAreaByID areas1 a.m_id = .ok (some r)) ∧
      g2.GetNavAreaByID areas2 a.m_id ≠ .ok (some r) ∧
      ∀ id, g2.GetNavAreaByID areas2 id = g.GetNavAreaByID areas id := by
  have hlinks := HashInvariant_links hinv
  have hinv2 := hinv
  obtain ⟨chains, I1, I2, I3, I4, I5⟩ := hinv2
  have hg2 := hg
  obtain ⟨hx, hy, cs, hcs, hlen⟩ := hg2
  have hk : r < areas.length := (List.getElem?_eq_some_iff.mp ha).1
  have htab : ∀ key h, g.m_hashTable key = some h → h < areas.length := by
    intro key h hh
    obtain ⟨_, a0, h0, _⟩ := hlinks.1 key h hh
    exact (List.getElem?_eq_some_iff.mp h0).1
  obtain ⟨areas1, g1, hadd⟩ := AddNavArea_ok areas g r cs hcs hlen hx hy hk htab
  have hg1A := (Allocated_AddNavArea hg areas r).2 _ _ hadd
  obtain ⟨a', cells1, ha', hcells1, hl, hg1⟩ := AddNavArea_eq_ok hadd
  rw [ha] at ha'
  cases ha'
  have hrK : ∀ k, r ∉ chains k := fun k hk => hr ((I4 r).mpr ⟨k, hk⟩)
  have hhead : g.m_hashTable (NavAreaGrid.ComputeHashKey a.m_id) ≠ some r := by
    intro e
    have := I1 (NavAreaGrid.ComputeHashKey a.m_id)
    rw [e] at this
    exact hrK _ (IsChain_head_mem this)
  have hspec := AddNavArea_link_spec hl hhead
  have ha1 : areas1[r]? = some { a with
      m_prevHash := none,
      m_nextHash := g.m_hashTable (NavAreaGrid.ComputeHashKey a.m_id) } := by
    rw [hspec r, ha]
    simp
  obtain ⟨areas2, g2, hrem⟩ := RemoveNavArea_ok hg1A ha1
    (by
      intro p hp
      cases hp)
    (by
      intro n hn
      have hn2 : g.m_hashTable (NavAreaGrid.ComputeHashKey a.m_id) = some n := hn
      have hlt := htab _ n hn2
      rw [hspec n, List.getElem?_eq_getElem hlt]
      exact ⟨_, rfl⟩)
  obtain ⟨a1, cells2, table2, ha1', hcells2, hun, hg2eq⟩ := RemoveNavArea_eq_ok hrem
  rw [ha1] at ha1'
  cases ha1'
  obtain ⟨hA, htab2⟩ := RemoveNavArea_unlink_spec ha1 hun
  subst hg1
  rw [forCells_eq, hcs] at hcells1
  rw [forCells_eq] at hcells2
  have hgrid : cells2 = some cs :=
    push_filter_restore r _ cs cells1 cells2 (hb cs hcs) hcells1 hcells2
  have htable : table2 = g.m_hashTable := by
    rw [htab2]
    funext k
    by_cases hkk : k = NavAreaGrid.ComputeHashKey a.m_id
    · subst hkk
      simp
    · simp [hkk]
  have hcount : ((g.m_areaCount + 1) % 2 ^ 32 + 2 ^ 32 - 1) % 2 ^ 32 = g.m_areaCount := by
    rw [I5]
    omega
  have hgeq : g2 = g := by
    rw [hg2eq]
    exact NavAreaGrid_eq (by rw [hgrid, hcs]) rfl rfl rfl rfl hcount htable
  have hother : ∀ x, x ≠ r → areas2[x]? = areas[x]? := by
    intro x hxr
    rw [hA x, hspec x]
    cases hax : areas[x]? with
    | none => rfl
    | some ax =>
      by_cases hh : g.m_hashTable (NavAreaGrid.ComputeHashKey a.m_id) = some x
      · obtain ⟨_, a0, h0, hp0⟩ := hlinks.1 _ x hh
        rw [hax] at h0
        cases h0
        simp only [Option.map_some', Option.some.injEq, if_neg hxr, if_pos hh]
        cases ax
        simp only at hp0
        subst hp0
        simp [hh]
      · simp [hxr, hh]
  have hlen2 : areas2.length = areas.length := by
    rw [length_of_getElem?_map _ hA, length_of_getElem?_map _ hspec]
  have hchain : ∀ k, ∀ x ∈ chains k, areas2[x]? = areas[x]? :=
    fun k x hx => hother x (fun e => hrK k (by rw [← e]; exact hx))
  have hlook : ∀ id, g2.GetNavAreaByID areas2 id = g.GetNavAreaByID areas id := by
    intro id
    rw [hgeq]
    unfold NavAreaGrid.GetNavAreaByID
    by_cases hid : id = 0
    · rw [if_pos hid, if_pos hid]
    · rw [if_neg hid, if_neg hid, hlen2]
      exact GetNavAreaByID_loop_congr id _ none _ (I1 _) (hchain _) _
  refine ⟨areas1, _, areas2, g2, hadd, hrem, hgeq, hother, ?_, ?_, ?_, hlook⟩
  · intro k l hkl
    rw [hgeq]
    have := IsChain_unique _ _ _ _ hkl (I1 k)
    rw [this]
    exact IsChain_congr (chains k) _ _ (hchain k) (I1 k)
  · intro hid
    unfold NavAreaGrid.GetNavAreaByID
    rw [if_neg hid]
    simp [NavAreaGrid.GetNavAreaByID_loop, ha1]
  · rw [hlook]
    intro hfound
    unfold NavAreaGrid.GetNavAreaByID at hfound
    by_cases hid : a.m_id = 0
    · rw [if_pos hid] at hfound
      cases hfound
    · rw [if_neg hid] at hfound
      exact hrK _ (GetNavAreaByID_loop_mem a.m_id _ none _ (I1 _) _ r hfound)

/-- C31 on the grid initialised for `(0,0)-(100,100)` that holds the area 0 of
`hashAreas` (id 1): adding and removing the area 1 (id 257, of the same hash key)
restores the grid and the area 0; the id 257 is found after the add and not after the
remove, and the id 1 is found as before. -/
theorem C31_add_remove_restores_witness :
    ∃ g0 areas g areas1 g1 areas2 g2,
      (NavAreaGrid.ctor 0 0).Initialize 0 100 0 100 = .ok g0 ∧
      g0.AddNavArea hashAreas 0 = .ok (areas, g) ∧
      g.AddNavArea areas 1 = .ok (areas1, g1) ∧
      g1.RemoveNavArea areas1 1 = .ok (areas2, g2) ∧
      g2 = g ∧ areas2[0]? = areas[0]? ∧
      g1.GetNavAreaByID areas1 257 = .ok (some 1) ∧
      g2.GetNavAreaByID areas2 257 = .ok none ∧
      g2.GetNavAreaByID areas2 1 = .ok (some 0) := by
  obtain ⟨⟨g0, areas, g⟩, hfill⟩ := ok_of_toBool
    (show (hashFill [.add 0]).toBool = true by decide!)
  have hv1 : (hashFill [.add 0]).map (fun p => (p.2.2.m_grid, p.2.1.map NavArea.m_id))
      = .ok (some [[0]], [1, 257, 513]) := by decide!
  have hv2 : (hashFill [.add 0]).map (fun p => p.2.2.GetNavAreaByID p.2.1 257)
      = .ok (.ok none) := by decide!
  have hv3 : (hashFill [.add 0]).map (fun p => p.2.2.GetNavAreaByID p.2.1 1)
      = .ok (.ok (some 0)) := by decide!
  rw [hfill] at hv1 hv2 hv3
  simp only [Except.map, Except.ok.injEq, Prod.mk.injEq] at hv1 hv2 hv3
  obtain ⟨hgrid, hids⟩ := hv1
  unfold hashFill at hfill
  simp only [bind_eq_ok, pure_eq_ok, Prod.mk.injEq, GridOps_run, List.foldlM_cons,
    List.foldlM_nil, GridOp.run] at hfill
  obtain ⟨g0', hinit, st, ⟨st1, hadd0, rfl⟩, rfl, rfl, rfl⟩ := hfill
  have hg : st1.2.Allocated :=
    (Allocated_AddNavArea
      (Initialize_allocated _ g0' 0 100 0 100 (by norm_num) (by norm_num) hinit)
      hashAreas 0).2 _ _ hadd0
  have hinv : HashInvariant st1.1 st1.2 [0] :=
    HashInvariant_add (HashInvariant_fresh hashAreas _ g0' 0 100 0 100 hinit)
      (by simp) hadd0
  have hid := congrArg (fun l => l[1]?) hids
  simp only [List.getElem?_map] at hid
  cases ha : st1.1[1]? with
  | none => rw [ha] at hid; simp at hid
  | some a =>
    rw [ha] at hid
    simp only [Option.map_some', List.getElem?_cons_succ, List.getElem?_cons_zero,
      Option.some.injEq] at hid
    obtain ⟨areas1, g1, areas2, g2, h1, h2, h3, h4, _, h6, _, h8⟩ :=
      C31_add_remove_restores st1.1 st1.2 [0] 1 a hg hinv ha (by simp) (by
        intro cs hcs l hl
        rw [hgrid] at hcs
        cases hcs
        simp only [List.mem_singleton] at hl
        subst hl
        simp)
    refine ⟨g0', st1.1, st1.2, areas1, g1, areas2, g2, hinit, hadd0, h1, h2, h3,
      h4 0 (by decide), ?_, ?_, ?_⟩
    · rw [← hid]
      exact h6 (by rw [hid]; decide)
    · rw [h8]
      exact hv2
    · rw [h8]
      exact hv3

/-! ### Binary32 rounding -/

theorem roundHalfEven_bounds (x : ℚ) :
    ⌊x⌋ ≤ F32.roundHalfEven x ∧ F32.roundHalfEven x ≤ ⌊x⌋ + 1 := by
  unfold F32.roundHalfEven
  split_ifs <;> constructor <;> omega

theorem roundHalfEven_intCast (n : Int) : F32.roundHalfEven (n : ℚ) = n := by
  unfold F32.roundHalfEven
  rw [Int.floor_intCast, sub_self, if_pos (by norm_num)]

/-- Rounding to an integer moves a value by at most one half. -/
theorem abs_roundHalfEven_sub (x : ℚ) : |(F32.roundHalfEven x : ℚ) - x| ≤ 1 / 2 := by
  have h0 := Int.floor_le x
  have h1 := Int.lt_floor_add_one x
  unfold F32.roundHalfEven
  rw [abs_le]
  split_ifs with c1 c2 c3
  · constructor <;> linarith
  · push_cast
    constructor <;> linarith
  · constructor <;> linarith
  · push_cast
    constructor <;> linarith

/-- Rounding to an integer is monotone. -/
theorem roundHalfEven_mono {x y : ℚ} (h : x ≤ y) :
    F32.roundHalfEven x ≤ F32.roundHalfEven y := by
  have hf : ⌊x⌋ ≤ ⌊y⌋ := Int.floor_mono h
  rcases lt_or_eq_of_le hf with hlt | heq
  · have := (roundHalfEven_bounds x).2
    have := (roundHalfEven_bounds y).1
    omega
  · unfold F32.roundHalfEven
    rw [← heq]
    have hd : x - ⌊x⌋ ≤ y - ⌊x⌋ := by linarith
    split_ifs <;> first | omega | (exfalso; linarith)

theorem roundScaled_zero (s : ℚ) : F32.roundScaled 0 s = (F32.roundHalfEven s : ℚ) := rfl

theorem roundScaled_succ (fuel : Nat) (s : ℚ) :
    F32.roundScaled (fuel + 1) s
      = if s < 2 ^ 24 then (F32.roundHalfEven s : ℚ) else 2 * F32.roundScaled fuel (s / 2) :=
  rfl

theorem roundScaled_nonneg : ∀ (fuel : Nat) (s : ℚ), 0 ≤ s → 0 ≤ F32.roundScaled fuel s := by
  intro fuel
  induction fuel with
  | zero =>
    intro s hs
    have := (roundHalfEven_bounds s).1
    have := Int.floor_nonneg.mpr hs
    show (0 : ℚ) ≤ (F32.roundHalfEven s : ℚ)
    exact_mod_cast (by omega : 0 ≤ F32.roundHalfEven s)
  | succ fuel ih =>
    intro s hs
    rw [roundScaled_succ]
    split_ifs
    · have := (roundHalfEven_bounds s).1
      have := Int.floor_nonneg.mpr hs
      exact_mod_cast (by omega : 0 ≤ F32.roundHalfEven s)
    · have := ih (s / 2) (by positivity)
      linarith

/-- In units of `2^-149`, a value from `2^23` on is rounded to a value from `2^23` on. -/
theorem roundScaled_ge : ∀ (fuel : Nat) (s : ℚ), 2 ^ 23 ≤ s → 2 ^ 23 ≤ F32.roundScaled fuel s := by
  intro fuel
  induction fuel with
  | zero =>
    intro s hs
    have h1 : F32.roundHalfEven ((2 ^ 23 : Int) : ℚ) ≤ F32.roundHalfEven s :=
      roundHalfEven_mono (by push_cast; exact hs)
    rw [roundHalfEven_intCast] at h1
    show (2 ^ 23 : ℚ) ≤ (F32.roundHalfEven s : ℚ)
    exact_mod_cast h1
  | succ fuel ih =>
    intro s hs
    rw [roundScaled_succ]
    split_ifs with hc
    · have h1 : F32.roundHalfEven ((2 ^ 23 : Int) : ℚ) ≤ F32.roundHalfEven s :=
        roundHalfEven_mono (by push_cast; exact hs)
      rw [roundHalfEven_intCast] at h1
      exact_mod_cast h1
    · have := ih (s / 2) (by
        have : (2 : ℚ) ^ 24 ≤ s := not_lt.mp hc
        linarith)
      linarith

/-- Below `2^24`, in units of `2^-149`, the rounded value is an integer up to `2^24`. -/
theorem roundHalfEven_le_pow24 {s : ℚ} (hs : s < 2 ^ 24) : F32.roundHalfEven s ≤ 2 ^ 24 := by
  have h1 : F32.roundHalfEven s ≤ F32.roundHalfEven ((2 ^ 24 : Int) : ℚ) :=
    roundHalfEven_mono (by push_cast; exact hs.le)
  rw [roundHalfEven_intCast] at h1
  exact h1

/-- Rounding to binary32 is monotone (in units of `2^-149`, on values that are not
negative). -/
theorem roundScaled_mono : ∀ (fuel : Nat) (x y : ℚ), 0 ≤ x → x ≤ y →
    F32.roundScaled fuel x ≤ F32.roundScaled fuel y := by
  intro fuel
  induction fuel with
  | zero =>
    intro x y _ h
    show (F32.roundHalfEven x : ℚ) ≤ (F32.roundHalfEven y : ℚ)
    exact_mod_cast roundHalfEven_mono h
  | succ fuel ih =>
    intro x y hx h
    rw [roundScaled_succ, roundScaled_succ]
    by_cases hcx : x < 2 ^ 24
    · by_cases hcy : y < 2 ^ 24
      · rw [if_pos hcx, if_pos hcy]
        exact_mod_cast roundHalfEven_mono h
      · rw [if_pos hcx, if_neg hcy]
        have h1 : (F32.roundHalfEven x : ℚ) ≤ 2 ^ 24 := by
          exact_mod_cast roundHalfEven_le_pow24 hcx
        have h2 := roundScaled_ge fuel (y / 2) (by
          have : (2 : ℚ) ^ 24 ≤ y := not_lt.mp hcy
          linarith)
        linarith
    · have hcy : ¬ y < 2 ^ 24 := fun c => hcx (lt_of_le_of_lt h c)
      rw [if_neg hcx, if_neg hcy]
      have := ih (x / 2) (y / 2) (by positivity) (by linarith)
      linarith

/-- A rounded value is a binary32 number: rounding it again leaves it as it is. -/
theorem roundScaled_idem : ∀ (fuel : Nat) (s : ℚ), 0 ≤ s →
    F32.roundScaled fuel (F32.roundScaled fuel s) = F32.roundScaled fuel s := by
  intro fuel
  induction fuel with
  | zero =>
    intro s _
    rw [roundScaled_zero, roundScaled_zero, roundHalfEven_intCast]
  | succ fuel ih =>
    intro s hs
    by_cases hc : s < 2 ^ 24
    · have e1 : F32.roundScaled (fuel + 1) s = (F32.roundHalfEven s : ℚ) := by
        rw [roundScaled_succ, if_pos hc]
      rw [e1]
      have hle := roundHalfEven_le_pow24 hc
      rcases lt_or_eq_of_le hle with hlt | heq
      · rw [roundScaled_succ, if_pos (by exact_mod_cast hlt), roundHalfEven_intCast]
      · rw [heq]
        rw [roundScaled_succ, if_neg (by norm_num)]
        have h23 : F32.roundScaled fuel (((2 ^ 24 : Int) : ℚ) / 2) = 2 ^ 23 := by
          have hv : (((2 ^ 24 : Int) : ℚ) / 2) = ((2 ^ 23 : Int) : ℚ) := by norm_num
          rw [hv]
          cases fuel with
          | zero =>
            show ((F32.roundHalfEven ((2 ^ 23 : Int) : ℚ) : Int) : ℚ) = _
            rw [roundHalfEven_intCast]
            norm_num
          | succ k =>
            rw [roundScaled_succ, if_pos (by norm_num), roundHalfEven_intCast]
            norm_num
        rw [h23]
        norm_num
    · have e1 : F32.roundScaled (fuel + 1) s = 2 * F32.roundScaled fuel (s / 2) := by
        rw [roundScaled_succ, if_neg hc]
      rw [e1]
      have hge := roundScaled_ge fuel (s / 2) (by
        have : (2 : ℚ) ^ 24 ≤ s := not_lt.mp hc
        linarith)
      have hn : ¬ (2 * F32.roundScaled fuel (s / 2) < 2 ^ 24) := by
        intro c
        linarith
      rw [roundScaled_succ, if_neg hn]
      have hh : 2 * F32.roundScaled fuel (s / 2) / 2 = F32.roundScaled fuel (s / 2) := by ring
      rw [hh, ih (s / 2) (by positivity)]

/-- The rounding error, in units of `2^-149`: at most one half for a value below `2^24`
and at most the `2^-24`-th part of the value above. -/
theorem roundScaled_error : ∀ (fuel : Nat) (s : ℚ), 0 ≤ s →
    |F32.roundScaled fuel s - s| ≤ 1 / 2 + s / 2 ^ 24 := by
  have hstrong : ∀ (fuel : Nat) (s : ℚ), 0 ≤ s →
      |F32.roundScaled fuel s - s| ≤ max (1 / 2) (s / 2 ^ 24) := by
    intro fuel
    induction fuel with
    | zero =>
      intro s _
      rw [roundScaled_zero]
      exact le_trans (abs_roundHalfEven_sub s) (le_max_left _ _)
    | succ fuel ih =>
      intro s hs
      rw [roundScaled_succ]
      split_ifs with hc
      · exact le_trans (abs_roundHalfEven_sub s) (le_max_left _ _)
      · have h24 : (2 : ℚ) ^ 24 ≤ s := not_lt.mp hc
        have h1 := ih (s / 2) (by positivity)
        have h2 : 2 * F32.roundScaled fuel (s / 2) - s
            = 2 * (F32.roundScaled fuel (s / 2) - s / 2) := by ring
        rw [h2, abs_mul, abs_of_pos (by norm_num : (0 : ℚ) < 2)]
        have h4 : (1 / 2 : ℚ) ≤ s / 2 ^ 24 / 2 := by
          rw [le_div_iff₀ (by norm_num), le_div_iff₀ (by norm_num)]
          linarith
        have h5 : max (1 / 2 : ℚ) (s / 2 / 2 ^ 24) = s / 2 / 2 ^ 24 := by
          apply max_eq_right
          have : s / 2 / 2 ^ 24 = s / 2 ^ 24 / 2 := by ring
          rw [this]
          exact h4
        rw [h5] at h1
        refine le_trans ?_ (le_max_right _ _)
        have : s / 2 ^ 24 = 2 * (s / 2 / 2 ^ 24) := by ring
        rw [this]
        linarith
  intro fuel s hs
  refine le_trans (hstrong fuel s hs) ?_
  apply max_le
  · have : 0 ≤ s / 2 ^ 24 := by positivity
    linarith
  · linarith

/-- More fuel than the value needs does not change the result of `roundScaled`. -/
theorem roundScaled_fuel_succ : ∀ (f : Nat) (s : ℚ), s < 2 ^ (24 + f) →
    F32.roundScaled (f + 1) s = F32.roundScaled f s := by
  intro f
  induction f with
  | zero =>
    intro s hs
    rw [roundScaled_succ 0 s, roundScaled_zero s, if_pos (by simpa using hs)]
  | succ g ih =>
    intro s hs
    rw [roundScaled_succ (g + 1) s, roundScaled_succ g s]
    by_cases h : s < 2 ^ 24
    · rw [if_pos h, if_pos h]
    · rw [if_neg h, if_neg h, ih (s / 2)]
      have e : (2 : ℚ) ^ (24 + (g + 1)) = 2 ^ (24 + g) * 2 := by
        rw [← add_assoc, pow_succ]
      rw [e] at hs
      rw [div_lt_iff₀ (by norm_num : (0 : ℚ) < 2)]
      exact hs

theorem roundScaled_fuel_add (f : Nat) : ∀ (g : Nat) (s : ℚ), s < 2 ^ (24 + f) →
    F32.roundScaled (f + g) s = F32.roundScaled f s := by
  intro g
  induction g with
  | zero => intro s _; rfl
  | succ g ih =>
    intro s hs
    rw [← add_assoc, roundScaled_fuel_succ (f + g) s, ih s hs]
    refine lt_of_lt_of_le hs ?_
    exact pow_le_pow_right₀ (by norm_num) (by omega)

/-- From `2^(23+k)` on, `roundScaled` rounds the `2^k`-th part and scales it back. -/
theorem roundScaled_unroll (f : Nat) : ∀ (k : Nat) (s : ℚ), 2 ^ (23 + k) ≤ s →
    F32.roundScaled (f + k) s = 2 ^ k * F32.roundScaled f (s / 2 ^ k) := by
  intro k
  induction k with
  | zero =>
    intro s _
    simp
  | succ k ih =>
    intro s hs
    have e : (2 : ℚ) ^ (23 + (k + 1)) = 2 ^ (23 + k) * 2 := by
      rw [← add_assoc, pow_succ]
    rw [e] at hs
    have h24 : ¬ s < 2 ^ 24 := by
      rw [not_lt]
      refine le_trans ?_ hs
      have : (2 : ℚ) ^ 24 = 2 ^ 23 * 2 := by norm_num
      rw [this]
      apply mul_le_mul_of_nonneg_right _ (by norm_num)
      exact pow_le_pow_right₀ (by norm_num) (by omega)
    have hhalf : (2 : ℚ) ^ (23 + k) ≤ s / 2 := by
      rw [le_div_iff₀ (by norm_num : (0 : ℚ) < 2)]
      exact hs
    rw [← add_assoc, roundScaled_succ (f + k), if_neg h24, ih (s / 2) hhalf, pow_succ,
      div_div]
    ring_nf

/-- One level of `roundBin`. -/
theorem roundBin_cons (k S : Nat) (ks : List Nat)
    (ih : ∀ (F : Nat) (s : ℚ), s < 2 ^ (24 + S) → F32.roundBin ks s = F32.roundScaled (S + F) s)
    (hk : k ≤ S + 1) (F : Nat) (s : ℚ) (hs : s < 2 ^ (24 + (S + k))) :
    F32.roundBin (k :: ks) s = F32.roundScaled (S + k + F) s := by
  show (if s < 2 ^ (23 + k) then F32.roundBin ks s
    else 2 ^ k * F32.roundBin ks (s / 2 ^ k)) = _
  by_cases h : s < 2 ^ (23 + k)
  · have hs2 : s < 2 ^ (24 + S) :=
      lt_of_lt_of_le h (pow_le_pow_right₀ (by norm_num) (by omega))
    rw [if_pos h, ih (k + F) s hs2, ← add_assoc]
  · have hs2 : s / 2 ^ k < 2 ^ (24 + S) := by
      rw [div_lt_iff₀ (by positivity), ← pow_add]
      have : 24 + S + k = 24 + (S + k) := by omega
      rw [this]
      exact hs
    rw [if_neg h, ih F (s / 2 ^ k) hs2]
    have : S + k + F = (S + F) + k := by omega
    rw [this, roundScaled_unroll (S + F) k s (not_lt.mp h)]

/-- The rounding by binary search of the scale is the rounding by halving. -/
theorem roundFast_eq (s : ℚ) : F32.roundFast s = F32.roundScaled 254 s := by
  unfold F32.roundFast
  by_cases h : s < 2 ^ 278
  · rw [if_pos h]
    have p0 : ∀ (F : Nat) (s : ℚ), s < 2 ^ (24 + 0) →
        F32.roundBin [] s = F32.roundScaled (0 + F) s := by
      intro F s hs
      have := roundScaled_fuel_add 0 F s hs
      rw [this]
      rfl
    have p1 := roundBin_cons 1 0 [] p0 (by omega)
    have p2 := roundBin_cons 2 (0 + 1) [1] p1 (by omega)
    have p3 := roundBin_cons 4 (0 + 1 + 2) [2, 1] p2 (by omega)
    have p4 := roundBin_cons 8 (0 + 1 + 2 + 4) [4, 2, 1] p3 (by omega)
    have p5 := roundBin_cons 16 (0 + 1 + 2 + 4 + 8) [8, 4, 2, 1] p4 (by omega)
    have p6 := roundBin_cons 32 (0 + 1 + 2 + 4 + 8 + 16) [16, 8, 4, 2, 1] p5 (by omega)
    have p7 := roundBin_cons 64 (0 + 1 + 2 + 4 + 8 + 16 + 32) [32, 16, 8, 4, 2, 1] p6 (by omega)
    have p8 := roundBin_cons 128 (0 + 1 + 2 + 4 + 8 + 16 + 32 + 64) [64, 32, 16, 8, 4, 2, 1] p7
      (by omega) 0 s (lt_of_lt_of_le h (pow_le_pow_right₀ one_le_two (by decide)))
    rw [p8]
    exact roundScaled_fuel_succ 254 s (by rw [show (24 + 254 : ℕ) = 278 from rfl]; exact h)
  · rw [if_neg h]

theorem round_of_nonneg {q : ℚ} (h : 0 ≤ q) :
    F32.round q = F32.roundScaled 254 (q * 2 ^ 149) / 2 ^ 149 := by
  unfold F32.round
  rw [if_neg (not_lt.mpr h), roundFast_eq]

theorem round_of_neg {q : ℚ} (h : q < 0) :
    F32.round q = -(F32.roundScaled 254 (-q * 2 ^ 149) / 2 ^ 149) := by
  unfold F32.round
  rw [if_pos h, roundFast_eq]

theorem round_zero : F32.round 0 = 0 := by decide!

theorem round_one : F32.round 1 = 1 := by decide!

/-- Rounding to binary32 is symmetric in the sign. -/
theorem round_neg (q : ℚ) : F32.round (-q) = -F32.round q := by
  rcases lt_trichotomy q 0 with h | h | h
  · rw [round_of_neg h, round_of_nonneg (by linarith : (0 : ℚ) ≤ -q), neg_neg]
  · subst h
    rw [neg_zero, round_zero, neg_zero]
  · rw [round_of_neg (by linarith : -q < 0), round_of_nonneg h.le, neg_neg]

theorem round_nonneg {q : ℚ} (h : 0 ≤ q) : 0 ≤ F32.round q := by
  rw [round_of_nonneg h]
  exact div_nonneg (roundScaled_nonneg _ _ (by positivity)) (by positivity)

theorem round_nonpos {q : ℚ} (h : q ≤ 0) : F32.round q ≤ 0 := by
  have := round_nonneg (by linarith : (0 : ℚ) ≤ -q)
  rw [round_neg] at this
  linarith

/-- Rounding to binary32 is monotone. -/
theorem round_mono {x y : ℚ} (h : x ≤ y) : F32.round x ≤ F32.round y := by
  have hpos : ∀ a b : ℚ, 0 ≤ a → a ≤ b → F32.round a ≤ F32.round b := by
    intro a b ha hab
    rw [round_of_nonneg ha, round_of_nonneg (le_trans ha hab)]
    apply div_le_div_of_nonneg_right _ (by positivity)
    exact roundScaled_mono _ _ _ (by positivity) (by
      apply mul_le_mul_of_nonneg_right hab (by positivity))
  rcases le_or_lt 0 x with hx | hx
  · exact hpos x y hx h
  · rcases le_or_lt 0 y with hy | hy
    · exact le_trans (round_nonpos hx.le) (round_nonneg hy)
    · have := hpos (-y) (-x) (by linarith) (by linarith)
      rw [round_neg, round_neg] at this
      linarith

/-- A rounded value is a binary32 number: rounding leaves it as it is. -/
theorem round_idem (q : ℚ) : F32.round (F32.round q) = F32.round q := by
  have hpos : ∀ a : ℚ, 0 ≤ a → F32.round (F32.round a) = F32.round a := by
    intro a ha
    rw [round_of_nonneg (round_nonneg ha), round_of_nonneg ha]
    have : F32.roundScaled 254 (a * 2 ^ 149) / 2 ^ 149 * 2 ^ 149
        = F32.roundScaled 254 (a * 2 ^ 149) := by
      field_simp
    rw [this, roundScaled_idem _ _ (by positivity)]
  rcases le_or_lt 0 q with h | h
  · exact hpos q h
  · have := hpos (-q) (by linarith)
    rw [round_neg, round_neg] at this
    linarith

/-- The error of rounding to binary32: at most `2^-150` plus the `2^-24`-th part of the
value. -/
theorem round_error (q : ℚ) : |F32.round q - q| ≤ 1 / 2 ^ 150 + |q| / 2 ^ 24 := by
  have hpos : ∀ a : ℚ, 0 ≤ a → |F32.round a - a| ≤ 1 / 2 ^ 150 + a / 2 ^ 24 := by
    intro a ha
    rw [round_of_nonneg ha]
    have h1 := roundScaled_error 254 (a * 2 ^ 149) (by positivity)
    have h2 : F32.roundScaled 254 (a * 2 ^ 149) / 2 ^ 149 - a
        = (F32.roundScaled 254 (a * 2 ^ 149) - a * 2 ^ 149) / 2 ^ 149 := by
      field_simp
      ring
    rw [h2, abs_div, abs_of_pos (by positivity : (0 : ℚ) < 2 ^ 149),
      div_le_iff₀ (by positivity)]
    refine le_trans h1 (le_of_eq ?_)
    field_simp
    ring
  rcases le_or_lt 0 q with h | h
  · rw [abs_of_nonneg h]
    exact hpos q h
  · have := hpos (-q) (by linarith)
    rw [round_neg] at this
    rw [abs_of_neg h]
    have e : -F32.round q - -q = -(F32.round q - q) := by ring
    rw [e, abs_neg] at this
    exact this

theorem ofReal_eq_ok {q r : ℚ} (h : F32.ofReal q = .ok r) :
    r = F32.round q ∧ |r| < 2 ^ 128 := by
  unfold F32.ofReal at h
  split_ifs at h with hc
  simp only [Except.ok.injEq] at h
  subst h
  exact ⟨rfl, hc⟩

theorem ofReal_round {q : ℚ} (h : |F32.round q| < 2 ^ 128) :
    F32.ofReal q = .ok (F32.round q) := by
  unfold F32.ofReal
  rw [if_pos h]

/-- The result of a `float` operation is a binary32 number. -/
theorem ofReal_isFloat {q r : ℚ} (h : F32.ofReal q = .ok r) : F32.IsFloat r := by
  obtain ⟨rfl, hlt⟩ := ofReal_eq_ok h
  unfold F32.IsFloat F32.ofReal
  rw [round_idem, if_pos hlt]

theorem IsFloat_round {q : ℚ} (h : F32.IsFloat q) : F32.round q = q :=
  (ofReal_eq_ok h).1.symm

theorem IsFloat_lt {q : ℚ} (h : F32.IsFloat q) : |q| < 2 ^ 128 :=
  (ofReal_eq_ok h).2

theorem IsFloat_zero : F32.IsFloat 0 := by decide!

theorem IsFloat_one : F32.IsFloat 1 := by decide!

theorem IsFloat_neg {q : ℚ} (h : F32.IsFloat q) : F32.IsFloat (-q) := by
  have h1 := IsFloat_round h
  have h2 := IsFloat_lt h
  unfold F32.IsFloat F32.ofReal
  rw [round_neg, h1, abs_neg, if_pos h2]

/-- The results of `float` operations are ordered as their exact values are. -/
theorem ofReal_mono {x y a b : ℚ} (hx : F32.ofReal x = .ok a) (hy : F32.ofReal y = .ok b)
    (h : x ≤ y) : a ≤ b := by
  rw [(ofReal_eq_ok hx).1, (ofReal_eq_ok hy).1]
  exact round_mono h

/-- A `float` operation whose exact value lies between those of two operations with
finite results has a finite result. -/
theorem ofReal_between {x y z a c : ℚ} (hx : F32.ofReal x = .ok a) (hz : F32.ofReal z = .ok c)
    (h1 : x ≤ y) (h2 : y ≤ z) : ∃ b, F32.ofReal y = .ok b := by
  obtain ⟨rfl, ha⟩ := ofReal_eq_ok hx
  obtain ⟨rfl, hc⟩ := ofReal_eq_ok hz
  refine ⟨_, ofReal_round ?_⟩
  have g1 := round_mono h1
  have g2 := round_mono h2
  rw [abs_lt] at ha hc ⊢
  constructor <;> linarith [ha.1, hc.2]

/-- A binary32 number plus zero is that number. -/
theorem add_zero_of_isFloat {a : ℚ} (h : F32.IsFloat a) : F32.add a 0 = .ok a := by
  unfold F32.add
  rw [add_zero]
  exact h

theorem toInt_eq_ok {q : ℚ} {n : Int} (h : F32.toInt q = .ok n) :
    n = truncToInt q ∧ isInt n := by
  unfold F32.toInt at h
  split_ifs at h with hc
  simp only [Except.ok.injEq] at h
  subst h
  exact ⟨rfl, hc⟩

/-! ### `NavArea::GetZ` in binary32 arithmetic: claims C6 and C40 -/

theorem F32_sub_self (a : ℚ) : F32.sub a a = .ok 0 := by
  unfold F32.sub
  rw [sub_self]
  exact IsFloat_zero

theorem F32_div_zero_left {d : ℚ} (hd : d ≠ 0) : F32.div 0 d = .ok 0 := by
  unfold F32.div
  rw [if_neg hd, zero_div]
  exact IsFloat_zero

theorem F32_div_self {d : ℚ} (hd : d ≠ 0) : F32.div d d = .ok 1 := by
  unfold F32.div
  rw [if_neg hd, div_self hd]
  exact IsFloat_one

theorem F32_mul_zero_left (d : ℚ) : F32.mul 0 d = .ok 0 := by
  unfold F32.mul
  rw [zero_mul]
  exact IsFloat_zero

theorem F32_mul_one_left {d : ℚ} (h : F32.IsFloat d) : F32.mul 1 d = .ok d := by
  unfold F32.mul
  rw [one_mul]
  exact h

theorem GetZ_lerp_f32_eq_ok {a b t r : ℚ} (h : NavArea.GetZ_lerp_f32 a b t = .ok r) :
    ∃ d p, F32.sub b a = .ok d ∧ F32.mul t d = .ok p ∧ F32.add a p = .ok r := by
  unfold NavArea.GetZ_lerp_f32 at h
  simp only [bind_eq_ok] at h
  obtain ⟨d, hd, p, hp, hr⟩ := h
  exact ⟨d, p, hd, hp, hr⟩

/-- The interpolation of `GetZ` at the parameter 0 returns its first end. -/
theorem GetZ_lerp_f32_zero {a b d : ℚ} (ha : F32.IsFloat a) (hd : F32.sub b a = .ok d) :
    NavArea.GetZ_lerp_f32 a b 0 = .ok a := by
  unfold NavArea.GetZ_lerp_f32
  simp only [hd, bind, Except.bind, F32_mul_zero_left, add_zero_of_isFloat ha]

/-- The interpolation of `GetZ` at the parameter 1 returns its second end when the
difference of the ends is a binary32 number. -/
theorem GetZ_lerp_f32_one {a b : ℚ} (hb : F32.IsFloat b) (hd : F32.IsFloat (b - a)) :
    NavArea.GetZ_lerp_f32 a b 1 = .ok b := by
  have h1 : F32.sub b a = .ok (b - a) := hd
  have h2 : F32.add a (b - a) = .ok b := by
    unfold F32.add
    rw [add_sub_cancel]
    exact hb
  unfold NavArea.GetZ_lerp_f32
  simp only [h1, bind, Except.bind, F32_mul_one_left hd, h2]

/-- The interpolation of `GetZ` between two equal ends returns them. -/
theorem GetZ_lerp_f32_flat {c t : ℚ} (hc : F32.IsFloat c) :
    NavArea.GetZ_lerp_f32 c c t = .ok c := by
  have h2 : F32.mul t 0 = .ok 0 := by
    unfold F32.mul
    rw [mul_zero]
    exact IsFloat_zero
  unfold NavArea.GetZ_lerp_f32
  simp only [F32_sub_self, bind, Except.bind, h2, add_zero_of_isFloat hc]

theorem GetZ_frac_f32_eq_ok {p lo d u : ℚ} (h : NavArea.GetZ_frac_f32 p lo d = .ok u) :
    ∃ n q, F32.sub p lo = .ok n ∧ F32.div n d = .ok q ∧ u = NavArea.clamp01 q := by
  unfold NavArea.GetZ_frac_f32 at h
  simp only [bind_eq_ok, pure_eq_ok] at h
  obtain ⟨n, hn, q, hq, hu⟩ := h
  exact ⟨n, q, hn, hq, hu.symm⟩

theorem GetZ_frac_f32_mem {p lo d u : ℚ} (h : NavArea.GetZ_frac_f32 p lo d = .ok u) :
    0 ≤ u ∧ u ≤ 1 := by
  obtain ⟨n, q, _, _, rfl⟩ := GetZ_frac_f32_eq_ok h
  exact ⟨clamp01_nonneg q, clamp01_le_one q⟩

theorem GetZ_frac_f32_lo {lo d : ℚ} (hd : d ≠ 0) : NavArea.GetZ_frac_f32 lo lo d = .ok 0 := by
  unfold NavArea.GetZ_frac_f32
  simp only [F32_sub_self, bind, Except.bind, F32_div_zero_left hd, pure, Except.pure]
  rw [clamp01_of_mem le_rfl zero_le_one]

theorem GetZ_frac_f32_hi {lo hi d : ℚ} (h : F32.sub hi lo = .ok d) (hd : d ≠ 0) :
    NavArea.GetZ_frac_f32 hi lo d = .ok 1 := by
  unfold NavArea.GetZ_frac_f32
  simp only [h, bind, Except.bind, F32_div_self hd, pure, Except.pure]
  rw [clamp01_of_mem zero_le_one le_rfl]

/-- The divisor `dx` of `GetZ` is positive on an area with `lo.x < hi.x` that is not
degenerate. -/
theorem F32_sub_pos {lo hi d : ℚ} (h : F32.sub hi lo = .ok d) (hlt : lo ≤ hi) (hd : d ≠ 0) :
    0 < d := by
  have h1 := (ofReal_eq_ok h).1
  have h2 : 0 ≤ F32.round (hi - lo) := round_nonneg (by linarith)
  rw [← h1] at h2
  exact lt_of_le_of_ne h2 (Ne.symm hd)

/-- The clamped fraction of `GetZ` is the same at a coordinate and at the coordinate
clamped to the extent. -/
theorem GetZ_frac_f32_clampTo {p lo hi d u : ℚ} (hsub : F32.sub hi lo = .ok d) (hlt : lo < hi)
    (hd : d ≠ 0) (h : NavArea.GetZ_frac_f32 p lo d = .ok u) :
    NavArea.GetZ_frac_f32 (NavArea.clampTo p lo hi) lo d = .ok u := by
  have hpos := F32_sub_pos hsub hlt.le hd
  obtain ⟨n, q, hn, hq, rfl⟩ := GetZ_frac_f32_eq_ok h
  have hn1 := (ofReal_eq_ok hn).1
  unfold F32.div at hq
  rw [if_neg hd] at hq
  have hq1 := (ofReal_eq_ok hq).1
  unfold NavArea.clampTo
  split_ifs with c1 c2
  · rw [GetZ_frac_f32_lo hd]
    have hn0 : n ≤ 0 := by
      rw [hn1]
      exact round_nonpos (by linarith)
    have hq0 : q ≤ 0 := by
      rw [hq1]
      exact round_nonpos (div_nonpos_of_nonpos_of_nonneg hn0 hpos.le)
    congr 1
    unfold NavArea.clamp01
    split_ifs with c3 c4
    · rfl
    · linarith
    · linarith
  · rw [GetZ_frac_f32_hi hsub hd]
    have hdn : d ≤ n := by
      rw [hn1, (ofReal_eq_ok hsub).1]
      exact round_mono (by linarith)
    have hq0 : 1 ≤ q := by
      rw [hq1, ← round_one]
      exact round_mono ((one_le_div hpos).mpr hdn)
    congr 1
    unfold NavArea.clamp01
    split_ifs with c3 c4
    · linarith
    · rfl
    · linarith
  · unfold NavArea.GetZ_frac_f32
    simp only [hn, bind, Except.bind, pure, Except.pure]
    unfold F32.div
    rw [if_neg hd, hq]

/-- What `GetZ` returns on a degenerate area. -/
theorem GetZ_f32_of_degenerate (a : NavArea) (pos : Vector) {dx dy : ℚ}
    (hdx : F32.sub a.m_extent.hi.x a.m_extent.lo.x = .ok dx)
    (hdy : F32.sub a.m_extent.hi.y a.m_extent.lo.y = .ok dy) (h : dx = 0 ∨ dy = 0) :
    a.GetZ_f32 pos = .ok a.m_neZ := by
  unfold NavArea.GetZ_f32
  simp only [hdx, hdy, bind, Except.bind, if_pos h, pure, Except.pure]

/-- What `GetZ` computes on an area that is not degenerate. -/
theorem GetZ_f32_of_nondegenerate (a : NavArea) (pos : Vector) {dx dy : ℚ}
    (hdx : F32.sub a.m_extent.hi.x a.m_extent.lo.x = .ok dx)
    (hdy : F32.sub a.m_extent.hi.y a.m_extent.lo.y = .ok dy) (hx : dx ≠ 0) (hy : dy ≠ 0) :
    a.GetZ_f32 pos =
      (NavArea.GetZ_frac_f32 pos.x a.m_extent.lo.x dx >>= fun u =>
       NavArea.GetZ_frac_f32 pos.y a.m_extent.lo.y dy >>= fun v =>
       NavArea.GetZ_lerp_f32 a.m_extent.lo.z a.m_neZ u >>= fun northZ =>
       NavArea.GetZ_lerp_f32 a.m_swZ a.m_extent.hi.z u >>= fun southZ =>
       NavArea.GetZ_lerp_f32 northZ southZ v) := by
  unfold NavArea.GetZ_f32
  have hn : ¬ (dx = 0 ∨ dy = 0) := by
    rw [not_or]
    exact ⟨hx, hy⟩
  simp only [hdx, hdy, bind, Except.bind, if_neg hn]

/-- Shape of a normal return of `GetZ`. -/
theorem GetZ_f32_eq_ok {a : NavArea} {pos : Vector} {z : ℚ} (h : a.GetZ_f32 pos = .ok z) :
    ∃ dx dy, F32.sub a.m_extent.hi.x a.m_extent.lo.x = .ok dx ∧
      F32.sub a.m_extent.hi.y a.m_extent.lo.y = .ok dy ∧
      (((dx = 0 ∨ dy = 0) ∧ z = a.m_neZ) ∨
       (dx ≠ 0 ∧ dy ≠ 0 ∧ ∃ u v n s,
          NavArea.GetZ_frac_f32 pos.x a.m_extent.lo.x dx = .ok u ∧
          NavArea.GetZ_frac_f32 pos.y a.m_extent.lo.y dy = .ok v ∧
          NavArea.GetZ_lerp_f32 a.m_extent.lo.z a.m_neZ u = .ok n ∧
          NavArea.GetZ_lerp_f32 a.m_swZ a.m_extent.hi.z u = .ok s ∧
          NavArea.GetZ_lerp_f32 n s v = .ok z)) := by
  cases hdx : F32.sub a.m_extent.hi.x a.m_extent.lo.x with
  | error e =>
    unfold NavArea.GetZ_f32 at h
    rw [hdx] at h
    simp [bind, Except.bind] at h
  | ok dx =>
    cases hdy : F32.sub a.m_extent.hi.y a.m_extent.lo.y with
    | error e =>
      unfold NavArea.GetZ_f32 at h
      rw [hdx, hdy] at h
      simp [bind, Except.bind] at h
    | ok dy =>
      refine ⟨dx, dy, rfl, rfl, ?_⟩
      by_cases hdeg : dx = 0 ∨ dy = 0
      · left
        rw [GetZ_f32_of_degenerate a pos hdx hdy hdeg] at h
        simp only [Except.ok.injEq] at h
        exact ⟨hdeg, h.symm⟩
      · right
        rw [not_or] at hdeg
        rw [GetZ_f32_of_nondegenerate a pos hdx hdy hdeg.1 hdeg.2] at h
        simp only [bind_eq_ok] at h
        obtain ⟨u, hu, v, hv, n, hn, s, hs, hz⟩ := h
        exact ⟨hdeg.1, hdeg.2, u, v, n, s, hu, hv, hn, hs, hz⟩

/-- `GetZ` reads only the `x` and `y` of the query point. -/
theorem GetZ_f32_congr (a : NavArea) (p q : Vector) (hx : p.x = q.x) (hy : p.y = q.y) :
    a.GetZ_f32 p = a.GetZ_f32 q := by
  unfold NavArea.GetZ_f32
  rw [hx, hy]

/-- On an area whose four corner heights are the binary32 number `c`, `GetZ` returns
`c` whenever it returns. -/
theorem GetZ_f32_flat (a : NavArea) (pos : Vector) (c z : ℚ) (hc : F32.IsFloat c)
    (hlo : a.m_extent.lo.z = c) (hhi : a.m_extent.hi.z = c) (hne : a.m_neZ = c)
    (hsw : a.m_swZ = c) (h : a.GetZ_f32 pos = .ok z) : z = c := by
  obtain ⟨dx, dy, _, _, ⟨_, rfl⟩ | ⟨_, _, u, v, n, s, _, _, hn, hs, hz⟩⟩ := GetZ_f32_eq_ok h
  · exact hne
  · rw [hlo, hne, GetZ_lerp_f32_flat hc] at hn
    rw [hsw, hhi, GetZ_lerp_f32_flat hc] at hs
    cases hn
    cases hs
    rw [GetZ_lerp_f32_flat hc] at hz
    cases hz
    rfl

/-- The error of the interpolation of `GetZ` in binary32 arithmetic against the exact
interpolation, for ends of magnitude at most `B`. -/
theorem GetZ_lerp_f32_error {a b t r B : ℚ} (h : NavArea.GetZ_lerp_f32 a b t = .ok r)
    (ht0 : 0 ≤ t) (ht1 : t ≤ 1) (ha : |a| ≤ B) (hb : |b| ≤ B) :
    |r - (a + t * (b - a))| ≤ 6 * B / 2 ^ 24 + 4 / 2 ^ 150 := by
  obtain ⟨d, p, hd, hp, hr⟩ := GetZ_lerp_f32_eq_ok h
  have hd1 : d = F32.round (b - a) := (ofReal_eq_ok hd).1
  have hp1 : p = F32.round (t * d) := (ofReal_eq_ok hp).1
  have hr1 : r = F32.round (a + p) := (ofReal_eq_ok hr).1
  have e1 := round_error (b - a)
  have e2 := round_error (t * d)
  have e3 := round_error (a + p)
  rw [← hd1] at e1
  rw [← hp1] at e2
  rw [← hr1] at e3
  have hB : 0 ≤ B := le_trans (abs_nonneg a) ha
  have hX : |b - a| ≤ 2 * B := by
    have := abs_sub b a
    linarith
  have hD : |d| ≤ |b - a| + (1 / 2 ^ 150 + |b - a| / 2 ^ 24) := by
    have := abs_sub_abs_le_abs_sub d (b - a)
    linarith
  have htd : |t * d| ≤ |d| := by
    rw [abs_mul, abs_of_nonneg ht0]
    exact mul_le_of_le_one_left (abs_nonneg d) ht1
  have htx : |t * d - t * (b - a)| ≤ |d - (b - a)| := by
    rw [← mul_sub, abs_mul, abs_of_nonneg ht0]
    exact mul_le_of_le_one_left (abs_nonneg _) ht1
  have hpL : |p - t * (b - a)| ≤ 2 / 2 ^ 150 + |d| / 2 ^ 24 + |b - a| / 2 ^ 24 := by
    have h1 : p - t * (b - a) = (p - t * d) + (t * d - t * (b - a)) := by ring
    rw [h1]
    have h2 := abs_add (p - t * d) (t * d - t * (b - a))
    have h3 : |t * d| / 2 ^ 24 ≤ |d| / 2 ^ 24 :=
      div_le_div_of_nonneg_right htd (by positivity)
    linarith
  obtain ⟨hl1, hl2⟩ := lerp_between a b t ht0 ht1
  have hL : |a + t * (b - a)| ≤ B := by
    rw [abs_le] at ha hb ⊢
    constructor
    · exact le_trans (le_min ha.1 hb.1) hl1
    · exact le_trans hl2 (max_le ha.2 hb.2)
  have hap : |a + p| ≤ B + (2 / 2 ^ 150 + |d| / 2 ^ 24 + |b - a| / 2 ^ 24) := by
    have h1 : a + p = (a + t * (b - a)) + (p - t * (b - a)) := by ring
    rw [h1]
    have h2 := abs_add (a + t * (b - a)) (p - t * (b - a))
    linarith
  have hfin : |r - (a + t * (b - a))| ≤ |r - (a + p)| + |p - t * (b - a)| := by
    have h1 : r - (a + t * (b - a)) = (r - (a + p)) + (p - t * (b - a)) := by ring
    rw [h1]
    exact abs_add _ _
  have hXn : 0 ≤ |b - a| := abs_nonneg _
  have hDn : 0 ≤ |d| := abs_nonneg _
  have c1 : |a + p| / 2 ^ 24
      ≤ (B + (2 / 2 ^ 150 + |d| / 2 ^ 24 + |b - a| / 2 ^ 24)) / 2 ^ 24 :=
    div_le_div_of_nonneg_right hap (by positivity)
  have c2 : |d| / 2 ^ 24 ≤ (|b - a| + (1 / 2 ^ 150 + |b - a| / 2 ^ 24)) / 2 ^ 24 :=
    div_le_div_of_nonneg_right hD (by positivity)
  have c3 : |b - a| / 2 ^ 24 ≤ 2 * B / 2 ^ 24 :=
    div_le_div_of_nonneg_right hX (by positivity)
  have c4 : |d| / 2 ^ 24 / 2 ^ 24
      ≤ (|b - a| + (1 / 2 ^ 150 + |b - a| / 2 ^ 24)) / 2 ^ 24 / 2 ^ 24 :=
    div_le_div_of_nonneg_right c2 (by positivity)
  have c5 : |b - a| / 2 ^ 24 / 2 ^ 24 ≤ 2 * B / 2 ^ 24 / 2 ^ 24 :=
    div_le_div_of_nonneg_right c3 (by positivity)
  have c6 : |b - a| / 2 ^ 24 / 2 ^ 24 / 2 ^ 24 ≤ 2 * B / 2 ^ 24 / 2 ^ 24 / 2 ^ 24 :=
    div_le_div_of_nonneg_right c5 (by positivity)
  have key : |r - (a + t * (b - a))|
      ≤ 1 / 2 ^ 150 + (B + (2 / 2 ^ 150 + |d| / 2 ^ 24 + |b - a| / 2 ^ 24)) / 2 ^ 24
        + (2 / 2 ^ 150 + |d| / 2 ^ 24 + |b - a| / 2 ^ 24) := by
    linarith
  refine le_trans key ?_
  have k1 : |d| / 2 ^ 24 ≤ 2 * B / 2 ^ 24 + 1 / 2 ^ 150 / 2 ^ 24 + 2 * B / 2 ^ 24 / 2 ^ 24 := by
    have : (|b - a| + (1 / 2 ^ 150 + |b - a| / 2 ^ 24)) / 2 ^ 24
        = |b - a| / 2 ^ 24 + 1 / 2 ^ 150 / 2 ^ 24 + |b - a| / 2 ^ 24 / 2 ^ 24 := by ring
    linarith
  have k2 : (B + (2 / 2 ^ 150 + |d| / 2 ^ 24 + |b - a| / 2 ^ 24)) / 2 ^ 24
      = B / 2 ^ 24 + 2 / 2 ^ 150 / 2 ^ 24 + |d| / 2 ^ 24 / 2 ^ 24
        + |b - a| / 2 ^ 24 / 2 ^ 24 := by ring
  have k3 : |d| / 2 ^ 24 / 2 ^ 24
      ≤ 2 * B / 2 ^ 24 / 2 ^ 24 + 1 / 2 ^ 150 / 2 ^ 24 / 2 ^ 24
        + 2 * B / 2 ^ 24 / 2 ^ 24 / 2 ^ 24 := by
    have : (|b - a| + (1 / 2 ^ 150 + |b - a| / 2 ^ 24)) / 2 ^ 24 / 2 ^ 24
        = |b - a| / 2 ^ 24 / 2 ^ 24 + 1 / 2 ^ 150 / 2 ^ 24 / 2 ^ 24
          + |b - a| / 2 ^ 24 / 2 ^ 24 / 2 ^ 24 := by ring
    linarith
  rw [k2]
  have n1 : (0 : ℚ) ≤ B / 2 ^ 24 := by positivity
  linarith

/-- Claim C6 fails as stated, in binary32 arithmetic. The area `tiltedArea` over
`(0,0)-(100,100)` is not degenerate and has the corner heights `lo.z = 0.3f` and
`neZ = 0.1f`, both binary32 numbers. At the north-east corner `(hi.x, lo.y)` `GetZ`
computes `lo.z + 1 * (neZ - lo.z)` in `float` and returns `13421772 / 2^27`
(0.099999994), the binary32 number below `neZ = 13421773 / 2^27`. -/
theorem C6_counterexample :
    tiltedArea.m_extent.lo.x ≠ tiltedArea.m_extent.hi.x ∧
    tiltedArea.m_extent.lo.y ≠ tiltedArea.m_extent.hi.y ∧
    F32.IsFloat tiltedArea.m_extent.lo.z ∧ F32.IsFloat tiltedArea.m_neZ ∧
    tiltedArea.m_neZ = 13421773 / 2 ^ 27 ∧
    tiltedArea.GetZ_xy_f32 tiltedArea.m_extent.hi.x tiltedArea.m_extent.lo.y
      = .ok (13421772 / 2 ^ 27) := by
  refine ⟨?_, ?_, ?_, ?_, ?_, ?_⟩ <;> decide!

/-- Claim C6, amended, in binary32 arithmetic. On an area that is not degenerate (the
`float` differences `dx` and `dy` of `GetZ` are not 0) and whose height `lo.z` is a
binary32 number, `GetZ(lo.x, lo.y)` returns `lo.z` whenever it returns; and when the
four corner heights are binary32 numbers whose differences along the four edges
(`neZ - lo.z`, `swZ - lo.z`, `hi.z - swZ`, `hi.z - neZ`) are binary32 numbers too, `GetZ`
returns the stored heights at the four corners. -/
theorem C6_GetZ_corners_f32 (a : NavArea) (dx dy : ℚ)
    (hdx : F32.sub a.m_extent.hi.x a.m_extent.lo.x = .ok dx)
    (hdy : F32.sub a.m_extent.hi.y a.m_extent.lo.y = .ok dy)
    (hx : dx ≠ 0) (hy : dy ≠ 0) (hlo : F32.IsFloat a.m_extent.lo.z) :
    (∀ z, a.GetZ_xy_f32 a.m_extent.lo.x a.m_extent.lo.y = .ok z → z = a.m_extent.lo.z) ∧
    (F32.IsFloat a.m_neZ → F32.IsFloat a.m_swZ → F32.IsFloat a.m_extent.hi.z →
      F32.IsFloat (a.m_neZ - a.m_extent.lo.z) → F32.IsFloat (a.m_swZ - a.m_extent.lo.z) →
      F32.IsFloat (a.m_extent.hi.z - a.m_swZ) → F32.IsFloat (a.m_extent.hi.z - a.m_neZ) →
      a.GetZ_xy_f32 a.m_extent.lo.x a.m_extent.lo.y = .ok a.m_extent.lo.z ∧
      a.GetZ_xy_f32 a.m_extent.hi.x a.m_extent.lo.y = .ok a.m_neZ ∧
      a.GetZ_xy_f32 a.m_extent.lo.x a.m_extent.hi.y = .ok a.m_swZ ∧
      a.GetZ_xy_f32 a.m_extent.hi.x a.m_extent.hi.y = .ok a.m_extent.hi.z) := by
  have hu0 : NavArea.GetZ_frac_f32 a.m_extent.lo.x a.m_extent.lo.x dx = .ok 0 :=
    GetZ_frac_f32_lo hx
  have hv0 : NavArea.GetZ_frac_f32 a.m_extent.lo.y a.m_extent.lo.y dy = .ok 0 :=
    GetZ_frac_f32_lo hy
  have hu1 := GetZ_frac_f32_hi hdx hx
  have hv1 := GetZ_frac_f32_hi hdy hy
  constructor
  · intro z hz
    unfold NavArea.GetZ_xy_f32 at hz
    rw [GetZ_f32_of_nondegenerate a _ hdx hdy hx hy] at hz
    simp only [hu0, hv0, bind_eq_ok, Except.ok.injEq, exists_eq_left'] at hz
    obtain ⟨n, hn, s, hs, hz⟩ := hz
    obtain ⟨d1, _, hd1, _, _⟩ := GetZ_lerp_f32_eq_ok hn
    rw [GetZ_lerp_f32_zero hlo hd1] at hn
    cases hn
    obtain ⟨d3, _, hd3, _, _⟩ := GetZ_lerp_f32_eq_ok hz
    rw [GetZ_lerp_f32_zero hlo hd3] at hz
    cases hz
    rfl
  · intro hne hsw hhi e1 e2 e3 e4
    have s1 : F32.sub a.m_neZ a.m_extent.lo.z = .ok (a.m_neZ - a.m_extent.lo.z) := e1
    have s2 : F32.sub a.m_swZ a.m_extent.lo.z = .ok (a.m_swZ - a.m_extent.lo.z) := e2
    have s3 : F32.sub a.m_extent.hi.z a.m_swZ = .ok (a.m_extent.hi.z - a.m_swZ) := e3
    have s4 : F32.sub a.m_extent.hi.z a.m_neZ = .ok (a.m_extent.hi.z - a.m_neZ) := e4
    unfold NavArea.GetZ_xy_f32
    refine ⟨?_, ?_, ?_, ?_⟩
    · rw [GetZ_f32_of_nondegenerate a _ hdx hdy hx hy]
      simp only [hu0, hv0, bind, Except.bind, GetZ_lerp_f32_zero hlo s1,
        GetZ_lerp_f32_zero hsw s3, GetZ_lerp_f32_zero hlo s2]
    · rw [GetZ_f32_of_nondegenerate a _ hdx hdy hx hy]
      simp only [hu1, hv0, bind, Except.bind, GetZ_lerp_f32_one hne e1,
        GetZ_lerp_f32_one hhi e3, GetZ_lerp_f32_zero hne s4]
    · rw [GetZ_f32_of_nondegenerate a _ hdx hdy hx hy]
      simp only [hu0, hv1, bind, Except.bind, GetZ_lerp_f32_zero hlo s1,
        GetZ_lerp_f32_zero hsw s3, GetZ_lerp_f32_one hsw e2]
    · rw [GetZ_f32_of_nondegenerate a _ hdx hdy hx hy]
      simp only [hu1, hv1, bind, Except.bind, GetZ_lerp_f32_one hne e1,
        GetZ_lerp_f32_one hhi e3, GetZ_lerp_f32_one hhi e4]

/-- Claim C6, amended, at the sloped area of the specification, extent
`(0,0,0)-(100,100,100)` with `neZ = swZ = 50`: `GetZ` returns 0, 50, 50 and 100 at the
four corners, and 50 at `(50, 50)`. -/
theorem C6_GetZ_corners_f32_witness :
    slopedArea.GetZ_xy_f32 0 0 = .ok 0 ∧ slopedArea.GetZ_xy_f32 100 0 = .ok 50 ∧
    slopedArea.GetZ_xy_f32 0 100 = .ok 50 ∧ slopedArea.GetZ_xy_f32 100 100 = .ok 100 ∧
    slopedArea.GetZ_xy_f32 50 50 = .ok 50 :=
  have h := (C6_GetZ_corners_f32 slopedArea 100 100 (by decide!) (by decide!) (by norm_num)
    (by norm_num) (by decide!)).2 (by decide!) (by decide!) (by decide!) (by decide!)
    (by decide!) (by decide!) (by decide!)
  ⟨h.1, h.2.1, h.2.2.1, h.2.2.2, by decide!⟩

/-- Claim C40 fails as stated, in binary32 arithmetic. The area `tiltedArea` over
`(0,0)-(100,100)` is not degenerate and has the corner heights `lo.z = 0.3f` and
`neZ = swZ = hi.z = 0.1f`. At `(100, 0)` `GetZ` returns `13421772 / 2^27`, which lies
below `0.1f = 13421773 / 2^27`, the minimum of the four corner heights. -/
theorem C40_counterexample :
    tiltedArea.m_extent.lo.x < tiltedArea.m_extent.hi.x ∧
    tiltedArea.m_extent.lo.y < tiltedArea.m_extent.hi.y ∧
    min (min tiltedArea.m_extent.lo.z tiltedArea.m_neZ)
      (min tiltedArea.m_swZ tiltedArea.m_extent.hi.z) = 13421773 / 2 ^ 27 ∧
    tiltedArea.GetZ_xy_f32 100 0 = .ok (13421772 / 2 ^ 27) := by
  refine ⟨?_, ?_, ?_, ?_⟩ <;> decide!

/-- Claim C40, amended, in binary32 arithmetic. Whenever `GetZ(x, y)` returns `z`, for
a query point inside or outside the rectangle: `z` lies between the minimum and the
maximum of the four corner heights up to the rounding error `M / 2^20 + 2^-146`, where
`M` bounds the magnitudes of the four heights; on an area whose four heights are one
binary32 number, `z` is that number; and on an area with `lo.x < hi.x` and
`lo.y < hi.y`, `GetZ(clamp(x, lo.x, hi.x), clamp(y, lo.y, hi.y))` returns `z` too. -/
theorem C40_GetZ_range_f32 (a : NavArea) (x y z : ℚ) (h : a.GetZ_xy_f32 x y = .ok z) :
    (∀ M : ℚ, |a.m_extent.lo.z| ≤ M → |a.m_neZ| ≤ M → |a.m_swZ| ≤ M → |a.m_extent.hi.z| ≤ M →
      min (min a.m_extent.lo.z a.m_neZ) (min a.m_swZ a.m_extent.hi.z)
          - (M / 2 ^ 20 + 1 / 2 ^ 146) ≤ z ∧
      z ≤ max (max a.m_extent.lo.z a.m_neZ) (max a.m_swZ a.m_extent.hi.z)
          + (M / 2 ^ 20 + 1 / 2 ^ 146)) ∧
    (∀ c : ℚ, F32.IsFloat c → a.m_extent.lo.z = c → a.m_extent.hi.z = c → a.m_neZ = c →
      a.m_swZ = c → z = c) ∧
    (a.m_extent.lo.x < a.m_extent.hi.x → a.m_extent.lo.y < a.m_extent.hi.y →
      a.GetZ_xy_f32 (NavArea.clampTo x a.m_extent.lo.x a.m_extent.hi.x)
        (NavArea.clampTo y a.m_extent.lo.y a.m_extent.hi.y) = .ok z) := by
  unfold NavArea.GetZ_xy_f32 at h ⊢
  refine ⟨?_, fun c hc hlo hhi hne hsw => GetZ_f32_flat a _ c z hc hlo hhi hne hsw h, ?_⟩
  · intro M h1 h2 h3 h4
    have hM : 0 ≤ M := le_trans (abs_nonneg _) h1
    obtain ⟨dx, dy, _, _, ⟨_, rfl⟩ | ⟨_, _, u, v, n, s, hu, hv, hn, hs, hz⟩⟩ := GetZ_f32_eq_ok h
    · have hd : (0 : ℚ) ≤ M / 2 ^ 20 + 1 / 2 ^ 146 := by positivity
      constructor
      · have := le_trans (min_le_left (min a.m_extent.lo.z a.m_neZ) (min a.m_swZ a.m_extent.hi.z))
          (min_le_right _ _)
        linarith
      · have := le_trans (le_max_right a.m_extent.lo.z a.m_neZ)
          (le_max_left _ (max a.m_swZ a.m_extent.hi.z))
        linarith
    · obtain ⟨hu0, hu1⟩ := GetZ_frac_f32_mem hu
      obtain ⟨hv0, hv1⟩ := GetZ_frac_f32_mem hv
      have en := GetZ_lerp_f32_error hn hu0 hu1 h1 h2
      have es := GetZ_lerp_f32_error hs hu0 hu1 h3 h4
      obtain ⟨n1, n2⟩ := lerp_between a.m_extent.lo.z a.m_neZ u hu0 hu1
      obtain ⟨s1, s2⟩ := lerp_between a.m_swZ a.m_extent.hi.z u hu0 hu1
      rw [abs_le] at en es
      have hmin1 : min (min a.m_extent.lo.z a.m_neZ) (min a.m_swZ a.m_extent.hi.z)
          ≤ min a.m_extent.lo.z a.m_neZ := min_le_left _ _
      have hmin2 : min (min a.m_extent.lo.z a.m_neZ) (min a.m_swZ a.m_extent.hi.z)
          ≤ min a.m_swZ a.m_extent.hi.z := min_le_right _ _
      have hmax1 : max a.m_extent.lo.z a.m_neZ
          ≤ max (max a.m_extent.lo.z a.m_neZ) (max a.m_swZ a.m_extent.hi.z) := le_max_left _ _
      have hmax2 : max a.m_swZ a.m_extent.hi.z
          ≤ max (max a.m_extent.lo.z a.m_neZ) (max a.m_swZ a.m_extent.hi.z) := le_max_right _ _
      have b1 := abs_le.mp h1
      have b2 := abs_le.mp h2
      have b3 := abs_le.mp h3
      have b4 := abs_le.mp h4
      have hnB : |n| ≤ M + (6 * M / 2 ^ 24 + 4 / 2 ^ 150) := by
        rw [abs_le]
        constructor
        · have := le_min b1.1 b2.1
          linarith
        · have := max_le b1.2 b2.2
          linarith
      have hsB : |s| ≤ M + (6 * M / 2 ^ 24 + 4 / 2 ^ 150) := by
        rw [abs_le]
        constructor
        · have := le_min b3.1 b4.1
          linarith
        · have := max_le b3.2 b4.2
          linarith
      have ez := GetZ_lerp_f32_error hz hv0 hv1 hnB hsB
      obtain ⟨z1, z2⟩ := lerp_between n s v hv0 hv1
      rw [abs_le] at ez
      have hlow : min (min a.m_extent.lo.z a.m_neZ) (min a.m_swZ a.m_extent.hi.z)
          - (6 * M / 2 ^ 24 + 4 / 2 ^ 150) ≤ min n s := by
        apply le_min <;> linarith
      have hhigh : max n s ≤ max (max a.m_extent.lo.z a.m_neZ) (max a.m_swZ a.m_extent.hi.z)
          + (6 * M / 2 ^ 24 + 4 / 2 ^ 150) := by
        apply max_le <;> linarith
      have hslack : (6 * M / 2 ^ 24 + 4 / 2 ^ 150)
          + (6 * (M + (6 * M / 2 ^ 24 + 4 / 2 ^ 150)) / 2 ^ 24 + 4 / 2 ^ 150)
          ≤ M / 2 ^ 20 + 1 / 2 ^ 146 := by
        have e : (6 * M / 2 ^ 24 + 4 / 2 ^ 150)
            + (6 * (M + (6 * M / 2 ^ 24 + 4 / 2 ^ 150)) / 2 ^ 24 + 4 / 2 ^ 150)
            = M * (12 / 2 ^ 24 + 36 / 2 ^ 48) + (8 / 2 ^ 150 + 24 / 2 ^ 174) := by ring
        have e2 : M / 2 ^ 20 + 1 / 2 ^ 146 = M * (1 / 2 ^ 20) + 1 / 2 ^ 146 := by ring
        rw [e, e2]
        have c1 : M * (12 / 2 ^ 24 + 36 / 2 ^ 48) ≤ M * (1 / 2 ^ 20) :=
          mul_le_mul_of_nonneg_left (by norm_num) hM
        have c2 : (8 / 2 ^ 150 + 24 / 2 ^ 174 : ℚ) ≤ 1 / 2 ^ 146 := by norm_num
        linarith
      constructor <;> linarith
  · intro hxw hyw
    obtain ⟨dx, dy, hdx, hdy, ⟨hdeg, rfl⟩ | ⟨hx, hy, u, v, n, s, hu, hv, hn, hs, hz⟩⟩ :=
      GetZ_f32_eq_ok h
    · exact GetZ_f32_of_degenerate a _ hdx hdy hdeg
    · rw [GetZ_f32_of_nondegenerate a _ hdx hdy hx hy]
      have hu2 := GetZ_frac_f32_clampTo hdx hxw hx hu
      have hv2 := GetZ_frac_f32_clampTo hdy hyw hy hv
      dsimp only at hu hv hu2 hv2 ⊢
      simp only [hu2, hv2, bind, Except.bind, hn, hs, hz]

/-- Claim C40, amended, at the sloped area over `(0,0)-(100,100)` with the corner heights
0, 50, 50 and 100 and the query point `(250, -40)` outside of it: `GetZ` returns 50,
within the range of the heights, and returns it at the clamped point `(100, 0)` too. -/
theorem C40_GetZ_range_f32_witness :
    slopedArea.GetZ_xy_f32 250 (-40) = .ok 50 ∧
    NavArea.clampTo 250 slopedArea.m_extent.lo.x slopedArea.m_extent.hi.x = 100 ∧
    NavArea.clampTo (-40) slopedArea.m_extent.lo.y slopedArea.m_extent.hi.y = 0 ∧
    (min (min slopedArea.m_extent.lo.z slopedArea.m_neZ)
        (min slopedArea.m_swZ slopedArea.m_extent.hi.z) - (100 / 2 ^ 20 + 1 / 2 ^ 146) ≤ 50 ∧
      (50 : ℚ) ≤ max (max slopedArea.m_extent.lo.z slopedArea.m_neZ)
        (max slopedArea.m_swZ slopedArea.m_extent.hi.z) + (100 / 2 ^ 20 + 1 / 2 ^ 146)) ∧
    slopedArea.GetZ_xy_f32 (NavArea.clampTo 250 slopedArea.m_extent.lo.x slopedArea.m_extent.hi.x)
      (NavArea.clampTo (-40) slopedArea.m_extent.lo.y slopedArea.m_extent.hi.y) = .ok 50 :=
  have h := C40_GetZ_range_f32 slopedArea 250 (-40) 50 (by decide!)
  ⟨by decide!, by decide!, by decide!,
    h.1 100 (by decide!) (by decide!) (by decide!) (by decide!),
    h.2.2 (by decide!) (by decide!)⟩

/-! ### World-to-grid conversion in binary32 arithmetic: claims C28 and C29 -/

theorem ofReal_error {q : ℚ} {e : Fault} (h : F32.ofReal q = .error e) : e = .notFinite := by
  unfold F32.ofReal at h
  split_ifs at h
  cases h
  rfl

theorem toInt_error {q : ℚ} {e : Fault} (h : F32.toInt q = .error e) : e = .overflow := by
  unfold F32.toInt at h
  split_ifs at h
  cases h
  rfl

theorem F32_div_error {a b : ℚ} {e : Fault} (h : F32.div a b = .error e) :
    e = .divByZero ∨ e = .notFinite := by
  unfold F32.div at h
  split_ifs at h
  · cases h
    exact Or.inl rfl
  · exact Or.inr (ofReal_error h)

theorem F32_div_eq_ok {a b q : ℚ} (h : F32.div a b = .ok q) :
    b ≠ 0 ∧ q = F32.round (a / b) := by
  unfold F32.div at h
  split_ifs at h with hb
  exact ⟨hb, (ofReal_eq_ok h).1⟩

theorem WorldToGrid_quotient_f32_eq_ok {minW w q : ℚ}
    (h : NavAreaGrid.WorldToGrid_quotient_f32 minW w = .ok q) :
    q = F32.round (F32.round (w - minW) / NavAreaGrid.m_cellSize) := by
  unfold NavAreaGrid.WorldToGrid_quotient_f32 at h
  simp only [bind_eq_ok] at h
  obtain ⟨d, hd, hq⟩ := h
  rw [(F32_div_eq_ok hq).2, (ofReal_eq_ok hd).1]

theorem WorldToGrid_quotient_f32_error {minW w : ℚ} {e : Fault}
    (h : NavAreaGrid.WorldToGrid_quotient_f32 minW w = .error e) : e ≠ .outOfBounds := by
  unfold NavAreaGrid.WorldToGrid_quotient_f32 at h
  simp only [bind_eq_error] at h
  rcases h with h | ⟨_, _, h⟩
  · rw [ofReal_error h]
    decide
  · rcases F32_div_error h with rfl | rfl <;> decide

/-- The `float` quotient that `WorldToGridX` converts grows with the coordinate. -/
theorem WorldToGrid_quotient_f32_mono {minW a b qa qb : ℚ}
    (ha : NavAreaGrid.WorldToGrid_quotient_f32 minW a = .ok qa)
    (hb : NavAreaGrid.WorldToGrid_quotient_f32 minW b = .ok qb) (h : a ≤ b) : qa ≤ qb := by
  rw [WorldToGrid_quotient_f32_eq_ok ha, WorldToGrid_quotient_f32_eq_ok hb]
  apply round_mono
  apply div_le_div_of_nonneg_right _ (by unfold NavAreaGrid.m_cellSize; norm_num)
  exact round_mono (by linarith)

theorem WorldToGridX_f32_eq_ok {g : NavAreaGrid} {wx : ℚ} {c : Int}
    (h : g.WorldToGridX_f32 wx = .ok c) :
    ∃ q, NavAreaGrid.WorldToGrid_quotient_f32 g.m_minX wx = .ok q ∧ isInt (truncToInt q) ∧
      c = (if truncToInt q < 0 then 0
        else if truncToInt q ≥ g.m_gridSizeX then g.m_gridSizeX - 1 else truncToInt q) := by
  unfold NavAreaGrid.WorldToGridX_f32 at h
  simp only [bind_eq_ok, pure_eq_ok] at h
  obtain ⟨q, hq, x, hx, hc⟩ := h
  obtain ⟨rfl, hi⟩ := toInt_eq_ok hx
  exact ⟨q, hq, hi, hc.symm⟩

theorem WorldToGridY_f32_eq_ok {g : NavAreaGrid} {wy : ℚ} {c : Int}
    (h : g.WorldToGridY_f32 wy = .ok c) :
    ∃ q, NavAreaGrid.WorldToGrid_quotient_f32 g.m_minY wy = .ok q ∧ isInt (truncToInt q) ∧
      c = (if truncToInt q < 0 then 0
        else if truncToInt q ≥ g.m_gridSizeY then g.m_gridSizeY - 1 else truncToInt q) := by
  unfold NavAreaGrid.WorldToGridY_f32 at h
  simp only [bind_eq_ok, pure_eq_ok] at h
  obtain ⟨q, hq, x, hx, hc⟩ := h
  obtain ⟨rfl, hi⟩ := toInt_eq_ok hx
  exact ⟨q, hq, hi, hc.symm⟩

theorem WorldToGridX_f32_of_quotient {g : NavAreaGrid} {wx q : ℚ}
    (hq : NavAreaGrid.WorldToGrid_quotient_f32 g.m_minX wx = .ok q) (hi : isInt (truncToInt q)) :
    g.WorldToGridX_f32 wx = .ok (if truncToInt q < 0 then 0
        else if truncToInt q ≥ g.m_gridSizeX then g.m_gridSizeX - 1 else truncToInt q) := by
  unfold NavAreaGrid.WorldToGridX_f32 F32.toInt
  simp only [hq, bind, Except.bind, if_pos hi, pure, Except.pure]

theorem WorldToGridY_f32_of_quotient {g : NavAreaGrid} {wy q : ℚ}
    (hq : NavAreaGrid.WorldToGrid_quotient_f32 g.m_minY wy = .ok q) (hi : isInt (truncToInt q)) :
    g.WorldToGridY_f32 wy = .ok (if truncToInt q < 0 then 0
        else if truncToInt q ≥ g.m_gridSizeY then g.m_gridSizeY - 1 else truncToInt q) := by
  unfold NavAreaGrid.WorldToGridY_f32 F32.toInt
  simp only [hq, bind, Except.bind, if_pos hi, pure, Except.pure]

theorem WorldToGridX_f32_error {g : NavAreaGrid} {wx : ℚ} {e : Fault}
    (h : g.WorldToGridX_f32 wx = .error e) : e ≠ .outOfBounds := by
  unfold NavAreaGrid.WorldToGridX_f32 at h
  simp only [bind_eq_error] at h
  rcases h with h | ⟨_, _, h | ⟨_, _, h⟩⟩
  · exact WorldToGrid_quotient_f32_error h
  · rw [toInt_error h]
    decide
  · cases h

theorem WorldToGridY_f32_error {g : NavAreaGrid} {wy : ℚ} {e : Fault}
    (h : g.WorldToGridY_f32 wy = .error e) : e ≠ .outOfBounds := by
  unfold NavAreaGrid.WorldToGridY_f32 at h
  simp only [bind_eq_error] at h
  rcases h with h | ⟨_, _, h | ⟨_, _, h⟩⟩
  · exact WorldToGrid_quotient_f32_error h
  · rw [toInt_error h]
    decide
  · cases h

/-- The clamp of `WorldToGridX` is monotone on an axis of at least one cell. -/
theorem clampCell_mono {x y size : Int} (hs : 1 ≤ size) (h : x ≤ y) :
    (if x < 0 then 0 else if x ≥ size then size - 1 else x)
      ≤ (if y < 0 then 0 else if y ≥ size then size - 1 else y) := by
  split_ifs <;> omega

theorem clampCell_range {x size : Int} (hs : 1 ≤ size) :
    0 ≤ (if x < 0 then 0 else if x ≥ size then size - 1 else x) ∧
    (if x < 0 then 0 else if x ≥ size then size - 1 else x) < size := by
  split_ifs <;> constructor <;> omega

theorem WorldToGridX_f32_mono (g : NavAreaGrid) (hs : 1 ≤ g.m_gridSizeX) {a b : ℚ} {ca cb : Int}
    (ha : g.WorldToGridX_f32 a = .ok ca) (hb : g.WorldToGridX_f32 b = .ok cb) (h : a ≤ b) :
    ca ≤ cb := by
  obtain ⟨qa, hqa, _, rfl⟩ := WorldToGridX_f32_eq_ok ha
  obtain ⟨qb, hqb, _, rfl⟩ := WorldToGridX_f32_eq_ok hb
  exact clampCell_mono hs (truncToInt_mono (WorldToGrid_quotient_f32_mono hqa hqb h))

theorem WorldToGridY_f32_mono (g : NavAreaGrid) (hs : 1 ≤ g.m_gridSizeY) {a b : ℚ} {ca cb : Int}
    (ha : g.WorldToGridY_f32 a = .ok ca) (hb : g.WorldToGridY_f32 b = .ok cb) (h : a ≤ b) :
    ca ≤ cb := by
  obtain ⟨qa, hqa, _, rfl⟩ := WorldToGridY_f32_eq_ok ha
  obtain ⟨qb, hqb, _, rfl⟩ := WorldToGridY_f32_eq_ok hb
  exact clampCell_mono hs (truncToInt_mono (WorldToGrid_quotient_f32_mono hqa hqb h))

theorem WorldToGridX_f32_range (g : NavAreaGrid) (hs : 1 ≤ g.m_gridSizeX) {w : ℚ} {c : Int}
    (h : g.WorldToGridX_f32 w = .ok c) : 0 ≤ c ∧ c < g.m_gridSizeX := by
  obtain ⟨q, _, _, rfl⟩ := WorldToGridX_f32_eq_ok h
  exact clampCell_range hs

theorem WorldToGridY_f32_range (g : NavAreaGrid) (hs : 1 ≤ g.m_gridSizeY) {w : ℚ} {c : Int}
    (h : g.WorldToGridY_f32 w = .ok c) : 0 ≤ c ∧ c < g.m_gridSizeY := by
  obtain ⟨q, _, _, rfl⟩ := WorldToGridY_f32_eq_ok h
  exact clampCell_range hs

/-- The grid parameters decide the cell of a coordinate. -/
theorem WorldToGrid_f32_congr (g g2 : NavAreaGrid)
    (h : g2.m_gridSizeX = g.m_gridSizeX ∧ g2.m_gridSizeY = g.m_gridSizeY ∧
      g2.m_minX = g.m_minX ∧ g2.m_minY = g.m_minY) (w : ℚ) :
    g2.WorldToGridX_f32 w = g.WorldToGridX_f32 w ∧
    g2.WorldToGridY_f32 w = g.WorldToGridY_f32 w := by
  unfold NavAreaGrid.WorldToGridX_f32 NavAreaGrid.WorldToGridY_f32
  rw [h.1, h.2.1, h.2.2.1, h.2.2.2]
  exact ⟨rfl, rfl⟩

/-- Claim C28 fails as stated, in binary32 arithmetic. On the grid that `Initialize`
sets up for the X range from `-4000.3f` to 0 (14 cells), the coordinate
`wx = -15567259 / 8192` (the binary32 number of `-1900.30017`) has the exact quotient
`(wx - minX) / 300 = 17203199 / 2457600`, just below 7, whose floor is 6; the `float`
difference `wx - minX` is rounded to 2100 and the `float` quotient is 7, so
`WorldToGridX` returns the cell 7 and not `clamp(floor((wx - minX) / 300), 0, 13) = 6`. -/
theorem C28_counterexample :
    F32.IsFloat (-15567259 / 8192) ∧
    ((NavAreaGrid.ctor 0 0).Initialize_f32 (F32.round (-4000.3)) 0 0 0 >>= fun g =>
      pure (g.m_gridSizeX, g.WorldToGridX_f32 (-15567259 / 8192),
        WorldToGrid_spec g.m_minX g.m_gridSizeX (-15567259 / 8192),
        (-15567259 / 8192 - g.m_minX) / 300))
      = .ok (14, .ok 7, 6, 17203199 / 2457600) := by
  constructor <;> decide!

/-- Claim C28, amended, in binary32 arithmetic. On a grid with `m_gridSizeX ≥ 1`, for a
coordinate `wx` whose `float` quotient `q = (wx - m_minX) / 300` (difference and
quotient rounded to binary32) truncates to a value of `int`, `WorldToGridX(wx)` returns
`clamp(floor(q), 0, m_gridSizeX - 1)`; likewise `WorldToGridY` on a grid with
`m_gridSizeY ≥ 1`. -/
theorem C28_WorldToGrid_floor_f32 (g : NavAreaGrid) :
    (1 ≤ g.m_gridSizeX → ∀ wx q, NavAreaGrid.WorldToGrid_quotient_f32 g.m_minX wx = .ok q →
      isInt (truncToInt q) →
      g.WorldToGridX_f32 wx = .ok (max 0 (min ⌊q⌋ (g.m_gridSizeX - 1)))) ∧
    (1 ≤ g.m_gridSizeY → ∀ wy q, NavAreaGrid.WorldToGrid_quotient_f32 g.m_minY wy = .ok q →
      isInt (truncToInt q) →
      g.WorldToGridY_f32 wy = .ok (max 0 (min ⌊q⌋ (g.m_gridSizeY - 1)))) := by
  constructor
  · intro hs wx q hq hi
    rw [WorldToGridX_f32_of_quotient hq hi, trunc_clamp_eq_floor_clamp _ _ hs]
  · intro hs wy q hq hi
    rw [WorldToGridY_f32_of_quotient hq hi, trunc_clamp_eq_floor_clamp _ _ hs]

/-- Claim C28, amended, at the grid of 3 by 2 cells that starts at `(0, 0)`: the
coordinate `-150` has the `float` quotient `-1/2` and lies in cell 0 (truncation gives
0, the floor -1); `450` lies in cell 1 and `5000` in the last cell. -/
theorem C28_WorldToGrid_floor_f32_witness :
    NavAreaGrid.WorldToGrid_quotient_f32 0 (-150) = .ok (-1 / 2) ∧
    (⟨none, 3, 2, 0, 0, 0, fun _ => none⟩ : NavAreaGrid).WorldToGridX_f32 (-150)
      = .ok (max 0 (min ⌊(-1 / 2 : ℚ)⌋ (3 - 1))) ∧
    max 0 (min ⌊(-1 / 2 : ℚ)⌋ (3 - 1)) = 0 ∧ truncToInt (-1 / 2) = 0 ∧ ⌊(-1 / 2 : ℚ)⌋ = -1 ∧
    (⟨none, 3, 2, 0, 0, 0, fun _ => none⟩ : NavAreaGrid).WorldToGridX_f32 450 = .ok 1 ∧
    (⟨none, 3, 2, 0, 0, 0, fun _ => none⟩ : NavAreaGrid).WorldToGridX_f32 5000 = .ok 2 :=
  ⟨by decide!,
   (C28_WorldToGrid_floor_f32 ⟨none, 3, 2, 0, 0, 0, fun _ => none⟩).1 (by decide) (-150) (-1 / 2)
     (by decide!) (by decide!),
   by decide!, by decide!, by decide!, by decide!, by decide!⟩

/-! ### The cells of a grid initialised in binary32 arithmetic: claim C29 -/

theorem F32_sub_fault {a b : ℚ} {e : Fault} (h : F32.sub a b = .error e) : e ≠ .outOfBounds := by
  rw [ofReal_error h]
  decide

theorem F32_add_fault {a b : ℚ} {e : Fault} (h : F32.add a b = .error e) : e ≠ .outOfBounds := by
  rw [ofReal_error h]
  decide

theorem F32_mul_fault {a b : ℚ} {e : Fault} (h : F32.mul a b = .error e) : e ≠ .outOfBounds := by
  rw [ofReal_error h]
  decide

theorem F32_div_fault {a b : ℚ} {e : Fault} (h : F32.div a b = .error e) : e ≠ .outOfBounds := by
  rcases F32_div_error h with rfl | rfl <;> decide

theorem GetZ_frac_f32_fault {p lo d : ℚ} {e : Fault}
    (h : NavArea.GetZ_frac_f32 p lo d = .error e) : e ≠ .outOfBounds := by
  unfold NavArea.GetZ_frac_f32 at h
  simp only [bind_eq_error] at h
  rcases h with h | ⟨_, _, h | ⟨_, _, h⟩⟩
  · exact F32_sub_fault h
  · exact F32_div_fault h
  · cases h

theorem GetZ_lerp_f32_fault {a b t : ℚ} {e : Fault}
    (h : NavArea.GetZ_lerp_f32 a b t = .error e) : e ≠ .outOfBounds := by
  unfold NavArea.GetZ_lerp_f32 at h
  simp only [bind_eq_error] at h
  rcases h with h | ⟨_, _, h | ⟨_, _, h⟩⟩
  · exact F32_sub_fault h
  · exact F32_mul_fault h
  · exact F32_add_fault h

/-- `GetZ` in binary32 arithmetic indexes nothing: it stops only on a result that is
not finite. -/
theorem GetZ_f32_fault {a : NavArea} {pos : Vector} {e : Fault}
    (h : a.GetZ_f32 pos = .error e) : e ≠ .outOfBounds := by
  cases hdx : F32.sub a.m_extent.hi.x a.m_extent.lo.x with
  | error e2 =>
    unfold NavArea.GetZ_f32 at h
    rw [hdx] at h
    simp only [bind, Except.bind, Except.error.injEq] at h
    subst h
    exact F32_sub_fault hdx
  | ok dx =>
    cases hdy : F32.sub a.m_extent.hi.y a.m_extent.lo.y with
    | error e2 =>
      unfold NavArea.GetZ_f32 at h
      rw [hdx, hdy] at h
      simp only [bind, Except.bind, Except.error.injEq] at h
      subst h
      exact F32_sub_fault hdy
    | ok dy =>
      by_cases hdeg : dx = 0 ∨ dy = 0
      · rw [GetZ_f32_of_degenerate a pos hdx hdy hdeg] at h
        cases h
      · rw [not_or] at hdeg
        rw [GetZ_f32_of_nondegenerate a pos hdx hdy hdeg.1 hdeg.2] at h
        simp only [bind_eq_error] at h
        rcases h with h | ⟨_, _, h | ⟨_, _, h | ⟨_, _, h | ⟨_, _, h⟩⟩⟩⟩
        · exact GetZ_frac_f32_fault h
        · exact GetZ_frac_f32_fault h
        · exact GetZ_lerp_f32_fault h
        · exact GetZ_lerp_f32_fault h
        · exact GetZ_lerp_f32_fault h

theorem Initialize_size_f32_pos {minW maxW : ℚ} {s : Int} (hle : minW ≤ maxW)
    (h : NavAreaGrid.Initialize_size_f32 minW maxW = .ok s) : 1 ≤ s := by
  unfold NavAreaGrid.Initialize_size_f32 at h
  simp only [bind_eq_ok] at h
  obtain ⟨d, hd, q, hq, v, hv, hs⟩ := h
  obtain ⟨rfl, _⟩ := toInt_eq_ok hs
  have hd0 : 0 ≤ d := by
    rw [(ofReal_eq_ok hd).1]
    exact round_nonneg (by linarith)
  have hq0 : 0 ≤ q := by
    rw [(F32_div_eq_ok hq).2]
    exact round_nonneg (div_nonneg hd0 (by unfold NavAreaGrid.m_cellSize; norm_num))
  have hv1 : 1 ≤ v := by
    have h1 := round_mono (show (1 : ℚ) ≤ q + 1 by linarith)
    rw [round_one] at h1
    rw [(ofReal_eq_ok hv).1]
    exact h1
  exact one_le_truncToInt hv1

/-- What `Initialize` leaves when it returns: the origin, the sizes and an array of
`m_gridSizeX * m_gridSizeY` empty buckets. -/
theorem Initialize_f32_eq_ok (g g2 : NavAreaGrid) (minX maxX minY maxY : ℚ)
    (h : g.Initialize_f32 minX maxX minY maxY = .ok g2) :
    g2.m_minX = minX ∧ g2.m_minY = minY ∧
    NavAreaGrid.Initialize_size_f32 minX maxX = .ok g2.m_gridSizeX ∧
    NavAreaGrid.Initialize_size_f32 minY maxY = .ok g2.m_gridSizeY ∧
    0 ≤ g2.m_gridSizeX * g2.m_gridSizeY ∧
    g2.m_grid = some (List.replicate (g2.m_gridSizeX * g2.m_gridSizeY).toNat []) := by
  unfold NavAreaGrid.Initialize_f32 at h
  simp only [bind_eq_ok] at h
  obtain ⟨sx, hsx, sy, hsy, h⟩ := h
  by_cases h1 : ¬ isInt (sx * sy)
  · rw [if_pos h1] at h
    cases h
  · rw [if_neg h1] at h
    by_cases h2 : sx * sy < 0
    · rw [if_pos h2] at h
      cases h
    · rw [if_neg h2, pure_eq_ok] at h
      subst h
      exact ⟨rfl, rfl, hsx, hsy, not_lt.mp h2, rfl⟩

/-- `Initialize` for an extent with `minX ≤ maxX` and `minY ≤ maxY` leaves a grid of
positive sizes whose bucket array has the length the sizes ask for. -/
theorem Initialize_f32_allocated (g g2 : NavAreaGrid) (minX maxX minY maxY : ℚ)
    (hx : minX ≤ maxX) (hy : minY ≤ maxY)
    (h : g.Initialize_f32 minX maxX minY maxY = .ok g2) : g2.Allocated := by
  obtain ⟨_, _, hsx, hsy, h0, hgrid⟩ := Initialize_f32_eq_ok g g2 _ _ _ _ h
  refine ⟨Initialize_size_f32_pos hx hsx, Initialize_size_f32_pos hy hsy, _, hgrid, ?_⟩
  rw [List.length_replicate, Int.toNat_of_nonneg h0]

/-- On an allocated grid the cell index of every point whose cells are defined lies in
the bucket array. -/
theorem Allocated_index_range_f32 {g : NavAreaGrid} (hg : g.Allocated) {wx wy : ℚ} {x y : Int}
    (hx : g.WorldToGridX_f32 wx = .ok x) (hy : g.WorldToGridY_f32 wy = .ok y) :
    0 ≤ x + y * g.m_gridSizeX ∧ x + y * g.m_gridSizeX < g.m_gridSizeX * g.m_gridSizeY := by
  obtain ⟨a1, a2⟩ := WorldToGridX_f32_range g hg.1 hx
  obtain ⟨b1, b2⟩ := WorldToGridY_f32_range g hg.2.1 hy
  constructor <;> nlinarith

/-- On an allocated grid the loops of `AddNavArea` and `RemoveNavArea` over cells that
lie in the grid return, with a bucket array of the same length. -/
theorem Allocated_forCells_range {g : NavAreaGrid} (hg : g.Allocated) (cs : List (List AreaRef))
    (hcs : g.m_grid = some cs) {loX hiX loY hiY : Int} (h1 : 0 ≤ loX) (h2 : hiX < g.m_gridSizeX)
    (h3 : 0 ≤ loY) (h4 : hiY < g.m_gridSizeY) (f : List AreaRef → List AreaRef) :
    ∃ cs2, NavAreaGrid.forCells g.m_grid g.m_gridSizeX loX hiX loY hiY f = .ok (some cs2) ∧
      cs2.length = cs.length := by
  obtain ⟨hx, hy, cs0, hcs0, hlen⟩ := hg
  rw [hcs] at hcs0
  cases hcs0
  rw [forCells_eq, hcs]
  apply pushAll_ok
  intro i hi
  obtain ⟨x, y, ⟨hx0, hx1⟩, ⟨hy0, hy1⟩, rfl⟩ := mem_cellIndices.mp hi
  have hnonneg : 0 ≤ x + y * g.m_gridSizeX := by nlinarith
  refine ⟨hnonneg, ?_⟩
  have hlt : x + y * g.m_gridSizeX < g.m_gridSizeX * g.m_gridSizeY := by nlinarith
  have : ((x + y * g.m_gridSizeX).toNat : Int) < (cs.length : Int) := by
    rw [Int.toNat_of_nonneg hnonneg, hlen]
    exact hlt
  exact_mod_cast this

/-- On an allocated grid `AddNavArea` never indexes outside the bucket array, and when
it returns the grid is allocated. -/
theorem Allocated_AddNavArea_f32 {g : NavAreaGrid} (hg : g.Allocated) (areas : List NavArea)
    (r : AreaRef) :
    (∀ e, g.AddNavArea_f32 areas r = .error e → e ≠ .outOfBounds) ∧
    ∀ areas2 g2, g.AddNavArea_f32 areas r = .ok (areas2, g2) → g2.Allocated := by
  have hg2 := hg
  obtain ⟨hx, hy, cs, hcs, hlen⟩ := hg2
  constructor
  · intro e h
    unfold NavAreaGrid.AddNavArea_f32 at h
    simp only [bind_eq_error] at h
    rcases h with h | ⟨a, _, h | ⟨loX, h1, h | ⟨loY, h2, h | ⟨hiX, h3, h | ⟨hiY, h4, h⟩⟩⟩⟩⟩
    · rw [deref_error h]
      decide
    · exact WorldToGridX_f32_error h
    · exact WorldToGridY_f32_error h
    · exact WorldToGridX_f32_error h
    · exact WorldToGridY_f32_error h
    · obtain ⟨cs2, hc2, _⟩ := Allocated_forCells_range hg cs hcs
        (WorldToGridX_f32_range g hx h1).1 (WorldToGridX_f32_range g hx h3).2
        (WorldToGridY_f32_range g hy h2).1 (WorldToGridY_f32_range g hy h4).2
        (fun l => l ++ [r])
      rcases h with h | ⟨cells, _, h⟩
      · rw [hc2] at h
        cases h
      · rcases h with h | ⟨_, _, h⟩
        · rw [AddNavArea_link_error h]
          decide
        · cases h
  · intro areas2 g2 h
    unfold NavAreaGrid.AddNavArea_f32 at h
    simp only [bind_eq_ok, pure_eq_ok, Prod.mk.injEq] at h
    obtain ⟨a, _, loX, h1, loY, h2, hiX, h3, hiY, h4, cells, hcells, _, _, _, rfl⟩ := h
    obtain ⟨cs2, hc2, hl2⟩ := Allocated_forCells_range hg cs hcs
      (WorldToGridX_f32_range g hx h1).1 (WorldToGridX_f32_range g hx h3).2
      (WorldToGridY_f32_range g hy h2).1 (WorldToGridY_f32_range g hy h4).2
      (fun l => l ++ [r])
    rw [hc2] at hcells
    simp only [Except.ok.injEq] at hcells
    subst hcells
    exact ⟨hx, hy, cs2, rfl, by rw [hl2]; exact hlen⟩

/-- On an allocated grid `RemoveNavArea` never indexes outside the bucket array, and
when it returns the grid is allocated. -/
theorem Allocated_RemoveNavArea_f32 {g : NavAreaGrid} (hg : g.Allocated) (areas : List NavArea)
    (r : AreaRef) :
    (∀ e, g.RemoveNavArea_f32 areas r = .error e → e ≠ .outOfBounds) ∧
    ∀ areas2 g2, g.RemoveNavArea_f32 areas r = .ok (areas2, g2) → g2.Allocated := by
  have hg2 := hg
  obtain ⟨hx, hy, cs, hcs, hlen⟩ := hg2
  constructor
  · intro e h
    unfold NavAreaGrid.RemoveNavArea_f32 at h
    simp only [bind_eq_error] at h
    rcases h with h | ⟨a, _, h | ⟨loX, h1, h | ⟨loY, h2, h | ⟨hiX, h3, h | ⟨hiY, h4, h⟩⟩⟩⟩⟩
    · rw [deref_error h]
      decide
    · exact WorldToGridX_f32_error h
    · exact WorldToGridY_f32_error h
    · exact WorldToGridX_f32_error h
    · exact WorldToGridY_f32_error h
    · obtain ⟨cs2, hc2, _⟩ := Allocated_forCells_range hg cs hcs
        (WorldToGridX_f32_range g hx h1).1 (WorldToGridX_f32_range g hx h3).2
        (WorldToGridY_f32_range g hy h2).1 (WorldToGridY_f32_range g hy h4).2
        (fun l => l.filter (fun q => q ≠ r))
      rcases h with h | ⟨cells, _, h⟩
      · rw [hc2] at h
        cases h
      · rcases h with h | ⟨_, _, h⟩
        · rw [RemoveNavArea_unlink_error h]
          decide
        · cases h
  · intro areas2 g2 h
    unfold NavAreaGrid.RemoveNavArea_f32 at h
    simp only [bind_eq_ok, pure_eq_ok, Prod.mk.injEq] at h
    obtain ⟨a, _, loX, h1, loY, h2, hiX, h3, hiY, h4, cells, hcells, _, _, _, rfl⟩ := h
    obtain ⟨cs2, hc2, hl2⟩ := Allocated_forCells_range hg cs hcs
      (WorldToGridX_f32_range g hx h1).1 (WorldToGridX_f32_range g hx h3).2
      (WorldToGridY_f32_range g hy h2).1 (WorldToGridY_f32_range g hy h4).2
      (fun l => l.filter (fun q => q ≠ r))
    rw [hc2] at hcells
    simp only [Except.ok.injEq] at hcells
    subst hcells
    exact ⟨hx, hy, cs2, rfl, by rw [hl2]; exact hlen⟩

theorem GetNavArea_step_f32_fault {areas : List NavArea} {pos testPos : Vector} {L : ℚ}
    {st : Option AreaRef × ℚ} {r : AreaRef} {e : Fault}
    (h : NavAreaGrid.GetNavArea_step_f32 areas pos testPos L st r = .error e) :
    e ≠ .outOfBounds := by
  unfold NavAreaGrid.GetNavArea_step_f32 at h
  simp only [bind_eq_error] at h
  rcases h with h | ⟨a, _, h⟩
  · rw [deref_error h]
    decide
  · by_cases ho : a.IsOverlapping testPos = true
    · rw [if_pos ho] at h
      simp only [bind_eq_error] at h
      rcases h with h | ⟨z, _, h⟩
      · exact GetZ_f32_fault h
      · by_cases hz : z > testPos.z
        · rw [if_pos hz] at h
          cases h
        · rw [if_neg hz] at h
          simp only [bind_eq_error] at h
          rcases h with h | ⟨low, _, h⟩
          · exact F32_sub_fault h
          · split_ifs at h <;> cases h
    · rw [if_neg ho] at h
      cases h

/-- On an allocated grid the bucket of the cell of every point whose cells are defined
exists. -/
theorem Allocated_probedCell_f32 {g : NavAreaGrid} (hg : g.Allocated) {pos : Vector} {x y : Int}
    (hx : g.WorldToGridX_f32 pos.x = .ok x) (hy : g.WorldToGridY_f32 pos.y = .ok y) :
    ∃ cs l, g.m_grid = some cs ∧ cs[(x + y * g.m_gridSizeX).toNat]? = some l ∧
      g.bucket (x + y * g.m_gridSizeX) = .ok l := by
  obtain ⟨h0, h1⟩ := Allocated_index_range_f32 hg hx hy
  obtain ⟨_, _, cs, hcs, hlen⟩ := hg
  have hlt : (x + y * g.m_gridSizeX).toNat < cs.length := by
    have : ((x + y * g.m_gridSizeX).toNat : Int) < (cs.length : Int) := by
      rw [Int.toNat_of_nonneg h0, hlen]
      exact h1
    exact_mod_cast this
  refine ⟨cs, _, hcs, List.getElem?_eq_getElem hlt, ?_⟩
  unfold NavAreaGrid.bucket
  rw [hcs]
  simp only [if_neg (not_lt.mpr h0), List.getElem?_eq_getElem hlt]

/-- On an allocated grid `GetNavArea` never indexes outside the bucket array. -/
theorem Allocated_GetNavArea_f32 {g : NavAreaGrid} (hg : g.Allocated) (areas : List NavArea)
    (pos : Vector) (L : ℚ) (e : Fault) (h : g.GetNavArea_f32 areas pos L = .error e) :
    e ≠ .outOfBounds := by
  have hg2 := hg
  obtain ⟨_, _, cs, hcs, _⟩ := hg2
  unfold NavAreaGrid.GetNavArea_f32 at h
  rw [hcs] at h
  simp only [Option.isNone_some, Bool.false_eq_true, if_false, bind_eq_error] at h
  rcases h with h | ⟨x, hx, h | ⟨y, hy, h⟩⟩
  · exact WorldToGridX_f32_error h
  · exact WorldToGridY_f32_error h
  · obtain ⟨_, l, _, _, hl⟩ := Allocated_probedCell_f32 hg hx hy
    rw [hl] at h
    rcases h with h | ⟨_, hb, h | ⟨top, _, h | ⟨_, _, h⟩⟩⟩
    · cases h
    · exact F32_add_fault h
    · exact foldlM_error (fun e => e ≠ .outOfBounds) _
        (fun _ _ _ hs => GetNavArea_step_f32_fault hs) _ _ _ h
    · cases h

/-- Claim C29 fails as stated, in binary32 arithmetic. On the grid that
`Initialize(0, 900, 0, 900)` sets up (4 by 4 cells), the coordinate `wx = 2^40` has the
`float` quotient `(wx - m_minX) / 300 = 3665038848`, which is not a value of `int`: the
conversion in `WorldToGridX` is undefined and yields no cell (the conversion
instruction of the x86 delivers `INT_MIN`, which the clamp turns into the cell 0, below
the cell 2 of the coordinate 600). -/
theorem C29_counterexample :
    F32.IsFloat (2 ^ 40) ∧
    ((NavAreaGrid.ctor 0 0).Initialize_f32 0 900 0 900).map
        (fun g => (g.m_gridSizeX, g.m_gridSizeY, g.WorldToGridX_f32 600))
      = .ok (4, 4, .ok 2) ∧
    ((NavAreaGrid.ctor 0 0).Initialize_f32 0 900 0 900).map
        (fun g => NavAreaGrid.WorldToGrid_quotient_f32 g.m_minX (2 ^ 40))
      = .ok (.ok 3665038848) ∧
    ¬ isInt 3665038848 ∧
    ((NavAreaGrid.ctor 0 0).Initialize_f32 0 900 0 900).map
        (fun g => g.WorldToGridX_f32 (2 ^ 40))
      = .ok (.error .overflow) := by
  refine ⟨?_, ?_, ?_, ?_, ?_⟩ <;> decide!

/-- Claim C29, amended, in binary32 arithmetic. After `Initialize(minX, maxX, minY, maxY)`
with `minX ≤ maxX` and `minY ≤ maxY` has returned, both grid sizes are at least 1;
`WorldToGridX` and `WorldToGridY` are monotone on the coordinates for which they are
defined (the `float` quotient converts to `int`); the cell index
`WorldToGridX(wx) + WorldToGridY(wy) * m_gridSizeX` of every point with defined cells
lies in `[0, m_gridSizeX * m_gridSizeY)`; and the bucket array has exactly that many
buckets. On such a grid, and on every grid that `AddNavArea` and `RemoveNavArea` make
of it, `AddNavArea`, `RemoveNavArea` and `GetNavArea` never index outside the bucket
array. -/
theorem C29_grid_cells_in_range_f32 (g g2 : NavAreaGrid) (minX maxX minY maxY : ℚ)
    (hx : minX ≤ maxX) (hy : minY ≤ maxY)
    (h : g.Initialize_f32 minX maxX minY maxY = .ok g2) :
    (1 ≤ g2.m_gridSizeX ∧ 1 ≤ g2.m_gridSizeY) ∧
    (∀ (a b : ℚ) (ca cb : Int), a ≤ b → g2.WorldToGridX_f32 a = .ok ca →
      g2.WorldToGridX_f32 b = .ok cb → ca ≤ cb) ∧
    (∀ (a b : ℚ) (ca cb : Int), a ≤ b → g2.WorldToGridY_f32 a = .ok ca →
      g2.WorldToGridY_f32 b = .ok cb → ca ≤ cb) ∧
    (∀ (wx wy : ℚ) (x y : Int), g2.WorldToGridX_f32 wx = .ok x → g2.WorldToGridY_f32 wy = .ok y →
      0 ≤ x + y * g2.m_gridSizeX ∧ x + y * g2.m_gridSizeX < g2.m_gridSizeX * g2.m_gridSizeY) ∧
    g2.Allocated ∧
    ∀ g3 : NavAreaGrid, g3.Allocated → ∀ (areas : List NavArea),
      (∀ r, g3.AddNavArea_f32 areas r ≠ .error .outOfBounds ∧
        g3.RemoveNavArea_f32 areas r ≠ .error .outOfBounds ∧
        (∀ areas2 g4, g3.AddNavArea_f32 areas r = .ok (areas2, g4) → g4.Allocated) ∧
        (∀ areas2 g4, g3.RemoveNavArea_f32 areas r = .ok (areas2, g4) → g4.Allocated)) ∧
      ∀ pos L, g3.GetNavArea_f32 areas pos L ≠ .error .outOfBounds := by
  have hal := Initialize_f32_allocated g g2 _ _ _ _ hx hy h
  refine ⟨⟨hal.1, hal.2.1⟩, fun a b ca cb hab ha hb => WorldToGridX_f32_mono g2 hal.1 ha hb hab,
    fun a b ca cb hab ha hb => WorldToGridY_f32_mono g2 hal.2.1 ha hb hab,
    fun wx wy x y h1 h2 => Allocated_index_range_f32 hal h1 h2, hal, ?_⟩
  intro g3 h3 areas
  refine ⟨fun r => ⟨?_, ?_, (Allocated_AddNavArea_f32 h3 areas r).2,
    (Allocated_RemoveNavArea_f32 h3 areas r).2⟩, ?_⟩
  · intro he
    exact (Allocated_AddNavArea_f32 h3 areas r).1 _ he rfl
  · intro he
    exact (Allocated_RemoveNavArea_f32 h3 areas r).1 _ he rfl
  · intro pos L he
    exact Allocated_GetNavArea_f32 h3 areas pos L _ he rfl

/-- Claim C29, amended, at the grid initialised for the extent `(0,0)-(1000,500)`: it has
4 by 2 cells, and the point `(5000, -70)` has the cells 3 and 0 and the cell index 3. -/
theorem C29_grid_cells_in_range_f32_witness :
    ∃ g2, (NavAreaGrid.ctor 0 0).Initialize_f32 0 1000 0 500 = .ok g2 ∧
      (g2.m_gridSizeX = 4 ∧ g2.m_gridSizeY = 2) ∧
      (1 ≤ g2.m_gridSizeX ∧ 1 ≤ g2.m_gridSizeY) ∧ g2.Allocated ∧
      g2.WorldToGridX_f32 5000 = .ok 3 ∧ g2.WorldToGridY_f32 (-70) = .ok 0 ∧
      (3 : Int) + 0 * g2.m_gridSizeX < g2.m_gridSizeX * g2.m_gridSizeY := by
  obtain ⟨g2, hg2⟩ := ok_of_toBool
    (show ((NavAreaGrid.ctor 0 0).Initialize_f32 0 1000 0 500).toBool = true by decide!)
  obtain ⟨hs, _, _, hidx, hal, _⟩ :=
    C29_grid_cells_in_range_f32 (NavAreaGrid.ctor 0 0) g2 0 1000 0 500 (by norm_num)
      (by norm_num) hg2
  have hv : ((NavAreaGrid.ctor 0 0).Initialize_f32 0 1000 0 500).map
      (fun g => (g.m_gridSizeX, g.m_gridSizeY, g.WorldToGridX_f32 5000,
        g.WorldToGridY_f32 (-70))) = .ok (4, 2, .ok 3, .ok 0) := by
    decide!
  rw [hg2] at hv
  simp only [Except.map, Except.ok.injEq, Prod.mk.injEq] at hv
  exact ⟨g2, hg2, ⟨hv.1, hv.2.1⟩, hs, hal, hv.2.2.1, hv.2.2.2,
    (hidx 5000 (-70) 3 0 hv.2.2.1 hv.2.2.2).2⟩

/-! ### `NavAreaGrid::GetNavArea` in binary32 arithmetic: claim C1 -/

/-- A loop that keeps the element of the greatest admissible value seen so far: the
final value bounds the start value and every admissible value of the list, and a
changed state names an admissible element of the list together with its value. -/
theorem selectMax_scan {ι : Type} (step : Option ι × ℚ → ι → Run (Option ι × ℚ))
    (Adm : ι → ℚ → Prop) (huniq : ∀ r z z2, Adm r z → Adm r z2 → z2 = z)
    (hstep : ∀ st st2 r, step st r = .ok st2 →
      (∃ z, Adm r z ∧ st.2 < z ∧ st2 = (some r, z)) ∨ (st2 = st ∧ ∀ z, Adm r z → z ≤ st.2)) :
    ∀ (list : List ι) (st st2 : Option ι × ℚ), list.foldlM step st = .ok st2 →
      st.2 ≤ st2.2 ∧ (∀ r ∈ list, ∀ z, Adm r z → z ≤ st2.2) ∧
      (st2 = st ∨ ∃ r ∈ list, st2 = (some r, st2.2) ∧ Adm r st2.2 ∧ st.2 < st2.2) := by
  intro list
  induction list with
  | nil =>
    intro st st2 h
    simp only [List.foldlM_nil, pure, Except.pure, Except.ok.injEq] at h
    subst h
    exact ⟨le_rfl, by simp, Or.inl rfl⟩
  | cons r rest ih =>
    intro st st2 h
    rw [List.foldlM_cons, bind_eq_ok] at h
    obtain ⟨st1, hs, h⟩ := h
    obtain ⟨hmono, hmax, hsel⟩ := ih st1 st2 h
    rcases hstep st st1 r hs with ⟨z, hadm, hlt, rfl⟩ | ⟨rfl, hnot⟩
    · refine ⟨le_trans hlt.le hmono, ?_, ?_⟩
      · intro q hq z2 hz2
        rcases List.mem_cons.mp hq with rfl | hq
        · rw [huniq _ _ _ hadm hz2]
          exact hmono
        · exact hmax q hq z2 hz2
      · right
        rcases hsel with rfl | ⟨q, hq, he, hadm2, hlt2⟩
        · exact ⟨_, List.mem_cons_self _ _, rfl, hadm, hlt⟩
        · exact ⟨q, List.mem_cons_of_mem _ hq, he, hadm2, lt_trans hlt hlt2⟩
    · refine ⟨hmono, ?_, ?_⟩
      · intro q hq z2 hz2
        rcases List.mem_cons.mp hq with rfl | hq
        · exact le_trans (hnot z2 hz2) hmono
        · exact hmax q hq z2 hz2
      · rcases hsel with rfl | ⟨q, hq, he, hadm2, hlt2⟩
        · exact Or.inl rfl
        · exact Or.inr ⟨q, List.mem_cons_of_mem _ hq, he, hadm2, hlt2⟩

theorem Admissible_f32_unique (areas : List NavArea) (pos : Vector) (L : ℚ) (r : AreaRef)
    (z z2 : ℚ) (h : Admissible_f32 areas pos L r z) (h2 : Admissible_f32 areas pos L r z2) :
    z2 = z := by
  obtain ⟨a1, _, _, e1, _, g1, _⟩ := h
  obtain ⟨a2, _, _, e2, _, g2, _⟩ := h2
  rw [e1] at e2
  cases e2
  rw [g1] at g2
  cases g2
  rfl

/-- One iteration of the loop of `GetNavArea`: either the element is admissible and
higher than `useZ` and becomes the choice, or the state is unchanged and the element
is not admissible or not higher than `useZ`. -/
theorem GetNavArea_step_f32_spec (areas : List NavArea) (pos : Vector) (L top : ℚ)
    (htop : F32.add pos.z 5 = .ok top) (st st2 : Option AreaRef × ℚ) (r : AreaRef)
    (h : NavAreaGrid.GetNavArea_step_f32 areas pos ⟨pos.x, pos.y, top⟩ L st r = .ok st2) :
    (∃ z, Admissible_f32 areas pos L r z ∧ st.2 < z ∧ st2 = (some r, z)) ∨
    (st2 = st ∧ ∀ z, Admissible_f32 areas pos L r z → z ≤ st.2) := by
  unfold NavAreaGrid.GetNavArea_step_f32 at h
  rw [bind_eq_ok] at h
  obtain ⟨area, hd, h⟩ := h
  have hget := deref_eq_ok.mp hd
  have hov : area.IsOverlapping ⟨pos.x, pos.y, top⟩ = area.IsOverlapping pos :=
    IsOverlapping_congr _ _ _ rfl rfl
  have hzc : area.GetZ_f32 ⟨pos.x, pos.y, top⟩ = area.GetZ_f32 pos :=
    GetZ_f32_congr _ _ _ rfl rfl
  rw [hov, hzc] at h
  have unique : ∀ z2, Admissible_f32 areas pos L r z2 →
      area.IsOverlapping pos = true ∧ area.GetZ_f32 pos = .ok z2 ∧
      (∃ low, F32.sub pos.z L = .ok low ∧ low ≤ z2) ∧ z2 ≤ top := by
    rintro z2 ⟨area2, low, top2, h1, h2, h3, h4, h5, h6, h7⟩
    rw [hget] at h1
    cases h1
    rw [htop] at h5
    cases h5
    exact ⟨h2, h3, ⟨low, h4, h6⟩, h7⟩
  by_cases ho : area.IsOverlapping pos = true
  · rw [if_pos ho, bind_eq_ok] at h
    obtain ⟨z, hz, h⟩ := h
    dsimp only at h
    by_cases h1 : z > top
    · right
      rw [if_pos h1, pure_eq_ok] at h
      refine ⟨h.symm, fun z2 hz2 => ?_⟩
      obtain ⟨_, hz2', _, hle⟩ := unique z2 hz2
      rw [hz] at hz2'
      cases hz2'
      exact absurd h1 (not_lt.mpr hle)
    · rw [if_neg h1, bind_eq_ok] at h
      obtain ⟨low, hlow, h⟩ := h
      by_cases h2 : z < low
      · right
        rw [if_pos h2, pure_eq_ok] at h
        refine ⟨h.symm, fun z2 hz2 => ?_⟩
        obtain ⟨_, hz2', ⟨low2, hl2, hge⟩, _⟩ := unique z2 hz2
        rw [hz] at hz2'
        cases hz2'
        rw [hlow] at hl2
        cases hl2
        exact absurd h2 (not_lt.mpr hge)
      · rw [if_neg h2] at h
        by_cases h3 : z > st.2
        · left
          rw [if_pos h3, pure_eq_ok] at h
          exact ⟨z, ⟨area, low, top, hget, ho, hz, hlow, htop, not_lt.mp h2, not_lt.mp h1⟩, h3,
            h.symm⟩
        · right
          rw [if_neg h3, pure_eq_ok] at h
          refine ⟨h.symm, fun z2 hz2 => ?_⟩
          obtain ⟨_, hz2', _, _⟩ := unique z2 hz2
          rw [hz] at hz2'
          cases hz2'
          exact not_lt.mp h3
  · right
    rw [if_neg ho, pure_eq_ok] at h
    refine ⟨h.symm, fun z2 hz2 => ?_⟩
    exact absurd (unique z2 hz2).1 ho

/-- Shape of a normal return of `GetNavArea` on a grid with buckets: the probed bucket
exists and the result is the first component of the scan over it. -/
theorem GetNavArea_f32_eq_ok (areas : List NavArea) (g : NavAreaGrid) (pos : Vector) (L : ℚ)
    (res : Option AreaRef) (hg : g.m_grid.isNone = false)
    (h : g.GetNavArea_f32 areas pos L = .ok res) :
    ∃ x y cell top st, g.WorldToGridX_f32 pos.x = .ok x ∧ g.WorldToGridY_f32 pos.y = .ok y ∧
      g.bucket (x + y * g.m_gridSizeX) = .ok cell ∧ g.probedCell_f32 pos = .ok cell ∧
      F32.add pos.z 5 = .ok top ∧
      cell.foldlM (NavAreaGrid.GetNavArea_step_f32 areas pos ⟨pos.x, pos.y, top⟩ L)
        (none, NavAreaGrid.GetNavArea_useZ0_f32) = .ok st ∧ st.1 = res := by
  unfold NavAreaGrid.GetNavArea_f32 at h
  rw [hg] at h
  simp only [Bool.false_eq_true, if_false, bind_eq_ok, pure_eq_ok] at h
  obtain ⟨x, hx, y, hy, cell, hcell, top, htop, st, hst, hres⟩ := h
  refine ⟨x, y, cell, top, st, hx, hy, hcell, ?_, htop, hst, hres⟩
  unfold NavAreaGrid.probedCell_f32
  simp only [hx, hy, bind, Except.bind, hcell]

theorem GetNavArea_f32_grid {areas : List NavArea} {g : NavAreaGrid} {pos : Vector} {L : ℚ}
    {a : AreaRef} (h : g.GetNavArea_f32 areas pos L = .ok (some a)) :
    g.m_grid.isNone = false := by
  cases hn : g.m_grid.isNone
  · rfl
  · unfold NavAreaGrid.GetNavArea_f32 at h
    rw [hn] at h
    simp at h

theorem probedCell_f32_grid {g : NavAreaGrid} {pos : Vector} {cell : List AreaRef}
    (h : g.probedCell_f32 pos = .ok cell) : g.m_grid.isNone = false := by
  unfold NavAreaGrid.probedCell_f32 at h
  simp only [bind_eq_ok] at h
  obtain ⟨_, _, _, _, h⟩ := h
  unfold NavAreaGrid.bucket at h
  cases hm : g.m_grid with
  | none => rw [hm] at h; simp at h
  | some c => rfl

/-- What `GetNavArea` returns in binary32 arithmetic, in terms of the probed cell. -/
theorem GetNavArea_f32_topmost (areas : List NavArea) (g : NavAreaGrid) (pos : Vector) (L : ℚ) :
    (∀ a, g.GetNavArea_f32 areas pos L = .ok (some a) →
      ∃ cell z, g.probedCell_f32 pos = .ok cell ∧ a ∈ cell ∧ Admissible_f32 areas pos L a z ∧
        ∀ b ∈ cell, ∀ zb, Admissible_f32 areas pos L b zb → zb ≤ z) ∧
    (g.GetNavArea_f32 areas pos L = .ok none →
      ∀ cell, g.probedCell_f32 pos = .ok cell →
        ∀ b ∈ cell, ∀ zb, Admissible_f32 areas pos L b zb →
          zb ≤ NavAreaGrid.GetNavArea_useZ0_f32) := by
  constructor
  · intro a h
    obtain ⟨x, y, cell, top, st, _, _, _, hcell, htop, hfold, hres⟩ :=
      GetNavArea_f32_eq_ok areas g pos L _ (GetNavArea_f32_grid h) h
    obtain ⟨_, hmax, hsel⟩ := selectMax_scan _ (Admissible_f32 areas pos L)
      (Admissible_f32_unique areas pos L) (GetNavArea_step_f32_spec areas pos L top htop)
      cell _ st hfold
    rcases hsel with rfl | ⟨r, hr, he, hadm, _⟩
    · simp at hres
    · rw [he] at hres
      simp only [Option.some.injEq] at hres
      subst hres
      exact ⟨cell, st.2, hcell, hr, hadm, hmax⟩
  · intro h cell hcell b hb zb hadm
    obtain ⟨x, y, cell2, top, st, _, _, _, hcell2, htop, hfold, hres⟩ :=
      GetNavArea_f32_eq_ok areas g pos L _ (probedCell_f32_grid hcell) h
    rw [hcell] at hcell2
    cases hcell2
    obtain ⟨_, hmax, hsel⟩ := selectMax_scan _ (Admissible_f32 areas pos L)
      (Admissible_f32_unique areas pos L) (GetNavArea_step_f32_spec areas pos L top htop)
      cell _ st hfold
    rcases hsel with rfl | ⟨r, _, he, _, _⟩
    · exact hmax b hb zb hadm
    · rw [he] at hres
      simp at hres

theorem GetNavArea_useZ0_f32_eq : NavAreaGrid.GetNavArea_useZ0_f32 = -100000000 := by decide!

/-- Claim C1, amended, in binary32 arithmetic: if `GetNavArea(pos, L)` returns an area
`a`, then `a` is in the probed cell, its XY rectangle contains the probe, its height `z`
at the probe lies between the `float` values `pos.z - L` and `pos.z + 5`, and no area of
the probed cell with these two properties is strictly higher at the probe; if it
returns none, every area of the probed cell with these two properties has its height at
the probe at or below `-100000000`, the `float` value of the literal `-99999999.9f`. -/
theorem C1_GetNavArea_topmost_f32 (areas : List NavArea) (g : NavAreaGrid) (pos : Vector)
    (L : ℚ) :
    (∀ a, g.GetNavArea_f32 areas pos L = .ok (some a) →
      ∃ cell z, g.probedCell_f32 pos = .ok cell ∧ a ∈ cell ∧ Admissible_f32 areas pos L a z ∧
        ∀ b ∈ cell, ∀ zb, Admissible_f32 areas pos L b zb → zb ≤ z) ∧
    (g.GetNavArea_f32 areas pos L = .ok none →
      ∀ cell, g.probedCell_f32 pos = .ok cell →
        ∀ b ∈ cell, ∀ zb, Admissible_f32 areas pos L b zb → zb ≤ -100000000) := by
  have h := GetNavArea_f32_topmost areas g pos L
  rw [GetNavArea_useZ0_f32_eq] at h
  exact h

/-- Claim C1, amended, at the two stacked flat areas and the probe `(50, 50, 0)`: the
area returned is area 1, lying at `z = 3`. -/
theorem C1_GetNavArea_topmost_f32_witness :
    ∃ cell z, stackedGrid.probedCell_f32 ⟨50, 50, 0⟩ = .ok cell ∧ 1 ∈ cell ∧
      Admissible_f32 stackedAreas ⟨50, 50, 0⟩ 120 1 z ∧
      ∀ b ∈ cell, ∀ zb, Admissible_f32 stackedAreas ⟨50, 50, 0⟩ 120 b zb → zb ≤ z :=
  (C1_GetNavArea_topmost_f32 stackedAreas stackedGrid ⟨50, 50, 0⟩ 120).1 1 (by decide!)

/-- Claim C1 fails as stated, in binary32 arithmetic, in both halves. First: on the grid
initialised for `(0,0)-(100,100)` that holds the single flat area at the height `5.3f`,
`GetNavArea((50, 50, 0.3f), 120)` returns the area, whose height `5.3f` at the probe is
above the exact sum `0.3f + 5`: the `float` sum `pos.z + 5` is rounded up to `5.3f`.
Second: on the same grid with the single flat area at `z = -100000000`,
`GetNavArea((50, 50, -100000000), 120)` returns none although the probed cell holds the
area, whose rectangle contains the probe and whose height satisfies
`pos.z - 120 ≤ z ≤ pos.z + 5`: the height is not above the start value `-100000000`
of `useZ`. -/
theorem C1_counterexample :
    (liftedState_f32 >>= fun p => p.2.GetNavArea_f32 p.1 ⟨50, 50, F32.round (3 / 10)⟩ 120)
      = .ok (some 0) ∧
    (liftedState_f32 >>= fun p => deref p.1 0 >>= fun a =>
        a.GetZ_f32 ⟨50, 50, F32.round (3 / 10)⟩) = .ok (F32.round (53 / 10)) ∧
    F32.round (3 / 10) + 5 < F32.round (53 / 10) ∧
    (deepState_f32 >>= fun p => p.2.GetNavArea_f32 p.1 ⟨50, 50, -100000000⟩ 120)
      = .ok none ∧
    (deepState_f32 >>= fun p => p.2.probedCell_f32 ⟨50, 50, -100000000⟩) = .ok [0] ∧
    (deepState_f32 >>= fun p => deref p.1 0 >>= fun a =>
        a.GetZ_f32 ⟨50, 50, -100000000⟩ >>= fun z =>
          pure (a.IsOverlapping ⟨50, 50, -100000000⟩, z)) = .ok (true, -100000000) ∧
    (-100000000 : ℚ) - 120 ≤ -100000000 ∧ (-100000000 : ℚ) ≤ -100000000 + 5 := by
  refine ⟨?_, ?_, ?_, ?_, ?_, ?_, ?_, ?_⟩ <;> decide!

/-! ### The bucket scan against the scan of all areas in binary32 arithmetic: claim C30 -/

/-- What a successful `AddNavArea(k)` does on a grid with buckets `cs`: the cells of the
extent are defined, the geometry of the areas and the parameters of the grid stay, and
each bucket gets `k` appended a number of times, at least once when it is one of the
cells between those of `lo` and `hi`. -/
theorem AddNavArea_f32_eq_ok (areas areas2 : List NavArea) (g g2 : NavAreaGrid) (k : AreaRef)
    (cs : List (List AreaRef)) (hg : g.m_grid = some cs)
    (h : g.AddNavArea_f32 areas k = .ok (areas2, g2)) :
    ∃ (a : NavArea) (loX loY hiX hiY : Int), areas[k]? = some a ∧
      g.WorldToGridX_f32 a.m_extent.lo.x = .ok loX ∧
      g.WorldToGridY_f32 a.m_extent.lo.y = .ok loY ∧
      g.WorldToGridX_f32 a.m_extent.hi.x = .ok hiX ∧
      g.WorldToGridY_f32 a.m_extent.hi.y = .ok hiY ∧
      areas2.map NavArea.geometry = areas.map NavArea.geometry ∧
      (g2.m_gridSizeX = g.m_gridSizeX ∧ g2.m_gridSizeY = g.m_gridSizeY ∧
        g2.m_minX = g.m_minX ∧ g2.m_minY = g.m_minY) ∧
      ∃ cs2, g2.m_grid = some cs2 ∧ ∀ j, ∃ n,
        cs2[j]? = (cs[j]?).map (fun l => l ++ List.replicate n k) ∧
        ((∃ x y : Int, (loX ≤ x ∧ x ≤ hiX) ∧ (loY ≤ y ∧ y ≤ hiY) ∧
            j = (x + y * g.m_gridSizeX).toNat) → 1 ≤ n) := by
  unfold NavAreaGrid.AddNavArea_f32 at h
  simp only [bind_eq_ok, pure_eq_ok, Prod.mk.injEq] at h
  obtain ⟨a, ha, loX, h1, loY, h2, hiX, h3, hiY, h4, cells, hcells, areas1, hup, rfl, rfl⟩ := h
  refine ⟨a, loX, loY, hiX, hiY, deref_eq_ok.mp ha, h1, h2, h3, h4, ?_, ⟨rfl, rfl, rfl, rfl⟩, ?_⟩
  · unfold NavAreaGrid.AddNavArea_link at hup
    cases hh : g.m_hashTable (NavAreaGrid.ComputeHashKey a.m_id) with
    | none =>
      rw [hh] at hup
      exact update_map NavArea.geometry hup (fun _ => rfl)
    | some head =>
      rw [hh] at hup
      simp only [bind_eq_ok] at hup
      obtain ⟨areas0, h0, h1⟩ := hup
      rw [update_map NavArea.geometry h1 (fun _ => rfl),
        update_map NavArea.geometry h0 (fun _ => rfl)]
  · rw [forCells_eq, hg] at hcells
    obtain ⟨cs2, rfl, hget⟩ := pushAll_get k _ cs cells hcells
    refine ⟨cs2, rfl, fun j => ⟨_, hget j, ?_⟩⟩
    rintro ⟨x, y, hx, hy, rfl⟩
    apply List.count_pos_iff.mpr
    exact List.mem_map.mpr ⟨_, mem_cellIndices.mpr ⟨x, y, hx, hy, rfl⟩, rfl⟩

/-- The loop body of `GetNavArea` leaves the state as it is for an area whose XY
rectangle does not contain the probe. -/
theorem GetNavArea_step_f32_miss (areas : List NavArea) (pos : Vector) (L top : ℚ)
    (st : Option AreaRef × ℚ) (r : AreaRef) (a : NavArea) (ha : areas[r]? = some a)
    (hov : a.IsOverlapping pos = false) :
    NavAreaGrid.GetNavArea_step_f32 areas pos ⟨pos.x, pos.y, top⟩ L st r = .ok st := by
  have hov2 : a.IsOverlapping ⟨pos.x, pos.y, top⟩ = false := by
    rw [IsOverlapping_congr a ⟨pos.x, pos.y, top⟩ pos rfl rfl]
    exact hov
  unfold NavAreaGrid.GetNavArea_step_f32
  simp only [deref_eq_ok.mpr ha, bind, Except.bind, hov2, Bool.false_eq_true, if_false, pure,
    Except.pure]

/-- The loop body of `GetNavArea` run again for the same area changes nothing. -/
theorem GetNavArea_step_f32_idem (areas : List NavArea) (pos testPos : Vector) (L : ℚ)
    (st st1 : Option AreaRef × ℚ) (r : AreaRef)
    (h : NavAreaGrid.GetNavArea_step_f32 areas pos testPos L st r = .ok st1) :
    NavAreaGrid.GetNavArea_step_f32 areas pos testPos L st1 r = .ok st1 := by
  unfold NavAreaGrid.GetNavArea_step_f32 at h ⊢
  rw [bind_eq_ok] at h
  obtain ⟨area, hd, h⟩ := h
  simp only [hd, bind, Except.bind]
  by_cases ho : area.IsOverlapping testPos = true
  · rw [if_pos ho] at h ⊢
    rw [bind_eq_ok] at h
    obtain ⟨z, hz, h⟩ := h
    simp only [hz]
    by_cases h1 : z > testPos.z
    · rw [if_pos h1] at h ⊢
      rw [pure_eq_ok] at h
      subst h
      rfl
    · rw [if_neg h1] at h ⊢
      rw [bind_eq_ok] at h
      obtain ⟨low, hlow, h⟩ := h
      simp only [hlow]
      by_cases h2 : z < low
      · rw [if_pos h2] at h ⊢
        rw [pure_eq_ok] at h
        subst h
        rfl
      · rw [if_neg h2] at h ⊢
        by_cases h3 : z > st.2
        · rw [if_pos h3, pure_eq_ok] at h
          subst h
          rw [if_neg (lt_irrefl z)]
          rfl
        · rw [if_neg h3, pure_eq_ok] at h
          subst h
          rw [if_neg h3]
          rfl
  · rw [if_neg ho] at h ⊢
    rw [pure_eq_ok] at h
    subst h
    rfl

/-- The loop of `GetNavArea` over `n + 1` copies of a pointer is one pass of its
body. -/
theorem GetNavArea_scan_f32_replicate (areas : List NavArea) (pos testPos : Vector) (L : ℚ)
    (r : AreaRef) (n : Nat) (st : Option AreaRef × ℚ) :
    (List.replicate (n + 1) r).foldlM (NavAreaGrid.GetNavArea_step_f32 areas pos testPos L) st
      = NavAreaGrid.GetNavArea_step_f32 areas pos testPos L st r := by
  rw [List.replicate_succ, List.foldlM_cons]
  cases h : NavAreaGrid.GetNavArea_step_f32 areas pos testPos L st r with
  | error e => rfl
  | ok st1 =>
    show (List.replicate n r).foldlM _ st1 = _
    have hfix := GetNavArea_step_f32_idem areas pos testPos L st st1 r h
    induction n with
    | zero => rfl
    | succ m ih =>
      rw [List.replicate_succ, List.foldlM_cons, hfix]
      exact ih

/-- After `AddNavArea` was called for the pointers `rs` on a grid of positive sizes, the
bucket of the cell `(x, y)` of `pos` holds what it held before followed by a list whose
scan by `GetNavArea` is the scan of `rs`; the parameters of the grid and the geometry of
the areas are as before. -/
theorem AddNavAreas_f32_bucket (pos : Vector) (L : ℚ) (areasF : List NavArea) (x y : Int) :
    ∀ (rs : List AreaRef) (areas areas2 : List NavArea) (g g2 : NavAreaGrid)
      (cs : List (List AreaRef)),
      g.m_grid = some cs → 1 ≤ g.m_gridSizeX → 1 ≤ g.m_gridSizeY →
      areasF.map NavArea.geometry = areas.map NavArea.geometry →
      g.WorldToGridX_f32 pos.x = .ok x → g.WorldToGridY_f32 pos.y = .ok y →
      AddNavAreas_f32 areas g rs = .ok (areas2, g2) →
      (g2.m_gridSizeX = g.m_gridSizeX ∧ g2.m_gridSizeY = g.m_gridSizeY ∧
        g2.m_minX = g.m_minX ∧ g2.m_minY = g.m_minY) ∧
      areas2.map NavArea.geometry = areas.map NavArea.geometry ∧
      ∃ cs2 lst, g2.m_grid = some cs2 ∧
        cs2[(x + y * g.m_gridSizeX).toNat]?
          = (cs[(x + y * g.m_gridSizeX).toNat]?).map (fun l => l ++ lst) ∧
        ∀ top st, lst.foldlM
            (NavAreaGrid.GetNavArea_step_f32 areasF pos ⟨pos.x, pos.y, top⟩ L) st
          = rs.foldlM
            (NavAreaGrid.GetNavArea_step_f32 areasF pos ⟨pos.x, pos.y, top⟩ L) st := by
  intro rs
  induction rs with
  | nil =>
    intro areas areas2 g g2 cs hcs _ _ _ _ _ h
    unfold AddNavAreas_f32 at h
    simp only [List.foldlM_nil, pure_eq_ok, Prod.mk.injEq] at h
    obtain ⟨rfl, rfl⟩ := h
    refine ⟨⟨rfl, rfl, rfl, rfl⟩, rfl, cs, [], hcs, ?_, fun _ _ => rfl⟩
    cases cs[(x + y * g.m_gridSizeX).toNat]? <;> simp
  | cons r rest ih =>
    intro areas areas2 g g2 cs hcs hsx hsy hgeoF hcx hcy h
    unfold AddNavAreas_f32 at h
    rw [List.foldlM_cons, bind_eq_ok] at h
    obtain ⟨⟨areas1, g1⟩, h1, h2⟩ := h
    obtain ⟨a, loX, loY, hiX, hiY, ha, hlx, hly, hhx, hhy, hgeo1, hpar1, cs1, hcs1, hget1⟩ :=
      AddNavArea_f32_eq_ok areas areas1 g g1 r cs hcs h1
    obtain ⟨n, hgetn, hn⟩ := hget1 (x + y * g.m_gridSizeX).toNat
    obtain ⟨hpar2, hgeo2, cs2, lst, hcs2, hget2, hscan⟩ :=
      ih areas1 areas2 g1 g2 cs1 hcs1 (by rw [hpar1.1]; exact hsx) (by rw [hpar1.2.1]; exact hsy)
        (hgeoF.trans hgeo1.symm)
        (by rw [(WorldToGrid_f32_congr g g1 hpar1 pos.x).1]; exact hcx)
        (by rw [(WorldToGrid_f32_congr g g1 hpar1 pos.y).2]; exact hcy) h2
    rw [hpar1.1] at hget2
    refine ⟨⟨hpar2.1.trans hpar1.1, hpar2.2.1.trans hpar1.2.1, hpar2.2.2.1.trans hpar1.2.2.1,
      hpar2.2.2.2.trans hpar1.2.2.2⟩, hgeo2.trans hgeo1, cs2, List.replicate n r ++ lst, hcs2,
      ?_, ?_⟩
    · rw [hget2, hgetn]
      cases cs[(x + y * g.m_gridSizeX).toNat]? with
      | none => rfl
      | some l => simp
    · intro top st
      rw [List.foldlM_append, List.foldlM_cons]
      have hone : (List.replicate n r).foldlM
          (NavAreaGrid.GetNavArea_step_f32 areasF pos ⟨pos.x, pos.y, top⟩ L) st
          = NavAreaGrid.GetNavArea_step_f32 areasF pos ⟨pos.x, pos.y, top⟩ L st r := by
        cases n with
        | succ m => exact GetNavArea_scan_f32_replicate areasF pos _ L r m st
        | zero =>
          obtain ⟨aF, haF, hgF⟩ : ∃ aF, areasF[r]? = some aF ∧
              NavArea.geometry aF = NavArea.geometry a := by
            have := map_getElem?_eq NavArea.geometry hgeoF r
            rw [ha] at this
            cases hF : areasF[r]? with
            | none => rw [hF] at this; simp at this
            | some aF =>
              rw [hF] at this
              simp only [Option.map_some', Option.some.injEq] at this
              exact ⟨aF, rfl, this⟩
          have hext : aF.m_extent = a.m_extent := congrArg (fun t => t.2.1) hgF
          have hmiss : aF.IsOverlapping pos = false := by
            rw [← Bool.not_eq_true, IsOverlapping_iff, hext]
            rintro ⟨⟨hx0, hx1⟩, hy0, hy1⟩
            have := hn ⟨x, y,
              ⟨WorldToGridX_f32_mono g hsx hlx hcx hx0, WorldToGridX_f32_mono g hsx hcx hhx hx1⟩,
              ⟨WorldToGridY_f32_mono g hsy hly hcy hy0, WorldToGridY_f32_mono g hsy hcy hhy hy1⟩,
              rfl⟩
            omega
          rw [GetNavArea_step_f32_miss areasF pos L top st r aF haF hmiss]
          rfl
      rw [hone]
      congr 1
      funext st1
      exact hscan top st1

/-- `AddNavArea` keeps the geometry of the areas and the parameters of the grid. -/
theorem AddNavAreas_f32_kept (areas areas2 : List NavArea) (g g2 : NavAreaGrid)
    (rs : List AreaRef) (cs : List (List AreaRef)) (hcs : g.m_grid = some cs)
    (h : AddNavAreas_f32 areas g rs = .ok (areas2, g2)) :
    areas2.map NavArea.geometry = areas.map NavArea.geometry ∧
    (g2.m_gridSizeX = g.m_gridSizeX ∧ g2.m_gridSizeY = g.m_gridSizeY ∧
      g2.m_minX = g.m_minX ∧ g2.m_minY = g.m_minY) := by
  induction rs generalizing areas g cs with
  | nil =>
    unfold AddNavAreas_f32 at h
    simp only [List.foldlM_nil, pure_eq_ok, Prod.mk.injEq] at h
    rw [h.1, h.2]
    exact ⟨rfl, rfl, rfl, rfl, rfl⟩
  | cons r rest ih =>
    unfold AddNavAreas_f32 at h
    rw [List.foldlM_cons, bind_eq_ok] at h
    obtain ⟨⟨areas1, g1⟩, h1, h2⟩ := h
    obtain ⟨_, _, _, _, _, _, _, _, _, _, hgeo1, hp1, cs1, hcs1, _⟩ :=
      AddNavArea_f32_eq_ok areas areas1 g g1 r cs hcs h1
    obtain ⟨hgeo2, hp2⟩ := ih areas1 g1 cs1 hcs1 h2
    exact ⟨hgeo2.trans hgeo1, hp2.1.trans hp1.1, hp2.2.1.trans hp1.2.1,
      hp2.2.2.1.trans hp1.2.2.1, hp2.2.2.2.trans hp1.2.2.2⟩

/-- On a grid that `Initialize` has set up for an extent with `minX ≤ maxX` and
`minY ≤ maxY` and that `AddNavArea` has filled with the areas `rs`, `GetNavArea` is the
selection over all of `rs` for every probe whose cells are defined, on every store
whose areas have the geometry of those that were added. -/
theorem GetNavArea_f32_scans_all (areas areas2 areasF : List NavArea) (g g0 g2 : NavAreaGrid)
    (minX maxX minY maxY : ℚ) (rs : List AreaRef)
    (hx : minX ≤ maxX) (hy : minY ≤ maxY)
    (hinit : g.Initialize_f32 minX maxX minY maxY = .ok g0)
    (hfill : AddNavAreas_f32 areas g0 rs = .ok (areas2, g2))
    (hF : areasF.map NavArea.geometry = areas2.map NavArea.geometry)
    (pos : Vector) (beneathLimit : ℚ)
    (x y : Int) (hcx : g2.WorldToGridX_f32 pos.x = .ok x)
    (hcy : g2.WorldToGridY_f32 pos.y = .ok y) :
    g2.GetNavArea_f32 areasF pos beneathLimit
      = GetNavArea_overAll_f32 areasF rs pos beneathLimit := by
  have hal := Initialize_f32_allocated g g0 _ _ _ _ hx hy hinit
  obtain ⟨_, _, _, _, _, hgrid0⟩ := Initialize_f32_eq_ok g g0 _ _ _ _ hinit
  have hal2 := hal
  obtain ⟨_, _, cs0, hcs0, _⟩ := hal2
  obtain ⟨hgeoF, hpar⟩ := AddNavAreas_f32_kept areas areas2 g0 g2 rs cs0 hcs0 hfill
  have hcx0 : g0.WorldToGridX_f32 pos.x = .ok x := by
    rw [← (WorldToGrid_f32_congr g0 g2 hpar pos.x).1]
    exact hcx
  have hcy0 : g0.WorldToGridY_f32 pos.y = .ok y := by
    rw [← (WorldToGrid_f32_congr g0 g2 hpar pos.y).2]
    exact hcy
  obtain ⟨_, l0, hcs0', hl0, _⟩ := Allocated_probedCell_f32 hal hcx0 hcy0
  rw [hcs0] at hcs0'
  cases hcs0'
  have hl0nil : l0 = [] := by
    rw [hgrid0] at hcs0
    cases hcs0
    exact List.eq_of_mem_replicate (List.getElem?_mem hl0)
  subst hl0nil
  obtain ⟨_, _, cs2, lst, hcs2, hget, hscan⟩ :=
    AddNavAreas_f32_bucket pos beneathLimit areasF x y rs areas areas2 g0 g2 cs0 hcs0 hal.1
      hal.2.1 (hF.trans hgeoF) hcx0 hcy0 hfill
  rw [hl0] at hget
  simp only [Option.map_some', List.nil_append] at hget
  have h0 := (Allocated_index_range_f32 hal hcx0 hcy0).1
  unfold NavAreaGrid.GetNavArea_f32 GetNavArea_overAll_f32 NavAreaGrid.bucket
  rw [hcs2, hpar.1]
  simp only [Option.isNone_some, Bool.false_eq_true, if_false, hcx, hcy, bind, Except.bind,
    if_neg (not_lt.mpr h0), hget]
  cases htop : F32.add pos.z 5 with
  | error e => rfl
  | ok top =>
    simp only []
    rw [hscan]

/-- Claim C30 fails as stated, in binary32 arithmetic. `Initialize(0, -900, 0, -1200)`
leaves a grid with the sizes -2 and -3 and six buckets. `AddNavArea` for the flat area
over `(-400,-400)-(100,100)`, whose extent is well formed, returns without putting the
area into a bucket: its first cell on each axis is 0, its last is below 0. For the probe
`(-350, -350, 0)`, inside the area, `GetNavArea` scans bucket 0 and returns none; the
same selection over the list of the added areas returns the area. -/
theorem C30_counterexample :
    (wideArea.m_extent.lo.x ≤ wideArea.m_extent.hi.x ∧
      wideArea.m_extent.lo.y ≤ wideArea.m_extent.hi.y) ∧
    invertedFill_f32.map (fun p => (p.2.m_gridSizeX, p.2.m_gridSizeY, p.2.m_grid))
      = .ok (-2, -3, some [[], [], [], [], [], []]) ∧
    (invertedFill_f32 >>= fun p => p.2.GetNavArea_f32 p.1 ⟨-350, -350, 0⟩ 120) = .ok none ∧
    (invertedFill_f32 >>= fun p => GetNavArea_overAll_f32 p.1 [0] ⟨-350, -350, 0⟩ 120)
      = .ok (some 0) := by
  refine ⟨⟨?_, ?_⟩, ?_, ?_, ?_⟩ <;> decide!

/-- Claim C30, amended, in binary32 arithmetic. On a grid that `Initialize` has set up
for an extent with `minX ≤ maxX` and `minY ≤ maxY` and that calls of `AddNavArea` which
return (the cells of the corners of the areas are computed within the range of `int`)
have filled with the areas `rs`, for every probe `pos` whose cell coordinates
`WorldToGridX(pos.x)` and `WorldToGridY(pos.y)` are computed within the range of `int`
and every `beneathLimit`, `GetNavArea(pos, beneathLimit)`, which scans the single bucket
of the cell of `pos`, is the same selection run over the list `rs` of all added areas in
insertion order. -/
theorem C30_GetNavArea_scans_all_f32 (areas areas2 : List NavArea) (g g0 g2 : NavAreaGrid)
    (minX maxX minY maxY : ℚ) (rs : List AreaRef)
    (hx : minX ≤ maxX) (hy : minY ≤ maxY)
    (hinit : g.Initialize_f32 minX maxX minY maxY = .ok g0)
    (hfill : AddNavAreas_f32 areas g0 rs = .ok (areas2, g2)) (pos : Vector) (beneathLimit : ℚ)
    (x y : Int) (hcx : g2.WorldToGridX_f32 pos.x = .ok x)
    (hcy : g2.WorldToGridY_f32 pos.y = .ok y) :
    g2.GetNavArea_f32 areas2 pos beneathLimit
      = GetNavArea_overAll_f32 areas2 rs pos beneathLimit :=
  GetNavArea_f32_scans_all areas areas2 areas2 g g0 g2 minX maxX minY maxY rs hx hy hinit hfill
    rfl pos beneathLimit x y hcx hcy

/-- Claim C30, amended, at the grid initialised for `(0,0)-(100,100)` and filled with
the two stacked flat areas, for the probe `(50, 50, 0)`: the bucket scan and the scan of
all areas both return the upper area. -/
theorem C30_GetNavArea_scans_all_f32_witness :
    ∃ g0 areas2 g2, (NavAreaGrid.ctor 0 0).Initialize_f32 0 100 0 100 = .ok g0 ∧
      AddNavAreas_f32 stackedAreas g0 [0, 1] = .ok (areas2, g2) ∧
      g2.GetNavArea_f32 areas2 ⟨50, 50, 0⟩ 120
        = GetNavArea_overAll_f32 areas2 [0, 1] ⟨50, 50, 0⟩ 120 ∧
      g2.GetNavArea_f32 areas2 ⟨50, 50, 0⟩ 120 = .ok (some 1) := by
  obtain ⟨⟨g0, areas2, g2⟩, hfill⟩ :=
    ok_of_toBool (show stackedFill_f32.toBool = true by decide!)
  have hv : stackedFill_f32.map (fun p => (p.2.2.GetNavArea_f32 p.2.1 ⟨50, 50, 0⟩ 120))
      = .ok (.ok (some 1)) := by decide!
  have hc : stackedFill_f32.map (fun p => (p.2.2.WorldToGridX_f32 50, p.2.2.WorldToGridY_f32 50))
      = .ok (.ok 0, .ok 0) := by decide!
  rw [hfill] at hv hc
  simp only [Except.map, Except.ok.injEq, Prod.mk.injEq] at hv hc
  unfold stackedFill_f32 at hfill
  simp only [bind_eq_ok, pure_eq_ok, Prod.mk.injEq] at hfill
  obtain ⟨g0', hinit, st, hadd, rfl, rfl, rfl⟩ := hfill
  exact ⟨g0', st.1, st.2, hinit, hadd,
    C30_GetNavArea_scans_all_f32 stackedAreas st.1 (NavAreaGrid.ctor 0 0) g0' st.2 0 100 0 100
      [0, 1] (by norm_num) (by norm_num) hinit hadd ⟨50, 50, 0⟩ 120 0 0 hc.1 hc.2, hv⟩

/-! ### The area under a point of its own surface in binary32 arithmetic: claim C2 -/

/-- The phases of a `Load` in binary32 arithmetic that returns. -/
theorem Load_f32_inv (host : Host) (f : NavFile) (s : State) (b : Bool) (s2 : State)
    (h : Load_f32 host (some f) s = .ok (b, s2)) :
    b = true ∧ ∃ (s0 : State) (st : State × Extent) (m1 m2 : NavigationMap),
      s0.mesh.m_areas = [] ∧
      f.areas.foldlM (Load_area f.version) (s0, Load_extent0_f32) = .ok st ∧
      Load_grid_f32 st.1.mesh st.2 = .ok m1 ∧
      (List.range m1.m_areas.length).foldlM Validate m1 = .ok m2 ∧
      BuildLadders host m2 = .ok s2.mesh := by
  unfold Load_f32 at h
  simp only [bind_eq_ok, pure_eq_ok, Prod.mk.injEq] at h
  obtain ⟨d, _, st, hst, m1, hm1, m2, hm2, m3, hm3, hb, hs⟩ := h
  refine ⟨hb.symm, _, st, m1, m2, ?_, hst, hm1, hm2, ?_⟩
  · rfl
  · rw [← hs]; exact hm3

/-- The loop of `Load` that adds the areas to the grid is the run of `AddNavArea` over
the pointers. -/
theorem Load_addToGrid_f32_fold : ∀ (rs : List AreaRef) (m m1 : NavigationMap),
    rs.foldlM Load_addToGrid_f32 m = .ok m1 →
    AddNavAreas_f32 m.m_areas m.m_navAreaGrid rs = .ok (m1.m_areas, m1.m_navAreaGrid) := by
  intro rs
  induction rs with
  | nil =>
    intro m m1 h
    simp only [List.foldlM_nil, pure_eq_ok] at h
    subst h
    rfl
  | cons r rest ih =>
    intro m m1 h
    rw [List.foldlM_cons, bind_eq_ok] at h
    obtain ⟨m2, h1, h2⟩ := h
    unfold Load_addToGrid_f32 at h1
    simp only [bind_eq_ok, pure_eq_ok] at h1
    obtain ⟨⟨areas, grid⟩, hadd, rfl⟩ := h1
    have := ih _ m1 h2
    unfold AddNavAreas_f32 at this ⊢
    rw [List.foldlM_cons, bind_eq_ok]
    exact ⟨(areas, grid), hadd, this⟩

/-- In a store with the geometry of another one, the area behind a pointer has the
geometry of the area behind the same pointer there. -/
theorem geometry_getElem? {areas areas2 : List NavArea}
    (h : areas2.map NavArea.geometry = areas.map NavArea.geometry) {r : AreaRef} {a : NavArea}
    (ha : areas[r]? = some a) :
    ∃ a2, areas2[r]? = some a2 ∧ a2.geometry = a.geometry := by
  have := map_getElem?_eq NavArea.geometry h r
  rw [ha] at this
  cases h2 : areas2[r]? with
  | none => rw [h2] at this; simp at this
  | some a2 =>
    rw [h2] at this
    simp only [Option.map_some', Option.some.injEq] at this
    exact ⟨a2, rfl, this⟩

/-- The `float` quotient of `WorldToGridX` is computed for every coordinate between two
coordinates for which it is computed. -/
theorem WorldToGrid_quotient_f32_between {minW a b w qa qb : ℚ}
    (ha : NavAreaGrid.WorldToGrid_quotient_f32 minW a = .ok qa)
    (hb : NavAreaGrid.WorldToGrid_quotient_f32 minW b = .ok qb) (h1 : a ≤ w) (h2 : w ≤ b) :
    ∃ q, NavAreaGrid.WorldToGrid_quotient_f32 minW w = .ok q := by
  unfold NavAreaGrid.WorldToGrid_quotient_f32 at ha hb ⊢
  simp only [bind_eq_ok] at ha hb
  obtain ⟨da, hda, hqa⟩ := ha
  obtain ⟨db, hdb, hqb⟩ := hb
  unfold F32.sub at hda hdb
  obtain ⟨dw, hdw⟩ := ofReal_between hda hdb (show a - minW ≤ w - minW by linarith)
    (show w - minW ≤ b - minW by linarith)
  have hc : NavAreaGrid.m_cellSize ≠ 0 := by unfold NavAreaGrid.m_cellSize; norm_num
  have hc0 : (0 : ℚ) ≤ NavAreaGrid.m_cellSize := by unfold NavAreaGrid.m_cellSize; norm_num
  unfold F32.div at hqa hqb
  rw [if_neg hc] at hqa hqb
  obtain ⟨q, hq⟩ := ofReal_between hqa hqb
    (div_le_div_of_nonneg_right (ofReal_mono hda hdw (by linarith)) hc0)
    (div_le_div_of_nonneg_right (ofReal_mono hdw hdb (by linarith)) hc0)
  refine ⟨q, ?_⟩
  unfold F32.sub F32.div
  simp only [hdw, bind, Except.bind, if_neg hc, hq]

/-- `WorldToGridX` is computed for every coordinate between two coordinates for which
it is computed. -/
theorem WorldToGridX_f32_between {g : NavAreaGrid} {a b w : ℚ} {ca cb : Int}
    (ha : g.WorldToGridX_f32 a = .ok ca) (hb : g.WorldToGridX_f32 b = .ok cb)
    (h1 : a ≤ w) (h2 : w ≤ b) : ∃ c, g.WorldToGridX_f32 w = .ok c := by
  obtain ⟨qa, hqa, hia, _⟩ := WorldToGridX_f32_eq_ok ha
  obtain ⟨qb, hqb, hib, _⟩ := WorldToGridX_f32_eq_ok hb
  obtain ⟨q, hq⟩ := WorldToGrid_quotient_f32_between hqa hqb h1 h2
  have l1 := truncToInt_mono (WorldToGrid_quotient_f32_mono hqa hq h1)
  have l2 := truncToInt_mono (WorldToGrid_quotient_f32_mono hq hqb h2)
  exact ⟨_, WorldToGridX_f32_of_quotient hq ⟨le_trans hia.1 l1, lt_of_le_of_lt l2 hib.2⟩⟩

/-- `WorldToGridY` is computed for every coordinate between two coordinates for which
it is computed. -/
theorem WorldToGridY_f32_between {g : NavAreaGrid} {a b w : ℚ} {ca cb : Int}
    (ha : g.WorldToGridY_f32 a = .ok ca) (hb : g.WorldToGridY_f32 b = .ok cb)
    (h1 : a ≤ w) (h2 : w ≤ b) : ∃ c, g.WorldToGridY_f32 w = .ok c := by
  obtain ⟨qa, hqa, hia, _⟩ := WorldToGridY_f32_eq_ok ha
  obtain ⟨qb, hqb, hib, _⟩ := WorldToGridY_f32_eq_ok hb
  obtain ⟨q, hq⟩ := WorldToGrid_quotient_f32_between hqa hqb h1 h2
  have l1 := truncToInt_mono (WorldToGrid_quotient_f32_mono hqa hq h1)
  have l2 := truncToInt_mono (WorldToGrid_quotient_f32_mono hq hqb h2)
  exact ⟨_, WorldToGridY_f32_of_quotient hq ⟨le_trans hia.1 l1, lt_of_le_of_lt l2 hib.2⟩⟩

/-- A run of `AddNavArea` over the pointers `rs` that returns has computed the cells of
the corners of every area behind a pointer of `rs`. -/
theorem AddNavAreas_f32_corners : ∀ (rs : List AreaRef) (areas areas2 : List NavArea)
    (g g2 : NavAreaGrid) (cs : List (List AreaRef)), g.m_grid = some cs →
    AddNavAreas_f32 areas g rs = .ok (areas2, g2) →
    ∀ r ∈ rs, ∀ a, areas[r]? = some a →
      ∃ loX loY hiX hiY, g.WorldToGridX_f32 a.m_extent.lo.x = .ok loX ∧
        g.WorldToGridY_f32 a.m_extent.lo.y = .ok loY ∧
        g.WorldToGridX_f32 a.m_extent.hi.x = .ok hiX ∧
        g.WorldToGridY_f32 a.m_extent.hi.y = .ok hiY := by
  intro rs
  induction rs with
  | nil => intro _ _ _ _ _ _ _ r hr; cases hr
  | cons k rest ih =>
    intro areas areas2 g g2 cs hcs h r hr a ha
    unfold AddNavAreas_f32 at h
    rw [List.foldlM_cons, bind_eq_ok] at h
    obtain ⟨⟨areas1, g1⟩, h1, h2⟩ := h
    obtain ⟨ak, loX, loY, hiX, hiY, hak, hlx, hly, hhx, hhy, hgeo1, hpar1, cs1, hcs1, _⟩ :=
      AddNavArea_f32_eq_ok areas areas1 g g1 k cs hcs h1
    rcases List.mem_cons.mp hr with rfl | hr
    · rw [hak] at ha
      cases ha
      exact ⟨loX, loY, hiX, hiY, hlx, hly, hhx, hhy⟩
    · obtain ⟨a1, ha1, hg1⟩ := geometry_getElem? hgeo1 ha
      have hext : a1.m_extent = a.m_extent := congrArg (fun t => t.2.1) hg1
      obtain ⟨lx, ly, ux, uy, e1, e2, e3, e4⟩ := ih areas1 areas2 g1 g2 cs1 hcs1 h2 r hr a1 ha1
      rw [hext] at e1 e2 e3 e4
      rw [(WorldToGrid_f32_congr g g1 hpar1 _).1] at e1 e3
      rw [(WorldToGrid_f32_congr g g1 hpar1 _).2] at e2 e4
      exact ⟨lx, ly, ux, uy, e1, e2, e3, e4⟩

/-- A pass of the loop body of `GetNavArea` returns when the pointer is valid, the
height of an area under the probe is computed and `pos.z - beneathLimit` is finite. -/
theorem GetNavArea_step_f32_total (areas : List NavArea) (pos : Vector) (L top low : ℚ)
    (hlow : F32.sub pos.z L = .ok low) (st : Option AreaRef × ℚ) (r : AreaRef) (a : NavArea)
    (ha : areas[r]? = some a)
    (hfin : a.IsOverlapping pos = true → ∃ v, a.GetZ_f32 pos = .ok v) :
    ∃ st2, NavAreaGrid.GetNavArea_step_f32 areas pos ⟨pos.x, pos.y, top⟩ L st r = .ok st2 := by
  unfold NavAreaGrid.GetNavArea_step_f32
  simp only [deref_eq_ok.mpr ha, bind, Except.bind]
  rw [IsOverlapping_congr a ⟨pos.x, pos.y, top⟩ pos rfl rfl]
  by_cases hov : a.IsOverlapping pos = true
  · obtain ⟨v, hv⟩ := hfin hov
    rw [if_pos hov, GetZ_f32_congr a ⟨pos.x, pos.y, top⟩ pos rfl rfl, hv]
    simp only [hlow]
    by_cases h1 : v > top
    · rw [if_pos h1]; exact ⟨_, rfl⟩
    · rw [if_neg h1]
      by_cases h2 : v < low
      · rw [if_pos h2]; exact ⟨_, rfl⟩
      · rw [if_neg h2]
        by_cases h3 : v > st.2
        · rw [if_pos h3]; exact ⟨_, rfl⟩
        · rw [if_neg h3]; exact ⟨_, rfl⟩
  · rw [if_neg hov]; exact ⟨_, rfl⟩

/-- A monadic fold whose step returns at every element of the list returns. -/
theorem foldlM_total {σ ι : Type} (step : σ → ι → Run σ) :
    ∀ (l : List ι), (∀ s, ∀ r ∈ l, ∃ s2, step s r = .ok s2) →
      ∀ s, ∃ s2, l.foldlM step s = .ok s2 := by
  intro l
  induction l with
  | nil => intro _ s; exact ⟨s, rfl⟩
  | cons i rest ih =>
    intro h s
    obtain ⟨s1, h1⟩ := h s i (List.mem_cons_self _ _)
    obtain ⟨s2, h2⟩ := ih (fun t r hr => h t r (List.mem_cons_of_mem _ hr)) s1
    refine ⟨s2, ?_⟩
    rw [List.foldlM_cons, h1]
    exact h2

/-- A value that is a binary32 number does not exceed the `float` sum of it and 5. -/
theorem le_F32_add_five {z top : ℚ} (hz : F32.IsFloat z) (h : F32.add z 5 = .ok top) :
    z ≤ top := by
  rw [(ofReal_eq_ok h).1]
  have := round_mono (show z ≤ z + 5 by linarith)
  rw [IsFloat_round hz] at this
  exact this

/-- The `float` difference of a binary32 number and a non-negative value does not
exceed the number. -/
theorem F32_sub_le {z L low : ℚ} (hz : F32.IsFloat z) (hL : 0 ≤ L) (h : F32.sub z L = .ok low) :
    low ≤ z := by
  rw [(ofReal_eq_ok h).1]
  have := round_mono (show z - L ≤ z by linarith)
  rw [IsFloat_round hz] at this
  exact this

/-- Claim C2 fails as stated, in binary32 arithmetic: after loading the two stacked flat
areas, the probe at `(50, 50)` on the surface of area 1 (pointer 0, height 0 there)
makes `GetNavArea` return area 2 (pointer 1), whose height at `(50, 50)` is 3 and
not 0. -/
theorem C2_counterexample :
    (Load_f32 emptyHost (some stackedFile) (State.initial 0 0) >>= fun p =>
      deref p.2.mesh.m_areas 0 >>= fun a =>
        pure (a.IsOverlapping ⟨50, 50, 0⟩, a.GetZ_xy_f32 50 50)) = .ok (true, .ok 0) ∧
    (Load_f32 emptyHost (some stackedFile) (State.initial 0 0) >>= fun p =>
      p.2.mesh.GetNavArea_f32 ⟨50, 50, 0⟩) = .ok (some 1) ∧
    (Load_f32 emptyHost (some stackedFile) (State.initial 0 0) >>= fun p =>
      deref p.2.mesh.m_areas 1 >>= fun a2 => a2.GetZ_xy_f32 50 50) = .ok 3 := by
  refine ⟨?_, ?_, ?_⟩ <;> decide!

/-- Claim C2, amended, in binary32 arithmetic. On a map that `Load` has loaded, for
every area `a`, every `(x, y)` inside the XY rectangle of `a` and `z = a.GetZ(x, y)`, a
binary32 number above `-100000000`, such that the `float` values `z + 5` and `z - 120`
are finite and `GetZ(x, y)` is computed for every area whose rectangle contains
`(x, y)`: `GetNavArea((x, y, z))` returns an area (`a` or another one) whose XY
rectangle contains `(x, y)` and whose `GetZ` at `(x, y)` lies between `z` and the `float`
sum `z + 5`. -/
theorem C2_GetNavArea_on_surface_f32 (host : Host) (f : NavFile) (s : State) (b : Bool)
    (s2 : State) (h : Load_f32 host (some f) s = .ok (b, s2)) (i : AreaRef) (a : NavArea)
    (ha : s2.mesh.m_areas[i]? = some a) (x y z : ℚ)
    (hov : a.IsOverlapping ⟨x, y, z⟩ = true) (hz : a.GetZ_xy_f32 x y = .ok z)
    (hzf : F32.IsFloat z) (hfloor : -100000000 < z) (top low : ℚ)
    (htop : F32.add z 5 = .ok top) (hlow : F32.sub z 120 = .ok low)
    (hfin : ∀ (j : AreaRef) (c : NavArea), s2.mesh.m_areas[j]? = some c → c.IsOverlapping ⟨x, y, z⟩ = true →
      ∃ v, c.GetZ_xy_f32 x y = .ok v) :
    ∃ j a2 z2, s2.mesh.GetNavArea_f32 ⟨x, y, z⟩ = .ok (some j) ∧
      s2.mesh.m_areas[j]? = some a2 ∧ a2.IsOverlapping ⟨x, y, z⟩ = true ∧
      a2.GetZ_xy_f32 x y = .ok z2 ∧ z ≤ z2 ∧ z2 ≤ top := by
  obtain ⟨_, s0, st, m1, m2, hareas0, hfold, hgridphase, hval, hlad⟩ :=
    Load_f32_inv host f s b s2 h
  obtain ⟨hgeoA, _, _, hextA⟩ :=
    Load_areas_spec f.version f.areas (s0, Load_extent0_f32) st hfold
  dsimp only at hgeoA hextA
  rw [hareas0] at hgeoA
  simp only [List.map_nil, List.nil_append] at hgeoA
  have hsame : SameIndex m1 s2.mesh :=
    SameIndex.trans _ _ _
      (foldlM_preserves SameIndex SameIndex.refl SameIndex.trans Validate
        (fun p q c hc => Validate_same p c q hc) _ _ _ hval)
      (BuildLadders_same host m2 s2.mesh hlad)
  obtain ⟨hG, hC⟩ := hsame
  unfold Load_grid_f32 at hgridphase
  rw [bind_eq_ok] at hgridphase
  obtain ⟨g0, hinit, hadd⟩ := hgridphase
  have hfill := Load_addToGrid_f32_fold _ _ _ hadd
  dsimp only at hfill
  have hgeoF : s2.mesh.m_areas.map NavArea.geometry = m1.m_areas.map NavArea.geometry :=
    geometry_of_core hC
  obtain ⟨_, _, _, _, _, hgrid0⟩ := Initialize_f32_eq_ok _ g0 _ _ _ _ hinit
  have hcs0 := hgrid0
  have hlen : s2.mesh.m_areas.length = st.1.mesh.m_areas.length := by
    have h1 := congrArg List.length hgeoF
    have h2 := congrArg List.length ((AddNavAreas_f32_kept _ _ _ _ _ _ hcs0 hfill).1)
    simp only [List.length_map] at h1 h2
    omega
  have hkept := AddNavAreas_f32_kept _ _ _ _ _ _ hcs0 hfill
  obtain ⟨a1, ha1, hg1⟩ := geometry_getElem? hgeoF.symm ha
  obtain ⟨a0, ha0, hg0⟩ := geometry_getElem? hkept.1.symm ha1
  have hext0 : a0.m_extent = a.m_extent :=
    (congrArg (fun t => t.2.1) hg0).trans (congrArg (fun t => t.2.1) hg1)
  have hi0 : i < st.1.mesh.m_areas.length := (List.getElem?_eq_some_iff.mp ha0).1
  -- the total extent encloses the rectangle of `a`
  obtain ⟨r, hr, hgr⟩ : ∃ r, r ∈ f.areas ∧ r.extent = a.m_extent := by
    have h1 := congrArg (fun l => l[i]?) hgeoA
    simp only [List.getElem?_map, ha0, Option.map_some'] at h1
    cases hr : f.areas[i]? with
    | none => rw [hr] at h1; simp at h1
    | some r =>
      rw [hr] at h1
      simp only [Option.map_some', Option.some.injEq] at h1
      exact ⟨r, List.getElem?_mem hr,
        ((congrArg (fun t => t.2.1) h1).symm.trans hext0 : r.extent = a.m_extent)⟩
  have hcover := hextA r hr
  rw [hgr] at hcover
  have hov' := (IsOverlapping_iff a ⟨x, y, z⟩).mp hov
  dsimp only at hov'
  have hex : st.2.lo.x ≤ st.2.hi.x := by linarith [hcover.1, hcover.2.2.1, hov'.1.1, hov'.1.2]
  have hey : st.2.lo.y ≤ st.2.hi.y := by linarith [hcover.2.1, hcover.2.2.2, hov'.2.1, hov'.2.2]
  -- the cells of the probe are computed
  obtain ⟨loX, loY, hiX, hiY, e1, e2, e3, e4⟩ :=
    AddNavAreas_f32_corners _ _ _ _ _ _ hcs0 hfill i (List.mem_range.mpr hi0) a0 ha0
  rw [hext0] at e1 e2 e3 e4
  obtain ⟨cx, hcx0⟩ := WorldToGridX_f32_between e1 e3 hov'.1.1 hov'.1.2
  obtain ⟨cy, hcy0⟩ := WorldToGridY_f32_between e2 e4 hov'.2.1 hov'.2.2
  have hcx : m1.m_navAreaGrid.WorldToGridX_f32 x = .ok cx := by
    rw [(WorldToGrid_f32_congr g0 m1.m_navAreaGrid hkept.2 x).1]
    exact hcx0
  have hcy : m1.m_navAreaGrid.WorldToGridY_f32 y = .ok cy := by
    rw [(WorldToGrid_f32_congr g0 m1.m_navAreaGrid hkept.2 y).2]
    exact hcy0
  have hall := GetNavArea_f32_scans_all _ _ s2.mesh.m_areas _ g0 _ _ _ _ _ _ hex hey hinit hfill
    hgeoF ⟨x, y, z⟩ 120 cx cy hcx hcy
  -- the scan of all areas returns
  obtain ⟨stF, hscan⟩ := foldlM_total
    (NavAreaGrid.GetNavArea_step_f32 s2.mesh.m_areas ⟨x, y, z⟩ ⟨x, y, top⟩ 120)
    (List.range st.1.mesh.m_areas.length)
    (fun t q hq => by
      have hq2 : q < s2.mesh.m_areas.length := by
        rw [hlen]
        exact List.mem_range.mp hq
      exact GetNavArea_step_f32_total s2.mesh.m_areas ⟨x, y, z⟩ 120 top low hlow t q
        s2.mesh.m_areas[q] (List.getElem?_eq_getElem hq2)
        (fun hc => by
          obtain ⟨v, hv⟩ := hfin q _ (List.getElem?_eq_getElem hq2) hc
          exact ⟨v, by rw [GetZ_f32_congr _ ⟨x, y, z⟩ ⟨x, y, 0⟩ rfl rfl]; exact hv⟩))
    (none, NavAreaGrid.GetNavArea_useZ0_f32)
  have hret : s2.mesh.GetNavArea_f32 ⟨x, y, z⟩ = .ok stF.1 := by
    unfold NavigationMap.GetNavArea_f32
    rw [hG, hall]
    unfold GetNavArea_overAll_f32
    simp only [htop, hscan, bind, Except.bind, pure, Except.pure]
  -- the choice of the scan
  have hzp : a.GetZ_f32 ⟨x, y, z⟩ = .ok z := by
    rw [GetZ_f32_congr a ⟨x, y, z⟩ ⟨x, y, 0⟩ rfl rfl]
    exact hz
  have hztop : z ≤ top := le_F32_add_five hzf htop
  have hadm : Admissible_f32 s2.mesh.m_areas ⟨x, y, z⟩ 120 i z :=
    ⟨a, low, top, ha, hov, hzp, hlow, htop, F32_sub_le hzf (by norm_num) hlow, hztop⟩
  obtain ⟨_, hmax, hsel⟩ := selectMax_scan _ (Admissible_f32 s2.mesh.m_areas ⟨x, y, z⟩ 120)
    (Admissible_f32_unique s2.mesh.m_areas ⟨x, y, z⟩ 120)
    (GetNavArea_step_f32_spec s2.mesh.m_areas ⟨x, y, z⟩ 120 top htop) _ _ stF hscan
  have hzmax := hmax i (List.mem_range.mpr hi0) z hadm
  rcases hsel with rfl | ⟨j, _, he, ⟨a2, low2, top2, ha2, hov2, hz2, _, htop2, _, hle2⟩, _⟩
  · rw [GetNavArea_useZ0_f32_eq] at hzmax
    dsimp only at hzmax
    linarith
  · rw [htop] at htop2
    cases htop2
    refine ⟨j, a2, stF.2, ?_, ha2, hov2, ?_, hzmax, hle2⟩
    · rw [hret, he]
    · unfold NavArea.GetZ_xy_f32
      rw [← GetZ_f32_congr a2 ⟨x, y, z⟩ ⟨x, y, 0⟩ rfl rfl]
      exact hz2

/-- Claim C2, amended, at the two stacked flat areas: the probe `(50, 50, 0)` on the
surface of area 1 (pointer 0) gets area 2 (pointer 1), whose height 3 at `(50, 50)`
lies between 0 and 5. -/
theorem C2_GetNavArea_on_surface_f32_witness :
    ∃ (s2 : State) (a : NavArea),
      Load_f32 emptyHost (some stackedFile) (State.initial 0 0) = .ok (true, s2) ∧
      s2.mesh.m_areas[0]? = some a ∧ a.IsOverlapping ⟨50, 50, 0⟩ = true ∧
      a.GetZ_xy_f32 50 50 = .ok 0 ∧
      ∃ j a2 z2, s2.mesh.GetNavArea_f32 ⟨50, 50, 0⟩ = .ok (some j) ∧
        s2.mesh.m_areas[j]? = some a2 ∧ a2.IsOverlapping ⟨50, 50, 0⟩ = true ∧
        a2.GetZ_xy_f32 50 50 = .ok z2 ∧ 0 ≤ z2 ∧ z2 ≤ 5 := by
  obtain ⟨⟨b, s2⟩, hl⟩ := ok_of_toBool
    (show (Load_f32 emptyHost (some stackedFile) (State.initial 0 0)).toBool = true by decide!)
  have hb : b = true := (Load_f32_inv _ _ _ _ _ hl).1
  subst hb
  have hv : (Load_f32 emptyHost (some stackedFile) (State.initial 0 0)).map (fun p =>
      (p.2.mesh.m_areas.map (fun c => (c.IsOverlapping ⟨50, 50, 0⟩, c.GetZ_xy_f32 50 50))))
      = .ok [(true, .ok 0), (true, .ok 3)] := by
    decide!
  rw [hl] at hv
  simp only [Except.map, Except.ok.injEq] at hv
  have hlen : s2.mesh.m_areas.length = 2 := by
    have := congrArg List.length hv
    simpa using this
  have hget : ∀ (j : Nat) (c : NavArea), s2.mesh.m_areas[j]? = some c →
      c.IsOverlapping ⟨50, 50, 0⟩ = true ∧ ∃ v, c.GetZ_xy_f32 50 50 = .ok v := by
    intro j c hc
    have h1 := congrArg (fun l => l[j]?) hv
    simp only [List.getElem?_map, hc, Option.map_some'] at h1
    have hj : j < 2 := by
      rw [← hlen]
      exact (List.getElem?_eq_some_iff.mp hc).1
    have hj2 : j = 0 ∨ j = 1 := by omega
    rcases hj2 with rfl | rfl
    · simp only [List.getElem?_cons_zero, Option.some.injEq, Prod.mk.injEq] at h1
      exact ⟨h1.1, 0, h1.2⟩
    · simp only [List.getElem?_cons_succ, List.getElem?_cons_zero, Option.some.injEq,
        Prod.mk.injEq] at h1
      exact ⟨h1.1, 3, h1.2⟩
  have h0 : 0 < s2.mesh.m_areas.length := by omega
  have ha : s2.mesh.m_areas[0]? = some s2.mesh.m_areas[0] := List.getElem?_eq_getElem h0
  have hz0 : (s2.mesh.m_areas[0]).GetZ_xy_f32 50 50 = .ok 0 := by
    have h1 := congrArg (fun l => l[0]?) hv
    simp only [List.getElem?_map, ha, Option.map_some', List.getElem?_cons_zero,
      Option.some.injEq, Prod.mk.injEq] at h1
    exact h1.2
  exact ⟨s2, _, hl, ha, (hget 0 _ ha).1, hz0,
    C2_GetNavArea_on_surface_f32 emptyHost stackedFile (State.initial 0 0) true s2 hl 0 _ ha
      50 50 0 (hget 0 _ ha).1 hz0 (by decide!) (by norm_num) 5 (-120) (by decide!) (by decide!)
      (fun j c hc _ => (hget j c hc).2)⟩

/-! ### The layer that `GetGroundHeight` returns in binary32 arithmetic: claim C34 -/

theorem GetGroundHeight_pick_f32_cons (l0 l1 : GroundLayerInfo) (rest : List GroundLayerInfo)
    (i : Nat) :
    GetGroundHeight_pick_f32 (l0 :: l1 :: rest) i
      = F32.sub l1.ground l0.ground >>= fun gap =>
          if gap ≥ HalfHumanHeight then pure i
          else GetGroundHeight_pick_f32 (l1 :: rest) (i + 1) := rfl

/-- The index at which the selection loop of `GetGroundHeight` stops, counted from `i0`
on a list of layers that is not empty and whose gaps are finite: it is an index of the
list; no `float` gap before it reaches 36; and either the `float` gap above it reaches
36 or it is the last index. -/
theorem GetGroundHeight_pick_f32_spec :
    ∀ (layers : List GroundLayerInfo) (i0 : Nat), layers ≠ [] →
      (∀ j l0 l1, layers[j]? = some l0 → layers[j + 1]? = some l1 →
        ∃ gap, F32.sub l1.ground l0.ground = .ok gap) →
      ∃ i l, GetGroundHeight_pick_f32 layers i0 = .ok (i0 + i) ∧ layers[i]? = some l ∧
        (∀ j l0 l1 gap, j < i → layers[j]? = some l0 → layers[j + 1]? = some l1 →
          F32.sub l1.ground l0.ground = .ok gap → gap < HalfHumanHeight) ∧
        ((∃ l1 gap, layers[i + 1]? = some l1 ∧ F32.sub l1.ground l.ground = .ok gap ∧
            gap ≥ HalfHumanHeight) ∨ i + 1 = layers.length) := by
  intro layers
  induction layers with
  | nil => intro _ h; exact absurd rfl h
  | cons l0 rest ih =>
    intro i0 _ hfin
    cases rest with
    | nil =>
      refine ⟨0, l0, rfl, rfl, ?_, Or.inr rfl⟩
      intro j _ _ _ hj
      exact absurd hj (Nat.not_lt_zero j)
    | cons l1 rest2 =>
      obtain ⟨gap, hgap⟩ := hfin 0 l0 l1 (by simp) (by simp)
      by_cases hge : gap ≥ HalfHumanHeight
      · refine ⟨0, l0, ?_, rfl, ?_, Or.inl ⟨l1, gap, by simp, hgap, hge⟩⟩
        · rw [GetGroundHeight_pick_f32_cons, hgap]
          show (if gap ≥ HalfHumanHeight then pure i0
            else GetGroundHeight_pick_f32 (l1 :: rest2) (i0 + 1)) = _
          rw [if_pos hge]
          rfl
        · intro j _ _ _ hj
          exact absurd hj (Nat.not_lt_zero j)
      · obtain ⟨i, l, hpick, hl, hbefore, hstop⟩ := ih (i0 + 1) (List.cons_ne_nil _ _)
          (fun j a b ha hb => hfin (j + 1) a b (by rw [List.getElem?_cons_succ]; exact ha)
            (by rw [List.getElem?_cons_succ]; exact hb))
        refine ⟨i + 1, l, ?_, by rw [List.getElem?_cons_succ]; exact hl, ?_, ?_⟩
        · rw [GetGroundHeight_pick_f32_cons, hgap]
          show (if gap ≥ HalfHumanHeight then pure i0
            else GetGroundHeight_pick_f32 (l1 :: rest2) (i0 + 1)) = _
          rw [if_neg hge, hpick]
          congr 1
          omega
        · intro j a b g hj ha hb hg
          cases j with
          | zero =>
            simp only [List.getElem?_cons_zero, Option.some.injEq, zero_add,
              List.getElem?_cons_succ] at ha hb
            subst ha
            subst hb
            rw [hgap] at hg
            cases hg
            exact not_le.mp hge
          | succ j2 =>
            rw [List.getElem?_cons_succ] at ha hb
            exact hbefore j2 a b g (Nat.lt_of_succ_lt_succ hj) ha hb hg
        · rcases hstop with ⟨l2, g2, h2, hg2, hge2⟩ | hlast
          · exact Or.inl ⟨l2, g2, by rw [List.getElem?_cons_succ]; exact h2, hg2, hge2⟩
          · right
            simp only [List.length_cons] at hlast ⊢
            omega

theorem GetGroundHeight_depth_f32_eq : GetGroundHeight_depth_f32 = 9999.900390625 := by
  decide!

/-- Claim C34 fails as stated, in binary32 arithmetic. In the world of a floor at the
height `0.1f` with a platform at the height `36.099998f`, at the position `(10, 20, 0)`,
the casts record the two layers; their exact difference `4831838003 / 2^27` lies below
36, so that the claim asks for the height of the last layer, while the `float`
difference is rounded to 36 and `GetGroundHeight` returns the height `0.1f` of the lower
layer. -/
theorem C34_counterexample :
    (F32.sub 0 GetGroundHeight_depth_f32 >>= fun z =>
      GetGroundHeight_scan_f32 (ledgeHost (F32.round (1 / 10)) (F32.round 36.099998))
        ⟨10, 20, 0⟩ ⟨10, 20, z⟩ GetGroundHeight_offsets none [])
      = .ok [⟨F32.round (1 / 10), ⟨0, 0, 1⟩⟩, ⟨F32.round 36.099998, ⟨0, 0, 1⟩⟩] ∧
    F32.round 36.099998 - F32.round (1 / 10) = 4831838003 / 2 ^ 27 ∧
    (4831838003 / 2 ^ 27 : ℚ) < 36 ∧
    F32.sub (F32.round 36.099998) (F32.round (1 / 10)) = .ok 36 ∧
    GetGroundHeight_f32 (ledgeHost (F32.round (1 / 10)) (F32.round 36.099998)) ⟨10, 20, 0⟩
      = .ok (some (F32.round (1 / 10), ⟨0, 0, 1⟩)) := by
  refine ⟨?_, ?_, ?_, ?_, ?_⟩ <;> decide!

/-- Claim C34, amended, in binary32 arithmetic. With `layers` the ground layers that the
downward casts of `GetGroundHeight` record, whose differences are finite `float`
values: the function returns false (no height) exactly when `layers` is empty, and
otherwise the ground height, and the normal, of the layer `i` that is the lowest whose
`float` difference `layers[i+1].ground - layers[i].ground` is at least 36, or the last
layer when no `float` difference reaches 36. -/
theorem C34_GetGroundHeight_layer_f32 (host : Host) (pos : Vector) (z : ℚ)
    (layers : List GroundLayerInfo)
    (hz : F32.sub pos.z GetGroundHeight_depth_f32 = .ok z)
    (hscan : GetGroundHeight_scan_f32 host pos ⟨pos.x, pos.y, z⟩
      GetGroundHeight_offsets none [] = .ok layers)
    (hfin : ∀ j l0 l1, layers[j]? = some l0 → layers[j + 1]? = some l1 →
      ∃ gap, F32.sub l1.ground l0.ground = .ok gap) :
    (∃ res, GetGroundHeight_f32 host pos = .ok res ∧ (res = none ↔ layers = [])) ∧
    (layers ≠ [] → ∃ i l, layers[i]? = some l ∧
      GetGroundHeight_f32 host pos = .ok (some (l.ground, l.normal)) ∧
      (∀ j l0 l1 gap, j < i → layers[j]? = some l0 → layers[j + 1]? = some l1 →
        F32.sub l1.ground l0.ground = .ok gap → gap < 36) ∧
      ((∃ l1 gap, layers[i + 1]? = some l1 ∧ F32.sub l1.ground l.ground = .ok gap ∧
          gap ≥ 36) ∨ i + 1 = layers.length)) := by
  have hne : layers ≠ [] → ∃ i l, layers[i]? = some l ∧
      GetGroundHeight_f32 host pos = .ok (some (l.ground, l.normal)) ∧
      (∀ j l0 l1 gap, j < i → layers[j]? = some l0 → layers[j + 1]? = some l1 →
        F32.sub l1.ground l0.ground = .ok gap → gap < 36) ∧
      ((∃ l1 gap, layers[i + 1]? = some l1 ∧ F32.sub l1.ground l.ground = .ok gap ∧
          gap ≥ 36) ∨ i + 1 = layers.length) := by
    intro h
    obtain ⟨i, l, hpick, hl, hbefore, hstop⟩ := GetGroundHeight_pick_f32_spec layers 0 h hfin
    rw [zero_add] at hpick
    refine ⟨i, l, hl, ?_, hbefore, hstop⟩
    have hlen : ¬ layers.length = 0 := fun h0 => h (List.length_eq_zero.mp h0)
    unfold GetGroundHeight_f32
    simp only [hz, hscan, bind, Except.bind, if_neg hlen, hpick, hl, pure, Except.pure]
  refine ⟨?_, hne⟩
  by_cases h : layers = []
  · refine ⟨none, ?_, by simp [h]⟩
    unfold GetGroundHeight_f32
    simp only [hz, hscan, bind, Except.bind, h, List.length_nil, if_true, pure, Except.pure]
  · obtain ⟨i, l, _, hres, _⟩ := hne h
    exact ⟨_, hres, by simp [h]⟩

/-- Claim C34, amended, in the world of a floor at the height 0 with a platform at the
height 40, at the position `(10, 20, 0)`: the casts record the layers 0 and 40, whose
`float` difference reaches 36, and `GetGroundHeight` returns the height 0 of the lower
one; with the platform at the height 30 the difference does not reach 36 and the height
30 of the last layer is returned. -/
theorem C34_GetGroundHeight_layer_f32_witness :
    GetGroundHeight_scan_f32 (shelfHost 40) ⟨10, 20, 0⟩ ⟨10, 20, -9999.900390625⟩
      GetGroundHeight_offsets none [] = .ok [⟨0, ⟨0, 0, 1⟩⟩, ⟨40, ⟨0, 0, 1⟩⟩] ∧
    (∃ (i : Nat) (l : GroundLayerInfo),
      [(⟨0, ⟨0, 0, 1⟩⟩ : GroundLayerInfo), ⟨40, ⟨0, 0, 1⟩⟩][i]? = some l ∧
      GetGroundHeight_f32 (shelfHost 40) ⟨10, 20, 0⟩ = .ok (some (l.ground, l.normal))) ∧
    GetGroundHeight_f32 (shelfHost 40) ⟨10, 20, 0⟩ = .ok (some (0, ⟨0, 0, 1⟩)) ∧
    GetGroundHeight_f32 (shelfHost 30) ⟨10, 20, 0⟩ = .ok (some (30, ⟨0, 0, 1⟩)) := by
  have hscan : GetGroundHeight_scan_f32 (shelfHost 40) ⟨10, 20, 0⟩ ⟨10, 20, -9999.900390625⟩
      GetGroundHeight_offsets none [] = .ok [⟨0, ⟨0, 0, 1⟩⟩, ⟨40, ⟨0, 0, 1⟩⟩] := by decide!
  obtain ⟨i, l, hl, hres, _, _⟩ :=
    (C34_GetGroundHeight_layer_f32 (shelfHost 40) ⟨10, 20, 0⟩ (-9999.900390625) _ (by decide!)
      hscan (by
        intro j l0 l1 h0 h1
        have hj : j = 0 := by
          have := (List.getElem?_eq_some_iff.mp h1).1
          simp only [List.length_cons, List.length_nil] at this
          omega
        subst hj
        simp only [List.getElem?_cons_zero, Option.some.injEq, zero_add,
          List.getElem?_cons_succ] at h0 h1
        subst h0
        subst h1
        exact ⟨40, by decide!⟩)).2 (List.cons_ne_nil _ _)
  exact ⟨hscan, ⟨i, l, hl, hres⟩, by decide!, by decide!⟩

/-! ### The probes of `FindFirstAreaInDirection` in binary32 arithmetic: claim C35 -/

theorem probe_f32_succ (start : Vector) (dir : NavDirType) (k : Nat) :
    FindFirstAreaInDirection_probe_f32 start dir (k + 1)
      = FindFirstAreaInDirection_probe_f32 start dir k >>= fun p =>
          AddDirectionVector_f32 p dir GenerationStepSize := rfl

/-- One step of `AddDirectionVector` from a position of the probe sequence leads to the
next one. -/
theorem probe_f32_step (start : Vector) (dir : NavDirType) (P : Nat → Vector) (k : Nat)
    (h0 : FindFirstAreaInDirection_probe_f32 start dir k = .ok (P k))
    (h1 : FindFirstAreaInDirection_probe_f32 start dir (k + 1) = .ok (P (k + 1))) :
    AddDirectionVector_f32 (P k) dir GenerationStepSize = .ok (P (k + 1)) := by
  rw [probe_f32_succ, h0] at h1
  exact h1

/-- One round of the loop of `FindFirstAreaInDirection` from a position whose
successor is defined. -/
theorem FindFirstAreaInDirection_loop_f32_succ (host : Host) (m : NavigationMap)
    (start : Vector) (dir : NavDirType) (beneathLimit : ℚ) (traceIgnore : Option EdictRef)
    (steps : Nat) (p p2 : Vector) (h : AddDirectionVector_f32 p dir GenerationStepSize = .ok p2) :
    FindFirstAreaInDirection_loop_f32 host m start dir beneathLimit traceIgnore (steps + 1) p
      = if (UTIL_TraceLine host start p2 ignore_monsters traceIgnore).flFraction ≠ 1
        then .ok none
        else m.m_navAreaGrid.GetNavArea_f32 m.m_areas p2 beneathLimit >>= fun r =>
          match r with
          | some area => .ok (some area)
          | none => FindFirstAreaInDirection_loop_f32 host m start dir beneathLimit traceIgnore
              steps p2 := by
  show (AddDirectionVector_f32 p dir GenerationStepSize >>= fun pos =>
      if (UTIL_TraceLine host start pos ignore_monsters traceIgnore).flFraction ≠ 1
      then pure none
      else m.m_navAreaGrid.GetNavArea_f32 m.m_areas pos beneathLimit >>= fun r =>
        match r with
        | some area => pure (some area)
        | none => FindFirstAreaInDirection_loop_f32 host m start dir beneathLimit traceIgnore
            steps pos) = _
  rw [h]
  rfl

/-- The loop of `FindFirstAreaInDirection` from the position `P k0` with `steps` rounds
to go, up to a round `k` that ends the search. -/
theorem FindFirstAreaInDirection_loop_f32_stop (host : Host) (m : NavigationMap)
    (start : Vector) (dir : NavDirType) (beneathLimit : ℚ) (traceIgnore : Option EdictRef)
    (P : Nat → Vector) :
    ∀ (steps k0 k : Nat), k0 < k → k ≤ k0 + steps →
      (∀ j, k0 ≤ j → j < k →
        AddDirectionVector_f32 (P j) dir GenerationStepSize = .ok (P (j + 1))) →
      (∀ j, k0 < j → j < k →
        (UTIL_TraceLine host start (P j) ignore_monsters traceIgnore).flFraction = 1 ∧
        m.m_navAreaGrid.GetNavArea_f32 m.m_areas (P j) beneathLimit = .ok none) →
      ((UTIL_TraceLine host start (P k) ignore_monsters traceIgnore).flFraction ≠ 1 →
        FindFirstAreaInDirection_loop_f32 host m start dir beneathLimit traceIgnore steps
          (P k0) = .ok none) ∧
      ((UTIL_TraceLine host start (P k) ignore_monsters traceIgnore).flFraction = 1 →
        ∀ a, m.m_navAreaGrid.GetNavArea_f32 m.m_areas (P k) beneathLimit = .ok (some a) →
          FindFirstAreaInDirection_loop_f32 host m start dir beneathLimit traceIgnore steps
            (P k0) = .ok (some a)) := by
  intro steps
  induction steps with
  | zero =>
    intro k0 k h1 h2
    omega
  | succ steps ih =>
    intro k0 k h1 h2 hP hclear
    have hstep := hP k0 (le_refl _) h1
    by_cases hk : k = k0 + 1
    · subst hk
      constructor
      · intro hray
        rw [FindFirstAreaInDirection_loop_f32_succ _ _ _ _ _ _ _ _ _ hstep, if_pos hray]
      · intro hray a ha
        rw [FindFirstAreaInDirection_loop_f32_succ _ _ _ _ _ _ _ _ _ hstep,
          if_neg (not_not.mpr hray), ha]
        rfl
    · obtain ⟨hr, hn⟩ := hclear (k0 + 1) (Nat.lt_succ_self _) (by omega)
      obtain ⟨g1, g2⟩ := ih (k0 + 1) k (by omega) (by omega)
        (fun j hj1 hj2 => hP j (by omega) hj2) (fun j hj1 hj2 => hclear j (by omega) hj2)
      constructor
      · intro hray
        rw [FindFirstAreaInDirection_loop_f32_succ _ _ _ _ _ _ _ _ _ hstep,
          if_neg (not_not.mpr hr), hn]
        exact g1 hray
      · intro hray a ha
        rw [FindFirstAreaInDirection_loop_f32_succ _ _ _ _ _ _ _ _ _ hstep,
          if_neg (not_not.mpr hr), hn]
        exact g2 hray a ha

/-- The loop of `FindFirstAreaInDirection` from the position `P k0` when all of its
`steps` rounds find a clear ray and no area. -/
theorem FindFirstAreaInDirection_loop_f32_none (host : Host) (m : NavigationMap)
    (start : Vector) (dir : NavDirType) (beneathLimit : ℚ) (traceIgnore : Option EdictRef)
    (P : Nat → Vector) :
    ∀ (steps k0 : Nat),
      (∀ j, k0 ≤ j → j < k0 + steps →
        AddDirectionVector_f32 (P j) dir GenerationStepSize = .ok (P (j + 1))) →
      (∀ j, k0 < j → j ≤ k0 + steps →
        (UTIL_TraceLine host start (P j) ignore_monsters traceIgnore).flFraction = 1 ∧
        m.m_navAreaGrid.GetNavArea_f32 m.m_areas (P j) beneathLimit = .ok none) →
      FindFirstAreaInDirection_loop_f32 host m start dir beneathLimit traceIgnore steps
        (P k0) = .ok none := by
  intro steps
  induction steps with
  | zero => intro k0 _ _; rfl
  | succ steps ih =>
    intro k0 hP hclear
    have hstep := hP k0 (le_refl _) (by omega)
    obtain ⟨hr, hn⟩ := hclear (k0 + 1) (Nat.lt_succ_self _) (by omega)
    rw [FindFirstAreaInDirection_loop_f32_succ _ _ _ _ _ _ _ _ _ hstep,
      if_neg (not_not.mpr hr), hn]
    exact ih (k0 + 1) (fun j hj1 hj2 => hP j (by omega) (by omega))
      (fun j hj1 hj2 => hclear j (by omega) (by omega))

/-- A step of `AddDirectionVector` by `GenerationStepSize` from an exact probe position
leads to the next exact probe position when the coordinates of that position are
binary32 numbers. -/
theorem probe_f32_exact_step (start : Vector) (dir : NavDirType) (k : Nat)
    (hx : F32.IsFloat (FindFirstAreaInDirection_probe start dir (k + 1)).x)
    (hy : F32.IsFloat (FindFirstAreaInDirection_probe start dir (k + 1)).y) :
    AddDirectionVector_f32 (FindFirstAreaInDirection_probe start dir k) dir GenerationStepSize
      = .ok (FindFirstAreaInDirection_probe start dir (k + 1)) := by
  have h : ∀ n : Nat,
      F32.IsFloat (FindFirstAreaInDirection_probe start n (k + 1)).x →
      F32.IsFloat (FindFirstAreaInDirection_probe start n (k + 1)).y →
      AddDirectionVector_f32 (FindFirstAreaInDirection_probe start n k) n GenerationStepSize
        = .ok (FindFirstAreaInDirection_probe start n (k + 1)) := by
    intro n
    rcases n with _ | _ | _ | _ | n
    · intro _ hy
      have e : (FindFirstAreaInDirection_probe start 0 k).y - GenerationStepSize
          = (FindFirstAreaInDirection_probe start 0 (k + 1)).y := by
        simp only [FindFirstAreaInDirection_probe, DirectionToVector2D, GenerationStepSize]
        push_cast
        ring
      have hs : F32.sub (FindFirstAreaInDirection_probe start 0 k).y GenerationStepSize
          = .ok (FindFirstAreaInDirection_probe start 0 (k + 1)).y := by
        unfold F32.sub
        rw [e]
        exact hy
      simp only [AddDirectionVector_f32, hs, bind, Except.bind, pure, Except.pure]
      congr 1
      simp only [FindFirstAreaInDirection_probe, DirectionToVector2D, Vector.mk.injEq,
        GenerationStepSize]
      refine ⟨?_, trivial, trivial⟩
      push_cast
      ring
    · intro hx _
      have e : (FindFirstAreaInDirection_probe start 1 k).x + GenerationStepSize
          = (FindFirstAreaInDirection_probe start 1 (k + 1)).x := by
        simp only [FindFirstAreaInDirection_probe, DirectionToVector2D, GenerationStepSize]
        push_cast
        ring
      have hs : F32.add (FindFirstAreaInDirection_probe start 1 k).x GenerationStepSize
          = .ok (FindFirstAreaInDirection_probe start 1 (k + 1)).x := by
        unfold F32.add
        rw [e]
        exact hx
      simp only [AddDirectionVector_f32, hs, bind, Except.bind, pure, Except.pure]
      congr 1
      simp only [FindFirstAreaInDirection_probe, DirectionToVector2D, Vector.mk.injEq,
        GenerationStepSize]
      refine ⟨trivial, ?_, trivial⟩
      push_cast
      ring
    · intro _ hy
      have e : (FindFirstAreaInDirection_probe start 2 k).y + GenerationStepSize
          = (FindFirstAreaInDirection_probe start 2 (k + 1)).y := by
        simp only [FindFirstAreaInDirection_probe, DirectionToVector2D, GenerationStepSize]
        push_cast
        ring
      have hs : F32.add (FindFirstAreaInDirection_probe start 2 k).y GenerationStepSize
          = .ok (FindFirstAreaInDirection_probe start 2 (k + 1)).y := by
        unfold F32.add
        rw [e]
        exact hy
      simp only [AddDirectionVector_f32, hs, bind, Except.bind, pure, Except.pure]
      congr 1
      simp only [FindFirstAreaInDirection_probe, DirectionToVector2D, Vector.mk.injEq,
        GenerationStepSize]
      refine ⟨?_, trivial, trivial⟩
      push_cast
      ring
    · intro hx _
      have e : (FindFirstAreaInDirection_probe start 3 k).x - GenerationStepSize
          = (FindFirstAreaInDirection_probe start 3 (k + 1)).x := by
        simp only [FindFirstAreaInDirection_probe, DirectionToVector2D, GenerationStepSize]
        push_cast
        ring
      have hs : F32.sub (FindFirstAreaInDirection_probe start 3 k).x GenerationStepSize
          = .ok (FindFirstAreaInDirection_probe start 3 (k + 1)).x := by
        unfold F32.sub
        rw [e]
        exact hx
      simp only [AddDirectionVector_f32, hs, bind, Except.bind, pure, Except.pure]
      congr 1
      simp only [FindFirstAreaInDirection_probe, DirectionToVector2D, Vector.mk.injEq,
        GenerationStepSize]
      refine ⟨trivial, ?_, trivial⟩
      push_cast
      ring
    · intro _ _
      simp only [AddDirectionVector_f32, pure, Except.pure, FindFirstAreaInDirection_probe,
        DirectionToVector2D, Except.ok.injEq, Vector.mk.injEq]
      refine ⟨?_, ?_, trivial⟩ <;> ring
  exact h dir hx hy

/-- The probe positions in binary32 arithmetic are the exact positions
`start + k * 25 * unit(dir)` as long as the coordinates of these are binary32
numbers. -/
theorem probe_f32_exact (start : Vector) (dir : NavDirType) :
    ∀ k : Nat, (∀ j, 1 ≤ j → j ≤ k →
        F32.IsFloat (FindFirstAreaInDirection_probe start dir j).x ∧
        F32.IsFloat (FindFirstAreaInDirection_probe start dir j).y) →
      FindFirstAreaInDirection_probe_f32 start dir k
        = .ok (FindFirstAreaInDirection_probe start dir k) := by
  intro k
  induction k with
  | zero =>
    intro _
    rw [probe_zero]
    rfl
  | succ k ih =>
    intro h
    rw [probe_f32_succ, ih (fun j h1 h2 => h j h1 (by omega))]
    obtain ⟨hx, hy⟩ := h (k + 1) (by omega) (le_refl _)
    exact probe_f32_exact_step start dir k hx hy

/-- Claim C35 fails as stated, in binary32 arithmetic. For the range
`13107199 / 2^20` (the binary32 number of `12.499999`) the exact value of
`range / 25 + 0.5` lies below 1 and its floor is 0, so that the claim allows no probe and
asks for none; the `float` quotient is rounded to `0.5 - 2^-25` and the `float` sum to 1,
the loop runs once, and `FindFirstAreaInDirection` from `(-10, 50, 5)` to the east
returns the area that `GetNavArea` finds at the first position `(15, 50, 5)`. -/
theorem C35_counterexample :
    F32.IsFloat (13107199 / 2 ^ 20) ∧
    ⌊(13107199 / 2 ^ 20 : ℚ) / 25 + 1 / 2⌋.toNat = 0 ∧
    FindFirstAreaInDirection_end_f32 (13107199 / 2 ^ 20) = .ok 1 ∧
    FindFirstAreaInDirection_f32 emptyHost stackedMap ⟨-10, 50, 5⟩ EAST (13107199 / 2 ^ 20)
      120 none = .ok (some 1) := by
  refine ⟨?_, ?_, ?_, ?_⟩ <;> decide!

/-- Claim C35, amended, in binary32 arithmetic. With `n` the `float` value
`range / 25 + 0.5` (quotient and sum rounded to binary32) converted to `int`,
`FindFirstAreaInDirection` probes the positions `P 1, ..., P n` in this order, where
`P k` is `start` after `k` calls of `AddDirectionVector` by 25 in `float`. At the first
`k` at which the ray from `start` to the position does not arrive (fraction other than
1) it returns none; at the first `k` at which the ray arrives and
`GetNavArea(position, beneathLimit)` is an area it returns that area; when all rays
arrive and no position has an area it returns none. The positions are the exact
`start + k * 25 * unit(dir)` as long as the coordinates of these are binary32 numbers.
There are 3 probes for the range 75 and 6 for the range 150. -/
theorem C35_FindFirstAreaInDirection_probes_f32 (host : Host) (m : NavigationMap)
    (start : Vector) (dir : NavDirType) (range beneathLimit : ℚ)
    (traceIgnore : Option EdictRef) (n : Int) (P : Nat → Vector)
    (hend : FindFirstAreaInDirection_end_f32 range = .ok n) (h0 : P 0 = start) :
    (∀ k, 1 ≤ k → k ≤ n.toNat →
      (∀ j, j ≤ k → FindFirstAreaInDirection_probe_f32 start dir j = .ok (P j)) →
      (∀ j, 1 ≤ j → j < k →
        (UTIL_TraceLine host start (P j) ignore_monsters traceIgnore).flFraction = 1 ∧
        m.m_navAreaGrid.GetNavArea_f32 m.m_areas (P j) beneathLimit = .ok none) →
      ((UTIL_TraceLine host start (P k) ignore_monsters traceIgnore).flFraction ≠ 1 →
        FindFirstAreaInDirection_f32 host m start dir range beneathLimit traceIgnore
          = .ok none) ∧
      ((UTIL_TraceLine host start (P k) ignore_monsters traceIgnore).flFraction = 1 →
        ∀ a, m.m_navAreaGrid.GetNavArea_f32 m.m_areas (P k) beneathLimit = .ok (some a) →
          FindFirstAreaInDirection_f32 host m start dir range beneathLimit traceIgnore
            = .ok (some a))) ∧
    ((∀ j, j ≤ n.toNat → FindFirstAreaInDirection_probe_f32 start dir j = .ok (P j)) →
      (∀ j, 1 ≤ j → j ≤ n.toNat →
        (UTIL_TraceLine host start (P j) ignore_monsters traceIgnore).flFraction = 1 ∧
        m.m_navAreaGrid.GetNavArea_f32 m.m_areas (P j) beneathLimit = .ok none) →
      FindFirstAreaInDirection_f32 host m start dir range beneathLimit traceIgnore = .ok none) ∧
    (∀ k : Nat, (∀ j, 1 ≤ j → j ≤ k →
        F32.IsFloat (FindFirstAreaInDirection_probe start dir j).x ∧
        F32.IsFloat (FindFirstAreaInDirection_probe start dir j).y) →
      FindFirstAreaInDirection_probe_f32 start dir k
        = .ok (FindFirstAreaInDirection_probe start dir k)) ∧
    FindFirstAreaInDirection_end_f32 75 = .ok 3 ∧
    FindFirstAreaInDirection_end_f32 150 = .ok 6 := by
  have hfind : FindFirstAreaInDirection_f32 host m start dir range beneathLimit traceIgnore
      = FindFirstAreaInDirection_loop_f32 host m start dir beneathLimit traceIgnore
          n.toNat (P 0) := by
    unfold FindFirstAreaInDirection_f32
    rw [hend, h0]
    rfl
  rw [hfind]
  refine ⟨?_, ?_, probe_f32_exact start dir, by decide!, by decide!⟩
  · intro k hk1 hk2 hP hclear
    exact FindFirstAreaInDirection_loop_f32_stop host m start dir beneathLimit traceIgnore P
      n.toNat 0 k (by omega) (by omega)
      (fun j _ hj => probe_f32_step start dir P j (hP j (by omega)) (hP (j + 1) (by omega)))
      (fun j hj1 hj2 => hclear j hj1 hj2)
  · intro hP hclear
    exact FindFirstAreaInDirection_loop_f32_none host m start dir beneathLimit traceIgnore P
      n.toNat 0
      (fun j _ hj => probe_f32_step start dir P j (hP j (by omega)) (hP (j + 1) (by omega)))
      (fun j hj1 hj2 => hclear j (by omega) (by omega))

/-- Claim C35, amended, at the two stacked flat areas over `(0,0)-(100,100)`, from the
start `(-40, 50, 5)` to the east with the range 75: the loop has 3 rounds, the first
position `(-15, 50, 5)` has no area, and the second position `(10, 50, 5)` has the upper
area, which is returned. -/
theorem C35_FindFirstAreaInDirection_probes_f32_witness :
    FindFirstAreaInDirection_end_f32 75 = .ok 3 ∧
    FindFirstAreaInDirection_probe_f32 ⟨-40, 50, 5⟩ EAST 2 = .ok ⟨10, 50, 5⟩ ∧
    FindFirstAreaInDirection_f32 emptyHost stackedMap ⟨-40, 50, 5⟩ EAST 75 120 none
      = .ok (some 1) :=
  ⟨by decide!, by decide!,
    ((C35_FindFirstAreaInDirection_probes_f32 emptyHost stackedMap ⟨-40, 50, 5⟩ EAST 75 120
        none 3 (fun j => ⟨-40 + 25 * (j : ℚ), 50, 5⟩) (by decide!) (by norm_num)).1 2
        (by decide) (by decide)
      (fun j hj => by
        have h : j = 0 ∨ j = 1 ∨ j = 2 := by omega
        rcases h with rfl | rfl | rfl <;> decide!)
      (fun j h1 h2 => by
        obtain rfl : j = 1 := by omega
        exact ⟨by decide!, by decide!⟩)).2 (by decide!) 1 (by decide!)⟩

/-! ### The nearest area in binary32 arithmetic: claim C24 -/

/-- A scan that keeps the element of the least value below the start value: the final
value is at most the start value and at most the value of every admissible element of
the list, and a changed state names an admissible element of the list with its
value. -/
theorem selectMin_scan {ι : Type} (step : Option ι × ℚ → ι → Run (Option ι × ℚ))
    (Adm : ι → ℚ → Prop) (huniq : ∀ r z z2, Adm r z → Adm r z2 → z2 = z)
    (hstep : ∀ st st2 r, step st r = .ok st2 →
      (∃ z, Adm r z ∧ z < st.2 ∧ st2 = (some r, z)) ∨ (st2 = st ∧ ∀ z, Adm r z → st.2 ≤ z)) :
    ∀ (list : List ι) (st st2 : Option ι × ℚ), list.foldlM step st = .ok st2 →
      st2.2 ≤ st.2 ∧ (∀ r ∈ list, ∀ z, Adm r z → st2.2 ≤ z) ∧
      (st2 = st ∨ ∃ r ∈ list, st2 = (some r, st2.2) ∧ Adm r st2.2 ∧ st2.2 < st.2) := by
  intro list
  induction list with
  | nil =>
    intro st st2 h
    simp only [List.foldlM_nil, pure, Except.pure, Except.ok.injEq] at h
    subst h
    exact ⟨le_rfl, by simp, Or.inl rfl⟩
  | cons r rest ih =>
    intro st st2 h
    rw [List.foldlM_cons, bind_eq_ok] at h
    obtain ⟨st1, hs, h⟩ := h
    obtain ⟨hmono, hmin, hsel⟩ := ih st1 st2 h
    rcases hstep st st1 r hs with ⟨z, hadm, hlt, rfl⟩ | ⟨rfl, hnot⟩
    · refine ⟨le_trans hmono hlt.le, ?_, ?_⟩
      · intro q hq z2 hz2
        rcases List.mem_cons.mp hq with rfl | hq
        · rw [huniq _ _ _ hadm hz2]
          exact hmono
        · exact hmin q hq z2 hz2
      · right
        rcases hsel with rfl | ⟨q, hq, he, hadm2, hlt2⟩
        · exact ⟨_, List.mem_cons_self _ _, rfl, hadm, hlt⟩
        · exact ⟨q, List.mem_cons_of_mem _ hq, he, hadm2, lt_trans hlt2 hlt⟩
    · refine ⟨hmono, ?_, ?_⟩
      · intro q hq z2 hz2
        rcases List.mem_cons.mp hq with rfl | hq
        · exact le_trans hmono (hnot z2 hz2)
        · exact hmin q hq z2 hz2
      · rcases hsel with rfl | ⟨q, hq, he, hadm2, hlt2⟩
        · exact Or.inl rfl
        · exact Or.inr ⟨q, List.mem_cons_of_mem _ hq, he, hadm2, hlt2⟩

/-- An area is a candidate at one computed distance only. -/
theorem NearCandidate_f32_unique (host : Host) (areas : List NavArea) (source : Vector)
    (anyZ : Bool) (r : AreaRef) (d d2 : ℚ) (h : NearCandidate_f32 host areas source anyZ r d)
    (h2 : NearCandidate_f32 host areas source anyZ r d2) : d2 = d := by
  obtain ⟨a1, e1, g1, _⟩ := h
  obtain ⟨a2, e2, g2, _⟩ := h2
  rw [e1] at e2
  cases e2
  rw [g1] at g2
  cases g2
  rfl

/-- One pass of the visitor of `GetNearestNavArea` in binary32 arithmetic: either the
area is a candidate whose computed distance is below the best so far and becomes the
choice, or the state is unchanged and the area is no candidate or not closer. -/
theorem GetNearestNavArea_visit_f32_spec (host : Host) (areas : List NavArea) (source : Vector)
    (anyZ : Bool) (st st2 : Option AreaRef × ℚ) (r : AreaRef)
    (h : GetNearestNavArea_visit_f32 host areas source anyZ st r = .ok st2) :
    (∃ d, NearCandidate_f32 host areas source anyZ r d ∧ d < st.2 ∧ st2 = (some r, d)) ∨
    (st2 = st ∧ ∀ d, NearCandidate_f32 host areas source anyZ r d → st.2 ≤ d) := by
  unfold GetNearestNavArea_visit_f32 at h
  rw [bind_eq_ok] at h
  obtain ⟨area, hd, h⟩ := h
  rw [bind_eq_ok] at h
  obtain ⟨areaPos, hc, h⟩ := h
  rw [bind_eq_ok] at h
  obtain ⟨distSq, hdq, h⟩ := h
  have ha := deref_eq_ok.mp hd
  have hdist : area.distSqTo_f32 source = .ok distSq := by
    unfold NavArea.distSqTo_f32
    rw [hc]
    exact hdq
  have unique : ∀ d, NearCandidate_f32 host areas source anyZ r d →
      d = distSq ∧ (anyZ = false → area.seenFrom_f32 host source = .ok true) := by
    rintro d ⟨a2, h1, h2, h3⟩
    rw [ha] at h1
    cases h1
    rw [hdist] at h2
    cases h2
    exact ⟨rfl, h3⟩
  by_cases hlt : distSq < st.2
  · rw [if_pos hlt] at h
    by_cases hz : anyZ = false
    · rw [if_pos hz, bind_eq_ok] at h
      obtain ⟨seen, hseen, h⟩ := h
      have hsf : area.seenFrom_f32 host source = .ok seen := by
        unfold NavArea.seenFrom_f32
        rw [hc]
        exact hseen
      by_cases hs : seen = false
      · rw [if_pos hs, pure_eq_ok] at h
        right
        refine ⟨h.symm, fun d hcand => ?_⟩
        have := (unique d hcand).2 hz
        rw [hsf, hs] at this
        cases this
      · rw [if_neg hs, pure_eq_ok] at h
        left
        refine ⟨distSq, ⟨area, ha, hdist, fun _ => ?_⟩, hlt, h.symm⟩
        rw [hsf, Bool.eq_true_of_not_eq_false hs]
    · rw [if_neg hz, pure_eq_ok] at h
      left
      exact ⟨distSq, ⟨area, ha, hdist, fun hf => absurd hf hz⟩, hlt, h.symm⟩
  · rw [if_neg hlt, pure_eq_ok] at h
    right
    refine ⟨h.symm, fun d hcand => ?_⟩
    rw [(unique d hcand).1]
    exact not_lt.mp hlt

/-- The visitor of `GetNearestNavArea` returns for an area whose distance and
line-of-sight test are computed. -/
theorem GetNearestNavArea_visit_f32_total (host : Host) (areas : List NavArea)
    (source : Vector) (anyZ : Bool) (st : Option AreaRef × ℚ) (r : AreaRef) (a : NavArea)
    (ha : areas[r]? = some a) (d : ℚ) (hd : a.distSqTo_f32 source = .ok d) (b : Bool)
    (hb : a.seenFrom_f32 host source = .ok b) :
    ∃ st2, GetNearestNavArea_visit_f32 host areas source anyZ st r = .ok st2 := by
  unfold NavArea.distSqTo_f32 at hd
  rw [bind_eq_ok] at hd
  obtain ⟨close, hc, hdq⟩ := hd
  unfold NavArea.seenFrom_f32 at hb
  rw [hc] at hb
  have hlos : GetNearestNavArea_los_f32 host source close = .ok b := hb
  unfold GetNearestNavArea_visit_f32
  simp only [deref_eq_ok.mpr ha, hc, hdq, bind, Except.bind, hlos, pure, Except.pure]
  split_ifs <;> exact ⟨_, rfl⟩

theorem GetNearestNavArea_closeDistSq0_f32_eq :
    GetNearestNavArea_closeDistSq0_f32 = 100000000 := by decide!

/-- Claim C24, amended, in binary32 arithmetic. On a map with a grid, for a position
`pos` for which `GetNavArea(pos)` returns none and the ground probe succeeds with the
height `height`, let `source = (pos.x, pos.y, height + 36)` with the sum in `float`, and
let the distance `distSq` that the function computes in `float` and the line-of-sight
test be computed for every area of the map. Then `GetNearestNavArea(pos, anyZ)`
returns: an area whose computed `distSq` is below `100000000` (the value of the literal
`99999999.9f`) and minimal among the computed `distSq` of all areas of the map, for
`anyZ = false` of the areas that pass the line-of-sight test; and none exactly when no
such area has a computed `distSq` below `100000000`. -/
theorem C24_GetNearestNavArea_closest_f32 (host : Host) (m : NavigationMap) (pos : Vector)
    (anyZ : Bool) (height : ℚ) (normal : Vector) (z : ℚ)
    (hgrid : m.m_navAreaGrid.m_grid.isNone = false)
    (hmiss : m.m_navAreaGrid.GetNavArea_f32 m.m_areas pos 120 = .ok none)
    (hground : GetGroundHeight_f32 host pos = .ok (some (height, normal)))
    (hz : F32.add height HalfHumanHeight = .ok z)
    (hfin : ∀ (r : AreaRef) (a : NavArea), m.m_areas[r]? = some a →
      (∃ d, a.distSqTo_f32 ⟨pos.x, pos.y, z⟩ = .ok d) ∧
      ∃ b, a.seenFrom_f32 host ⟨pos.x, pos.y, z⟩ = .ok b) :
    ∃ res, GetNearestNavArea_f32 host m pos anyZ = .ok res ∧
      (∀ r, res = some r → ∃ d,
        NearCandidate_f32 host m.m_areas ⟨pos.x, pos.y, z⟩ anyZ r d ∧ d < 100000000 ∧
        ∀ r2 d2, NearCandidate_f32 host m.m_areas ⟨pos.x, pos.y, z⟩ anyZ r2 d2 → d ≤ d2) ∧
      (res = none ↔ ∀ r2 d2,
        NearCandidate_f32 host m.m_areas ⟨pos.x, pos.y, z⟩ anyZ r2 d2 → 100000000 ≤ d2) := by
  obtain ⟨st2, hfold⟩ := foldlM_total
    (GetNearestNavArea_visit_f32 host m.m_areas ⟨pos.x, pos.y, z⟩ anyZ)
    (List.range m.m_areas.length)
    (fun t q hq => by
      have hq2 : q < m.m_areas.length := List.mem_range.mp hq
      obtain ⟨⟨d, hd⟩, b, hb⟩ := hfin q _ (List.getElem?_eq_getElem hq2)
      exact GetNearestNavArea_visit_f32_total host m.m_areas _ anyZ t q _
        (List.getElem?_eq_getElem hq2) d hd b hb)
    (none, GetNearestNavArea_closeDistSq0_f32)
  obtain ⟨_, hmin, hsel⟩ := selectMin_scan _
    (NearCandidate_f32 host m.m_areas ⟨pos.x, pos.y, z⟩ anyZ)
    (NearCandidate_f32_unique host m.m_areas ⟨pos.x, pos.y, z⟩ anyZ)
    (GetNearestNavArea_visit_f32_spec host m.m_areas ⟨pos.x, pos.y, z⟩ anyZ) _ _ st2 hfold
  rw [GetNearestNavArea_closeDistSq0_f32_eq] at hsel
  have hall : ∀ r2 d2,
      NearCandidate_f32 host m.m_areas ⟨pos.x, pos.y, z⟩ anyZ r2 d2 → st2.2 ≤ d2 := by
    intro r2 d2 hc
    have hc2 := hc
    obtain ⟨a, ha, _⟩ := hc2
    exact hmin r2 (List.mem_range.mpr (List.getElem?_eq_some_iff.mp ha).1) d2 hc
  have hres : GetNearestNavArea_f32 host m pos anyZ = .ok st2.1 := by
    unfold GetNearestNavArea_f32
    rw [hgrid]
    simp only [Bool.false_eq_true, if_false, hmiss, hground, bind, Except.bind,
      Option.isSome_none, hz, hfold, pure, Except.pure]
  refine ⟨st2.1, hres, ?_, ?_⟩
  · intro r hr
    rcases hsel with rfl | ⟨q, _, he, hcand, hlt⟩
    · cases hr
    · rw [he] at hr
      simp only [Option.some.injEq] at hr
      subst hr
      exact ⟨st2.2, hcand, hlt, hall⟩
  · constructor
    · intro hnone
      rcases hsel with rfl | ⟨q, _, he, _, _⟩
      · exact hall
      · rw [he] at hnone
        cases hnone
    · intro hfar
      rcases hsel with rfl | ⟨q, _, he, hcand, hlt⟩
      · rfl
      · exact absurd (hfar q st2.2 hcand) (not_le.mpr hlt)

/-- A `Load` in binary32 arithmetic that returns and whose result passes the test `P`
returns `true` and a state that passes `P`. -/
theorem Load_f32_ok_with (host : Host) (f : NavFile) (s : State) (P : State → Bool)
    (h : (Load_f32 host (some f) s).map (fun r => P r.2) = .ok true) :
    ∃ s2, Load_f32 host (some f) s = .ok (true, s2) ∧ P s2 = true := by
  cases hl : Load_f32 host (some f) s with
  | error e => rw [hl] at h; simp [Except.map] at h
  | ok r =>
    obtain ⟨b, s2⟩ := r
    have hb : b = true := (Load_f32_inv _ _ _ _ _ hl).1
    subst hb
    rw [hl] at h
    simp only [Except.map, Except.ok.injEq] at h
    exact ⟨s2, rfl, h⟩

/-- Claim C24 fails as stated, in binary32 arithmetic. On the map loaded from the file
of the single flat area over `(0,0)-(100,100)`, in the world whose ground is the plane
`z = 0`, for the position `(20000, 50, 0)`: `GetNavArea` returns none, the ground probe
succeeds with the height 0, and `GetNearestNavArea(pos, anyZ = true)` returns none
although the map has an area: the `distSq` 396011232 computed for the area from the
source `(20000, 50, 36)` is not below the start value `100000000` of the best
distance. -/
theorem C24_counterexample :
    (Load_f32 floorHost (some flatFile) (State.initial 0 0) >>= fun r =>
      r.2.mesh.GetNavArea_f32 ⟨20000, 50, 0⟩) = .ok none ∧
    GetGroundHeight_f32 floorHost ⟨20000, 50, 0⟩ = .ok (some (0, ⟨0, 0, 1⟩)) ∧
    (Load_f32 floorHost (some flatFile) (State.initial 0 0) >>= fun r =>
      GetNearestNavArea_f32 floorHost r.2.mesh ⟨20000, 50, 0⟩ true) = .ok none ∧
    (Load_f32 floorHost (some flatFile) (State.initial 0 0) >>= fun r =>
      r.2.mesh.m_areas.mapM (fun a => a.distSqTo_f32 ⟨20000, 50, 36⟩)) = .ok [396011232] := by
  refine ⟨?_, ?_, ?_, ?_⟩ <;> decide!

/-- Claim C24, amended, on the map loaded from the file of the single flat area over
`(0,0)-(100,100)`, in the world whose ground is the plane `z = 0`, for the position
`(150, 50, 0)` east of the area: `GetNearestNavArea(pos, anyZ = true)` returns the area,
which is a candidate at a computed `distSq` below `100000000` that no candidate
undercuts. -/
theorem C24_GetNearestNavArea_closest_f32_witness :
    ∃ s2, Load_f32 floorHost (some flatFile) (State.initial 0 0) = .ok (true, s2) ∧
      s2.mesh.m_navAreaGrid.m_grid.isNone = false ∧
      s2.mesh.m_navAreaGrid.GetNavArea_f32 s2.mesh.m_areas ⟨150, 50, 0⟩ 120 = .ok none ∧
      GetGroundHeight_f32 floorHost ⟨150, 50, 0⟩ = .ok (some (0, ⟨0, 0, 1⟩)) ∧
      GetNearestNavArea_f32 floorHost s2.mesh ⟨150, 50, 0⟩ true = .ok (some 0) ∧
      ∃ d, NearCandidate_f32 floorHost s2.mesh.m_areas ⟨150, 50, 36⟩ true 0 d ∧
        d < 100000000 ∧
        ∀ r2 d2, NearCandidate_f32 floorHost s2.mesh.m_areas ⟨150, 50, 36⟩ true r2 d2 →
          d ≤ d2 := by
  obtain ⟨s2, hl, hP⟩ := Load_f32_ok_with floorHost flatFile (State.initial 0 0)
    (fun s2 => decide (s2.mesh.m_navAreaGrid.m_grid.isNone = false ∧
      s2.mesh.m_navAreaGrid.GetNavArea_f32 s2.mesh.m_areas ⟨150, 50, 0⟩ 120 = .ok none ∧
      GetNearestNavArea_f32 floorHost s2.mesh ⟨150, 50, 0⟩ true = .ok (some 0) ∧
      s2.mesh.m_areas.map (fun a => (a.distSqTo_f32 ⟨150, 50, 36⟩,
        a.seenFrom_f32 floorHost ⟨150, 50, 36⟩)) = [(.ok 3796, .ok false)]))
    (by decide!)
  simp only [decide_eq_true_eq] at hP
  obtain ⟨hgrid, hmiss, hnear, hvals⟩ := hP
  have hground : GetGroundHeight_f32 floorHost ⟨150, 50, 0⟩ = .ok (some (0, ⟨0, 0, 1⟩)) := by
    decide!
  have hfin : ∀ (r : AreaRef) (a : NavArea), s2.mesh.m_areas[r]? = some a →
      (∃ d, a.distSqTo_f32 ⟨150, 50, 36⟩ = .ok d) ∧
      ∃ b, a.seenFrom_f32 floorHost ⟨150, 50, 36⟩ = .ok b := by
    intro r a ha
    have h1 := congrArg (fun l => l[r]?) hvals
    simp only [List.getElem?_map, ha, Option.map_some'] at h1
    have hm := List.getElem?_mem h1.symm
    simp only [List.mem_singleton, Prod.mk.injEq] at hm
    exact ⟨⟨_, hm.1⟩, _, hm.2⟩
  obtain ⟨res, hres, hsome, _⟩ :=
    C24_GetNearestNavArea_closest_f32 floorHost s2.mesh ⟨150, 50, 0⟩ true 0 ⟨0, 0, 1⟩ 36 hgrid
      hmiss hground (by decide!) hfin
  rw [hnear] at hres
  simp only [Except.ok.injEq] at hres
  exact ⟨s2, hl, hgrid, hmiss, hground, hnear, hsome 0 hres.symm⟩

end navmesh

